import Mathlib

/-!
BLACK queue disc (`src/model/black-queue-disc.cc`).

Shallow embedding of the BLACK active-queue-management disc.

Conventions of the embedding:

* `double` values are exact rationals (`ℚ`): rounding, infinities and NaN are not
  represented, and a quotient by zero follows the `ℚ` convention. A second embedding
  of the arithmetic of the disc, with the rounding of every operation made explicit,
  follows the fixtures (namespace `Rounded`); the results that depend on the value
  of a `double` are stated on it.
* `uint32_t` values are naturals; increments and the conversion from `double`
  are reduced modulo `2 ^ 32` where the source can wrap.
* `Time` values are integers counting nanoseconds; `Simulator::Now ()` is an
  explicit argument `now`.
* The uniform variate returned by `m_uv->GetValue ()` is an explicit argument `u`;
  `m_uvDraws` counts how many times the stream was consulted.
* Statistics reported through the `QueueDisc` base class are appended to `m_stats`.
-/

namespace ns3

/-! Collaborators from the `QueueDisc` base class. -/

/-- Unit in which a queue limit is expressed (`QueueSizeUnit`). -/
inductive QueueSizeUnit where
  | PACKETS
  | BYTES
  deriving DecidableEq

/-- A queue limit: unit and value (`QueueSize`). -/
structure QueueSize where
  unit : QueueSizeUnit
  value : Nat
  deriving DecidableEq

/-- The part of a `QueueDiscItem` the disc looks at: its byte size, whether
`Mark ()` can succeed on it, and whether it carries a congestion mark. -/
structure QueueDiscItem where
  size : Nat
  ecnCapable : Bool
  marked : Bool
  deriving DecidableEq

/-- Outcome of `item->Mark ()`: success flag and the item afterwards. -/
def QueueDiscItem.Mark (item : QueueDiscItem) : Bool × QueueDiscItem :=
  if item.ecnCapable = true then (true, { item with marked := true }) else (false, item)

/-- The drop-tail FIFO owned by the disc (`GetInternalQueue (0)`). -/
structure InternalQueue where
  items : List QueueDiscItem
  maxSize : QueueSize
  deriving DecidableEq

namespace InternalQueue

/-- Number of buffered packets (`GetNPackets`). -/
def GetNPackets (q : InternalQueue) : Nat := q.items.length

/-- Number of buffered bytes (`GetNBytes`). -/
def GetNBytes (q : InternalQueue) : Nat := (q.items.map QueueDiscItem.size).sum

/-- Value of `GetCurrentSize ()`, in the unit of the limit of the queue. -/
def GetCurrentSize (q : InternalQueue) : Nat :=
  match q.maxSize.unit with
  | QueueSizeUnit.PACKETS => q.GetNPackets
  | QueueSizeUnit.BYTES => q.GetNBytes

/-- Amount an item adds to the current size. -/
def weight (q : InternalQueue) (item : QueueDiscItem) : Nat :=
  match q.maxSize.unit with
  | QueueSizeUnit.PACKETS => 1
  | QueueSizeUnit.BYTES => item.size

/-- Emptiness test (`IsEmpty`). -/
def IsEmpty (q : InternalQueue) : Bool := q.items.isEmpty

/-- Tail-drop enqueue: the item is refused when it would exceed the limit. -/
def Enqueue (q : InternalQueue) (item : QueueDiscItem) : Bool × InternalQueue :=
  if q.GetCurrentSize + q.weight item > q.maxSize.value then (false, q)
  else (true, { q with items := q.items ++ [item] })

/-- Removal of the head of the FIFO. -/
def Dequeue (q : InternalQueue) : Option QueueDiscItem × InternalQueue :=
  match q.items with
  | [] => (none, q)
  | x :: rest => (some x, { q with items := rest })

end InternalQueue

/-- Reason strings attached to drops and marks. -/
inductive Reason where
  | UNFORCED_DROP
  | FORCED_DROP
  | UNFORCED_MARK
  | FORCED_MARK
  | INTERNAL_QUEUE_DROP
  deriving DecidableEq

/-- An event reported to the statistics of the disc. -/
inductive Event where
  | drop (r : Reason)
  | mark (r : Reason)
  deriving DecidableEq

/-- Status used by Feng's adaptive mode (`FengStatus`). -/
inductive FengStatus where
  | Above
  | Between
  | Below
  deriving DecidableEq

/-- Drop types of `DoEnqueue`. -/
inductive DropType where
  | DTYPE_NONE
  | DTYPE_FORCED
  | DTYPE_UNFORCED
  deriving DecidableEq

/-- Seconds of a `Time` given in nanoseconds (`Time::GetSeconds`). -/
def GetSeconds (t : Int) : ℚ := (t : ℚ) / 1000000000

/-- Conversion `uint32_t (x)` of a `double`: truncation toward zero, reduced
modulo `2 ^ 32`. -/
def toUint32 (x : ℚ) : Nat := (Int.tdiv x.num (x.den : Int) % 4294967296).toNat

/-- Reduction of a natural to the range of `uint32_t`. -/
def wrap32 (n : Nat) : Nat := n % 4294967296

/-! State of the disc. -/

/-- Members of `BLACKQueueDisc` (`black-queue-disc.h`) followed by the members of
the `QueueDisc` base class that the disc reads or writes. -/
structure BLACKQueueDisc where
  m_meanPktSize : Nat
  m_idlePktSize : Nat
  m_isWait : Bool
  m_isGentle : Bool
  m_isABLACK : Bool
  m_isAdaptMaxP : Bool
  m_minTh : ℚ
  m_maxTh : ℚ
  m_qW : ℚ
  m_lInterm : ℚ
  m_targetDelay : Int
  m_interval : Int
  m_top : ℚ
  m_bottom : ℚ
  m_alpha : ℚ
  m_beta : ℚ
  m_rtt : Int
  m_isFengAdaptive : Bool
  m_isNonlinear : Bool
  m_b : ℚ
  m_a : ℚ
  m_isNs1Compat : Bool
  m_linkBandwidth : Nat
  m_linkDelay : Int
  m_useEcn : Bool
  m_useHardDrop : Bool
  m_vA : ℚ
  m_vB : ℚ
  m_vC : ℚ
  m_vD : ℚ
  m_curMaxP : ℚ
  m_lastSet : Int
  m_vProb : ℚ
  m_countBytes : Nat
  m_old : Nat
  m_idle : Nat
  m_ptc : ℚ
  m_qAvg : ℚ
  m_count : Nat
  m_fengStatus : FengStatus
  m_cautious : Nat
  m_idleTime : Int
  m_maxSize : QueueSize
  m_nQueueDiscClasses : Nat
  m_nPacketFilters : Nat
  m_nInternalQueues : Nat
  m_queue : InternalQueue
  m_stats : List Event
  m_uvDraws : Nat
  deriving DecidableEq

namespace BLACKQueueDisc

/-- Attribute defaults registered by `GetTypeId`; members without an attribute are
zero until `InitializeParams` runs, and no internal queue is installed yet. -/
def attributeDefaults : BLACKQueueDisc where
  m_meanPktSize := 500
  m_idlePktSize := 0
  m_isWait := true
  m_isGentle := true
  m_isABLACK := false
  m_isAdaptMaxP := false
  m_minTh := 5
  m_maxTh := 15
  m_qW := 2 / 1000
  m_lInterm := 50
  m_targetDelay := 5000000
  m_interval := 500000000
  m_top := 1 / 2
  m_bottom := 0
  m_alpha := 1 / 100
  m_beta := 9 / 10
  m_rtt := 100000000
  m_isFengAdaptive := false
  m_isNonlinear := false
  m_b := 2
  m_a := 3
  m_isNs1Compat := false
  m_linkBandwidth := 1500000
  m_linkDelay := 20000000
  m_useEcn := false
  m_useHardDrop := true
  m_vA := 0
  m_vB := 0
  m_vC := 0
  m_vD := 0
  m_curMaxP := 0
  m_lastSet := 0
  m_vProb := 0
  m_countBytes := 0
  m_old := 0
  m_idle := 0
  m_ptc := 0
  m_qAvg := 0
  m_count := 0
  m_fengStatus := FengStatus.Above
  m_cautious := 0
  m_idleTime := 0
  m_maxSize := { unit := QueueSizeUnit.PACKETS, value := 25 }
  m_nQueueDiscClasses := 0
  m_nPacketFilters := 0
  m_nInternalQueues := 0
  m_queue := { items := [], maxSize := { unit := QueueSizeUnit.PACKETS, value := 25 } }
  m_stats := []
  m_uvDraws := 0

/-- Embedding of `QueueDisc::DropBeforeEnqueue (item, reason)`: the drop is recorded. -/
def DropBeforeEnqueue (s : BLACKQueueDisc) (r : Reason) : BLACKQueueDisc :=
  { s with m_stats := s.m_stats ++ [Event.drop r] }

/-- Embedding of `QueueDisc::Mark (item, reason)`: the item is marked if it can be, and a
successful mark is recorded. -/
def Mark (s : BLACKQueueDisc) (item : QueueDiscItem) (r : Reason) :
    Bool × QueueDiscItem × BLACKQueueDisc :=
  if item.Mark.1 = true then
    (true, item.Mark.2, { s with m_stats := s.m_stats ++ [Event.mark r] })
  else (false, item, s)

/-- Embedding of `GetInternalQueue (0)->Enqueue (item)`: a refusal by the buffer is reported
through `DropBeforeEnqueue` by the callback installed by `AddInternalQueue`. -/
def EnqueueInternal (s : BLACKQueueDisc) (item : QueueDiscItem) : Bool × BLACKQueueDisc :=
  if (s.m_queue.Enqueue item).1 = true then
    (true, { s with m_queue := (s.m_queue.Enqueue item).2 })
  else (false, DropBeforeEnqueue s Reason.INTERNAL_QUEUE_DROP)

/-- Embedding of `BLACKQueueDisc::CheckConfig`. The conflict of the two adaptive modes is only
logged (`NS_LOG_ERROR`); the function then returns `true`. -/
def CheckConfig (s : BLACKQueueDisc) : Bool × BLACKQueueDisc :=
  if s.m_nQueueDiscClasses > 0 then (false, s)
  else if s.m_nPacketFilters > 0 then (false, s)
  else
    let s1 : BLACKQueueDisc :=
      if s.m_nInternalQueues = 0 then
        { s with m_queue := { items := [], maxSize := s.m_maxSize }, m_nInternalQueues := 1 }
      else s
    if s1.m_nInternalQueues ≠ 1 then (false, s1)
    else (true, s1)

/-- Lines 403-421 of `InitializeParams`: caution mode, packet time constant and the
settings forced by the two adaptive modes. -/
def initModes (s0 : BLACKQueueDisc) : BLACKQueueDisc :=
  let s : BLACKQueueDisc :=
    { s0 with m_cautious := 0
              m_ptc := (s0.m_linkBandwidth : ℚ) / (8 * (s0.m_meanPktSize : ℚ)) }
  let s : BLACKQueueDisc :=
    if s.m_isABLACK = true then
      { s with m_minTh := 0, m_maxTh := 0, m_qW := 0, m_isAdaptMaxP := true }
    else s
  if s.m_isFengAdaptive = true then { s with m_fengStatus := FengStatus.Above } else s

/-- Lines 403-443 of `InitializeParams`: `initModes` followed by the automatic
thresholds chosen when both thresholds are zero. -/
def initThresholds (s0 : BLACKQueueDisc) : BLACKQueueDisc :=
  let s : BLACKQueueDisc := initModes s0
  if s.m_minTh = 0 ∧ s.m_maxTh = 0 then
    let targetqueue : ℚ := GetSeconds s.m_targetDelay * s.m_ptc
    let minTh1 : ℚ := if (5 : ℚ) < targetqueue / 2 then targetqueue / 2 else 5
    let minTh2 : ℚ :=
      if s.m_maxSize.unit = QueueSizeUnit.BYTES then minTh1 * (s.m_meanPktSize : ℚ)
      else minTh1
    { s with m_minTh := minTh2, m_maxTh := 3 * minTh2 }
  else s

/-- Lines 447-467 of `InitializeParams`: counters, flags and the coefficients of
the probability ramps. -/
def initCoefficients (s0 : BLACKQueueDisc) : BLACKQueueDisc :=
  let s : BLACKQueueDisc :=
    { s0 with m_qAvg := 0, m_count := 0, m_countBytes := 0, m_old := 0, m_idle := 1 }
  let th_diff : ℚ := if s.m_maxTh - s.m_minTh = 0 then 1 else s.m_maxTh - s.m_minTh
  let s : BLACKQueueDisc :=
    { s with m_vA := 1 / th_diff
             m_curMaxP := 1 / s.m_lInterm
             m_vB := -s.m_minTh / th_diff }
  let s : BLACKQueueDisc :=
    if s.m_isGentle = true then
      { s with m_vC := (1 - s.m_curMaxP) / s.m_maxTh, m_vD := 2 * s.m_curMaxP - 1 }
    else s
  { s with m_idleTime := 0 }

/-- Lines 482-499 of `InitializeParams`: automatic queue weight. The argument `exp`
stands for `std::exp`. -/
def initWeight (exp : ℚ → ℚ) (s : BLACKQueueDisc) : BLACKQueueDisc :=
  if s.m_qW = 0 then { s with m_qW := 1 - exp (-1 / s.m_ptc) }
  else if s.m_qW = -1 then
    let rtt0 : ℚ := 3 * (GetSeconds s.m_linkDelay + 1 / s.m_ptc)
    let rtt : ℚ := if rtt0 < 1 / 10 then 1 / 10 else rtt0
    { s with m_qW := 1 - exp (-1 / (10 * rtt * s.m_ptc)) }
  else if s.m_qW = -2 then { s with m_qW := 1 - exp (-10 / s.m_ptc) }
  else s

/-- Lines 501-512 of `InitializeParams`: automatic lower bound of `m_curMaxP`. -/
def initBottom (s : BLACKQueueDisc) : BLACKQueueDisc :=
  if s.m_bottom = 0 then
    let bottom1 : ℚ :=
      (8 * (s.m_meanPktSize : ℚ) * GetSeconds s.m_rtt) / (s.m_linkBandwidth : ℚ)
    { s with m_bottom := if bottom1 < 1 / 100 then bottom1 else 1 / 100 }
  else s

/-- Embedding of `BLACKQueueDisc::InitializeParams`, the four stages in sequence. The
result is `none` when `NS_ASSERT (m_minTh <= m_maxTh)` fails. -/
def InitializeParams (exp : ℚ → ℚ) (s0 : BLACKQueueDisc) : Option BLACKQueueDisc :=
  if (initThresholds s0).m_minTh ≤ (initThresholds s0).m_maxTh then
    some (initBottom (initWeight exp (initCoefficients (initThresholds s0))))
  else none

/-- Embedding of `BLACKQueueDisc::UpdateMaxPFeng`. -/
def UpdateMaxPFeng (s : BLACKQueueDisc) (newAve : ℚ) : BLACKQueueDisc :=
  if s.m_minTh < newAve ∧ newAve < s.m_maxTh then
    { s with m_fengStatus := FengStatus.Between }
  else if newAve < s.m_minTh ∧ s.m_fengStatus ≠ FengStatus.Below then
    { s with m_fengStatus := FengStatus.Below, m_curMaxP := s.m_curMaxP / s.m_a }
  else if newAve > s.m_maxTh ∧ s.m_fengStatus ≠ FengStatus.Above then
    { s with m_fengStatus := FengStatus.Above, m_curMaxP := s.m_curMaxP * s.m_b }
  else s

/-- Embedding of `BLACKQueueDisc::UpdateMaxP`. -/
def UpdateMaxP (s : BLACKQueueDisc) (now : Int) (newAve : ℚ) : BLACKQueueDisc :=
  let m_part : ℚ := (4 / 10) * (s.m_maxTh - s.m_minTh)
  if newAve < s.m_minTh + m_part ∧ s.m_curMaxP > s.m_bottom then
    { s with m_curMaxP := s.m_curMaxP * s.m_beta, m_lastSet := now }
  else if newAve > s.m_maxTh - m_part ∧ s.m_top > s.m_curMaxP then
    let alpha : ℚ :=
      if s.m_alpha > (1 / 4) * s.m_curMaxP then (1 / 4) * s.m_curMaxP else s.m_alpha
    { s with m_curMaxP := s.m_curMaxP + alpha, m_lastSet := now }
  else s

/-- Embedding of `BLACKQueueDisc::Estimator`: the new average and the state after the control
step. The exponent of `std::pow` is a `uint32_t`, hence an exact power. -/
def Estimator (s : BLACKQueueDisc) (now : Int) (nQueued m : Nat) (qAvg qW : ℚ) :
    ℚ × BLACKQueueDisc :=
  let newAve : ℚ := qAvg * (1 - qW) ^ m + qW * (nQueued : ℚ)
  if s.m_isAdaptMaxP = true ∧ now > s.m_lastSet + s.m_interval then
    (newAve, UpdateMaxP s now newAve)
  else if s.m_isFengAdaptive = true then (newAve, UpdateMaxPFeng s newAve)
  else (newAve, s)

/-- Embedding of `BLACKQueueDisc::CalculatePNew`. -/
def CalculatePNew (s : BLACKQueueDisc) : ℚ :=
  let p : ℚ :=
    if s.m_isGentle = true ∧ s.m_qAvg ≥ s.m_maxTh then s.m_vC * s.m_qAvg + s.m_vD
    else if s.m_isGentle = false ∧ s.m_qAvg ≥ s.m_maxTh then 1
    else
      let p0 : ℚ := s.m_vA * s.m_qAvg + s.m_vB
      let p1 : ℚ := if s.m_isNonlinear = true then p0 * (p0 * (3 / 2)) else p0
      p1 * s.m_curMaxP
  if p > 1 then 1 else p

/-- Embedding of `BLACKQueueDisc::ModifyP`. -/
def ModifyP (s : BLACKQueueDisc) (p : ℚ) (size : Nat) : ℚ :=
  let count1 : ℚ :=
    if s.m_maxSize.unit = QueueSizeUnit.BYTES then ((s.m_countBytes / s.m_meanPktSize : Nat) : ℚ)
    else (s.m_count : ℚ)
  let p1 : ℚ :=
    if s.m_isWait = true then
      if count1 * p < 1 then 0
      else if count1 * p < 2 then p / (2 - count1 * p)
      else 1
    else
      if count1 * p < 1 then p / (1 - count1 * p)
      else 1
  let p2 : ℚ :=
    if s.m_maxSize.unit = QueueSizeUnit.BYTES ∧ p1 < 1 then
      (p1 * (size : ℚ)) / (s.m_meanPktSize : ℚ)
    else p1
  if p2 > 1 then 1 else p2

/-- Embedding of `BLACKQueueDisc::DropEarly`. The argument `pow` stands for `std::pow` with a real exponent,
which only the experimental caution modes use. -/
def DropEarly (pow : ℚ → ℚ → ℚ) (s : BLACKQueueDisc) (item : QueueDiscItem) (qSize : Nat)
    (u : ℚ) : Nat × BLACKQueueDisc :=
  let prob1 : ℚ := CalculatePNew s
  let s1 : BLACKQueueDisc := { s with m_vProb := ModifyP s prob1 item.size }
  if s1.m_cautious = 1 ∧ (qSize : ℚ) < pow (1 - s1.m_qW) (s1.m_ptc * (5 / 100)) * s1.m_qAvg then
    (0, s1)
  else
    let s2 : BLACKQueueDisc := { s1 with m_uvDraws := s1.m_uvDraws + 1 }
    let u1 : ℚ :=
      if s2.m_cautious = 2 then
        let fraction : ℚ := pow (1 - s2.m_qW) (s2.m_ptc * (5 / 100))
        let ratioQ : ℚ := (qSize : ℚ) / (fraction * s2.m_qAvg)
        if ratioQ < 1 then u * (1 / ratioQ) else u
      else u
    if u1 ≤ s2.m_vProb then (1, { s2 with m_count := 0, m_countBytes := 0 })
    else (0, s2)

/-- Lines 292-310 of `DoEnqueue`: number `m` of packets that would have arrived
during the idle period. -/
def idleArrivals (s : BLACKQueueDisc) (now : Int) : Nat :=
  if s.m_idle = 1 then
    if s.m_cautious = 3 then
      toUint32 ((s.m_ptc * (s.m_meanPktSize : ℚ) / (s.m_idlePktSize : ℚ)) *
        GetSeconds (now - s.m_idleTime))
    else toUint32 (s.m_ptc * GetSeconds (now - s.m_idleTime))
  else 0

/-- Lines 289-319 of `DoEnqueue`: the idle flag is cleared, the average is replaced
by the value of `Estimator` called with `m + 1`, and the counters are advanced. -/
def afterEstimate (s : BLACKQueueDisc) (item : QueueDiscItem) (now : Int) : BLACKQueueDisc :=
  let nQueued : Nat := s.m_queue.GetCurrentSize
  let m : Nat := idleArrivals s now
  let s1 : BLACKQueueDisc := if s.m_idle = 1 then { s with m_idle := 0 } else s
  let est := Estimator s1 now nQueued (wrap32 (m + 1)) s1.m_qAvg s1.m_qW
  let s2 : BLACKQueueDisc := { est.2 with m_qAvg := est.1 }
  { s2 with m_count := wrap32 (s2.m_count + 1)
            m_countBytes := wrap32 (s2.m_countBytes + item.size) }

/-- Test of line 324 of `DoEnqueue`: the average lies in the forced region. -/
def inForcedRegion (s : BLACKQueueDisc) : Prop :=
  (s.m_isGentle = false ∧ s.m_qAvg ≥ s.m_maxTh) ∨
    (s.m_isGentle = true ∧ s.m_qAvg ≥ 2 * s.m_maxTh)

instance (s : BLACKQueueDisc) : Decidable (inForcedRegion s) := by
  unfold inForcedRegion; infer_instance

/-- Lines 321-352 of `DoEnqueue`: the drop type chosen for the arrival. -/
def classify (pow : ℚ → ℚ → ℚ) (s : BLACKQueueDisc) (item : QueueDiscItem) (nQueued : Nat)
    (u : ℚ) : DropType × BLACKQueueDisc :=
  if s.m_qAvg ≥ s.m_minTh ∧ nQueued > 1 then
    if inForcedRegion s then (DropType.DTYPE_FORCED, s)
    else if s.m_old = 0 then
      (DropType.DTYPE_NONE, { s with m_count := 1, m_countBytes := item.size, m_old := 1 })
    else if (DropEarly pow s item nQueued u).1 ≠ 0 then
      (DropType.DTYPE_UNFORCED, (DropEarly pow s item nQueued u).2)
    else (DropType.DTYPE_NONE, (DropEarly pow s item nQueued u).2)
  else (DropType.DTYPE_NONE, { s with m_vProb := 0, m_old := 0 })

/-- Lines 354-388 of `DoEnqueue`: the drop type is acted upon. -/
def act (s : BLACKQueueDisc) (item : QueueDiscItem) (dropType : DropType) :
    Bool × BLACKQueueDisc :=
  match dropType with
  | DropType.DTYPE_UNFORCED =>
    if s.m_useEcn = false then (false, DropBeforeEnqueue s Reason.UNFORCED_DROP)
    else if (Mark s item Reason.UNFORCED_MARK).1 = false then
      (false, DropBeforeEnqueue (Mark s item Reason.UNFORCED_MARK).2.2 Reason.UNFORCED_DROP)
    else
      EnqueueInternal (Mark s item Reason.UNFORCED_MARK).2.2
        (Mark s item Reason.UNFORCED_MARK).2.1
  | DropType.DTYPE_FORCED =>
    if s.m_useHardDrop = true ∨ s.m_useEcn = false then
      let s1 := DropBeforeEnqueue s Reason.FORCED_DROP
      (false, if s1.m_isNs1Compat = true then { s1 with m_count := 0, m_countBytes := 0 } else s1)
    else if (Mark s item Reason.FORCED_MARK).1 = false then
      let s1 := DropBeforeEnqueue (Mark s item Reason.FORCED_MARK).2.2 Reason.FORCED_DROP
      (false, if s1.m_isNs1Compat = true then { s1 with m_count := 0, m_countBytes := 0 } else s1)
    else
      EnqueueInternal (Mark s item Reason.FORCED_MARK).2.2 (Mark s item Reason.FORCED_MARK).2.1
  | DropType.DTYPE_NONE => EnqueueInternal s item

/-- Embedding of `BLACKQueueDisc::DoEnqueue`: return value and state afterwards. -/
def DoEnqueue (pow : ℚ → ℚ → ℚ) (s : BLACKQueueDisc) (item : QueueDiscItem) (now : Int)
    (u : ℚ) : Bool × BLACKQueueDisc :=
  let nQueued : Nat := s.m_queue.GetCurrentSize
  let s1 : BLACKQueueDisc := afterEstimate s item now
  let c := classify pow s1 item nQueued u
  act c.2 item c.1

/-- Embedding of `BLACKQueueDisc::DoDequeue`: the item handed out, if any, and the state afterwards. -/
def DoDequeue (s : BLACKQueueDisc) (now : Int) : Option QueueDiscItem × BLACKQueueDisc :=
  if s.m_queue.IsEmpty = true then (none, { s with m_idle := 1, m_idleTime := now })
  else
    ((s.m_queue.Dequeue).1, { s with m_idle := 0, m_queue := (s.m_queue.Dequeue).2 })

/-- Embedding of `BLACKQueueDisc::DoPeek`. -/
def DoPeek (s : BLACKQueueDisc) : Option QueueDiscItem :=
  if s.m_queue.IsEmpty = true then none else s.m_queue.items.head?

/-- Members that neither `DoEnqueue` nor `DoDequeue` writes: thresholds, derived
coefficients, queue weight and mode flags of `t` are those of `s`. -/
def SameConfig (s t : BLACKQueueDisc) : Prop :=
  t.m_minTh = s.m_minTh ∧ t.m_maxTh = s.m_maxTh ∧ t.m_vA = s.m_vA ∧ t.m_vB = s.m_vB ∧
  t.m_vC = s.m_vC ∧ t.m_vD = s.m_vD ∧ t.m_isGentle = s.m_isGentle ∧
  t.m_isNonlinear = s.m_isNonlinear ∧ t.m_qW = s.m_qW ∧ t.m_cautious = s.m_cautious ∧
  t.m_lInterm = s.m_lInterm

/-- Span of the thresholds used by `InitializeParams` for the linear coefficients:
a zero span is replaced by one. -/
def thDiff (s : BLACKQueueDisc) : ℚ :=
  if s.m_maxTh - s.m_minTh = 0 then 1 else s.m_maxTh - s.m_minTh

/-- The coefficients of `s` are those `InitializeParams` derives from the thresholds
of `s` and from a maximum probability `c0`. -/
def CoeffsDerived (s : BLACKQueueDisc) (c0 : ℚ) : Prop :=
  s.m_vA = 1 / thDiff s ∧ s.m_vB = -s.m_minTh / thDiff s ∧
  (s.m_isGentle = true → s.m_vC = (1 - c0) / s.m_maxTh ∧ s.m_vD = 2 * c0 - 1)

/-- An operation applied to the disc by its owner. -/
inductive Op where
  | enqueue (item : QueueDiscItem) (now : Int) (u : ℚ)
  | dequeue (now : Int)

/-- State after one operation. -/
def step (pow : ℚ → ℚ → ℚ) (s : BLACKQueueDisc) : Op → BLACKQueueDisc
  | Op.enqueue item now u => (DoEnqueue pow s item now u).2
  | Op.dequeue now => (DoDequeue s now).2

/-- State after a sequence of operations. -/
def run (pow : ℚ → ℚ → ℚ) (s : BLACKQueueDisc) (ops : List Op) : BLACKQueueDisc :=
  ops.foldl (step pow) s

/-- Largest instantaneous queue length sampled by the enqueue attempts of a
sequence of operations started in `s` (zero when there is none). -/
def maxSampled (pow : ℚ → ℚ → ℚ) (s : BLACKQueueDisc) : List Op → Nat
  | [] => 0
  | Op.enqueue item now u :: rest =>
    max s.m_queue.GetCurrentSize (maxSampled pow (step pow s (Op.enqueue item now u)) rest)
  | Op.dequeue now :: rest => maxSampled pow (step pow s (Op.dequeue now)) rest

/-- Stand-in for `std::exp` in concrete evaluations (the configurations evaluated
below have a non-zero `QW`, so it is never called). -/
def exp0 : ℚ → ℚ := fun _ => 1

/-- Stand-in for `std::pow` with a real exponent in concrete evaluations (only the
caution modes call it, and `m_cautious` is zero). -/
def pow0 : ℚ → ℚ → ℚ := fun _ _ => 1

/-- Start-up of a configured disc as done by `QueueDisc::Initialize`: `CheckConfig`
followed by `InitializeParams`. -/
def started (c : BLACKQueueDisc) : BLACKQueueDisc :=
  (InitializeParams exp0 (CheckConfig c).2).getD c

/-- The disc started with every attribute at its default. -/
def defaultDisc : BLACKQueueDisc := started attributeDefaults

/-- A packet of the given size that cannot be ECN-marked. -/
def pkt (size : Nat) : QueueDiscItem := { size := size, ecnCapable := false, marked := false }

instance (s : BLACKQueueDisc) (c0 : ℚ) : Decidable (CoeffsDerived s c0) := by
  unfold CoeffsDerived; infer_instance

/-- The disc `s`, not idle, holding `n` copies of `item` and with average `avg`. -/
def withBacklog (s : BLACKQueueDisc) (n : Nat) (item : QueueDiscItem) (avg : ℚ) :
    BLACKQueueDisc :=
  { s with m_idle := 0, m_qAvg := avg
           m_queue := { s.m_queue with items := List.replicate n item } }

/-- The default disc holding ten packets with average ten and the crossing flag set:
a state of the early region. -/
def earlyRegionDisc : BLACKQueueDisc :=
  { withBacklog defaultDisc 10 (pkt 500) 10 with m_old := 1 }

/-- Adaptive configuration used to exhibit the gentle ramp after an adaptation:
defaults with `AdaptMaxP` on and `QW` equal to one, started. -/
def adaptiveDisc : BLACKQueueDisc :=
  started { attributeDefaults with m_isAdaptMaxP := true, m_qW := 1 }

/-- State of `adaptiveDisc` after sixteen arrivals at time one second. -/
def adaptedState : BLACKQueueDisc :=
  run pow0 adaptiveDisc (List.replicate 16 (Op.enqueue (pkt 500) 1000000000 1))

/-- The default disc after three arrivals and four dequeue calls at time zero: the
buffer is empty again and the disc is idle. -/
def idleAfterTraffic : BLACKQueueDisc :=
  run pow0 defaultDisc
    [Op.enqueue (pkt 500) 0 1, Op.enqueue (pkt 500) 0 1, Op.enqueue (pkt 500) 0 1,
     Op.dequeue 0, Op.dequeue 0, Op.dequeue 0, Op.dequeue 0]

/-- Time at which an operation is applied. -/
def Op.time : Op → Int
  | Op.enqueue _ now _ => now
  | Op.dequeue now => now

/-- Times of the operations of a sequence started in `s` after which the state
differs from the state before in the way tested by `changed`, in order. -/
def timesWhere (changed : BLACKQueueDisc → BLACKQueueDisc → Bool) (pow : ℚ → ℚ → ℚ)
    (s : BLACKQueueDisc) : List Op → List Int
  | [] => []
  | op :: rest =>
    if changed s (step pow s op) = true then
      op.time :: timesWhere changed pow (step pow s op) rest
    else timesWhere changed pow (step pow s op) rest

/-- Times of the operations of a sequence started in `s` that change `m_curMaxP`:
the value held after the operation differs from the value held before it. -/
def maxPChangeTimes (pow : ℚ → ℚ → ℚ) (s : BLACKQueueDisc) (ops : List Op) : List Int :=
  timesWhere (fun a b => decide (b.m_curMaxP ≠ a.m_curMaxP)) pow s ops

/-- Times of the operations of a sequence started in `s` that change `m_lastSet`, the
member that `UpdateMaxP` writes together with `m_curMaxP` and that nothing else
writes. -/
def lastSetChangeTimes (pow : ℚ → ℚ → ℚ) (s : BLACKQueueDisc) (ops : List Op) : List Int :=
  timesWhere (fun a b => decide (b.m_lastSet ≠ a.m_lastSet)) pow s ops

/-- The default configuration with `AdaptMaxP` on, started. -/
def aimdDisc : BLACKQueueDisc := started { attributeDefaults with m_isAdaptMaxP := true }

/-- Arrivals of 500-byte packets at the seconds `1, 2, ..., n`. -/
def arrivalsEverySecond (n : Nat) : List Op :=
  (List.range n).map (fun k => Op.enqueue (pkt 500) (((k : Int) + 1) * 1000000000) 1)

/-- The default configuration with Feng's adaptive mode on and `QW` equal to one,
started. -/
def fengDisc : BLACKQueueDisc :=
  started { attributeDefaults with m_isFengAdaptive := true, m_qW := 1 }

/-- State of `fengDisc` after six arrivals, which sample the averages `0` to `5`,
and two dequeue calls, which leave four packets in the buffer. -/
def fengAtMinTh : BLACKQueueDisc :=
  run pow0 fengDisc
    (List.replicate 6 (Op.enqueue (pkt 500) 0 1) ++ [Op.dequeue 0, Op.dequeue 0])

/-- The default configuration with gentle mode off and `QW` equal to one, started,
after fifteen arrivals: the next arrival samples the average `15`. -/
def hardDropDisc : BLACKQueueDisc :=
  run pow0 (started { attributeDefaults with m_isGentle := false, m_qW := 1 })
    (List.replicate 15 (Op.enqueue (pkt 500) 0 1))

/-- The default configuration with the limit counted in bytes, started, with 1500
bytes counted since the last drop. -/
def byteModeDisc : BLACKQueueDisc :=
  { started { attributeDefaults with
      m_maxSize := { unit := QueueSizeUnit.BYTES, value := 12500 } } with
    m_countBytes := 1500 }

/-- Amplified probability in the words of the specification (section 4.2.1): in
wait mode `0` if `n * p < 1`, `p / (2 - n * p)` if `1 ≤ n * p < 2` and `1` otherwise;
in non-wait mode `p / (1 - n * p)` if `n * p < 1` and `1` otherwise. -/
def specAmplified (wait : Bool) (n p : ℚ) : ℚ :=
  if wait = true then
    if n * p < 1 then 0 else if n * p < 2 then p / (2 - n * p) else 1
  else
    if n * p < 1 then p / (1 - n * p) else 1

end BLACKQueueDisc

/-!
LLQ queue disc (`src/model/llq-queue-disc.cc`).

Shallow embedding of the flow-queueing scheduler. Additional conventions:

* The header `llq-queue-disc.h` is not among the sources: the members of `LLQFlow`
  and `LLQQueueDisc` are the ones the functions of `llq-queue-disc.cc` read and
  write, with the types that the accessors show (`int32_t` deficit, `uint32_t`
  index, quantum, table sizes).
* `int32_t` values are integers; every conversion to `int32_t` and every sum stored
  in one is reduced to the range `[-2 ^ 31, 2 ^ 31)` by `toInt32`.
* A `Ptr<LLQFlow>` is the position of the flow among the classes of the disc
  (`GetQueueDiscClass (i)`): classes are only ever appended.
* The child queue disc of a flow is created by `m_queueDiscFactory`
  (`ns3::PieQueueDisc`), whose code is not among the sources. It is represented by
  the FIFO of the items it holds; whether it accepts an arriving item is an
  explicit argument `accept` of `DoEnqueue`, and its `Dequeue ()` hands out the
  head of the FIFO. Byte and packet counters of the base class are the sums over
  the items held.
* `item->Hash (m_perturbation)` and `Classify (item)` are explicit arguments
  `hashValue` and `ret` of `DoEnqueue`.
* A dereference of a null `Ptr` has no result (`none`).
-/

/-- Lifecycle state of a flow (`LLQFlow::FlowStatus`). -/
inductive FlowStatus where
  | INACTIVE
  | NEW_FLOW
  | OLD_FLOW
  deriving DecidableEq

/-- Conversion of an integer to `int32_t` (two's complement). -/
def toInt32 (x : Int) : Int := (x + 2147483648) % 4294967296 - 2147483648

/-- Members of `LLQFlow` together with the items held by its child queue disc
(`GetQueueDisc ()`). -/
structure LLQFlow where
  m_deficit : Int
  m_status : FlowStatus
  m_index : Nat
  m_queue : List QueueDiscItem
  deriving DecidableEq

namespace LLQFlow

/-- Embedding of the constructor `LLQFlow::LLQFlow` with an empty child disc. -/
def create : LLQFlow :=
  { m_deficit := 0, m_status := FlowStatus.INACTIVE, m_index := 0, m_queue := [] }

/-- Embedding of `LLQFlow::SetDeficit`: the `uint32_t` argument is stored in the
`int32_t` member. -/
def SetDeficit (f : LLQFlow) (deficit : Nat) : LLQFlow :=
  { f with m_deficit := toInt32 (deficit : Int) }

/-- Embedding of `LLQFlow::GetDeficit`. -/
def GetDeficit (f : LLQFlow) : Int := f.m_deficit

/-- Embedding of `LLQFlow::IncreaseDeficit`; the argument is an `int32_t`. -/
def IncreaseDeficit (f : LLQFlow) (deficit : Int) : LLQFlow :=
  { f with m_deficit := toInt32 (f.m_deficit + deficit) }

/-- Embedding of `LLQFlow::SetStatus`. -/
def SetStatus (f : LLQFlow) (status : FlowStatus) : LLQFlow := { f with m_status := status }

/-- Embedding of `LLQFlow::GetStatus`. -/
def GetStatus (f : LLQFlow) : FlowStatus := f.m_status

/-- Embedding of `LLQFlow::SetIndex`. -/
def SetIndex (f : LLQFlow) (index : Nat) : LLQFlow := { f with m_index := index }

/-- Embedding of `LLQFlow::GetIndex`. -/
def GetIndex (f : LLQFlow) : Nat := f.m_index

/-- Bytes held by the child disc of the flow (`GetQueueDisc ()->GetNBytes ()`). -/
def GetNBytes (f : LLQFlow) : Nat := (f.m_queue.map (fun x => x.size)).sum

/-- Packets held by the child disc of the flow (`GetQueueDisc ()->GetNPackets ()`). -/
def GetNPackets (f : LLQFlow) : Nat := f.m_queue.length

end LLQFlow

/-- Events the scheduler reports to the statistics of the base class: a drop with
reason `UNCLASSIFIED_DROP`, a drop with reason `OVERLIMIT_DROP`, and a drop made
by the child disc of a flow on arrival. -/
inductive LLQEvent where
  | unclassifiedDrop (item : QueueDiscItem)
  | overlimitDrop (item : QueueDiscItem)
  | childDrop (item : QueueDiscItem)
  deriving DecidableEq

/-- Value of `PacketFilter::PF_NO_MATCH` in ns-3. -/
def PF_NO_MATCH : Int := -1

/-- Members of `LLQQueueDisc` that the scheduler reads or writes, followed by the
members of the `QueueDisc` base class it uses: the limit `GetMaxSize ()` in packets,
the number of packet filters and of internal queues, the classes and the
statistics. -/
structure LLQQueueDisc where
  m_useEcn : Bool
  m_useL4s : Bool
  m_ceThreshold : Int
  m_quantum : Nat
  m_flows : Nat
  m_setWays : Nat
  m_enableSetAssociativeHash : Bool
  m_dropBatchSize : Nat
  m_perturbation : Nat
  m_flowsIndices : Nat → Option Nat
  m_tags : Nat → Option Nat
  m_newFlows : List Nat
  m_oldFlows : List Nat
  m_maxSize : Nat
  m_nPacketFilters : Nat
  m_nInternalQueues : Nat
  m_classes : List LLQFlow
  m_stats : List LLQEvent

namespace LLQQueueDisc

/-- Embedding of `GetQueueDiscClass (i)` cast to `LLQFlow`. A position outside the
container, which the source never asks for in a state reached from the initial one,
reads as a fresh record. -/
def GetQueueDiscClass (s : LLQQueueDisc) (i : Nat) : LLQFlow :=
  s.m_classes.getD i LLQFlow.create

/-- Write through a `Ptr<LLQFlow>`: the class at position `i` becomes `f`. -/
def setClass (s : LLQQueueDisc) (i : Nat) (f : LLQFlow) : LLQQueueDisc :=
  { s with m_classes := s.m_classes.set i f }

/-- Embedding of `GetCurrentSize ()` for the size policy `MULTIPLE_QUEUES` and the
unit `PACKETS` fixed by the constructor: packets held by all child discs. -/
def GetCurrentSize (s : LLQQueueDisc) : Nat :=
  (s.m_classes.map (fun f => f.GetNPackets)).sum

/-- Embedding of the test in `LLQQueueDisc::SetAssociativeHash` (lines 243-248): the
bucket `i` has not been created, or is tagged with `flowHash`, or its flow is
inactive. -/
def bucketUsable (s : LLQQueueDisc) (flowHash i : Nat) : Bool :=
  match s.m_flowsIndices i with
  | none => true
  | some c =>
    decide (s.m_tags i = some flowHash) ||
      decide ((s.GetQueueDiscClass c).GetStatus = FlowStatus.INACTIVE)

/-- Embedding of `LLQQueueDisc::SetAssociativeHash`: the bucket returned and the disc
with the tag written. The loop visits `i = outerHash, outerHash + 1, ...` while
`i < outerHash + m_setWays`, the bound being a `uint32_t`, and returns at the first
usable bucket. -/
def SetAssociativeHash (s : LLQQueueDisc) (flowHash : Nat) : Nat × LLQQueueDisc :=
  let h := flowHash % s.m_flows
  let innerHash := h % s.m_setWays
  let outerHash := h - innerHash
  match (List.range' outerHash (wrap32 (outerHash + s.m_setWays) - outerHash)).find?
      (bucketUsable s flowHash) with
  | some i => (i, { s with m_tags := fun j => if j = i then some flowHash else s.m_tags j })
  | none =>
    (outerHash,
      { s with m_tags := fun j => if j = outerHash then some flowHash else s.m_tags j })

/-- Embedding of `LLQQueueDisc::DoEnqueue`, lines 270-288: the flow hash of the item,
or `none` when the packet filters do not classify it. -/
def classifyItem (s : LLQQueueDisc) (hashValue : Nat) (ret : Int) : Option Nat :=
  if s.m_nPacketFilters = 0 then some hashValue
  else if ret ≠ PF_NO_MATCH then some (ret % 4294967296).toNat
  else none

/-- Embedding of `LLQQueueDisc::DoEnqueue`, lines 290-297: the bucket of the flow
hash. -/
def selectBucket (s : LLQQueueDisc) (flowHash : Nat) : Nat × LLQQueueDisc :=
  if s.m_enableSetAssociativeHash = true then s.SetAssociativeHash flowHash
  else (flowHash % s.m_flows, s)

/-- Embedding of `LLQQueueDisc::DoEnqueue`, lines 299-323: the flow of bucket `h`,
created and registered when the bucket has none. -/
def findFlow (s : LLQQueueDisc) (h : Nat) : Nat × LLQQueueDisc :=
  match s.m_flowsIndices h with
  | none =>
    (s.m_classes.length,
      { s with
        m_classes := s.m_classes ++ [LLQFlow.create.SetIndex h]
        m_flowsIndices := fun j => if j = h then some s.m_classes.length
          else s.m_flowsIndices j })
  | some c => (c, s)

/-- Embedding of `LLQQueueDisc::DoEnqueue`, lines 325-330: an inactive flow becomes a
new flow with a deficit of one quantum at the tail of `m_newFlows`. -/
def activate (s : LLQQueueDisc) (c : Nat) : LLQQueueDisc :=
  if (s.GetQueueDiscClass c).GetStatus = FlowStatus.INACTIVE then
    { s.setClass c
        (((s.GetQueueDiscClass c).SetStatus FlowStatus.NEW_FLOW).SetDeficit s.m_quantum) with
      m_newFlows := s.m_newFlows ++ [c] }
  else s

/-- Embedding of `LLQQueueDisc::DoEnqueue`, line 332: the item is handed to the child
disc of the flow, which keeps it when `accept` holds and drops it otherwise. -/
def childEnqueue (s : LLQQueueDisc) (c : Nat) (item : QueueDiscItem) (accept : Bool) :
    LLQQueueDisc :=
  if accept = true then
    s.setClass c
      { s.GetQueueDiscClass c with m_queue := (s.GetQueueDiscClass c).m_queue ++ [item] }
  else { s with m_stats := s.m_stats ++ [LLQEvent.childDrop item] }

/-- Embedding of the first loop of `LLQQueueDisc::LLQDrop` (lines 515-524) from
position `i` on: the largest byte backlog seen and the position of the first class
holding it. -/
def scanFat : List LLQFlow → Nat → Nat → Nat → Nat × Nat
  | [], _, maxBacklog, index => (maxBacklog, index)
  | f :: rest, i, maxBacklog, index =>
    if f.GetNBytes > maxBacklog then scanFat rest (i + 1) f.GetNBytes i
    else scanFat rest (i + 1) maxBacklog index

/-- Embedding of the second loop of `LLQQueueDisc::LLQDrop` (lines 533-540) on the
items of the fat flow: the items left and the items dropped, or `none` when the
buffer runs out and the null item is dereferenced. -/
def dropLoop (batch threshold : Nat) :
    List QueueDiscItem → Nat → Nat → List QueueDiscItem →
      Option (List QueueDiscItem × List QueueDiscItem)
  | [], _, _, _ => none
  | item :: rest, count, len, dropped =>
    if count + 1 < batch ∧ wrap32 (len + item.size) < threshold then
      dropLoop batch threshold rest (count + 1) (wrap32 (len + item.size)) (dropped ++ [item])
    else some (rest, dropped ++ [item])

/-- Embedding of `LLQQueueDisc::LLQDrop`: the position of the fat flow and the disc
after the eviction, or `none` when a null pointer is dereferenced. -/
def LLQDrop (s : LLQQueueDisc) : Option (Nat × LLQQueueDisc) :=
  let fat := scanFat s.m_classes 0 0 0
  let threshold := fat.1 / 2
  match s.m_classes.get? fat.2 with
  | none => none
  | some f =>
    match dropLoop s.m_dropBatchSize threshold f.m_queue 0 0 [] with
    | none => none
    | some (rest, dropped) =>
      some (fat.2,
        { s.setClass fat.2 { f with m_queue := rest } with
          m_stats := s.m_stats ++ dropped.map LLQEvent.overlimitDrop })

/-- Embedding of `LLQQueueDisc::DoEnqueue`, lines 336-342: the evictor runs when the
disc holds more packets than its limit. -/
def checkOverload (s : LLQQueueDisc) : Option (Bool × LLQQueueDisc) :=
  if s.GetCurrentSize > s.m_maxSize then
    match s.LLQDrop with
    | none => none
    | some r => some (true, r.2)
  else some (true, s)

/-- Embedding of `LLQQueueDisc::DoEnqueue`, lines 290-323: the position of the flow
record that takes the flow hash `flowHash`, and the disc once the bucket is chosen
and the record exists. -/
def lookupFlow (s : LLQQueueDisc) (flowHash : Nat) : Nat × LLQQueueDisc :=
  (s.selectBucket flowHash).2.findFlow (s.selectBucket flowHash).1

/-- Embedding of `LLQQueueDisc::DoEnqueue`, lines 290-332: bucket selection, flow
lookup, activation and hand-over to the child disc for an item with the flow hash
`flowHash`. -/
def enqueueFlow (s : LLQQueueDisc) (item : QueueDiscItem) (flowHash : Nat) (accept : Bool) :
    LLQQueueDisc :=
  ((s.lookupFlow flowHash).2.activate (s.lookupFlow flowHash).1).childEnqueue
    (s.lookupFlow flowHash).1 item accept

/-- Embedding of `LLQQueueDisc::DoEnqueue`: the value returned and the disc
afterwards, or `none` when the evictor dereferences a null pointer. -/
def DoEnqueue (s : LLQQueueDisc) (item : QueueDiscItem) (hashValue : Nat) (ret : Int)
    (accept : Bool) : Option (Bool × LLQQueueDisc) :=
  match s.classifyItem hashValue ret with
  | none => some (false, { s with m_stats := s.m_stats ++ [LLQEvent.unclassifiedDrop item] })
  | some flowHash => (s.enqueueFlow item flowHash accept).checkOverload

/-- Embedding of the first inner loop of `LLQQueueDisc::DoDequeue` (lines 357-374);
the list is the content of `m_newFlows` on entry. The result is the flow found, if
any, and the disc afterwards. -/
def newFlowsLoop : List Nat → LLQQueueDisc → Option Nat × LLQQueueDisc
  | [], s => (none, { s with m_newFlows := [] })
  | c :: rest, s =>
    if (s.GetQueueDiscClass c).GetDeficit ≤ 0 then
      newFlowsLoop rest
        { s.setClass c
            (((s.GetQueueDiscClass c).IncreaseDeficit (toInt32 s.m_quantum)).SetStatus
              FlowStatus.OLD_FLOW) with
          m_oldFlows := s.m_oldFlows ++ [c]
          m_newFlows := rest }
    else (some c, { s with m_newFlows := c :: rest })

/-- Embedding of the second inner loop of `LLQQueueDisc::DoDequeue` (lines 376-392),
entered with `found` false, with a bound on the number of iterations: `none` when
the bound is exhausted. -/
def oldFlowsLoop : Nat → LLQQueueDisc → Option (Option Nat × LLQQueueDisc)
  | 0, _ => none
  | fuel + 1, s =>
    match s.m_oldFlows with
    | [] => some (none, s)
    | c :: rest =>
      if (s.GetQueueDiscClass c).GetDeficit ≤ 0 then
        oldFlowsLoop fuel
          { s.setClass c ((s.GetQueueDiscClass c).IncreaseDeficit (toInt32 s.m_quantum)) with
            m_oldFlows := rest ++ [c] }
      else some (some c, s)

/-- Embedding of `LLQQueueDisc::DoDequeue`, lines 355-392: the two inner loops. -/
def selectFlow (fuel : Nat) (s : LLQQueueDisc) : Option (Option Nat × LLQQueueDisc) :=
  match newFlowsLoop s.m_newFlows s with
  | (some c, s1) => some (some c, s1)
  | (none, s1) => oldFlowsLoop fuel s1

/-- Embedding of `LLQQueueDisc::DoDequeue`, lines 402-416: the child disc of the
selected flow `c` gave no item. -/
def emptyFlow (s : LLQQueueDisc) (c : Nat) : LLQQueueDisc :=
  if s.m_newFlows ≠ [] then
    { s.setClass c ((s.GetQueueDiscClass c).SetStatus FlowStatus.OLD_FLOW) with
      m_oldFlows := s.m_oldFlows ++ [c]
      m_newFlows := s.m_newFlows.tail }
  else
    { s.setClass c ((s.GetQueueDiscClass c).SetStatus FlowStatus.INACTIVE) with
      m_oldFlows := s.m_oldFlows.tail }

/-- Embedding of `LLQQueueDisc::DoDequeue`, line 423: the deficit of the flow `c` is
charged with the item taken from its child disc, whose items left are `rest`. The
factor `-1` of the source is converted to `uint32_t` and the product to `int32_t`. -/
def serve (s : LLQQueueDisc) (c : Nat) (item : QueueDiscItem) (rest : List QueueDiscItem) :
    LLQQueueDisc :=
  s.setClass c
    ({ s.GetQueueDiscClass c with m_queue := rest }.IncreaseDeficit
      (toInt32 (wrap32 (item.size * 4294967295))))

/-- Embedding of `LLQQueueDisc::DoDequeue` with a bound on the number of iterations
of the outer loop and of each run of the second inner loop: the item returned, if
any, and the disc afterwards; `none` when the bound is exhausted. -/
def DoDequeue : Nat → LLQQueueDisc → Option (Option QueueDiscItem × LLQQueueDisc)
  | 0, _ => none
  | fuel + 1, s =>
    match selectFlow fuel s with
    | none => none
    | some (none, s1) => some (none, s1)
    | some (some c, s1) =>
      match (s1.GetQueueDiscClass c).m_queue with
      | [] => DoDequeue fuel (s1.emptyFlow c)
      | item :: rest => some (some item, s1.serve c item rest)

/-! Fixtures and predicates used by the results on the LLQ disc. -/

/-- The attribute defaults of `GetTypeId` and the members set by the constructor,
with no class, no packet filter and empty tables and lists. -/
def attributeDefaults : LLQQueueDisc :=
  { m_useEcn := true
    m_useL4s := false
    m_ceThreshold := 9223372036854775807
    m_quantum := 0
    m_flows := 1024
    m_setWays := 8
    m_enableSetAssociativeHash := false
    m_dropBatchSize := 64
    m_perturbation := 0
    m_flowsIndices := fun _ => none
    m_tags := fun _ => none
    m_newFlows := []
    m_oldFlows := []
    m_maxSize := 10240
    m_nPacketFilters := 0
    m_nInternalQueues := 0
    m_classes := []
    m_stats := [] }

/-- An arrival: the item, its hash, the value of the packet filters and the verdict
of the child disc. -/
structure Arrival where
  item : QueueDiscItem
  hashValue : Nat
  ret : Int
  accept : Bool

/-- The disc after a sequence of arrivals, or `none` when one of them has no
result. -/
def enqueueAll : LLQQueueDisc → List Arrival → Option LLQQueueDisc
  | s, [] => some s
  | s, a :: rest =>
    match s.DoEnqueue a.item a.hashValue a.ret a.accept with
    | none => none
    | some r => enqueueAll r.2 rest

/-- The disc after `n` calls of `DoDequeue` with the given bound each, together with
the items returned, or `none` when one of the calls exhausts the bound. -/
def dequeueN (fuel : Nat) : Nat → LLQQueueDisc → Option (List (Option QueueDiscItem) × LLQQueueDisc)
  | 0, s => some ([], s)
  | n + 1, s =>
    match DoDequeue fuel s with
    | none => none
    | some r =>
      match dequeueN fuel n r.2 with
      | none => none
      | some t => some (r.1 :: t.1, t.2)

/-- A disc with the default attributes, the quantum `q` and two flows that are both
in `m_newFlows`, with the given deficits and items. -/
def twoNewFlows (q : Nat) (d0 d1 : Int) (q0 q1 : List QueueDiscItem) : LLQQueueDisc :=
  { attributeDefaults with
    m_quantum := q
    m_classes :=
      [{ m_deficit := d0, m_status := FlowStatus.NEW_FLOW, m_index := 1, m_queue := q0 },
       { m_deficit := d1, m_status := FlowStatus.NEW_FLOW, m_index := 2, m_queue := q1 }]
    m_flowsIndices := fun j => if j = 1 then some 0 else if j = 2 then some 1 else none
    m_newFlows := [0, 1] }

/-- A disc with the default attributes, the quantum `q` and two flows that are both
in `m_oldFlows`, with the given deficits and items. -/
def twoOldFlows (q : Nat) (d0 d1 : Int) (q0 q1 : List QueueDiscItem) : LLQQueueDisc :=
  { attributeDefaults with
    m_quantum := q
    m_classes :=
      [{ m_deficit := d0, m_status := FlowStatus.OLD_FLOW, m_index := 1, m_queue := q0 },
       { m_deficit := d1, m_status := FlowStatus.OLD_FLOW, m_index := 2, m_queue := q1 }]
    m_flowsIndices := fun j => if j = 1 then some 0 else if j = 2 then some 1 else none
    m_oldFlows := [0, 1] }

/-- List membership agrees with flow status: every flow listed in `m_newFlows` is
listed there once and has the status `NEW_FLOW`, and every flow listed in
`m_oldFlows` is listed there once and has the status `OLD_FLOW`. -/
def ListsAgree (s : LLQQueueDisc) : Prop :=
  (∀ c ∈ s.m_newFlows, (s.GetQueueDiscClass c).GetStatus = FlowStatus.NEW_FLOW) ∧
    (∀ c ∈ s.m_oldFlows, (s.GetQueueDiscClass c).GetStatus = FlowStatus.OLD_FLOW) ∧
    s.m_newFlows.Nodup ∧ s.m_oldFlows.Nodup

instance (s : LLQQueueDisc) : Decidable (ListsAgree s) := by
  unfold ListsAgree; infer_instance

/-- Every deficit is a value of `int32_t`. -/
def DeficitsInRange (s : LLQQueueDisc) : Prop :=
  ∀ f ∈ s.m_classes, -2147483648 ≤ f.m_deficit ∧ f.m_deficit < 2147483648

instance (s : LLQQueueDisc) : Decidable (DeficitsInRange s) := by
  unfold DeficitsInRange; infer_instance

/-- No item held by a flow is larger than `bound` bytes. -/
def SizesAtMost (bound : Nat) (s : LLQQueueDisc) : Prop :=
  ∀ f ∈ s.m_classes, ∀ x ∈ f.m_queue, x.size ≤ bound

instance (bound : Nat) (s : LLQQueueDisc) : Decidable (SizesAtMost bound s) := by
  unfold SizesAtMost; infer_instance

/-- The properties of a disc that the search of `DoDequeue` maintains: a quantum
below `2 ^ 31`, lists that agree with the statuses, deficits in the range of
`int32_t`. -/
def Sound (s : LLQQueueDisc) : Prop :=
  s.m_quantum < 2147483648 ∧ ListsAgree s ∧ DeficitsInRange s

instance (s : LLQQueueDisc) : Decidable (Sound s) := by
  unfold Sound; infer_instance

/-- From `s` to `t` the quantum and the items held by every flow are the same and
no deficit is lower. -/
def OnlyReplenished (s t : LLQQueueDisc) : Prop :=
  t.m_quantum = s.m_quantum ∧
    ∀ c, (t.GetQueueDiscClass c).m_queue = (s.GetQueueDiscClass c).m_queue ∧
      (s.GetQueueDiscClass c).m_deficit ≤ (t.GetQueueDiscClass c).m_deficit

/-- From `s` to `t` the quantum is the same and the deficit of every flow has grown
by a whole number `k` of quanta, the last of which, if there was one, was added to a
deficit that was not positive. -/
def ReplenishedByQuanta (s t : LLQQueueDisc) : Prop :=
  t.m_quantum = s.m_quantum ∧
    ∀ c, ∃ k : Nat,
      (t.GetQueueDiscClass c).m_deficit =
        (s.GetQueueDiscClass c).m_deficit + (k : Int) * (s.m_quantum : Int) ∧
      (0 < k → (t.GetQueueDiscClass c).m_deficit - (s.m_quantum : Int) ≤ 0)

/-- What is observed of a disc in the scenarios: the sizes of the items returned by
the calls of `DoDequeue` made so far (`none` for a call that returned no item), the
two lists and, class by class, the statuses, the deficits and the numbers of items
held. -/
structure Snapshot where
  returned : List (Option Nat)
  newFlows : List Nat
  oldFlows : List Nat
  statuses : List FlowStatus
  deficits : List Int
  backlogs : List Nat
  deriving DecidableEq

/-- Snapshot of a disc before any dequeue. -/
def view (s : LLQQueueDisc) : Snapshot :=
  { returned := []
    newFlows := s.m_newFlows
    oldFlows := s.m_oldFlows
    statuses := s.m_classes.map (fun f => f.m_status)
    deficits := s.m_classes.map (fun f => f.m_deficit)
    backlogs := s.m_classes.map (fun f => f.m_queue.length) }

/-- Snapshot of the result of a sequence of calls of `DoDequeue`. -/
def viewAfter (r : List (Option QueueDiscItem) × LLQQueueDisc) : Snapshot :=
  { view r.2 with returned := r.1.map (fun o => o.map (fun i => i.size)) }

/-- An arrival of a packet of `size` bytes with the flow hash `hash` that the child
disc accepts. -/
def arrival (size hash : Nat) : Arrival :=
  { item := BLACKQueueDisc.pkt size, hashValue := hash, ret := 0, accept := true }

/-- The default disc with a quantum of 1500 after two flows have each enqueued three
packets of 1000 bytes, all accepted, and before any dequeue. -/
def burstScenario : Option LLQQueueDisc :=
  enqueueAll { attributeDefaults with m_quantum := 1500 }
    [arrival 1000 1, arrival 1000 1, arrival 1000 1,
     arrival 1000 2, arrival 1000 2, arrival 1000 2]

/-- The state of two backlogged flows `x` and `y` under deficit round robin with the
quantum `q` and items of `sz` bytes, `x` being the next to be inspected, after `x`
has given `cx` items and `y` has given `cy`: both deficits lie in `(-sz, q]`, and the
credit received so far (bytes given plus deficit) is the same for both, or that of `y`
is one quantum ahead and `y` has not been served since its last replenishment. -/
def FairNum (q sz x y cx cy : Nat) (s : LLQQueueDisc) : Prop :=
  s.m_quantum = q ∧ 0 < q ∧ q < 2147483648 ∧ 0 < sz ∧ sz < 2147483648 ∧
    x ≠ y ∧ x < s.m_classes.length ∧ y < s.m_classes.length ∧
    (∀ i ∈ (s.GetQueueDiscClass x).m_queue, i.size = sz) ∧
    (∀ i ∈ (s.GetQueueDiscClass y).m_queue, i.size = sz) ∧
    -(sz : Int) < (s.GetQueueDiscClass x).m_deficit ∧
    (s.GetQueueDiscClass x).m_deficit ≤ (q : Int) ∧
    -(sz : Int) < (s.GetQueueDiscClass y).m_deficit ∧
    (s.GetQueueDiscClass y).m_deficit ≤ (q : Int) ∧
    ((sz : Int) * cx + (s.GetQueueDiscClass x).m_deficit =
        (sz : Int) * cy + (s.GetQueueDiscClass y).m_deficit ∨
      ((sz : Int) * cy + (s.GetQueueDiscClass y).m_deficit =
          (sz : Int) * cx + (s.GetQueueDiscClass x).m_deficit + (q : Int) ∧
        (q : Int) - (sz : Int) < (s.GetQueueDiscClass y).m_deficit))

/-- The two flows `x` and `y` are the only ones listed, `x` before `y` in the order
in which `DoDequeue` inspects the flows. -/
def FairLists (x y : Nat) (s : LLQQueueDisc) : Prop :=
  (s.m_newFlows = [x, y] ∧ s.m_oldFlows = []) ∨
    (s.m_newFlows = [x] ∧ s.m_oldFlows = [y]) ∨
    (s.m_newFlows = [] ∧ s.m_oldFlows = [x, y])

/-- One of the two orientations of a pair of flows with their counters. -/
def Oriented (x y cx cy a b ca cb : Nat) : Prop :=
  (a = x ∧ b = y ∧ ca = cx ∧ cb = cy) ∨ (a = y ∧ b = x ∧ ca = cy ∧ cb = cx)

/-- Two flows `x` and `y` became active, in this order, before the first dequeue:
both are new flows with a deficit of one quantum `q`, `x` holds `nx` items and `y`
holds `ny` items, all of `sz` bytes. -/
def FairStart (q sz x y nx ny : Nat) (s : LLQQueueDisc) : Prop :=
  s.m_quantum = q ∧ x ≠ y ∧ x < s.m_classes.length ∧ y < s.m_classes.length ∧
    s.m_newFlows = [x, y] ∧ s.m_oldFlows = [] ∧
    (s.GetQueueDiscClass x).m_deficit = (q : Int) ∧
    (s.GetQueueDiscClass y).m_deficit = (q : Int) ∧
    (s.GetQueueDiscClass x).m_queue.length = nx ∧
    (s.GetQueueDiscClass y).m_queue.length = ny ∧
    (∀ i ∈ (s.GetQueueDiscClass x).m_queue, i.size = sz) ∧
    (∀ i ∈ (s.GetQueueDiscClass y).m_queue, i.size = sz)

instance (q sz x y nx ny : Nat) (s : LLQQueueDisc) : Decidable (FairStart q sz x y nx ny s) := by
  unfold FairStart; infer_instance

/-- The state of two backlogged flows `x` and `y`, which held `nx` and `ny` items when
they became active, after `k` calls of `DoDequeue`. -/
def FairAt (q sz x y nx ny k : Nat) (s : LLQQueueDisc) : Prop :=
  ∃ cx cy, cx + cy = k ∧ (s.GetQueueDiscClass x).m_queue.length + cx = nx ∧
    (s.GetQueueDiscClass y).m_queue.length + cy = ny ∧
    ((FairNum q sz x y cx cy s ∧ FairLists x y s) ∨
      (FairNum q sz y x cy cx s ∧ FairLists y x s))

/-- A configuration of the flow table on which set associative hashing is
defined: `m_setWays` and `m_flows` are positive `uint32_t` values and `m_flows` is a
multiple of `m_setWays`, as `CheckConfig` requires. -/
def TableConfig (s : LLQQueueDisc) : Prop :=
  0 < s.m_setWays ∧ 0 < s.m_flows ∧ s.m_flows % s.m_setWays = 0 ∧ s.m_flows < 4294967296

instance (s : LLQQueueDisc) : Decidable (TableConfig s) := by
  unfold TableConfig; infer_instance

/-- First bucket of the set of the flow hash `flowHash` (`outerHash`). -/
def setStart (s : LLQQueueDisc) (flowHash : Nat) : Nat :=
  flowHash % s.m_flows - flowHash % s.m_flows % s.m_setWays

/-- The default disc with set associative hashing and a quantum of 1500 after one
packet of the flow hash 8 and four packets of the flow hash 9, all of 1000 bytes and
accepted, followed by four calls of `DoDequeue`. -/
def splitScenario : Option LLQQueueDisc :=
  ((enqueueAll
      { attributeDefaults with m_quantum := 1500, m_enableSetAssociativeHash := true }
      [arrival 1000 8, arrival 1000 9, arrival 1000 9, arrival 1000 9, arrival 1000 9]).bind
    (dequeueN 5 4)).map (fun r => r.2)

/-- A disc with set associative hashing and sets of one bucket, in which bucket 8 is
tagged with the flow hash 8 and belongs to a new flow holding one packet. -/
def collisionDisc : LLQQueueDisc :=
  { attributeDefaults with
    m_quantum := 1500
    m_enableSetAssociativeHash := true
    m_setWays := 1
    m_classes :=
      [{ m_deficit := 1500, m_status := FlowStatus.NEW_FLOW, m_index := 8,
         m_queue := [BLACKQueueDisc.pkt 1000] }]
    m_flowsIndices := fun j => if j = 8 then some 0 else none
    m_tags := fun j => if j = 8 then some 8 else none
    m_newFlows := [0] }

/-- The largest byte backlog found by the first loop of `LLQDrop`
(`maxBacklog`). -/
def maxBacklog (s : LLQQueueDisc) : Nat := (scanFat s.m_classes 0 0 0).1

/-- The position of the class chosen by the first loop of `LLQDrop` (`index`). -/
def fatIndex (s : LLQQueueDisc) : Nat := (scanFat s.m_classes 0 0 0).2

end LLQQueueDisc

end ns3

namespace ns3

/-! Fixtures, predicates and further embeddings used by the later results. -/

namespace BLACKQueueDisc

/-- Attribute values with Feng's adaptive mode and the AIMD adaptive mode both
switched on. -/
def bothAdaptive : BLACKQueueDisc :=
  { attributeDefaults with m_isFengAdaptive := true, m_isAdaptMaxP := true }

/-- Attribute values with Feng's adaptive mode and the ABLACK mode both switched on. -/
def fengWithABLACK : BLACKQueueDisc :=
  { attributeDefaults with m_isFengAdaptive := true, m_isABLACK := true }

/-- The disc started with an idle packet size of 100 bytes, after one packet went
through it and a further dequeue call at time zero found it empty. -/
def idlePktDisc : BLACKQueueDisc :=
  run pow0 (started { attributeDefaults with m_idlePktSize := 100 })
    [Op.enqueue (pkt 500) 0 1, Op.dequeue 0, Op.dequeue 0]

end BLACKQueueDisc

namespace LLQQueueDisc

/-- The two-flow disc with one packet filter installed. -/
def filteredDisc : LLQQueueDisc :=
  { (twoNewFlows 1500 1500 1500 [BLACKQueueDisc.pkt 1000] [BLACKQueueDisc.pkt 1000]) with
    m_nPacketFilters := 1 }

/-- The items held by the child discs, class by class. -/
def queues (s : LLQQueueDisc) : List (List QueueDiscItem) :=
  s.m_classes.map (fun f => f.m_queue)

/-- Every entry of the table of flows points to an existing class. -/
def TableValid (s : LLQQueueDisc) : Prop :=
  ∀ h c, s.m_flowsIndices h = some c → c < s.m_classes.length

/-- The relation between statuses, lists and buffers in the form used by the
proofs: the lists agree with the statuses, every flow with the status `NEW_FLOW` or
`OLD_FLOW` is in the list of that name, an inactive flow holds no item, and the table
of flows points to existing classes. -/
def Consistent (s : LLQQueueDisc) : Prop :=
  ListsAgree s ∧
    (∀ c, (s.GetQueueDiscClass c).GetStatus = FlowStatus.NEW_FLOW → c ∈ s.m_newFlows) ∧
    (∀ c, (s.GetQueueDiscClass c).GetStatus = FlowStatus.OLD_FLOW → c ∈ s.m_oldFlows) ∧
    (∀ c, (s.GetQueueDiscClass c).GetStatus = FlowStatus.INACTIVE →
      (s.GetQueueDiscClass c).m_queue = []) ∧
    TableValid s

/-- The relation between statuses, lists and buffers, flow by flow: a flow is once
in `m_newFlows` and not in `m_oldFlows` exactly when its status is `NEW_FLOW`; it is
once in `m_oldFlows` and not in `m_newFlows` exactly when its status is `OLD_FLOW`;
and a flow whose status is `INACTIVE` is in neither list and holds no item. -/
def StatusInvariant (s : LLQQueueDisc) : Prop :=
  ∀ c,
    ((s.m_newFlows.count c = 1 ∧ c ∉ s.m_oldFlows) ↔
      (s.GetQueueDiscClass c).GetStatus = FlowStatus.NEW_FLOW) ∧
    ((s.m_oldFlows.count c = 1 ∧ c ∉ s.m_newFlows) ↔
      (s.GetQueueDiscClass c).GetStatus = FlowStatus.OLD_FLOW) ∧
    ((s.GetQueueDiscClass c).GetStatus = FlowStatus.INACTIVE →
      c ∉ s.m_newFlows ∧ c ∉ s.m_oldFlows ∧ (s.GetQueueDiscClass c).m_queue = [])

/-- The state of a disc before any arrival: no class, an empty table of flows and two
empty lists. -/
def Initial (s : LLQQueueDisc) : Prop :=
  s.m_classes = [] ∧ s.m_newFlows = [] ∧ s.m_oldFlows = [] ∧ ∀ h, s.m_flowsIndices h = none

/-- A call made on the disc: `DoEnqueue` for an arrival, `DoDequeue` with a bound on
the iterations, or `LLQDrop`. -/
inductive Call where
  | enqueue (a : Arrival)
  | dequeue (fuel : Nat)
  | drop

/-- The disc after a call, or `none` when the call has no result. -/
def applyCall (s : LLQQueueDisc) : Call → Option LLQQueueDisc
  | Call.enqueue a => (s.DoEnqueue a.item a.hashValue a.ret a.accept).map (fun r => r.2)
  | Call.dequeue fuel => (DoDequeue fuel s).map (fun r => r.2)
  | Call.drop => s.LLQDrop.map (fun r => r.2)

/-- The disc after a sequence of calls, or `none` when one of them has no result. -/
def applyCalls : LLQQueueDisc → List Call → Option LLQQueueDisc
  | s, [] => some s
  | s, c :: rest =>
    match s.applyCall c with
    | none => none
    | some t => applyCalls t rest

/-- Replenishments after which the deficit of the flow `c` is positive whatever the
positive quantum: `1 - deficit`, or zero when the deficit is positive. -/
def shortfall (s : LLQQueueDisc) (c : Nat) : Nat :=
  (1 - (s.GetQueueDiscClass c).m_deficit).toNat

/-- Bound on the iterations of the loops of `DoDequeue`: every flow listed in
`m_newFlows` counts for its shortfall plus two, every flow listed in `m_oldFlows` for
its shortfall plus one. -/
def potential (s : LLQQueueDisc) : Nat :=
  (s.m_newFlows.map (fun c => s.shortfall c + 2)).sum +
    (s.m_oldFlows.map (fun c => s.shortfall c + 1)).sum

/-- A disc with a limit of three packets holding three packets of 1000 bytes in two
flows. -/
def fullDisc : LLQQueueDisc :=
  { (twoNewFlows 1500 1500 1500 [BLACKQueueDisc.pkt 1000, BLACKQueueDisc.pkt 1000]
      [BLACKQueueDisc.pkt 1000]) with
    m_maxSize := 3 }

/-- Value of `Time::Max ()` in nanoseconds. -/
def TimeMax : Int := 9223372036854775807

/-- Embedding of `LLQQueueDisc::CheckConfig`: the value returned and the disc
afterwards. The argument `mtu` is the MTU of the device reached through the
`NetDeviceQueueInterface`, `none` when there is no such device. The result is `none`
when `NS_ABORT_MSG_IF` stops the program. -/
def CheckConfig (s : LLQQueueDisc) (mtu : Option Nat) : Option (Bool × LLQQueueDisc) :=
  if s.m_classes.length > 0 then some (false, s)
  else if s.m_nInternalQueues > 0 then some (false, s)
  else
    let s1 : LLQQueueDisc :=
      if s.m_quantum = 0 then
        match mtu with
        | some m => { s with m_quantum := m }
        | none => s
      else s
    if s1.m_quantum = 0 then some (false, s1)
    else if s1.m_enableSetAssociativeHash = true ∧ s1.m_flows % s1.m_setWays ≠ 0 then
      some (false, s1)
    else if s1.m_useL4s = true ∧ s1.m_ceThreshold = TimeMax then none
    else some (true, s1)

end LLQQueueDisc

/-! WFQ queue disc (`src/model/wfq-queue-disc.cc`).

The disc holds the priority-to-band map and its classes; the child disc of a class
is represented by the FIFO of the items it holds. `Classify (item)` is an explicit
argument `ret`, the priority of the `SocketPriorityTag` of the packet is an explicit
argument `tag` (`none` when the packet carries no tag), and the verdict of the child
disc on the arrival is an explicit argument `accept`. A failed `NS_ASSERT_MSG` has no
result (`none`). -/

/-- Members of `WFQQueueDisc` (`wfq-queue-disc.h`) followed by the members of the
`QueueDisc` base class it uses: the number of internal queues and the classes. -/
structure WFQQueueDisc where
  m_prio2band : List Nat
  m_nInternalQueues : Nat
  m_classes : List (List QueueDiscItem)
  deriving DecidableEq

namespace WFQQueueDisc

/-- The attribute default of `GetTypeId` for the priority-to-band map, with no class
and no internal queue. -/
def attributeDefaults : WFQQueueDisc :=
  { m_prio2band := [1, 2, 2, 2, 1, 2, 0, 0, 1, 1, 1, 1, 1, 1, 1, 1]
    m_nInternalQueues := 0
    m_classes := [] }

/-- Embedding of `GetNQueueDiscClasses ()`. -/
def GetNQueueDiscClasses (s : WFQQueueDisc) : Nat := s.m_classes.length

/-- Embedding of `WFQQueueDisc::CheckConfig`: the value returned and the disc
afterwards. With no class, the loop of lines 186-193 adds a class with an empty FIFO
for `i = 0` and for `i = 1`. -/
def CheckConfig (s : WFQQueueDisc) : Bool × WFQQueueDisc :=
  if s.m_nInternalQueues > 0 then (false, s)
  else
    let s1 : WFQQueueDisc :=
      if s.GetNQueueDiscClasses = 0 then { s with m_classes := s.m_classes ++ [[], []] }
      else s
    if s1.GetNQueueDiscClasses < 2 then (false, s1) else (true, s1)

/-- Embedding of `WFQQueueDisc::DoEnqueue`, lines 93-117: the band selected for an
arrival. -/
def selectBand (s : WFQQueueDisc) (ret : Int) (tag : Option Nat) : Nat :=
  if ret = PF_NO_MATCH then
    match tag with
    | some priority => s.m_prio2band.getD (priority % 16) 0
    | none => s.m_prio2band.getD 0 0
  else if ret ≥ 0 ∧ (ret % 4294967296).toNat < s.GetNQueueDiscClasses then
    (ret % 4294967296).toNat
  else s.m_prio2band.getD 0 0

/-- The child disc of the class `band` takes the item. -/
def childEnqueue (s : WFQQueueDisc) (band : Nat) (item : QueueDiscItem) : WFQQueueDisc :=
  { s with m_classes := List.set s.m_classes band (s.m_classes.getD band [] ++ [item]) }

/-- Embedding of `WFQQueueDisc::DoEnqueue`: the value returned and the disc
afterwards, or `none` when the assertion `Selected band out of range` fails. -/
def DoEnqueue (s : WFQQueueDisc) (item : QueueDiscItem) (ret : Int) (tag : Option Nat)
    (accept : Bool) : Option (Bool × WFQQueueDisc) :=
  if s.selectBand ret tag < s.GetNQueueDiscClasses then
    if accept = true then
      some (true, s.childEnqueue (s.selectBand ret tag) item)
    else some (false, s)
  else none

/-- The disc with every attribute at its default after `CheckConfig`. -/
def defaultDisc : WFQQueueDisc := (CheckConfig attributeDefaults).2

end WFQQueueDisc

end ns3

namespace ns3

/-!
BLACK queue disc with the rounding of `double` made explicit.

The embedding of `src/model/black-queue-disc.cc` at the head of this file computes
in exact rationals. The definitions of this section embed the same functions once
more, on the same state, with every operation on `double` values followed by a
rounding. Conventions:

* A `Machine` gives the rounding `fl` of a real result to a `double` and the library
  functions `std::pow` and `std::exp`.
* Every arithmetic operation is rounded on its own: no fused multiply-add and no
  extended precision.
* A decimal literal of the source that is not a binary fraction (`0.4`, `0.05`,
  `0.1`, `0.01`) is rounded; small integers and `0.25`, `1.5` are exact.
* The conversion of a `uint32_t` to `double` is exact; the conversion of the 64-bit
  bit rate is rounded.
* `Time::GetSeconds` returns the `double` nearest to the number of nanoseconds
  divided by `10 ^ 9` (the class `Time` is not among the sources).
* Overflow, underflow, infinities and NaN are not represented: the concrete rounding
  `binary64` keeps 53 significant bits and has an unbounded exponent.
-/

/-- Arithmetic of the machine: `fl` rounds a real number to a `double`, `pow` and
`exp` stand for `std::pow` and `std::exp`. -/
structure Machine where
  fl : ℚ → ℚ
  pow : ℚ → ℚ → ℚ
  exp : ℚ → ℚ

/-- Properties of a rounding to nearest with unit roundoff `u` that the results
below rely on: relative error at most `u`, monotone on the non-negative numbers, the
identity on its own values, and exact at one and two. -/
structure Rounding (u : ℚ) (fl : ℚ → ℚ) : Prop where
  u_nonneg : 0 ≤ u
  err : ∀ x, |fl x - x| ≤ u * |x|
  mono : ∀ x y, 0 ≤ x → x ≤ y → fl x ≤ fl y
  idem : ∀ x, fl (fl x) = fl x
  one : fl 1 = 1
  two : fl 2 = 2

/-- Properties of `std::pow` that the bound on the average relies on: a base in
`[0, 1]` gives a result in `[0, 1]`, and the exponent one gives back a base that is
a `double`. -/
structure PowSound (M : Machine) : Prop where
  unit_interval : ∀ x e, 0 ≤ x → x ≤ 1 → 0 ≤ M.pow x e ∧ M.pow x e ≤ 1
  exponent_one : ∀ x, M.pow (M.fl x) 1 = M.fl x

/-- Position of the leading binary digit of a natural number (zero for `0` and `1`);
the first argument bounds the number of halvings. -/
def ilog2 : Nat → Nat → Nat
  | 0, _ => 0
  | fuel + 1, n => if n < 2 then 0 else ilog2 fuel (n / 2) + 1

/-- Nearest integer, ties to the even one. -/
def roundEven (y : ℚ) : Int :=
  if y - (⌊y⌋ : ℚ) < 1 / 2 then ⌊y⌋
  else if 1 / 2 < y - (⌊y⌋ : ℚ) then ⌊y⌋ + 1
  else if ⌊y⌋ % 2 = 0 then ⌊y⌋ else ⌊y⌋ + 1

/-- Binary exponent `e` of a non-zero rational: `2 ^ e ≤ |x| < 2 ^ (e + 1)`. -/
def binExponent (x : ℚ) : Int :=
  let e0 : Int := (ilog2 x.num.natAbs x.num.natAbs : Int) - (ilog2 x.den x.den : Int)
  if (2 : ℚ) ^ e0 ≤ |x| then e0 else e0 - 1

/-- Rounding to the nearest number with 53 significant binary digits, ties to even:
the rounding of IEEE 754 binary64 (`double`) inside its exponent range. -/
def binary64 (x : ℚ) : ℚ :=
  if x = 0 then 0
  else (roundEven (x / (2 : ℚ) ^ (binExponent x - 52)) : ℚ) * (2 : ℚ) ^ (binExponent x - 52)

/-- The machine of the concrete evaluations: `binary64` rounding, `std::pow` as the
correctly rounded power for an exponent that is a count, and the stand-in `exp0`
for `std::exp` (the configurations evaluated have a non-zero `QW`, so it is never
called). -/
def ieee : Machine where
  fl := binary64
  pow := fun x y => binary64 (x ^ ⌊y⌋.toNat)
  exp := BLACKQueueDisc.exp0

namespace BLACKQueueDisc

namespace Rounded

/-- Seconds of a `Time` given in nanoseconds (`Time::GetSeconds`), as a `double`. -/
def GetSeconds (M : Machine) (t : Int) : ℚ := M.fl ((t : ℚ) / 1000000000)

/-- Lines 403-421 of `InitializeParams`: caution mode, packet time constant and the
settings forced by the two adaptive modes. -/
def initModes (M : Machine) (s0 : BLACKQueueDisc) : BLACKQueueDisc :=
  let s : BLACKQueueDisc :=
    { s0 with m_cautious := 0
              m_ptc := M.fl (M.fl (s0.m_linkBandwidth : ℚ) /
                M.fl (8 * (s0.m_meanPktSize : ℚ))) }
  let s : BLACKQueueDisc :=
    if s.m_isABLACK = true then
      { s with m_minTh := 0, m_maxTh := 0, m_qW := 0, m_isAdaptMaxP := true }
    else s
  if s.m_isFengAdaptive = true then { s with m_fengStatus := FengStatus.Above } else s

/-- Lines 403-443 of `InitializeParams`: `initModes` followed by the automatic
thresholds chosen when both thresholds are zero. -/
def initThresholds (M : Machine) (s0 : BLACKQueueDisc) : BLACKQueueDisc :=
  let s : BLACKQueueDisc := initModes M s0
  if s.m_minTh = 0 ∧ s.m_maxTh = 0 then
    let targetqueue : ℚ := M.fl (GetSeconds M s.m_targetDelay * s.m_ptc)
    let minTh1 : ℚ := if (5 : ℚ) < M.fl (targetqueue / 2) then M.fl (targetqueue / 2) else 5
    let minTh2 : ℚ :=
      if s.m_maxSize.unit = QueueSizeUnit.BYTES then M.fl (minTh1 * (s.m_meanPktSize : ℚ))
      else minTh1
    { s with m_minTh := minTh2, m_maxTh := M.fl (3 * minTh2) }
  else s

/-- Span of the thresholds used by `InitializeParams` for the linear coefficients:
the rounded difference, replaced by one when it is zero. -/
def thDiff (M : Machine) (s : BLACKQueueDisc) : ℚ :=
  if M.fl (s.m_maxTh - s.m_minTh) = 0 then 1 else M.fl (s.m_maxTh - s.m_minTh)

/-- Lines 447-467 of `InitializeParams`: counters, flags and the coefficients of
the probability ramps. -/
def initCoefficients (M : Machine) (s0 : BLACKQueueDisc) : BLACKQueueDisc :=
  let s : BLACKQueueDisc :=
    { s0 with m_qAvg := 0, m_count := 0, m_countBytes := 0, m_old := 0, m_idle := 1 }
  let th_diff : ℚ := thDiff M s
  let s : BLACKQueueDisc :=
    { s with m_vA := M.fl (1 / th_diff)
             m_curMaxP := M.fl (1 / s.m_lInterm)
             m_vB := M.fl (-s.m_minTh / th_diff) }
  let s : BLACKQueueDisc :=
    if s.m_isGentle = true then
      { s with m_vC := M.fl (M.fl (1 - s.m_curMaxP) / s.m_maxTh)
               m_vD := M.fl (M.fl (2 * s.m_curMaxP) - 1) }
    else s
  { s with m_idleTime := 0 }

/-- Lines 482-499 of `InitializeParams`: automatic queue weight. -/
def initWeight (M : Machine) (s : BLACKQueueDisc) : BLACKQueueDisc :=
  if s.m_qW = 0 then { s with m_qW := M.fl (1 - M.exp (M.fl (-1 / s.m_ptc))) }
  else if s.m_qW = -1 then
    let rtt0 : ℚ := M.fl (3 * M.fl (GetSeconds M s.m_linkDelay + M.fl (1 / s.m_ptc)))
    let rtt : ℚ := if rtt0 < M.fl (1 / 10) then M.fl (1 / 10) else rtt0
    { s with m_qW := M.fl (1 - M.exp (M.fl (-1 / M.fl (M.fl (10 * rtt) * s.m_ptc)))) }
  else if s.m_qW = -2 then { s with m_qW := M.fl (1 - M.exp (M.fl (-10 / s.m_ptc))) }
  else s

/-- Lines 501-512 of `InitializeParams`: automatic lower bound of `m_curMaxP`. -/
def initBottom (M : Machine) (s : BLACKQueueDisc) : BLACKQueueDisc :=
  if s.m_bottom = 0 then
    let bottom1 : ℚ :=
      M.fl (M.fl (M.fl (8 * (s.m_meanPktSize : ℚ)) * GetSeconds M s.m_rtt) /
        M.fl (s.m_linkBandwidth : ℚ))
    { s with m_bottom := if bottom1 < M.fl (1 / 100) then bottom1 else M.fl (1 / 100) }
  else s

/-- Embedding of `BLACKQueueDisc::InitializeParams`, the four stages in sequence. The
result is `none` when `NS_ASSERT (m_minTh <= m_maxTh)` fails. -/
def InitializeParams (M : Machine) (s0 : BLACKQueueDisc) : Option BLACKQueueDisc :=
  if (initThresholds M s0).m_minTh ≤ (initThresholds M s0).m_maxTh then
    some (initBottom M (initWeight M (initCoefficients M (initThresholds M s0))))
  else none

/-- Embedding of `BLACKQueueDisc::UpdateMaxPFeng`. -/
def UpdateMaxPFeng (M : Machine) (s : BLACKQueueDisc) (newAve : ℚ) : BLACKQueueDisc :=
  if s.m_minTh < newAve ∧ newAve < s.m_maxTh then
    { s with m_fengStatus := FengStatus.Between }
  else if newAve < s.m_minTh ∧ s.m_fengStatus ≠ FengStatus.Below then
    { s with m_fengStatus := FengStatus.Below, m_curMaxP := M.fl (s.m_curMaxP / s.m_a) }
  else if newAve > s.m_maxTh ∧ s.m_fengStatus ≠ FengStatus.Above then
    { s with m_fengStatus := FengStatus.Above, m_curMaxP := M.fl (s.m_curMaxP * s.m_b) }
  else s

/-- Embedding of `BLACKQueueDisc::UpdateMaxP`. -/
def UpdateMaxP (M : Machine) (s : BLACKQueueDisc) (now : Int) (newAve : ℚ) : BLACKQueueDisc :=
  let m_part : ℚ := M.fl (M.fl (4 / 10) * M.fl (s.m_maxTh - s.m_minTh))
  if newAve < M.fl (s.m_minTh + m_part) ∧ s.m_curMaxP > s.m_bottom then
    { s with m_curMaxP := M.fl (s.m_curMaxP * s.m_beta), m_lastSet := now }
  else if newAve > M.fl (s.m_maxTh - m_part) ∧ s.m_top > s.m_curMaxP then
    let alpha : ℚ :=
      if s.m_alpha > M.fl ((1 / 4) * s.m_curMaxP) then M.fl ((1 / 4) * s.m_curMaxP)
      else s.m_alpha
    { s with m_curMaxP := M.fl (s.m_curMaxP + alpha), m_lastSet := now }
  else s

/-- Embedding of `BLACKQueueDisc::Estimator`: the new average and the state after the
control step. The count `m` is converted to `double` and handed to `std::pow`. -/
def Estimator (M : Machine) (s : BLACKQueueDisc) (now : Int) (nQueued m : Nat) (qAvg qW : ℚ) :
    ℚ × BLACKQueueDisc :=
  let newAve : ℚ := M.fl (M.fl (qAvg * M.pow (M.fl (1 - qW)) (m : ℚ)) + M.fl (qW * (nQueued : ℚ)))
  if s.m_isAdaptMaxP = true ∧ now > s.m_lastSet + s.m_interval then
    (newAve, UpdateMaxP M s now newAve)
  else if s.m_isFengAdaptive = true then (newAve, UpdateMaxPFeng M s newAve)
  else (newAve, s)

/-- Embedding of `BLACKQueueDisc::CalculatePNew`. -/
def CalculatePNew (M : Machine) (s : BLACKQueueDisc) : ℚ :=
  let p : ℚ :=
    if s.m_isGentle = true ∧ s.m_qAvg ≥ s.m_maxTh then M.fl (M.fl (s.m_vC * s.m_qAvg) + s.m_vD)
    else if s.m_isGentle = false ∧ s.m_qAvg ≥ s.m_maxTh then 1
    else
      let p0 : ℚ := M.fl (M.fl (s.m_vA * s.m_qAvg) + s.m_vB)
      let p1 : ℚ := if s.m_isNonlinear = true then M.fl (p0 * M.fl (p0 * (3 / 2))) else p0
      M.fl (p1 * s.m_curMaxP)
  if p > 1 then 1 else p

/-- Embedding of `BLACKQueueDisc::ModifyP`. -/
def ModifyP (M : Machine) (s : BLACKQueueDisc) (p : ℚ) (size : Nat) : ℚ :=
  let count1 : ℚ :=
    if s.m_maxSize.unit = QueueSizeUnit.BYTES then ((s.m_countBytes / s.m_meanPktSize : Nat) : ℚ)
    else (s.m_count : ℚ)
  let p1 : ℚ :=
    if s.m_isWait = true then
      if M.fl (count1 * p) < 1 then 0
      else if M.fl (count1 * p) < 2 then M.fl (p / M.fl (2 - M.fl (count1 * p)))
      else 1
    else
      if M.fl (count1 * p) < 1 then M.fl (p / M.fl (1 - M.fl (count1 * p)))
      else 1
  let p2 : ℚ :=
    if s.m_maxSize.unit = QueueSizeUnit.BYTES ∧ p1 < 1 then
      M.fl (M.fl (p1 * (size : ℚ)) / (s.m_meanPktSize : ℚ))
    else p1
  if p2 > 1 then 1 else p2

/-- Embedding of `BLACKQueueDisc::DropEarly`. -/
def DropEarly (M : Machine) (s : BLACKQueueDisc) (item : QueueDiscItem) (qSize : Nat)
    (u : ℚ) : Nat × BLACKQueueDisc :=
  let prob1 : ℚ := CalculatePNew M s
  let s1 : BLACKQueueDisc := { s with m_vProb := ModifyP M s prob1 item.size }
  if s1.m_cautious = 1 ∧
      (qSize : ℚ) <
        M.fl (M.pow (M.fl (1 - s1.m_qW)) (M.fl (s1.m_ptc * M.fl (5 / 100))) * s1.m_qAvg) then
    (0, s1)
  else
    let s2 : BLACKQueueDisc := { s1 with m_uvDraws := s1.m_uvDraws + 1 }
    let u1 : ℚ :=
      if s2.m_cautious = 2 then
        let fraction : ℚ := M.pow (M.fl (1 - s2.m_qW)) (M.fl (s2.m_ptc * M.fl (5 / 100)))
        let ratioQ : ℚ := M.fl ((qSize : ℚ) / M.fl (fraction * s2.m_qAvg))
        if ratioQ < 1 then M.fl (u * M.fl (1 / ratioQ)) else u
      else u
    if u1 ≤ s2.m_vProb then (1, { s2 with m_count := 0, m_countBytes := 0 })
    else (0, s2)

/-- Lines 292-310 of `DoEnqueue`: number `m` of packets that would have arrived
during the idle period. -/
def idleArrivals (M : Machine) (s : BLACKQueueDisc) (now : Int) : Nat :=
  if s.m_idle = 1 then
    if s.m_cautious = 3 then
      toUint32 (M.fl (M.fl (M.fl (s.m_ptc * (s.m_meanPktSize : ℚ)) / (s.m_idlePktSize : ℚ)) *
        GetSeconds M (now - s.m_idleTime)))
    else toUint32 (M.fl (s.m_ptc * GetSeconds M (now - s.m_idleTime)))
  else 0

/-- Lines 289-319 of `DoEnqueue`: the idle flag is cleared, the average is replaced
by the value of `Estimator` called with `m + 1`, and the counters are advanced. -/
def afterEstimate (M : Machine) (s : BLACKQueueDisc) (item : QueueDiscItem) (now : Int) :
    BLACKQueueDisc :=
  let nQueued : Nat := s.m_queue.GetCurrentSize
  let m : Nat := idleArrivals M s now
  let s1 : BLACKQueueDisc := if s.m_idle = 1 then { s with m_idle := 0 } else s
  let est := Estimator M s1 now nQueued (wrap32 (m + 1)) s1.m_qAvg s1.m_qW
  let s2 : BLACKQueueDisc := { est.2 with m_qAvg := est.1 }
  { s2 with m_count := wrap32 (s2.m_count + 1)
            m_countBytes := wrap32 (s2.m_countBytes + item.size) }

/-- Test of line 324 of `DoEnqueue`: the average lies in the forced region. -/
def inForcedRegion (M : Machine) (s : BLACKQueueDisc) : Prop :=
  (s.m_isGentle = false ∧ s.m_qAvg ≥ s.m_maxTh) ∨
    (s.m_isGentle = true ∧ s.m_qAvg ≥ M.fl (2 * s.m_maxTh))

instance (M : Machine) (s : BLACKQueueDisc) : Decidable (inForcedRegion M s) := by
  unfold inForcedRegion; infer_instance

/-- Lines 321-352 of `DoEnqueue`: the drop type chosen for the arrival. -/
def classify (M : Machine) (s : BLACKQueueDisc) (item : QueueDiscItem) (nQueued : Nat)
    (u : ℚ) : DropType × BLACKQueueDisc :=
  if s.m_qAvg ≥ s.m_minTh ∧ nQueued > 1 then
    if inForcedRegion M s then (DropType.DTYPE_FORCED, s)
    else if s.m_old = 0 then
      (DropType.DTYPE_NONE, { s with m_count := 1, m_countBytes := item.size, m_old := 1 })
    else if (DropEarly M s item nQueued u).1 ≠ 0 then
      (DropType.DTYPE_UNFORCED, (DropEarly M s item nQueued u).2)
    else (DropType.DTYPE_NONE, (DropEarly M s item nQueued u).2)
  else (DropType.DTYPE_NONE, { s with m_vProb := 0, m_old := 0 })

/-- Embedding of `BLACKQueueDisc::DoEnqueue`: return value and state afterwards. The
last stage, which acts on the drop type, has no arithmetic on `double`. -/
def DoEnqueue (M : Machine) (s : BLACKQueueDisc) (item : QueueDiscItem) (now : Int)
    (u : ℚ) : Bool × BLACKQueueDisc :=
  let nQueued : Nat := s.m_queue.GetCurrentSize
  let s1 : BLACKQueueDisc := afterEstimate M s item now
  let c := classify M s1 item nQueued u
  act c.2 item c.1

/-- State after one operation. -/
def step (M : Machine) (s : BLACKQueueDisc) : Op → BLACKQueueDisc
  | Op.enqueue item now u => (DoEnqueue M s item now u).2
  | Op.dequeue now => (DoDequeue s now).2

/-- State after a sequence of operations. -/
def run (M : Machine) (s : BLACKQueueDisc) (ops : List Op) : BLACKQueueDisc :=
  ops.foldl (step M) s

/-- Largest instantaneous queue length sampled by the enqueue attempts of a
sequence of operations started in `s` (zero when there is none). -/
def maxSampled (M : Machine) (s : BLACKQueueDisc) : List Op → Nat
  | [] => 0
  | Op.enqueue item now u :: rest =>
    max s.m_queue.GetCurrentSize (maxSampled M (step M s (Op.enqueue item now u)) rest)
  | Op.dequeue now :: rest => maxSampled M (step M s (Op.dequeue now)) rest

/-- The coefficients of `s` are those `InitializeParams` derives from the thresholds
of `s` and from a maximum probability `c0`. -/
def CoeffsDerived (M : Machine) (s : BLACKQueueDisc) (c0 : ℚ) : Prop :=
  s.m_vA = M.fl (1 / thDiff M s) ∧ s.m_vB = M.fl (-s.m_minTh / thDiff M s) ∧
  (s.m_isGentle = true →
    s.m_vC = M.fl (M.fl (1 - c0) / s.m_maxTh) ∧ s.m_vD = M.fl (M.fl (2 * c0) - 1))

instance (M : Machine) (s : BLACKQueueDisc) (c0 : ℚ) :
    Decidable (CoeffsDerived M s c0) := by
  unfold CoeffsDerived; infer_instance

/-- Conversion of the attribute values of a configuration to `double`. -/
def configured (M : Machine) (c : BLACKQueueDisc) : BLACKQueueDisc :=
  { c with m_minTh := M.fl c.m_minTh, m_maxTh := M.fl c.m_maxTh, m_qW := M.fl c.m_qW
           m_lInterm := M.fl c.m_lInterm, m_top := M.fl c.m_top, m_bottom := M.fl c.m_bottom
           m_alpha := M.fl c.m_alpha, m_beta := M.fl c.m_beta, m_b := M.fl c.m_b
           m_a := M.fl c.m_a }

/-- Start-up of a configured disc as done by `QueueDisc::Initialize`: the attribute
values become `double`s, then `CheckConfig` and `InitializeParams` run. -/
def started (M : Machine) (c : BLACKQueueDisc) : BLACKQueueDisc :=
  (InitializeParams M (CheckConfig (configured M c)).2).getD c

/-- The disc started with every attribute at its default, in `binary64`. -/
def defaultDisc : BLACKQueueDisc := started ieee attributeDefaults

/-- The default disc after three arrivals and four dequeue calls at time zero, in
`binary64`: the buffer is empty again, the disc is idle and the average is positive. -/
def idleAfterTraffic : BLACKQueueDisc :=
  run ieee defaultDisc
    [Op.enqueue (pkt 500) 0 1, Op.enqueue (pkt 500) 0 1, Op.enqueue (pkt 500) 0 1,
     Op.dequeue 0, Op.dequeue 0, Op.dequeue 0, Op.dequeue 0]

/-- The disc started with an idle packet size of 100 bytes, after one packet went
through it and a further dequeue call at time zero found it empty, in `binary64`. -/
def idlePktDisc : BLACKQueueDisc :=
  run ieee (started ieee { attributeDefaults with m_idlePktSize := 100 })
    [Op.enqueue (pkt 500) 0 1, Op.dequeue 0, Op.dequeue 0]

/-- The default configuration with `QW = 0.333`, started in `binary64`. -/
def overshootDisc : BLACKQueueDisc :=
  started ieee { attributeDefaults with m_qW := 333 / 1000 }

/-- Four arrivals, which sample the queue lengths `0` to `3`, followed by 88 rounds
of one dequeue call and one arrival, each of which samples the length `3`; all at
time zero. -/
def overshootOps : List Op :=
  List.replicate 4 (Op.enqueue (pkt 500) 0 1) ++
    (List.replicate 88 [Op.dequeue 0, Op.enqueue (pkt 500) 0 1]).flatten

/-- The default disc holding ten packets with average ten and the crossing flag set,
in `binary64`: a state of the early region. -/
def earlyRegionDisc : BLACKQueueDisc :=
  { withBacklog defaultDisc 10 (pkt 500) 10 with m_old := 1 }

/-- A disc with room for two packets: the default configuration with `MaxSize = 2p`,
`MinTh = 2`, `MaxTh = 6` and `QW = 1`, started in `binary64`. -/
def smallBufferDisc : BLACKQueueDisc :=
  started ieee { attributeDefaults with
    m_maxSize := { unit := QueueSizeUnit.PACKETS, value := 2 }
    m_minTh := 2, m_maxTh := 6, m_qW := 1 }

/-- The disc `smallBufferDisc` after two arrivals at time zero: the buffer is full, the
average is one and the crossing flag is clear. -/
def fullAtCrossing : BLACKQueueDisc :=
  run ieee smallBufferDisc [Op.enqueue (pkt 500) 0 1, Op.enqueue (pkt 500) 0 1]

/-- The disc `fullAtCrossing` after a third arrival, which crossed the minimum
threshold: the buffer is still full and the crossing flag is set. -/
def fullInEarlyRegion : BLACKQueueDisc :=
  (DoEnqueue ieee fullAtCrossing (pkt 500) 0 1).2

end Rounded

end BLACKQueueDisc

end ns3

namespace ns3

namespace BLACKQueueDisc

/-! Frame lemmas shared by the results on `DoEnqueue` and `DoDequeue`. -/

/-- The first stage of `DoEnqueue` rewrites the idle flag, the average and the two
counters as stated, possibly adapts `m_curMaxP`, `m_lastSet` and `m_fengStatus`,
and leaves every other member alone. -/
theorem afterEstimate_eq (s : BLACKQueueDisc) (item : QueueDiscItem) (now : Int) :
    ∃ (c : ℚ) (l : Int) (f : FengStatus),
      afterEstimate s item now =
        { s with
          m_idle := if s.m_idle = 1 then 0 else s.m_idle
          m_qAvg := s.m_qAvg * (1 - s.m_qW) ^ wrap32 (idleArrivals s now + 1) +
            s.m_qW * (s.m_queue.GetCurrentSize : ℚ)
          m_count := wrap32 (s.m_count + 1)
          m_countBytes := wrap32 (s.m_countBytes + item.size)
          m_curMaxP := c
          m_lastSet := l
          m_fengStatus := f } := by
  unfold afterEstimate Estimator UpdateMaxP UpdateMaxPFeng
  by_cases hi : s.m_idle = 1 <;> simp only [hi, if_true, if_false] <;>
    split_ifs <;> exact ⟨_, _, _, rfl⟩

/-- Members written by `DropEarly`: the counters, the stored probability and the
position in the random stream. -/
theorem DropEarly_eq (pow : ℚ → ℚ → ℚ) (s : BLACKQueueDisc) (item : QueueDiscItem)
    (n : Nat) (u : ℚ) :
    ∃ (cnt cb : Nat) (v : ℚ) (d : Nat),
      (DropEarly pow s item n u).2 =
        { s with m_count := cnt, m_countBytes := cb, m_vProb := v, m_uvDraws := d } := by
  unfold DropEarly
  simp only
  split_ifs <;> exact ⟨_, _, _, _, rfl⟩

/-- The second stage of `DoEnqueue` only writes the counters, the crossing flag,
the stored probability and the position in the random stream. -/
theorem classify_eq (pow : ℚ → ℚ → ℚ) (s : BLACKQueueDisc) (item : QueueDiscItem)
    (n : Nat) (u : ℚ) :
    ∃ (cnt cb o : Nat) (v : ℚ) (d : Nat),
      (classify pow s item n u).2 =
        { s with m_count := cnt, m_countBytes := cb, m_old := o, m_vProb := v,
                 m_uvDraws := d } := by
  obtain ⟨cnt, cb, v, d, hd⟩ := DropEarly_eq pow s item n u
  unfold classify
  by_cases hg : s.m_qAvg ≥ s.m_minTh ∧ n > 1
  · rw [if_pos hg]
    by_cases hf : inForcedRegion s
    · rw [if_pos hf]; exact ⟨_, _, _, _, _, rfl⟩
    · rw [if_neg hf]
      by_cases ho : s.m_old = 0
      · rw [if_pos ho]; exact ⟨_, _, _, _, _, rfl⟩
      · rw [if_neg ho]
        by_cases hh : (DropEarly pow s item n u).1 ≠ 0
        · rw [if_pos hh]; exact ⟨cnt, cb, s.m_old, v, d, by rw [hd]⟩
        · rw [if_neg hh]; exact ⟨cnt, cb, s.m_old, v, d, by rw [hd]⟩
  · rw [if_neg hg]; exact ⟨_, _, _, _, _, rfl⟩

/-- The last stage of `DoEnqueue` only writes the counters, the statistics and
the buffer. -/
theorem act_eq (s : BLACKQueueDisc) (item : QueueDiscItem) (d : DropType) :
    ∃ (cnt cb : Nat) (st : List Event) (q : InternalQueue),
      (act s item d).2 =
        { s with m_count := cnt, m_countBytes := cb, m_stats := st, m_queue := q } := by
  unfold act Mark EnqueueInternal DropBeforeEnqueue
  cases d <;> simp only <;> split_ifs <;> exact ⟨_, _, _, _, rfl⟩

/-- Members written by `DoEnqueue`: every other member keeps its value, the idle
flag is cleared and the average is the one computed by the first stage. -/
theorem DoEnqueue_eq (pow : ℚ → ℚ → ℚ) (s : BLACKQueueDisc) (item : QueueDiscItem)
    (now : Int) (u : ℚ) :
    ∃ (c : ℚ) (l : Int) (f : FengStatus) (cnt cb o : Nat) (v : ℚ) (d : Nat)
      (st : List Event) (q : InternalQueue),
      (DoEnqueue pow s item now u).2 =
        { s with
          m_idle := if s.m_idle = 1 then 0 else s.m_idle
          m_qAvg := s.m_qAvg * (1 - s.m_qW) ^ wrap32 (idleArrivals s now + 1) +
            s.m_qW * (s.m_queue.GetCurrentSize : ℚ)
          m_curMaxP := c, m_lastSet := l, m_fengStatus := f
          m_count := cnt, m_countBytes := cb, m_old := o, m_vProb := v, m_uvDraws := d
          m_stats := st, m_queue := q } := by
  obtain ⟨c, l, f, he⟩ := afterEstimate_eq s item now
  obtain ⟨cnt, cb, o, v, d, hc⟩ :=
    classify_eq pow (afterEstimate s item now) item s.m_queue.GetCurrentSize u
  obtain ⟨cnt2, cb2, st, q, ha⟩ :=
    act_eq (classify pow (afterEstimate s item now) item s.m_queue.GetCurrentSize u).2 item
      (classify pow (afterEstimate s item now) item s.m_queue.GetCurrentSize u).1
  refine ⟨c, l, f, cnt2, cb2, o, v, d, st, q, ?_⟩
  show (act _ item _).2 = _
  rw [ha, hc, he]

/-- Members written by `DoDequeue`. -/
theorem DoDequeue_eq (s : BLACKQueueDisc) (now : Int) :
    ∃ (i : Nat) (t : Int) (q : InternalQueue),
      (DoDequeue s now).2 = { s with m_idle := i, m_idleTime := t, m_queue := q } := by
  unfold DoDequeue
  split_ifs <;> exact ⟨_, _, _, rfl⟩

/-- Configuration members survive `DoEnqueue`. -/
theorem DoEnqueue_sameConfig (pow : ℚ → ℚ → ℚ) (s : BLACKQueueDisc) (item : QueueDiscItem)
    (now : Int) (u : ℚ) : SameConfig s (DoEnqueue pow s item now u).2 := by
  obtain ⟨c, l, f, cnt, cb, o, v, d, st, q, h⟩ := DoEnqueue_eq pow s item now u
  rw [h]
  exact ⟨rfl, rfl, rfl, rfl, rfl, rfl, rfl, rfl, rfl, rfl, rfl⟩

/-- Configuration members survive `DoDequeue`. -/
theorem DoDequeue_sameConfig (s : BLACKQueueDisc) (now : Int) :
    SameConfig s (DoDequeue s now).2 := by
  obtain ⟨i, t, q, h⟩ := DoDequeue_eq s now
  rw [h]
  exact ⟨rfl, rfl, rfl, rfl, rfl, rfl, rfl, rfl, rfl, rfl, rfl⟩

/-- Configuration members survive every sequence of operations. -/
theorem run_sameConfig (pow : ℚ → ℚ → ℚ) (ops : List Op) :
    ∀ s : BLACKQueueDisc, SameConfig s (run pow s ops) := by
  induction ops with
  | nil => intro s; exact ⟨rfl, rfl, rfl, rfl, rfl, rfl, rfl, rfl, rfl, rfl, rfl⟩
  | cons op rest ih =>
    intro s
    have h1 : SameConfig s (step pow s op) := by
      cases op with
      | enqueue item now u => exact DoEnqueue_sameConfig pow s item now u
      | dequeue now => exact DoDequeue_sameConfig s now
    have h2 := ih (step pow s op)
    obtain ⟨a1, a2, a3, a4, a5, a6, a7, a8, a9, a10, a11⟩ := h1
    obtain ⟨b1, b2, b3, b4, b5, b6, b7, b8, b9, b10, b11⟩ := h2
    show SameConfig s (run pow (step pow s op) rest)
    exact ⟨b1.trans a1, b2.trans a2, b3.trans a3, b4.trans a4, b5.trans a5, b6.trans a6,
      b7.trans a7, b8.trans a8, b9.trans a9, b10.trans a10, b11.trans a11⟩

/-- A refused item leaves the buffer as it was. -/
theorem InternalQueue_Enqueue_refused (q : InternalQueue) (item : QueueDiscItem)
    (h : ¬ (q.Enqueue item).1 = true) : (q.Enqueue item).2 = q := by
  unfold InternalQueue.Enqueue at h ⊢
  by_cases hc : q.GetCurrentSize + q.weight item > q.maxSize.value
  · simp [hc]
  · simp [hc] at h

/-- An accepted item is appended at the tail of the buffer. -/
theorem InternalQueue_Enqueue_accepted (q : InternalQueue) (item : QueueDiscItem)
    (h : (q.Enqueue item).1 = true) : (q.Enqueue item).2.items = q.items ++ [item] := by
  unfold InternalQueue.Enqueue at h ⊢
  by_cases hc : q.GetCurrentSize + q.weight item > q.maxSize.value
  · simp [hc] at h
  · simp [hc]

/-- A non-negative value whose integer part fits in 32 bits converts to that
integer part. -/
theorem toUint32_eq_floor (x : ℚ) (h0 : 0 ≤ x) (h1 : ⌊x⌋ < 4294967296) :
    toUint32 x = ⌊x⌋.toNat := by
  unfold toUint32
  have hf : 0 ≤ ⌊x⌋ := Int.floor_nonneg.mpr h0
  rw [Int.tdiv_eq_ediv (Rat.num_nonneg.mpr h0) (Int.natCast_nonneg _), ← Rat.floor_def,
    Int.emod_eq_of_lt hf h1]

/-- A positive average that is decayed at least once and receives a zero sample
does not keep its value. -/
theorem decayed_ne (a q : ℚ) (n : ℕ) (ha : 0 < a) (hq0 : 0 < q) (hq1 : q < 1) (hn : n ≠ 0) :
    a ≠ a * (1 - q) ^ n + q * ((0 : ℕ) : ℚ) := by
  have hp : (1 - q) ^ n < 1 := pow_lt_one₀ (by linarith) (by linarith) hn
  have hlt : a * (1 - q) ^ n < a := mul_lt_of_lt_one_right ha hp
  intro h
  rw [Nat.cast_zero, mul_zero, add_zero] at h
  linarith

/-- An empty buffer has size zero in either unit. -/
theorem GetCurrentSize_of_empty (q : InternalQueue) (h : q.items = []) :
    q.GetCurrentSize = 0 := by
  unfold InternalQueue.GetCurrentSize InternalQueue.GetNPackets InternalQueue.GetNBytes
  cases q.maxSize.unit <;> simp [h]

/-- A call of `DoDequeue` keeps the average and leaves an idle disc with an empty buffer. -/
theorem DoDequeue_average (s : BLACKQueueDisc) (now : Int) :
    (DoDequeue s now).2.m_qAvg = s.m_qAvg ∧
    ((DoDequeue s now).2.m_idle = 1 → (DoDequeue s now).2.m_queue.items = []) := by
  unfold DoDequeue
  by_cases he : s.m_queue.IsEmpty = true
  · rw [if_pos he]
    refine ⟨rfl, fun _ => ?_⟩
    simpa [InternalQueue.IsEmpty] using he
  · rw [if_neg he]
    exact ⟨rfl, fun h => absurd (show (0 : Nat) = 1 from h) (by decide)⟩

/-! Start-up of the disc. -/

/-- Members written by lines 403-421 of `InitializeParams`. -/
theorem initModes_eq (c : BLACKQueueDisc) :
    ∃ (a b w : ℚ) (p : Bool) (f : FengStatus),
      initModes c =
        { c with m_cautious := 0
                 m_ptc := (c.m_linkBandwidth : ℚ) / (8 * (c.m_meanPktSize : ℚ))
                 m_minTh := a, m_maxTh := b, m_qW := w, m_isAdaptMaxP := p
                 m_fengStatus := f } := by
  unfold initModes
  by_cases h1 : c.m_isABLACK = true <;> by_cases h2 : c.m_isFengAdaptive = true <;>
    simp only [h1, h2, if_true, if_false] <;> exact ⟨_, _, _, _, _, rfl⟩

/-- Members written by the first stage of `InitializeParams`. -/
theorem initThresholds_eq (c : BLACKQueueDisc) :
    ∃ (a b w : ℚ) (p : Bool) (f : FengStatus),
      initThresholds c =
        { c with m_cautious := 0
                 m_ptc := (c.m_linkBandwidth : ℚ) / (8 * (c.m_meanPktSize : ℚ))
                 m_minTh := a, m_maxTh := b, m_qW := w, m_isAdaptMaxP := p
                 m_fengStatus := f } := by
  obtain ⟨a, b, w, p, f, h⟩ := initModes_eq c
  unfold initThresholds
  simp only
  split_ifs <;> (rw [h]; exact ⟨_, _, _, _, _, rfl⟩)

/-- Members written by the second stage of `InitializeParams`, with the values of
the linear coefficients and, in gentle mode, of the gentle coefficients. -/
theorem initCoefficients_eq (t : BLACKQueueDisc) :
    ∃ (vC vD : ℚ),
      initCoefficients t =
        { t with m_qAvg := 0, m_count := 0, m_countBytes := 0, m_old := 0, m_idle := 1
                 m_vA := 1 / thDiff t, m_curMaxP := 1 / t.m_lInterm
                 m_vB := -t.m_minTh / thDiff t, m_vC := vC, m_vD := vD, m_idleTime := 0 } ∧
      (t.m_isGentle = true →
        vC = (1 - 1 / t.m_lInterm) / t.m_maxTh ∧ vD = 2 * (1 / t.m_lInterm) - 1) := by
  unfold initCoefficients thDiff
  by_cases hg : t.m_isGentle = true
  · simp only [hg, if_true]
    exact ⟨_, _, rfl, fun _ => ⟨rfl, rfl⟩⟩
  · simp only [hg, if_false]
    exact ⟨_, _, rfl, fun h => absurd h (by decide)⟩

/-- Member written by the third stage of `InitializeParams`. -/
theorem initWeight_eq (exp : ℚ → ℚ) (s : BLACKQueueDisc) :
    ∃ w : ℚ, initWeight exp s = { s with m_qW := w } := by
  unfold initWeight
  split_ifs <;> exact ⟨_, rfl⟩

/-- Member written by the last stage of `InitializeParams`. -/
theorem initBottom_eq (s : BLACKQueueDisc) :
    ∃ b : ℚ, initBottom s = { s with m_bottom := b } := by
  unfold initBottom
  split_ifs <;> exact ⟨_, rfl⟩

/-- State established by a successful `InitializeParams`: zero average, idle disc,
untouched buffer, caution modes off, ordered thresholds, maximum probability
`1 / LInterm` and coefficients derived from it. -/
theorem InitializeParams_facts (exp : ℚ → ℚ) (c s : BLACKQueueDisc)
    (h : InitializeParams exp c = some s) :
    s.m_qAvg = 0 ∧ s.m_idle = 1 ∧ s.m_queue = c.m_queue ∧ s.m_cautious = 0 ∧
    s.m_minTh ≤ s.m_maxTh ∧ s.m_curMaxP = 1 / c.m_lInterm ∧
    CoeffsDerived s (1 / c.m_lInterm) := by
  unfold InitializeParams at h
  by_cases hle : (initThresholds c).m_minTh ≤ (initThresholds c).m_maxTh
  · rw [if_pos hle] at h
    have hs : s = initBottom (initWeight exp (initCoefficients (initThresholds c))) :=
      (Option.some.inj h).symm
    obtain ⟨a, b, w, p, f, h1⟩ := initThresholds_eq c
    obtain ⟨vC, vD, h2, h2g⟩ := initCoefficients_eq (initThresholds c)
    obtain ⟨w', h3⟩ := initWeight_eq exp (initCoefficients (initThresholds c))
    obtain ⟨b', h4⟩ := initBottom_eq (initWeight exp (initCoefficients (initThresholds c)))
    have hli : (initThresholds c).m_lInterm = c.m_lInterm := by rw [h1]
    have hq : (initThresholds c).m_queue = c.m_queue := by rw [h1]
    have hca : (initThresholds c).m_cautious = 0 := by rw [h1]
    rw [hs, h4, h3, h2]
    refine ⟨rfl, rfl, hq, hca, hle, ?_, ?_, ?_, ?_⟩
    · show 1 / (initThresholds c).m_lInterm = 1 / c.m_lInterm
      rw [hli]
    · rfl
    · rfl
    · intro hg
      have := h2g hg
      rw [hli] at this
      exact this
  · rw [if_neg hle] at h
    exact absurd h (by simp)

/-! Bounds on the average and shape of the base probability. -/

/-- C7, evaluation of the code at the failing input. The state `adaptedState` is
reached from a started disc (gentle mode and `AdaptMaxP` on, `QW = 1`) by sixteen
arrivals. Its average equals `maxTh = 15`, and the first arrival let the adaptive
control lower `m_curMaxP` from `1 / 50` to `9 / 500`. `CalculatePNew` still returns
`1 / 50`, the value of the ramp through the initial maximum probability, and not the
current `m_curMaxP`: the gentle coefficients are computed once by `InitializeParams`
and never recomputed. -/
theorem calculatePNew_gentle_ignores_adapted_maxP :
    adaptedState.m_isGentle = true ∧ adaptedState.m_qAvg = adaptedState.m_maxTh ∧
    adaptedState.m_maxTh = 15 ∧ adaptiveDisc.m_curMaxP = 1 / 50 ∧
    adaptedState.m_curMaxP = 9 / 500 ∧ CalculatePNew adaptedState = 1 / 50 ∧
    CalculatePNew adaptedState ≠
      adaptedState.m_curMaxP +
        (1 - adaptedState.m_curMaxP) * (adaptedState.m_qAvg - adaptedState.m_maxTh) /
          adaptedState.m_maxTh := by
  decide!

/-! Modified probability. -/

/-- The final clamp of the probability functions is a minimum with one. -/
theorem cap_eq_min (x : ℚ) : (if x > 1 then 1 else x) = min 1 x := by
  by_cases h : x > 1
  · rw [if_pos h, min_eq_left (le_of_lt h)]
  · rw [if_neg h, min_eq_right (not_lt.mp h)]

/-- The source of `ModifyP` in terms of the amplified probability of the
specification: scaling by the size in byte mode when the amplified probability is
below one, then the clamp. -/
theorem ModifyP_eq_spec (s : BLACKQueueDisc) (p : ℚ) (size : Nat) :
    ModifyP s p size =
      min 1
        (if s.m_maxSize.unit = QueueSizeUnit.BYTES ∧
            specAmplified s.m_isWait
              (if s.m_maxSize.unit = QueueSizeUnit.BYTES then
                ((s.m_countBytes / s.m_meanPktSize : Nat) : ℚ) else (s.m_count : ℚ)) p < 1
          then
            specAmplified s.m_isWait
              (if s.m_maxSize.unit = QueueSizeUnit.BYTES then
                ((s.m_countBytes / s.m_meanPktSize : Nat) : ℚ) else (s.m_count : ℚ)) p *
              (size : ℚ) / (s.m_meanPktSize : ℚ)
          else
            specAmplified s.m_isWait
              (if s.m_maxSize.unit = QueueSizeUnit.BYTES then
                ((s.m_countBytes / s.m_meanPktSize : Nat) : ℚ) else (s.m_count : ℚ)) p) := by
  unfold ModifyP specAmplified
  simp only
  rw [cap_eq_min]

/-- C13. For every base probability `p ≥ 0` (in particular in `[0, 1]`), every value
of the counters, every item size and a positive mean packet size, in wait and
non-wait mode and in packet and byte mode, the probability returned by `ModifyP`
lies in `[0, 1]`. -/
theorem modifyP_in_unit_interval (s : BLACKQueueDisc) (p : ℚ) (size : Nat)
    (hp0 : 0 ≤ p) (hp1 : p ≤ 1) (hmean : 0 < s.m_meanPktSize) :
    0 ≤ ModifyP s p size ∧ ModifyP s p size ≤ 1 := by
  have _ := hp1
  have _ := hmean
  rw [ModifyP_eq_spec]
  refine ⟨le_min (by norm_num) ?_, min_le_left _ _⟩
  have hamp : ∀ n : ℚ, 0 ≤ specAmplified s.m_isWait n p := by
    intro n
    unfold specAmplified
    split_ifs with h1 h2 h3 h4
    · exact le_refl _
    · exact div_nonneg hp0 (by linarith)
    · norm_num
    · exact div_nonneg hp0 (by linarith)
    · norm_num
  split_ifs <;>
    first
    | exact hamp _
    | exact div_nonneg (mul_nonneg (hamp _) (Nat.cast_nonneg _)) (Nat.cast_nonneg _)

/-- C13, instance: byte mode, 1500 bytes counted, base probability `1 / 2`, an item
of 100 bytes. -/
theorem modifyP_in_unit_interval_witness :
    ((0 : ℚ) ≤ 1 / 2 ∧ (1 / 2 : ℚ) ≤ 1 ∧ 0 < byteModeDisc.m_meanPktSize) ∧
    0 ≤ ModifyP byteModeDisc (1 / 2) 100 ∧ ModifyP byteModeDisc (1 / 2) 100 ≤ 1 :=
  ⟨by decide!, modifyP_in_unit_interval byteModeDisc (1 / 2) 100 (by decide!) (by decide!)
    (by decide!)⟩

/-! Adaptive control of the maximum probability. -/

/-- C15, evaluation of the code at the failing input. The default configuration with
`AdaptMaxP` on receives one arrival per second; every sampled average stays below
`minTh + margin = 9`, so every arrival multiplies `m_curMaxP` by `beta = 9 / 10`.
After forty arrivals `m_curMaxP` is still within `[bottom, top]`, with
`bottom = 1 / 3750`; the forty-first arrival multiplies it once more and leaves it
below `bottom`. -/
theorem updateMaxP_crosses_below_bottom :
    (run pow0 aimdDisc (arrivalsEverySecond 40)).m_isAdaptMaxP = true ∧
    0 < (run pow0 aimdDisc (arrivalsEverySecond 40)).m_beta ∧
    (run pow0 aimdDisc (arrivalsEverySecond 40)).m_beta ≤ 1 ∧
    0 ≤ (run pow0 aimdDisc (arrivalsEverySecond 40)).m_alpha ∧
    (run pow0 aimdDisc (arrivalsEverySecond 40)).m_bottom = 1 / 3750 ∧
    (run pow0 aimdDisc (arrivalsEverySecond 40)).m_bottom ≤
      (run pow0 aimdDisc (arrivalsEverySecond 40)).m_curMaxP ∧
    (run pow0 aimdDisc (arrivalsEverySecond 40)).m_curMaxP ≤
      (run pow0 aimdDisc (arrivalsEverySecond 40)).m_top ∧
    (run pow0 aimdDisc (arrivalsEverySecond 41)).m_qAvg <
      (run pow0 aimdDisc (arrivalsEverySecond 41)).m_minTh +
        (4 / 10) * ((run pow0 aimdDisc (arrivalsEverySecond 41)).m_maxTh -
          (run pow0 aimdDisc (arrivalsEverySecond 41)).m_minTh) ∧
    (run pow0 aimdDisc (arrivalsEverySecond 41)).m_curMaxP =
      (run pow0 aimdDisc (arrivalsEverySecond 40)).m_curMaxP * (9 / 10) ∧
    (run pow0 aimdDisc (arrivalsEverySecond 41)).m_curMaxP <
      (run pow0 aimdDisc (arrivalsEverySecond 41)).m_bottom := by
  decide!

/-- Members written by `DoEnqueue` after its first stage: the control members and
the average are those left by the first stage. -/
theorem DoEnqueue_after (pow : ℚ → ℚ → ℚ) (s : BLACKQueueDisc) (item : QueueDiscItem)
    (now : Int) (u : ℚ) :
    ∃ (cnt cb o : Nat) (v : ℚ) (d : Nat) (st : List Event) (q : InternalQueue),
      (DoEnqueue pow s item now u).2 =
        { afterEstimate s item now with
          m_count := cnt, m_countBytes := cb, m_old := o, m_vProb := v, m_uvDraws := d
          m_stats := st, m_queue := q } := by
  obtain ⟨cnt, cb, o, v, d, hc⟩ :=
    classify_eq pow (afterEstimate s item now) item s.m_queue.GetCurrentSize u
  obtain ⟨cnt2, cb2, st, q, ha⟩ :=
    act_eq (classify pow (afterEstimate s item now) item s.m_queue.GetCurrentSize u).2 item
      (classify pow (afterEstimate s item now) item s.m_queue.GetCurrentSize u).1
  refine ⟨cnt2, cb2, o, v, d, st, q, ?_⟩
  show (act _ item _).2 = _
  rw [ha, hc]

/-- The first stage of `DoEnqueue` either keeps `m_lastSet` or, when the adaptation
interval has elapsed, sets it to the current time; it keeps `m_interval`. -/
theorem afterEstimate_lastSet (s : BLACKQueueDisc) (item : QueueDiscItem) (now : Int) :
    (afterEstimate s item now).m_interval = s.m_interval ∧
    ((afterEstimate s item now).m_lastSet = s.m_lastSet ∨
      ((afterEstimate s item now).m_lastSet = now ∧ now > s.m_lastSet + s.m_interval)) := by
  unfold afterEstimate Estimator UpdateMaxP UpdateMaxPFeng
  by_cases hi : s.m_idle = 1 <;> simp only [hi, if_true, if_false] <;>
    split_ifs with h1 h2 h3 <;> simp_all

/-- One operation keeps `m_interval`, and either keeps `m_lastSet` or sets it to its
own time, which then lies more than one interval after the value kept so far. -/
theorem step_lastSet (pow : ℚ → ℚ → ℚ) (s : BLACKQueueDisc) (op : Op) :
    (step pow s op).m_interval = s.m_interval ∧
    ((step pow s op).m_lastSet = s.m_lastSet ∨
      ((step pow s op).m_lastSet = op.time ∧ s.m_lastSet + s.m_interval < op.time)) := by
  cases op with
  | enqueue item now u =>
    obtain ⟨cnt, cb, o, v, d, st, q, hafter⟩ := DoEnqueue_after pow s item now u
    obtain ⟨hint, hls⟩ := afterEstimate_lastSet s item now
    have hI : (step pow s (Op.enqueue item now u)).m_interval = s.m_interval := by
      show (DoEnqueue pow s item now u).2.m_interval = _
      rw [hafter]; exact hint
    have hL : (step pow s (Op.enqueue item now u)).m_lastSet =
        (afterEstimate s item now).m_lastSet := by
      show (DoEnqueue pow s item now u).2.m_lastSet = _
      rw [hafter]
    refine ⟨hI, ?_⟩
    rw [hL]
    rcases hls with h | ⟨h, hgt⟩
    · exact Or.inl h
    · exact Or.inr ⟨h, hgt⟩
  | dequeue now =>
    obtain ⟨i, t0, q, hd⟩ := DoDequeue_eq s now
    refine ⟨?_, Or.inl ?_⟩
    · show (DoDequeue s now).2.m_interval = _
      rw [hd]
    · show (DoDequeue s now).2.m_lastSet = _
      rw [hd]

/-- With Feng's mode off, a first stage of `DoEnqueue` that changes `m_curMaxP` runs
more than one interval after `m_lastSet` and records the current time there. -/
theorem afterEstimate_maxP_changed (s : BLACKQueueDisc) (item : QueueDiscItem) (now : Int)
    (hfeng : s.m_isFengAdaptive = false)
    (hch : (afterEstimate s item now).m_curMaxP ≠ s.m_curMaxP) :
    s.m_lastSet + s.m_interval < now ∧ (afterEstimate s item now).m_lastSet = now := by
  revert hch
  unfold afterEstimate Estimator UpdateMaxP
  by_cases hi : s.m_idle = 1 <;> simp only [hi, hfeng, if_true, if_false] <;>
    split_ifs with h1 h2 h3 <;> simp_all

/-- With Feng's mode off, an operation that changes `m_curMaxP` is an arrival that
comes more than one interval after `m_lastSet` and records its time there: the
change was made by `UpdateMaxP`. -/
theorem step_maxP_changed (pow : ℚ → ℚ → ℚ) (s : BLACKQueueDisc) (op : Op)
    (hfeng : s.m_isFengAdaptive = false)
    (hch : (step pow s op).m_curMaxP ≠ s.m_curMaxP) :
    s.m_lastSet + s.m_interval < op.time ∧ (step pow s op).m_lastSet = op.time := by
  cases op with
  | enqueue item now u =>
    obtain ⟨cnt, cb, o, v, d, st, q, hafter⟩ := DoEnqueue_after pow s item now u
    have hC : (step pow s (Op.enqueue item now u)).m_curMaxP =
        (afterEstimate s item now).m_curMaxP := by
      show (DoEnqueue pow s item now u).2.m_curMaxP = _
      rw [hafter]
    have hL : (step pow s (Op.enqueue item now u)).m_lastSet =
        (afterEstimate s item now).m_lastSet := by
      show (DoEnqueue pow s item now u).2.m_lastSet = _
      rw [hafter]
    rw [hC] at hch
    rw [hL]
    exact afterEstimate_maxP_changed s item now hfeng hch
  | dequeue now =>
    obtain ⟨i, t0, q, hd⟩ := DoDequeue_eq s now
    exfalso
    apply hch
    show (DoDequeue s now).2.m_curMaxP = _
    rw [hd]

/-- One operation keeps the flag of Feng's mode. -/
theorem step_isFengAdaptive (pow : ℚ → ℚ → ℚ) (s : BLACKQueueDisc) (op : Op) :
    (step pow s op).m_isFengAdaptive = s.m_isFengAdaptive := by
  cases op with
  | enqueue item now u =>
    obtain ⟨c, l, f, cnt, cb, o, v, d, st, q, h⟩ := DoEnqueue_eq pow s item now u
    show (DoEnqueue pow s item now u).2.m_isFengAdaptive = _
    rw [h]
  | dequeue now =>
    obtain ⟨i, t0, q, hd⟩ := DoDequeue_eq s now
    show (DoDequeue s now).2.m_isFengAdaptive = _
    rw [hd]

/-- Every recorded time is the time of an operation of the sequence. -/
theorem timesWhere_subset (changed : BLACKQueueDisc → BLACKQueueDisc → Bool)
    (pow : ℚ → ℚ → ℚ) (ops : List Op) :
    ∀ (s : BLACKQueueDisc) (t : Int), t ∈ timesWhere changed pow s ops →
      t ∈ ops.map Op.time := by
  induction ops with
  | nil => intro s t h; simp [timesWhere] at h
  | cons op rest ih =>
    intro s t h
    simp only [timesWhere] at h
    split_ifs at h with hc
    · rcases List.mem_cons.mp h with h | h
      · rw [h]; exact List.mem_cons_self _ _
      · exact List.mem_cons_of_mem _ (ih _ t h)
    · exact List.mem_cons_of_mem _ (ih _ t h)

/-- Invariant behind the spacing of the adaptations. Let `changed` be a test that,
on the states satisfying a property kept by every operation, succeeds only for an
operation that comes more than one interval after `m_lastSet` and records its time
there. With a non-decreasing clock, every recorded time lies more than one interval
after the `m_lastSet` of the initial state, and the recorded times are pairwise more
than one interval apart. -/
theorem timesWhere_spaced (changed : BLACKQueueDisc → BLACKQueueDisc → Bool)
    (inv : BLACKQueueDisc → Prop) (pow : ℚ → ℚ → ℚ)
    (hinv : ∀ s op, inv s → inv (step pow s op))
    (hch : ∀ s op, inv s → changed s (step pow s op) = true →
      s.m_lastSet + s.m_interval < op.time ∧ (step pow s op).m_lastSet = op.time)
    (ops : List Op) :
    ∀ s : BLACKQueueDisc, inv s → List.Pairwise (· ≤ ·) (ops.map Op.time) →
      (∀ t ∈ timesWhere changed pow s ops, s.m_lastSet + s.m_interval < t) ∧
      List.Pairwise (fun a b => a + s.m_interval < b) (timesWhere changed pow s ops) := by
  induction ops with
  | nil => intro s _ _; simp [timesWhere]
  | cons op rest ih =>
    intro s hs hmono
    rw [List.map_cons, List.pairwise_cons] at hmono
    obtain ⟨hhead, htail⟩ := hmono
    obtain ⟨hI, hls⟩ := step_lastSet pow s op
    obtain ⟨ih1, ih2⟩ := ih (step pow s op) (hinv s op hs) htail
    rw [hI] at ih1 ih2
    have hlater : ∀ t ∈ timesWhere changed pow (step pow s op) rest,
        s.m_lastSet + s.m_interval < t := by
      intro t ht
      rcases hls with h | ⟨h, hgt⟩
      · have := ih1 t ht
        rw [h] at this
        exact this
      · have hle : op.time ≤ t := hhead t (timesWhere_subset changed pow rest _ t ht)
        exact lt_of_lt_of_le hgt hle
    simp only [timesWhere]
    by_cases hc : changed s (step pow s op) = true
    · rw [if_pos hc]
      obtain ⟨hgate, hnow⟩ := hch s op hs hc
      rw [hnow] at ih1
      refine ⟨?_, List.pairwise_cons.mpr ⟨ih1, ih2⟩⟩
      intro t ht
      rcases List.mem_cons.mp ht with h | h
      · rw [h]; exact hgate
      · exact hlater t h
    · rw [if_neg hc]
      exact ⟨hlater, ih2⟩

/-- C16. With a non-decreasing clock, for every sequence of enqueue attempts and
dequeue calls from any state: the operations that change `m_lastSet`, which
`UpdateMaxP` writes in the two branches that write `m_curMaxP` and which nothing
else writes, are pairwise more than the update interval apart; and when Feng's mode
is off, so that `UpdateMaxP` is the only control that writes `m_curMaxP`, the
operations after which `m_curMaxP` differs from its value before are pairwise more
than the update interval apart. A change is read off the states before and after
the operation, not off the test made by `Estimator`. -/
theorem aimd_changes_one_interval_apart (pow : ℚ → ℚ → ℚ) (s : BLACKQueueDisc)
    (ops : List Op) (hmono : List.Pairwise (· ≤ ·) (ops.map Op.time)) :
    List.Pairwise (fun a b => a + s.m_interval < b) (lastSetChangeTimes pow s ops) ∧
    (s.m_isFengAdaptive = false →
      List.Pairwise (fun a b => a + s.m_interval < b) (maxPChangeTimes pow s ops)) := by
  constructor
  · refine (timesWhere_spaced _ (fun _ => True) pow (fun _ _ _ => trivial) ?_ ops s trivial
      hmono).2
    intro t op _ hc
    have hne : (step pow t op).m_lastSet ≠ t.m_lastSet := of_decide_eq_true hc
    rcases (step_lastSet pow t op).2 with h | ⟨h, hgt⟩
    · exact absurd h hne
    · exact ⟨hgt, h⟩
  · intro hfeng
    refine (timesWhere_spaced _ (fun t => t.m_isFengAdaptive = false) pow ?_ ?_ ops s hfeng
      hmono).2
    · intro t op ht
      rw [step_isFengAdaptive]; exact ht
    · intro t op ht hc
      exact step_maxP_changed pow t op ht (of_decide_eq_true hc)

/-- C16, instance: the default configuration with `AdaptMaxP` on and an interval of
half a second receives arrivals at 1 s, 1.2 s, 1.4 s and 2 s; `m_curMaxP` and
`m_lastSet` change at 1 s and at 2 s only. -/
theorem aimd_changes_one_interval_apart_witness :
    List.Pairwise (· ≤ ·)
      ([Op.enqueue (pkt 500) 1000000000 1, Op.enqueue (pkt 500) 1200000000 1,
        Op.enqueue (pkt 500) 1400000000 1, Op.enqueue (pkt 500) 2000000000 1].map Op.time) ∧
    aimdDisc.m_isFengAdaptive = false ∧
    maxPChangeTimes pow0 aimdDisc
      [Op.enqueue (pkt 500) 1000000000 1, Op.enqueue (pkt 500) 1200000000 1,
        Op.enqueue (pkt 500) 1400000000 1, Op.enqueue (pkt 500) 2000000000 1] =
      [1000000000, 2000000000] ∧
    lastSetChangeTimes pow0 aimdDisc
      [Op.enqueue (pkt 500) 1000000000 1, Op.enqueue (pkt 500) 1200000000 1,
        Op.enqueue (pkt 500) 1400000000 1, Op.enqueue (pkt 500) 2000000000 1] =
      [1000000000, 2000000000] ∧
    List.Pairwise (fun a b => a + aimdDisc.m_interval < b)
      (lastSetChangeTimes pow0 aimdDisc
        [Op.enqueue (pkt 500) 1000000000 1, Op.enqueue (pkt 500) 1200000000 1,
          Op.enqueue (pkt 500) 1400000000 1, Op.enqueue (pkt 500) 2000000000 1]) ∧
    List.Pairwise (fun a b => a + aimdDisc.m_interval < b)
      (maxPChangeTimes pow0 aimdDisc
        [Op.enqueue (pkt 500) 1000000000 1, Op.enqueue (pkt 500) 1200000000 1,
          Op.enqueue (pkt 500) 1400000000 1, Op.enqueue (pkt 500) 2000000000 1]) :=
  ⟨by decide!, by decide!, by decide!, by decide!,
    (aimd_changes_one_interval_apart pow0 aimdDisc _ (by decide!)).1,
    (aimd_changes_one_interval_apart pow0 aimdDisc _ (by decide!)).2 (by decide!)⟩

/-- One step of Feng's control on a state with ordered thresholds: a sample
strictly between the thresholds records `Between`; a sample below `m_minTh` records
`Below` and divides `m_curMaxP` by `m_a` unless `Below` was recorded already; a
sample above `m_maxTh` records `Above` and multiplies `m_curMaxP` by `m_b` unless
`Above` was recorded already; a sample equal to a threshold changes nothing. -/
theorem UpdateMaxPFeng_step (s : BLACKQueueDisc) (x : ℚ) (hth : s.m_minTh ≤ s.m_maxTh) :
    (s.m_minTh < x → x < s.m_maxTh →
      UpdateMaxPFeng s x = { s with m_fengStatus := FengStatus.Between }) ∧
    (x < s.m_minTh →
      UpdateMaxPFeng s x =
        { s with m_fengStatus := FengStatus.Below
                 m_curMaxP := if s.m_fengStatus ≠ FengStatus.Below then s.m_curMaxP / s.m_a
                   else s.m_curMaxP }) ∧
    (x > s.m_maxTh →
      UpdateMaxPFeng s x =
        { s with m_fengStatus := FengStatus.Above
                 m_curMaxP := if s.m_fengStatus ≠ FengStatus.Above then s.m_curMaxP * s.m_b
                   else s.m_curMaxP }) ∧
    (x = s.m_minTh ∨ x = s.m_maxTh → UpdateMaxPFeng s x = s) := by
  refine ⟨fun h1 h2 => ?_, fun h1 => ?_, fun h1 => ?_, fun h1 => ?_⟩
  · unfold UpdateMaxPFeng
    rw [if_pos ⟨h1, h2⟩]
  · have hn : ¬ (s.m_minTh < x ∧ x < s.m_maxTh) := fun h => absurd h.1 (not_lt.mpr (le_of_lt h1))
    unfold UpdateMaxPFeng
    rw [if_neg hn]
    by_cases hs : s.m_fengStatus ≠ FengStatus.Below
    · rw [if_pos ⟨h1, hs⟩, if_pos hs]
    · have hs' : s.m_fengStatus = FengStatus.Below := not_not.mp hs
      have hgt : ¬ (x > s.m_maxTh ∧ s.m_fengStatus ≠ FengStatus.Above) :=
        fun h => absurd (lt_of_le_of_lt hth h.1) (not_lt.mpr (le_of_lt h1))
      rw [if_neg (fun h => hs h.2), if_neg hgt, if_neg hs]
      cases s
      simp only at hs'
      simp [hs']
  · have hn : ¬ (s.m_minTh < x ∧ x < s.m_maxTh) := fun h => absurd h.2 (not_lt.mpr (le_of_lt h1))
    have hlt : ¬ (x < s.m_minTh ∧ s.m_fengStatus ≠ FengStatus.Below) :=
      fun h => absurd (lt_of_le_of_lt hth h1) (not_lt.mpr (le_of_lt h.1))
    unfold UpdateMaxPFeng
    rw [if_neg hn, if_neg hlt]
    by_cases hs : s.m_fengStatus ≠ FengStatus.Above
    · rw [if_pos ⟨h1, hs⟩, if_pos hs]
    · have hs' : s.m_fengStatus = FengStatus.Above := not_not.mp hs
      rw [if_neg (fun h => hs h.2), if_neg hs]
      cases s
      simp only at hs'
      simp [hs']
  · unfold UpdateMaxPFeng
    rcases h1 with h1 | h1
    · have a1 : ¬ (s.m_minTh < x ∧ x < s.m_maxTh) := fun h => absurd h.1 (by rw [h1]; exact lt_irrefl _)
      have a2 : ¬ (x < s.m_minTh ∧ s.m_fengStatus ≠ FengStatus.Below) :=
        fun h => absurd h.1 (by rw [h1]; exact lt_irrefl _)
      have a3 : ¬ (x > s.m_maxTh ∧ s.m_fengStatus ≠ FengStatus.Above) :=
        fun h => absurd h.1 (by rw [h1]; exact not_lt.mpr hth)
      rw [if_neg a1, if_neg a2, if_neg a3]
    · have a1 : ¬ (s.m_minTh < x ∧ x < s.m_maxTh) := fun h => absurd h.2 (by rw [h1]; exact lt_irrefl _)
      have a2 : ¬ (x < s.m_minTh ∧ s.m_fengStatus ≠ FengStatus.Below) :=
        fun h => absurd h.1 (by rw [h1]; exact not_lt.mpr hth)
      have a3 : ¬ (x > s.m_maxTh ∧ s.m_fengStatus ≠ FengStatus.Above) :=
        fun h => absurd h.1 (by rw [h1]; exact lt_irrefl _)
      rw [if_neg a1, if_neg a2, if_neg a3]

/-- Consecutive samples above `m_maxTh` after `Above` has been recorded leave
`m_curMaxP` and the recorded status unchanged. -/
theorem UpdateMaxPFeng_stays_above (xs : List ℚ) :
    ∀ s : BLACKQueueDisc, s.m_minTh ≤ s.m_maxTh → s.m_fengStatus = FengStatus.Above →
      (∀ y ∈ xs, y > s.m_maxTh) →
      (xs.foldl UpdateMaxPFeng s).m_curMaxP = s.m_curMaxP := by
  induction xs with
  | nil => intro s _ _ _; rfl
  | cons y rest ih =>
    intro s hth hst hall
    have hy : y > s.m_maxTh := hall y (List.mem_cons_self _ _)
    have hstep := (UpdateMaxPFeng_step s y hth).2.2.1 hy
    have hne : ¬ s.m_fengStatus ≠ FengStatus.Above := not_not.mpr hst
    rw [if_neg hne] at hstep
    rw [List.foldl_cons, ih (UpdateMaxPFeng s y) (by rw [hstep]; exact hth) (by rw [hstep])
      (fun z hz => by rw [hstep]; exact hall z (List.mem_cons_of_mem _ hz))]
    rw [hstep]

/-- C17. Feng's control, on every state reached from a disc initialised by
`InitializeParams`: a sample strictly between `minTh` and `maxTh` never changes
`m_curMaxP`; a sample above `maxTh` arriving while the recorded status is not `Above`
multiplies `m_curMaxP` by the multiplier `m_b` once, and every further consecutive
sample above `maxTh` leaves it at that value. -/
theorem fengControl_between_and_above (exp : ℚ → ℚ) (pow : ℚ → ℚ → ℚ)
    (c s0 : BLACKQueueDisc) (ops : List Op) (hinit : InitializeParams exp c = some s0) :
    (∀ x : ℚ, (run pow s0 ops).m_minTh < x → x < (run pow s0 ops).m_maxTh →
      (UpdateMaxPFeng (run pow s0 ops) x).m_curMaxP = (run pow s0 ops).m_curMaxP) ∧
    (∀ x : ℚ, x > (run pow s0 ops).m_maxTh →
      (run pow s0 ops).m_fengStatus ≠ FengStatus.Above →
      (UpdateMaxPFeng (run pow s0 ops) x).m_curMaxP =
        (run pow s0 ops).m_curMaxP * (run pow s0 ops).m_b ∧
      ∀ xs : List ℚ, (∀ y ∈ xs, y > (run pow s0 ops).m_maxTh) →
        (xs.foldl UpdateMaxPFeng (UpdateMaxPFeng (run pow s0 ops) x)).m_curMaxP =
          (run pow s0 ops).m_curMaxP * (run pow s0 ops).m_b) := by
  obtain ⟨-, -, -, -, hle, -⟩ := InitializeParams_facts exp c s0 hinit
  obtain ⟨e1, e2, -⟩ := run_sameConfig pow ops s0
  have hth : (run pow s0 ops).m_minTh ≤ (run pow s0 ops).m_maxTh := by rw [e1, e2]; exact hle
  generalize run pow s0 ops = s at hth
  refine ⟨fun x h1 h2 => ?_, fun x h1 h2 => ?_⟩
  · rw [(UpdateMaxPFeng_step s x hth).1 h1 h2]
  · have hstep := (UpdateMaxPFeng_step s x hth).2.2.1 h1
    rw [if_pos h2] at hstep
    refine ⟨by rw [hstep], fun xs hall => ?_⟩
    rw [UpdateMaxPFeng_stays_above xs (UpdateMaxPFeng s x) (by rw [hstep]; exact hth)
      (by rw [hstep]) (fun y hy => by rw [hstep]; exact hall y hy)]
    rw [hstep]

/-- C17, instance: the state `fengAtMinTh` (recorded status `Below`, thresholds 5 and
15, `m_curMaxP = 1 / 150`, multiplier 2) receives the samples 20, 21 and 22. -/
theorem fengControl_between_and_above_witness :
    (InitializeParams exp0
        (CheckConfig { attributeDefaults with m_isFengAdaptive := true, m_qW := 1 }).2 =
          some fengDisc ∧
      (20 : ℚ) > fengAtMinTh.m_maxTh ∧ fengAtMinTh.m_fengStatus ≠ FengStatus.Above ∧
      ∀ y ∈ [(21 : ℚ), 22], y > fengAtMinTh.m_maxTh) ∧
    ([(21 : ℚ), 22].foldl UpdateMaxPFeng (UpdateMaxPFeng fengAtMinTh 20)).m_curMaxP =
      fengAtMinTh.m_curMaxP * fengAtMinTh.m_b :=
  ⟨by decide!,
    ((fengControl_between_and_above exp0 pow0
      (CheckConfig { attributeDefaults with m_isFengAdaptive := true, m_qW := 1 }).2 fengDisc
      (List.replicate 6 (Op.enqueue (pkt 500) 0 1) ++ [Op.dequeue 0, Op.dequeue 0])
      (by decide!)).2 20 (by decide!) (by decide!)).2 [21, 22] (by decide!)⟩

/-- C18, counterexample to the claim as stated. The disc `fengAtMinTh` was reached by
arrivals that sampled the averages `0, 1, 2, 3, 4, 5`: its last sample equals
`minTh = 5`, which the claim classifies as `Between`. The next arrival samples the
average `4`, below `minTh`, so the claim has `m_curMaxP` divided by the divisor 3;
the code leaves it unchanged, the recorded status still being `Below`. -/
theorem fengControl_no_division_after_threshold_sample :
    fengAtMinTh.m_isFengAdaptive = true ∧
    fengAtMinTh.m_qAvg = fengAtMinTh.m_minTh ∧
    (afterEstimate fengAtMinTh (pkt 500) 0).m_qAvg = 4 ∧
    (afterEstimate fengAtMinTh (pkt 500) 0).m_qAvg < fengAtMinTh.m_minTh ∧
    fengAtMinTh.m_fengStatus = FengStatus.Below ∧
    (UpdateMaxPFeng fengAtMinTh 4).m_curMaxP = fengAtMinTh.m_curMaxP ∧
    (DoEnqueue pow0 fengAtMinTh (pkt 500) 0 1).2.m_curMaxP = fengAtMinTh.m_curMaxP ∧
    (DoEnqueue pow0 fengAtMinTh (pkt 500) 0 1).2.m_curMaxP ≠
      fengAtMinTh.m_curMaxP / fengAtMinTh.m_a := by
  decide!

/-- C18, amended. Feng's control fires on the transitions of the recorded status, on
every state reached from a disc initialised by `InitializeParams`: a sample below
`minTh` records `Below`, a sample above `maxTh` records `Above`, a sample strictly
between records `Between`, and a sample equal to `minTh` or `maxTh` changes nothing,
the recorded status included. `m_curMaxP` is divided by the divisor on every sample
below `minTh` arriving while the recorded status is not `Below`, multiplied by the
multiplier on every sample above `maxTh` arriving while the recorded status is not
`Above`, and unchanged otherwise. -/
theorem fengControl_recorded_status (exp : ℚ → ℚ) (pow : ℚ → ℚ → ℚ)
    (c s0 : BLACKQueueDisc) (ops : List Op) (x : ℚ)
    (hinit : InitializeParams exp c = some s0) :
    (x < (run pow s0 ops).m_minTh →
      (UpdateMaxPFeng (run pow s0 ops) x).m_fengStatus = FengStatus.Below ∧
      (UpdateMaxPFeng (run pow s0 ops) x).m_curMaxP =
        if (run pow s0 ops).m_fengStatus ≠ FengStatus.Below then
          (run pow s0 ops).m_curMaxP / (run pow s0 ops).m_a
        else (run pow s0 ops).m_curMaxP) ∧
    (x > (run pow s0 ops).m_maxTh →
      (UpdateMaxPFeng (run pow s0 ops) x).m_fengStatus = FengStatus.Above ∧
      (UpdateMaxPFeng (run pow s0 ops) x).m_curMaxP =
        if (run pow s0 ops).m_fengStatus ≠ FengStatus.Above then
          (run pow s0 ops).m_curMaxP * (run pow s0 ops).m_b
        else (run pow s0 ops).m_curMaxP) ∧
    ((run pow s0 ops).m_minTh < x → x < (run pow s0 ops).m_maxTh →
      (UpdateMaxPFeng (run pow s0 ops) x).m_fengStatus = FengStatus.Between ∧
      (UpdateMaxPFeng (run pow s0 ops) x).m_curMaxP = (run pow s0 ops).m_curMaxP) ∧
    (x = (run pow s0 ops).m_minTh ∨ x = (run pow s0 ops).m_maxTh →
      UpdateMaxPFeng (run pow s0 ops) x = run pow s0 ops) := by
  obtain ⟨-, -, -, -, hle, -⟩ := InitializeParams_facts exp c s0 hinit
  obtain ⟨e1, e2, -⟩ := run_sameConfig pow ops s0
  have hth : (run pow s0 ops).m_minTh ≤ (run pow s0 ops).m_maxTh := by rw [e1, e2]; exact hle
  generalize run pow s0 ops = s at hth
  obtain ⟨hB, hL, hA, hE⟩ := UpdateMaxPFeng_step s x hth
  refine ⟨fun h => ?_, fun h => ?_, fun h1 h2 => ?_, hE⟩
  · rw [hL h]; exact ⟨rfl, rfl⟩
  · rw [hA h]; exact ⟨rfl, rfl⟩
  · rw [hB h1 h2]; exact ⟨rfl, rfl⟩

/-- C18, instance of the amended statement: the sample 5 at `fengAtMinTh`, equal to
`minTh`, changes nothing. -/
theorem fengControl_recorded_status_witness :
    (InitializeParams exp0
        (CheckConfig { attributeDefaults with m_isFengAdaptive := true, m_qW := 1 }).2 =
          some fengDisc ∧
      ((5 : ℚ) = fengAtMinTh.m_minTh ∨ (5 : ℚ) = fengAtMinTh.m_maxTh)) ∧
    UpdateMaxPFeng fengAtMinTh 5 = fengAtMinTh :=
  ⟨by decide!,
    (fengControl_recorded_status exp0 pow0
      (CheckConfig { attributeDefaults with m_isFengAdaptive := true, m_qW := 1 }).2 fengDisc
      (List.replicate 6 (Op.enqueue (pkt 500) 0 1) ++ [Op.dequeue 0, Op.dequeue 0]) 5
      (by decide!)).2.2.2 (by decide!)⟩

/-! Counters since the last drop and idle marking. -/

/-- The buffer stage records at most its own refusal and keeps the counters. -/
theorem EnqueueInternal_frame (t : BLACKQueueDisc) (item : QueueDiscItem) :
    (EnqueueInternal t item).2.m_stats =
      t.m_stats ++ (if (t.m_queue.Enqueue item).1 = true then []
        else [Event.drop Reason.INTERNAL_QUEUE_DROP]) ∧
    (EnqueueInternal t item).2.m_count = t.m_count ∧
    (EnqueueInternal t item).2.m_countBytes = t.m_countBytes := by
  unfold EnqueueInternal DropBeforeEnqueue
  by_cases h : (t.m_queue.Enqueue item).1 = true
  · simp [h]
  · simp [h]

/-- A hit reported by `DropEarly` comes with both counters cleared. -/
theorem DropEarly_hit (pow : ℚ → ℚ → ℚ) (s : BLACKQueueDisc) (item : QueueDiscItem)
    (n : Nat) (u : ℚ) (h : (DropEarly pow s item n u).1 ≠ 0) :
    (DropEarly pow s item n u).2.m_count = 0 ∧
    (DropEarly pow s item n u).2.m_countBytes = 0 := by
  revert h
  unfold DropEarly
  simp only
  split_ifs <;> simp

/-- Events that `act` appends and counters it leaves, by drop type. -/
theorem act_events (t : BLACKQueueDisc) (item : QueueDiscItem) (d : DropType) :
    ∃ evs : List Event, (act t item d).2.m_stats = t.m_stats ++ evs ∧
      (d = DropType.DTYPE_NONE →
        (∀ e ∈ evs, e = Event.drop Reason.INTERNAL_QUEUE_DROP) ∧
        (act t item d).2.m_count = t.m_count ∧
        (act t item d).2.m_countBytes = t.m_countBytes) ∧
      (d = DropType.DTYPE_UNFORCED →
        (∀ e ∈ evs, e = Event.drop Reason.UNFORCED_DROP ∨ e = Event.mark Reason.UNFORCED_MARK ∨
          e = Event.drop Reason.INTERNAL_QUEUE_DROP) ∧
        (act t item d).2.m_count = t.m_count ∧
        (act t item d).2.m_countBytes = t.m_countBytes) ∧
      (d = DropType.DTYPE_FORCED →
        (∀ e ∈ evs, e = Event.drop Reason.FORCED_DROP ∨ e = Event.mark Reason.FORCED_MARK ∨
          e = Event.drop Reason.INTERNAL_QUEUE_DROP) ∧
        (Event.drop Reason.FORCED_DROP ∈ evs →
          (act t item d).2.m_count = (if t.m_isNs1Compat = true then 0 else t.m_count) ∧
          (act t item d).2.m_countBytes =
            (if t.m_isNs1Compat = true then 0 else t.m_countBytes)) ∧
        (Event.mark Reason.FORCED_MARK ∈ evs →
          (act t item d).2.m_count = t.m_count ∧
          (act t item d).2.m_countBytes = t.m_countBytes)) := by
  cases d with
  | DTYPE_NONE =>
    obtain ⟨h1, h2, h3⟩ := EnqueueInternal_frame t item
    refine ⟨_, h1, fun _ => ⟨?_, h2, h3⟩, fun h => absurd h (by decide),
      fun h => absurd h (by decide)⟩
    intro e he
    split_ifs at he <;> simp_all
  | DTYPE_UNFORCED =>
    by_cases hecn : t.m_useEcn = false
    · have hact : act t item DropType.DTYPE_UNFORCED =
          (false, DropBeforeEnqueue t Reason.UNFORCED_DROP) := by
        unfold act; simp only; rw [if_pos hecn]
      rw [hact]
      exact ⟨[Event.drop Reason.UNFORCED_DROP], rfl, fun h => absurd h (by decide),
        fun _ => ⟨fun e he => Or.inl (List.mem_singleton.mp he), rfl, rfl⟩,
        fun h => absurd h (by decide)⟩
    · by_cases hm : item.Mark.1 = true
      · have hM : Mark t item Reason.UNFORCED_MARK =
            (true, item.Mark.2,
              { t with m_stats := t.m_stats ++ [Event.mark Reason.UNFORCED_MARK] }) := by
          unfold Mark; rw [if_pos hm]
        have hact : act t item DropType.DTYPE_UNFORCED =
            EnqueueInternal { t with m_stats := t.m_stats ++ [Event.mark Reason.UNFORCED_MARK] }
              item.Mark.2 := by
          unfold act; simp only; rw [if_neg hecn, hM]; rfl
        obtain ⟨h1, h2, h3⟩ := EnqueueInternal_frame
          { t with m_stats := t.m_stats ++ [Event.mark Reason.UNFORCED_MARK] } item.Mark.2
        rw [hact]
        refine ⟨Event.mark Reason.UNFORCED_MARK ::
            (if (t.m_queue.Enqueue item.Mark.2).1 = true then []
              else [Event.drop Reason.INTERNAL_QUEUE_DROP]), ?_,
          fun h => absurd h (by decide), fun _ => ⟨?_, h2, h3⟩, fun h => absurd h (by decide)⟩
        · rw [h1]; simp
        · intro e he
          split_ifs at he <;> simp_all
      · have hM : Mark t item Reason.UNFORCED_MARK = (false, item, t) := by
          unfold Mark; rw [if_neg hm]
        have hact : act t item DropType.DTYPE_UNFORCED =
            (false, DropBeforeEnqueue t Reason.UNFORCED_DROP) := by
          unfold act; simp only; rw [if_neg hecn, hM]; rfl
        rw [hact]
        exact ⟨[Event.drop Reason.UNFORCED_DROP], rfl, fun h => absurd h (by decide),
          fun _ => ⟨fun e he => Or.inl (List.mem_singleton.mp he), rfl, rfl⟩,
          fun h => absurd h (by decide)⟩
  | DTYPE_FORCED =>
    have hdrop : ∀ t1 : BLACKQueueDisc, t1 = DropBeforeEnqueue t Reason.FORCED_DROP →
        ∃ evs : List Event,
          (if t1.m_isNs1Compat = true then
            ({ t1 with m_count := 0, m_countBytes := 0 } : BLACKQueueDisc) else t1).m_stats =
            t.m_stats ++ evs ∧
          (DropType.DTYPE_FORCED = DropType.DTYPE_NONE →
            (∀ e ∈ evs, e = Event.drop Reason.INTERNAL_QUEUE_DROP) ∧
            (if t1.m_isNs1Compat = true then
              ({ t1 with m_count := 0, m_countBytes := 0 } : BLACKQueueDisc) else t1).m_count =
              t.m_count ∧
            (if t1.m_isNs1Compat = true then
              ({ t1 with m_count := 0, m_countBytes := 0 } : BLACKQueueDisc)
                else t1).m_countBytes = t.m_countBytes) ∧
          (DropType.DTYPE_FORCED = DropType.DTYPE_UNFORCED →
            (∀ e ∈ evs, e = Event.drop Reason.UNFORCED_DROP ∨
              e = Event.mark Reason.UNFORCED_MARK ∨
              e = Event.drop Reason.INTERNAL_QUEUE_DROP) ∧
            (if t1.m_isNs1Compat = true then
              ({ t1 with m_count := 0, m_countBytes := 0 } : BLACKQueueDisc) else t1).m_count =
              t.m_count ∧
            (if t1.m_isNs1Compat = true then
              ({ t1 with m_count := 0, m_countBytes := 0 } : BLACKQueueDisc)
                else t1).m_countBytes = t.m_countBytes) ∧
          (DropType.DTYPE_FORCED = DropType.DTYPE_FORCED →
            (∀ e ∈ evs, e = Event.drop Reason.FORCED_DROP ∨ e = Event.mark Reason.FORCED_MARK ∨
              e = Event.drop Reason.INTERNAL_QUEUE_DROP) ∧
            (Event.drop Reason.FORCED_DROP ∈ evs →
              (if t1.m_isNs1Compat = true then
                ({ t1 with m_count := 0, m_countBytes := 0 } : BLACKQueueDisc)
                  else t1).m_count = (if t.m_isNs1Compat = true then 0 else t.m_count) ∧
              (if t1.m_isNs1Compat = true then
                ({ t1 with m_count := 0, m_countBytes := 0 } : BLACKQueueDisc)
                  else t1).m_countBytes =
                (if t.m_isNs1Compat = true then 0 else t.m_countBytes)) ∧
            (Event.mark Reason.FORCED_MARK ∈ evs →
              (if t1.m_isNs1Compat = true then
                ({ t1 with m_count := 0, m_countBytes := 0 } : BLACKQueueDisc)
                  else t1).m_count = t.m_count ∧
              (if t1.m_isNs1Compat = true then
                ({ t1 with m_count := 0, m_countBytes := 0 } : BLACKQueueDisc)
                  else t1).m_countBytes = t.m_countBytes)) := by
      intro t1 ht1
      subst ht1
      refine ⟨[Event.drop Reason.FORCED_DROP], ?_, fun h => absurd h (by decide),
        fun h => absurd h (by decide),
        fun _ => ⟨fun e he => Or.inl (List.mem_singleton.mp he), fun _ => ?_, fun h => ?_⟩⟩
      · unfold DropBeforeEnqueue
        by_cases hn : t.m_isNs1Compat = true
        · rw [if_pos (by exact hn)]
        · rw [if_neg (by exact hn)]
      · unfold DropBeforeEnqueue
        by_cases hn : t.m_isNs1Compat = true
        · rw [if_pos (by exact hn), if_pos hn, if_pos hn]; exact ⟨rfl, rfl⟩
        · rw [if_neg (by exact hn), if_neg hn, if_neg hn]; exact ⟨rfl, rfl⟩
      · simp at h
    by_cases hd : t.m_useHardDrop = true ∨ t.m_useEcn = false
    · have hact : act t item DropType.DTYPE_FORCED =
          (false,
            if (DropBeforeEnqueue t Reason.FORCED_DROP).m_isNs1Compat = true then
              { DropBeforeEnqueue t Reason.FORCED_DROP with m_count := 0, m_countBytes := 0 }
            else DropBeforeEnqueue t Reason.FORCED_DROP) := by
        unfold act; simp only; rw [if_pos hd]
      rw [hact]
      exact hdrop _ rfl
    · by_cases hm : item.Mark.1 = true
      · have hM : Mark t item Reason.FORCED_MARK =
            (true, item.Mark.2,
              { t with m_stats := t.m_stats ++ [Event.mark Reason.FORCED_MARK] }) := by
          unfold Mark; rw [if_pos hm]
        have hact : act t item DropType.DTYPE_FORCED =
            EnqueueInternal { t with m_stats := t.m_stats ++ [Event.mark Reason.FORCED_MARK] }
              item.Mark.2 := by
          unfold act; simp only; rw [if_neg hd, hM]; rfl
        obtain ⟨h1, h2, h3⟩ := EnqueueInternal_frame
          { t with m_stats := t.m_stats ++ [Event.mark Reason.FORCED_MARK] } item.Mark.2
        rw [hact]
        refine ⟨Event.mark Reason.FORCED_MARK ::
            (if (t.m_queue.Enqueue item.Mark.2).1 = true then []
              else [Event.drop Reason.INTERNAL_QUEUE_DROP]), ?_,
          fun h => absurd h (by decide), fun h => absurd h (by decide),
          fun _ => ⟨?_, ?_, fun _ => ⟨h2, h3⟩⟩⟩
        · rw [h1]; simp
        · intro e he
          split_ifs at he <;> simp_all
        · intro h
          split_ifs at h <;> simp at h
      · have hM : Mark t item Reason.FORCED_MARK = (false, item, t) := by
          unfold Mark; rw [if_neg hm]
        have hact : act t item DropType.DTYPE_FORCED =
            (false,
              if (DropBeforeEnqueue t Reason.FORCED_DROP).m_isNs1Compat = true then
                { DropBeforeEnqueue t Reason.FORCED_DROP with m_count := 0, m_countBytes := 0 }
              else DropBeforeEnqueue t Reason.FORCED_DROP) := by
          unfold act; simp only; rw [if_neg hd, hM]; rfl
        rw [hact]
        exact hdrop _ rfl

/-- A forced drop type leaves the state of the first stage untouched, and an
unforced drop type comes with both counters cleared. -/
theorem classify_cases (pow : ℚ → ℚ → ℚ) (s : BLACKQueueDisc) (item : QueueDiscItem)
    (n : Nat) (u : ℚ) :
    ((classify pow s item n u).1 = DropType.DTYPE_FORCED → (classify pow s item n u).2 = s) ∧
    ((classify pow s item n u).1 = DropType.DTYPE_UNFORCED →
      (classify pow s item n u).2.m_count = 0 ∧ (classify pow s item n u).2.m_countBytes = 0) := by
  unfold classify
  by_cases hg : s.m_qAvg ≥ s.m_minTh ∧ n > 1
  · rw [if_pos hg]
    by_cases hf : inForcedRegion s
    · rw [if_pos hf]
      exact ⟨fun _ => rfl, fun h => by simp at h⟩
    · rw [if_neg hf]
      by_cases ho : s.m_old = 0
      · rw [if_pos ho]
        exact ⟨fun h => by simp at h, fun h => by simp at h⟩
      · rw [if_neg ho]
        by_cases hh : (DropEarly pow s item n u).1 ≠ 0
        · rw [if_pos hh]
          exact ⟨fun h => by simp at h, fun _ => DropEarly_hit pow s item n u hh⟩
        · rw [if_neg hh]
          exact ⟨fun h => by simp at h, fun h => by simp at h⟩
  · rw [if_neg hg]
    exact ⟨fun h => by simp at h, fun h => by simp at h⟩

/-- C19, counterexample to the claim as stated. The disc `hardDropDisc` (gentle mode
off, hard drop on, NS-1 compatibility off) holds fifteen packets and has counted ten
packets and 5000 bytes; the next arrival samples the average `15 = maxTh` and ends
in a forced drop, after which the counters are 11 and 5500, not zero. -/
theorem doEnqueue_forced_drop_keeps_counters :
    hardDropDisc.m_isNs1Compat = false ∧
    (DoEnqueue pow0 hardDropDisc (pkt 500) 0 1).1 = false ∧
    (DoEnqueue pow0 hardDropDisc (pkt 500) 0 1).2.m_stats =
      hardDropDisc.m_stats ++ [Event.drop Reason.FORCED_DROP] ∧
    (DoEnqueue pow0 hardDropDisc (pkt 500) 0 1).2.m_count = 11 ∧
    (DoEnqueue pow0 hardDropDisc (pkt 500) 0 1).2.m_countBytes = 5500 := by
  decide!

/-- C19, amended. `DoEnqueue` appends a list `evs` of events to the statistics such
that: after an unforced drop or an unforced mark both counters are zero; after a
forced drop they are zero in NS-1 compatibility mode and otherwise hold the values
advanced by this arrival; after a forced mark they hold the values advanced by this
arrival. -/
theorem doEnqueue_counters_after_drop_or_mark (pow : ℚ → ℚ → ℚ) (s : BLACKQueueDisc)
    (item : QueueDiscItem) (now : Int) (u : ℚ) :
    ∃ evs : List Event,
      (DoEnqueue pow s item now u).2.m_stats = s.m_stats ++ evs ∧
      (Event.drop Reason.UNFORCED_DROP ∈ evs ∨ Event.mark Reason.UNFORCED_MARK ∈ evs →
        (DoEnqueue pow s item now u).2.m_count = 0 ∧
        (DoEnqueue pow s item now u).2.m_countBytes = 0) ∧
      (Event.drop Reason.FORCED_DROP ∈ evs →
        (DoEnqueue pow s item now u).2.m_count =
          (if s.m_isNs1Compat = true then 0 else wrap32 (s.m_count + 1)) ∧
        (DoEnqueue pow s item now u).2.m_countBytes =
          (if s.m_isNs1Compat = true then 0 else wrap32 (s.m_countBytes + item.size))) ∧
      (Event.mark Reason.FORCED_MARK ∈ evs →
        (DoEnqueue pow s item now u).2.m_count = wrap32 (s.m_count + 1) ∧
        (DoEnqueue pow s item now u).2.m_countBytes = wrap32 (s.m_countBytes + item.size)) := by
  obtain ⟨c0, l, f, he⟩ := afterEstimate_eq s item now
  obtain ⟨cnt, cb, o, v, d, hc⟩ :=
    classify_eq pow (afterEstimate s item now) item s.m_queue.GetCurrentSize u
  obtain ⟨hcF, hcU⟩ :=
    classify_cases pow (afterEstimate s item now) item s.m_queue.GetCurrentSize u
  obtain ⟨evs, hst, hN, hU, hF⟩ :=
    act_events (classify pow (afterEstimate s item now) item s.m_queue.GetCurrentSize u).2 item
      (classify pow (afterEstimate s item now) item s.m_queue.GetCurrentSize u).1
  have hD : DoEnqueue pow s item now u =
      act (classify pow (afterEstimate s item now) item s.m_queue.GetCurrentSize u).2 item
        (classify pow (afterEstimate s item now) item s.m_queue.GetCurrentSize u).1 := rfl
  have hstats : (classify pow (afterEstimate s item now) item
      s.m_queue.GetCurrentSize u).2.m_stats = s.m_stats := by
    rw [hc, he]
  rw [hD]
  refine ⟨evs, by rw [hst, hstats], ?_, ?_, ?_⟩
  · intro hmem
    cases hd : (classify pow (afterEstimate s item now) item s.m_queue.GetCurrentSize u).1 with
    | DTYPE_NONE =>
      have hall := (hN hd).1
      rcases hmem with h | h
      · exact absurd (hall _ h) (by decide)
      · exact absurd (hall _ h) (by decide)
    | DTYPE_FORCED =>
      have hall := (hF hd).1
      rcases hmem with h | h
      · rcases hall _ h with h' | h' | h' <;> exact absurd h' (by decide)
      · rcases hall _ h with h' | h' | h' <;> exact absurd h' (by decide)
    | DTYPE_UNFORCED =>
      obtain ⟨-, h2, h3⟩ := hU hd
      obtain ⟨z1, z2⟩ := hcU hd
      rw [hd] at h2 h3
      exact ⟨h2.trans z1, h3.trans z2⟩
  · intro hmem
    cases hd : (classify pow (afterEstimate s item now) item s.m_queue.GetCurrentSize u).1 with
    | DTYPE_NONE =>
      exact absurd ((hN hd).1 _ hmem) (by decide)
    | DTYPE_UNFORCED =>
      rcases (hU hd).1 _ hmem with h' | h' | h' <;> exact absurd h' (by decide)
    | DTYPE_FORCED =>
      obtain ⟨h2, h3⟩ := (hF hd).2.1 hmem
      rw [hd] at h2 h3
      rw [h2, h3, hcF hd, he]
      exact ⟨rfl, rfl⟩
  · intro hmem
    cases hd : (classify pow (afterEstimate s item now) item s.m_queue.GetCurrentSize u).1 with
    | DTYPE_NONE =>
      exact absurd ((hN hd).1 _ hmem) (by decide)
    | DTYPE_UNFORCED =>
      rcases (hU hd).1 _ hmem with h' | h' | h' <;> exact absurd h' (by decide)
    | DTYPE_FORCED =>
      obtain ⟨h2, h3⟩ := (hF hd).2.2 hmem
      rw [hd] at h2 h3
      rw [h2, h3, hcF hd, he]
      exact ⟨rfl, rfl⟩

/-- C20, counterexample to the claim as stated. The started default disc holds one
packet; `DoDequeue` at time 5 ns hands it out and leaves the buffer empty, but the
idle flag is zero and the idle-start timestamp is still zero, not the current time. -/
theorem doDequeue_last_item_not_idle :
    (run pow0 defaultDisc [Op.enqueue (pkt 500) 0 1]).m_queue.items = [pkt 500] ∧
    (DoDequeue (run pow0 defaultDisc [Op.enqueue (pkt 500) 0 1]) 5).1 = some (pkt 500) ∧
    (DoDequeue (run pow0 defaultDisc [Op.enqueue (pkt 500) 0 1]) 5).2.m_queue.items = [] ∧
    (DoDequeue (run pow0 defaultDisc [Op.enqueue (pkt 500) 0 1]) 5).2.m_idle = 0 ∧
    (DoDequeue (run pow0 defaultDisc [Op.enqueue (pkt 500) 0 1]) 5).2.m_idleTime ≠ 5 := by
  decide!

/-- C20, amended. A `DoDequeue` call that finds the buffer empty returns no item,
marks the disc idle and records the current time as idle start. A call that finds
an item hands out the head of the buffer, clears the idle flag and keeps the
idle-start timestamp, also when it removes the last buffered item; the disc is
then marked idle by the next `DoDequeue` call, which finds the buffer empty. -/
theorem doDequeue_idle_marking (s : BLACKQueueDisc) (now : Int) :
    (s.m_queue.items = [] →
      (DoDequeue s now).1 = none ∧ (DoDequeue s now).2.m_idle = 1 ∧
      (DoDequeue s now).2.m_idleTime = now ∧ (DoDequeue s now).2.m_queue = s.m_queue) ∧
    (∀ (x : QueueDiscItem) (rest : List QueueDiscItem), s.m_queue.items = x :: rest →
      (DoDequeue s now).1 = some x ∧ (DoDequeue s now).2.m_queue.items = rest ∧
      (DoDequeue s now).2.m_idle = 0 ∧ (DoDequeue s now).2.m_idleTime = s.m_idleTime ∧
      ∀ later : Int,
        (DoDequeue (DoDequeue s now).2 later).2.m_queue.items = rest.tail ∧
        (rest = [] →
          (DoDequeue (DoDequeue s now).2 later).2.m_idle = 1 ∧
          (DoDequeue (DoDequeue s now).2 later).2.m_idleTime = later)) := by
  have hempty : ∀ (t : BLACKQueueDisc) (tm : Int), t.m_queue.items = [] →
      (DoDequeue t tm).1 = none ∧ (DoDequeue t tm).2.m_idle = 1 ∧
      (DoDequeue t tm).2.m_idleTime = tm ∧ (DoDequeue t tm).2.m_queue = t.m_queue := by
    intro t tm h
    have he : t.m_queue.IsEmpty = true := by simp [InternalQueue.IsEmpty, h]
    unfold DoDequeue
    rw [if_pos he]
    exact ⟨rfl, rfl, rfl, rfl⟩
  have hcons : ∀ (t : BLACKQueueDisc) (tm : Int) (x : QueueDiscItem)
      (rest : List QueueDiscItem), t.m_queue.items = x :: rest →
      (DoDequeue t tm).1 = some x ∧ (DoDequeue t tm).2.m_queue.items = rest ∧
      (DoDequeue t tm).2.m_idle = 0 ∧ (DoDequeue t tm).2.m_idleTime = t.m_idleTime := by
    intro t tm x rest h
    have he : ¬ t.m_queue.IsEmpty = true := by simp [InternalQueue.IsEmpty, h]
    unfold DoDequeue
    rw [if_neg he]
    simp [InternalQueue.Dequeue, h]
  refine ⟨hempty s now, fun x rest h => ?_⟩
  obtain ⟨h1, h2, h3, h4⟩ := hcons s now x rest h
  refine ⟨h1, h2, h3, h4, fun later => ?_⟩
  cases hr : rest with
  | nil =>
    rw [hr] at h2
    obtain ⟨-, g2, g3, g4⟩ := hempty (DoDequeue s now).2 later h2
    refine ⟨by rw [g4, h2]; rfl, fun _ => ⟨g2, g3⟩⟩
  | cons y ys =>
    rw [hr] at h2
    obtain ⟨-, g2, -, -⟩ := hcons (DoDequeue s now).2 later y ys h2
    exact ⟨by rw [g2]; rfl, fun h => absurd h (by simp)⟩

end BLACKQueueDisc

end ns3

namespace ns3

namespace BLACKQueueDisc

/-! Setup validation, idle arrivals and spacing of early drops. -/

/-- C32. `CheckConfig` never looks at the adaptive modes when it chooses its return
value: the value is the one it returns with the three mode flags cleared. With the
default attributes and Feng's mode on together with `AdaptMaxP`, or together with
`ABLACK`, it returns `true` and `InitializeParams` then succeeds, so the disc
starts; the conflict is only logged as an error. -/
theorem checkConfig_accepts_both_adaptive_modes :
    (∀ s : BLACKQueueDisc,
      (CheckConfig s).1 =
        (CheckConfig { s with m_isFengAdaptive := false, m_isAdaptMaxP := false,
                              m_isABLACK := false }).1) ∧
    bothAdaptive.m_isFengAdaptive = true ∧ bothAdaptive.m_isAdaptMaxP = true ∧
    (CheckConfig bothAdaptive).1 = true ∧
    (InitializeParams exp0 (CheckConfig bothAdaptive).2).isSome = true ∧
    fengWithABLACK.m_isFengAdaptive = true ∧ fengWithABLACK.m_isABLACK = true ∧
    (CheckConfig fengWithABLACK).1 = true ∧
    (InitializeParams exp0 (CheckConfig fengWithABLACK).2).isSome = true := by
  refine ⟨?_, rfl, rfl, by decide!, by decide!, rfl, rfl, by decide!, by decide!⟩
  intro s
  unfold CheckConfig
  simp only
  split_ifs <;> rfl

end BLACKQueueDisc

end ns3

namespace ns3

/-! Rounding to `binary64`: exponent, error, monotonicity and idempotence. -/

/-- The position computed by `ilog2` brackets a positive number between two
consecutive powers of two, provided the bound on the halvings is the number itself
or more. -/
theorem ilog2_spec : ∀ (fuel n : Nat), 0 < n → n ≤ fuel →
    2 ^ ilog2 fuel n ≤ n ∧ n < 2 ^ (ilog2 fuel n + 1) := by
  intro fuel
  induction fuel with
  | zero => intro n h0 h1; omega
  | succ f ih =>
    intro n h0 h1
    unfold ilog2
    by_cases h2 : n < 2
    · rw [if_pos h2]
      simp
      omega
    · rw [if_neg h2]
      obtain ⟨a, b⟩ := ih (n / 2) (by omega) (by omega)
      rw [pow_succ] at b ⊢
      rw [pow_succ]
      constructor <;> omega

/-- The nearest integer is within one half of the argument. -/
theorem roundEven_err (y : ℚ) : |(roundEven y : ℚ) - y| ≤ 1 / 2 := by
  have h1 : (⌊y⌋ : ℚ) ≤ y := Int.floor_le y
  have h2 : y < (⌊y⌋ : ℚ) + 1 := Int.lt_floor_add_one y
  unfold roundEven
  rw [abs_le]
  split_ifs <;> push_cast <;> constructor <;> linarith

/-- The nearest integer is not below the floor. -/
theorem roundEven_ge_floor (y : ℚ) : ⌊y⌋ ≤ roundEven y := by
  unfold roundEven
  split_ifs <;> omega

/-- The nearest integer is not above the floor plus one. -/
theorem roundEven_le_floor_succ (y : ℚ) : roundEven y ≤ ⌊y⌋ + 1 := by
  unfold roundEven
  split_ifs <;> omega

/-- Rounding to the nearest integer is monotone. -/
theorem roundEven_mono (y z : ℚ) (h : y ≤ z) : roundEven y ≤ roundEven z := by
  rcases lt_or_eq_of_le (Int.floor_mono h) with hlt | heq
  · have := roundEven_ge_floor z
    have := roundEven_le_floor_succ y
    omega
  · unfold roundEven
    rw [← heq]
    split_ifs <;> first | omega | (exfalso; linarith)

/-- An integer is its own nearest integer. -/
theorem roundEven_intCast (k : Int) : roundEven (k : ℚ) = k := by
  unfold roundEven
  simp

/-- Powers of two are positive. -/
theorem two_zpow_pos (e : Int) : (0 : ℚ) < (2 : ℚ) ^ e := zpow_pos (by norm_num) e

/-- Powers of two grow with the exponent. -/
theorem two_zpow_le (a b : Int) (h : a ≤ b) : (2 : ℚ) ^ a ≤ (2 : ℚ) ^ b :=
  zpow_le_zpow_right₀ (by norm_num) h

/-- The next power of two is the double. -/
theorem two_zpow_succ (e : Int) : (2 : ℚ) ^ (e + 1) = 2 * (2 : ℚ) ^ e := by
  rw [zpow_add_one₀ (by norm_num : (2 : ℚ) ≠ 0)]; ring

/-- The binary exponent of a non-zero rational brackets its absolute value. -/
theorem binExponent_spec (x : ℚ) (hx : x ≠ 0) :
    (2 : ℚ) ^ binExponent x ≤ |x| ∧ |x| < (2 : ℚ) ^ (binExponent x + 1) := by
  unfold binExponent
  simp only
  have hp : 0 < x.num.natAbs := Int.natAbs_pos.mpr (Rat.num_ne_zero.mpr hx)
  have hq : 0 < x.den := x.den_pos
  obtain ⟨a1, a2⟩ := ilog2_spec x.num.natAbs x.num.natAbs hp (le_refl _)
  obtain ⟨b1, b2⟩ := ilog2_spec x.den x.den hq (le_refl _)
  have habs : |x| = (x.num.natAbs : ℚ) / (x.den : ℚ) := by
    rw [Rat.abs_def, Rat.divInt_eq_div]
    push_cast
    rw [Nat.cast_natAbs, Int.cast_abs]
  have hq' : (0 : ℚ) < (x.den : ℚ) := by exact_mod_cast hq
  have A1 : ((2 : ℚ) ^ ilog2 x.num.natAbs x.num.natAbs) ≤ (x.num.natAbs : ℚ) := by
    exact_mod_cast a1
  have A2 : (x.num.natAbs : ℚ) < (2 : ℚ) ^ (ilog2 x.num.natAbs x.num.natAbs + 1) := by
    exact_mod_cast a2
  have B1 : ((2 : ℚ) ^ ilog2 x.den x.den) ≤ (x.den : ℚ) := by exact_mod_cast b1
  have B2 : (x.den : ℚ) < (2 : ℚ) ^ (ilog2 x.den x.den + 1) := by exact_mod_cast b2
  generalize ilog2 x.num.natAbs x.num.natAbs = a at *
  generalize ilog2 x.den x.den = b at *
  have hb : (0 : ℚ) < (2 : ℚ) ^ b := by positivity
  have e0 : (2 : ℚ) ^ ((a : Int) - (b : Int)) = (2 : ℚ) ^ a / (2 : ℚ) ^ b := by
    rw [zpow_sub₀ (by norm_num : (2 : ℚ) ≠ 0), zpow_natCast, zpow_natCast]
  have up : |x| < (2 : ℚ) ^ ((a : Int) - (b : Int) + 1) := by
    rw [two_zpow_succ, e0, habs, div_lt_iff₀ hq']
    rw [pow_succ] at A2
    have : (2 : ℚ) * ((2 : ℚ) ^ a / (2 : ℚ) ^ b) * (x.den : ℚ) =
        (2 : ℚ) ^ a * 2 * ((x.den : ℚ) / (2 : ℚ) ^ b) := by
      field_simp
      ring
    rw [this]
    have h1 : 1 ≤ (x.den : ℚ) / (2 : ℚ) ^ b := by rw [le_div_iff₀ hb]; linarith
    have h2 : (0 : ℚ) < (2 : ℚ) ^ a * 2 := by positivity
    nlinarith
  have lo : (2 : ℚ) ^ ((a : Int) - (b : Int) - 1) ≤ |x| := by
    have hs : (2 : ℚ) ^ ((a : Int) - (b : Int)) = 2 * (2 : ℚ) ^ ((a : Int) - (b : Int) - 1) := by
      rw [← two_zpow_succ]; congr 1; ring
    rw [e0] at hs
    rw [pow_succ] at B2
    rw [habs, le_div_iff₀ hq']
    have h3 : (2 : ℚ) ^ ((a : Int) - (b : Int) - 1) = (2 : ℚ) ^ a / ((2 : ℚ) ^ b * 2) := by
      field_simp
      field_simp at hs
      linarith
    rw [h3, div_mul_eq_mul_div, div_le_iff₀ (by positivity)]
    have h4 : (0 : ℚ) < (2 : ℚ) ^ a := by positivity
    nlinarith
  by_cases hc : (2 : ℚ) ^ ((a : Int) - (b : Int)) ≤ |x|
  · rw [if_pos hc]
    exact ⟨hc, up⟩
  · rw [if_neg hc]
    refine ⟨lo, ?_⟩
    have : (a : Int) - (b : Int) - 1 + 1 = (a : Int) - (b : Int) := by ring
    rw [this]
    exact not_le.mp hc

/-- The binary exponent is the only exponent that brackets the absolute value. -/
theorem binExponent_unique (x : ℚ) (e : Int) (hx : x ≠ 0)
    (h1 : (2 : ℚ) ^ e ≤ |x|) (h2 : |x| < (2 : ℚ) ^ (e + 1)) : binExponent x = e := by
  obtain ⟨s1, s2⟩ := binExponent_spec x hx
  by_contra hne
  rcases lt_or_gt_of_ne hne with h | h
  · have : (2 : ℚ) ^ (binExponent x + 1) ≤ (2 : ℚ) ^ e := two_zpow_le _ _ (by omega)
    linarith
  · have : (2 : ℚ) ^ (e + 1) ≤ (2 : ℚ) ^ binExponent x := two_zpow_le _ _ (by omega)
    linarith

/-- A power of two is `2 ^ 52` times the power 52 places below. -/
theorem two_zpow_split (e : Int) :
    (2 : ℚ) ^ e = 4503599627370496 * (2 : ℚ) ^ (e - 52) := by
  have h : e = (e - 52) + 52 := by ring
  have h52 : (2 : ℚ) ^ (52 : Int) = 4503599627370496 := by norm_num
  conv_lhs => rw [h, zpow_add₀ (by norm_num : (2 : ℚ) ≠ 0), h52]
  ring

/-- The scaled argument of the rounding lies in one binade. -/
theorem scaled_bounds (x : ℚ) (hx : x ≠ 0) :
    4503599627370496 ≤ |x / (2 : ℚ) ^ (binExponent x - 52)| ∧
    |x / (2 : ℚ) ^ (binExponent x - 52)| < 9007199254740992 := by
  obtain ⟨h1, h2⟩ := binExponent_spec x hx
  have hs : (0 : ℚ) < (2 : ℚ) ^ (binExponent x - 52) := two_zpow_pos _
  rw [two_zpow_succ, two_zpow_split (binExponent x)] at h2
  rw [two_zpow_split (binExponent x)] at h1
  rw [abs_div, abs_of_pos hs, le_div_iff₀ hs, div_lt_iff₀ hs]
  constructor <;> linarith

/-- Shape of a rounded value: an integer of 53 bits, or `2 ^ 53`, with the sign of the
argument, times the unit in the last place of the argument. -/
theorem binary64_shape (x : ℚ) (hx : x ≠ 0) :
    ∃ k : Int, binary64 x = (k : ℚ) * (2 : ℚ) ^ (binExponent x - 52) ∧
      |(k : ℚ) - x / (2 : ℚ) ^ (binExponent x - 52)| ≤ 1 / 2 ∧
      (0 < x → 4503599627370496 ≤ k ∧ k ≤ 9007199254740992) ∧
      (x < 0 → -9007199254740992 ≤ k ∧ k ≤ -4503599627370496) := by
  obtain ⟨h1, h2⟩ := scaled_bounds x hx
  have hs : (0 : ℚ) < (2 : ℚ) ^ (binExponent x - 52) := two_zpow_pos _
  refine ⟨roundEven (x / (2 : ℚ) ^ (binExponent x - 52)), ?_, roundEven_err _, ?_, ?_⟩
  · unfold binary64
    rw [if_neg hx]
  · intro hpos
    have hy : 0 < x / (2 : ℚ) ^ (binExponent x - 52) := div_pos hpos hs
    rw [abs_of_pos hy] at h1 h2
    have a := roundEven_mono ((4503599627370496 : Int) : ℚ)
      (x / (2 : ℚ) ^ (binExponent x - 52)) (by push_cast; exact h1)
    have b := roundEven_mono (x / (2 : ℚ) ^ (binExponent x - 52))
      ((9007199254740992 : Int) : ℚ) (by push_cast; exact le_of_lt h2)
    rw [roundEven_intCast] at a b
    exact ⟨a, b⟩
  · intro hneg
    have hy : x / (2 : ℚ) ^ (binExponent x - 52) < 0 := div_neg_of_neg_of_pos hneg hs
    rw [abs_of_neg hy] at h1 h2
    have a := roundEven_mono ((-9007199254740992 : Int) : ℚ)
      (x / (2 : ℚ) ^ (binExponent x - 52)) (by push_cast; linarith)
    have b := roundEven_mono (x / (2 : ℚ) ^ (binExponent x - 52))
      ((-4503599627370496 : Int) : ℚ) (by push_cast; linarith)
    rw [roundEven_intCast] at a b
    exact ⟨a, b⟩

/-- Zero is rounded to zero. -/
theorem binary64_zero : binary64 0 = 0 := by
  unfold binary64
  rw [if_pos rfl]

/-- The relative error of `binary64` is at most `2 ^ (-53)`. -/
theorem binary64_err (x : ℚ) : |binary64 x - x| ≤ (1 / 9007199254740992) * |x| := by
  by_cases hx : x = 0
  · rw [hx, binary64_zero]; simp
  · obtain ⟨k, hk, herr, -, -⟩ := binary64_shape x hx
    obtain ⟨h1, -⟩ := binExponent_spec x hx
    have hs : (0 : ℚ) < (2 : ℚ) ^ (binExponent x - 52) := two_zpow_pos _
    rw [two_zpow_split (binExponent x)] at h1
    have hxs : x = x / (2 : ℚ) ^ (binExponent x - 52) * (2 : ℚ) ^ (binExponent x - 52) := by
      field_simp
    have : binary64 x - x =
        ((k : ℚ) - x / (2 : ℚ) ^ (binExponent x - 52)) * (2 : ℚ) ^ (binExponent x - 52) := by
      rw [hk]; field_simp
    rw [this, abs_mul, abs_of_pos hs]
    have h3 : |(k : ℚ) - x / (2 : ℚ) ^ (binExponent x - 52)| * (2 : ℚ) ^ (binExponent x - 52) ≤
        1 / 2 * (2 : ℚ) ^ (binExponent x - 52) := mul_le_mul_of_nonneg_right herr (le_of_lt hs)
    linarith

/-- A positive number is rounded to a positive number. -/
theorem binary64_pos (x : ℚ) (hx : 0 < x) : 0 < binary64 x := by
  obtain ⟨k, hk, -, hp, -⟩ := binary64_shape x (ne_of_gt hx)
  rw [hk]
  have : (0 : ℚ) < (k : ℚ) := by
    have := (hp hx).1
    exact_mod_cast (by omega : 0 < k)
  exact mul_pos this (two_zpow_pos _)

/-- The rounding `binary64` is monotone on the non-negative numbers. -/
theorem binary64_mono (x y : ℚ) (h0 : 0 ≤ x) (h : x ≤ y) : binary64 x ≤ binary64 y := by
  rcases eq_or_lt_of_le h0 with hz | hx
  · rw [← hz, binary64_zero]
    rcases eq_or_lt_of_le (le_trans h0 h) with hz' | hy
    · rw [← hz', binary64_zero]
    · exact le_of_lt (binary64_pos y hy)
  · have hy : 0 < y := lt_of_lt_of_le hx h
    obtain ⟨k, hk, -, hkp, -⟩ := binary64_shape x (ne_of_gt hx)
    obtain ⟨l, hl, -, hlp, -⟩ := binary64_shape y (ne_of_gt hy)
    obtain ⟨x1, x2⟩ := binExponent_spec x (ne_of_gt hx)
    obtain ⟨y1, y2⟩ := binExponent_spec y (ne_of_gt hy)
    rw [abs_of_pos hx] at x1 x2
    rw [abs_of_pos hy] at y1 y2
    have hle : binExponent x ≤ binExponent y := by
      by_contra hcon
      have : (2 : ℚ) ^ (binExponent y + 1) ≤ (2 : ℚ) ^ binExponent x :=
        two_zpow_le _ _ (by omega)
      linarith
    rcases eq_or_lt_of_le hle with he | hlt
    · unfold binary64
      rw [if_neg (ne_of_gt hx), if_neg (ne_of_gt hy), he]
      have hs : (0 : ℚ) < (2 : ℚ) ^ (binExponent y - 52) := two_zpow_pos _
      apply mul_le_mul_of_nonneg_right _ (le_of_lt hs)
      have := roundEven_mono (x / (2 : ℚ) ^ (binExponent y - 52))
        (y / (2 : ℚ) ^ (binExponent y - 52)) (div_le_div_of_nonneg_right h (le_of_lt hs))
      exact_mod_cast this
    · rw [hk, hl]
      have hsx : (0 : ℚ) < (2 : ℚ) ^ (binExponent x - 52) := two_zpow_pos _
      have hsy : (0 : ℚ) < (2 : ℚ) ^ (binExponent y - 52) := two_zpow_pos _
      have k2 : (k : ℚ) ≤ 9007199254740992 := by exact_mod_cast (hkp hx).2
      have l1 : (4503599627370496 : ℚ) ≤ (l : ℚ) := by exact_mod_cast (hlp hy).1
      have a : (k : ℚ) * (2 : ℚ) ^ (binExponent x - 52) ≤ (2 : ℚ) ^ (binExponent x + 1) := by
        rw [two_zpow_succ, two_zpow_split (binExponent x)]
        nlinarith
      have b : (2 : ℚ) ^ binExponent y ≤ (l : ℚ) * (2 : ℚ) ^ (binExponent y - 52) := by
        rw [two_zpow_split (binExponent y)]
        nlinarith
      have c : (2 : ℚ) ^ (binExponent x + 1) ≤ (2 : ℚ) ^ binExponent y :=
        two_zpow_le _ _ (by omega)
      linarith

/-- A number with 53 significant bits is its own rounding. -/
theorem binary64_of_scaled (k e : Int)
    (h1 : 4503599627370496 ≤ |k|) (h2 : |k| < 9007199254740992) :
    binary64 ((k : ℚ) * (2 : ℚ) ^ (e - 52)) = (k : ℚ) * (2 : ℚ) ^ (e - 52) := by
  have hs : (0 : ℚ) < (2 : ℚ) ^ (e - 52) := two_zpow_pos _
  have hk0 : (k : ℚ) ≠ 0 := by
    have : k ≠ 0 := by
      intro h
      rw [h] at h1
      simp at h1
    exact_mod_cast this
  have hz : (k : ℚ) * (2 : ℚ) ^ (e - 52) ≠ 0 := mul_ne_zero hk0 (ne_of_gt hs)
  have habs : |(k : ℚ) * (2 : ℚ) ^ (e - 52)| = |(k : ℚ)| * (2 : ℚ) ^ (e - 52) := by
    rw [abs_mul, abs_of_pos hs]
  have q1 : (4503599627370496 : ℚ) ≤ |(k : ℚ)| := by
    have : ((4503599627370496 : Int) : ℚ) ≤ ((|k| : Int) : ℚ) := Int.cast_le.mpr h1
    rw [Int.cast_abs] at this
    exact_mod_cast this
  have q2 : |(k : ℚ)| < 9007199254740992 := by
    have : ((|k| : Int) : ℚ) < ((9007199254740992 : Int) : ℚ) := Int.cast_lt.mpr h2
    rw [Int.cast_abs] at this
    exact_mod_cast this
  have he : binExponent ((k : ℚ) * (2 : ℚ) ^ (e - 52)) = e := by
    apply binExponent_unique _ _ hz
    · rw [habs, two_zpow_split e]
      nlinarith
    · rw [habs, two_zpow_succ, two_zpow_split e]
      nlinarith
  unfold binary64
  rw [if_neg hz, he]
  have : (k : ℚ) * (2 : ℚ) ^ (e - 52) / (2 : ℚ) ^ (e - 52) = (k : ℚ) := by
    field_simp
  rw [this, roundEven_intCast]

/-- A rounded value is its own rounding. -/
theorem binary64_idem (x : ℚ) : binary64 (binary64 x) = binary64 x := by
  by_cases hx : x = 0
  · rw [hx, binary64_zero, binary64_zero]
  · obtain ⟨k, hk, -, hp, hn⟩ := binary64_shape x hx
    rw [hk]
    have hdouble : (9007199254740992 : ℚ) * (2 : ℚ) ^ (binExponent x - 52) =
        4503599627370496 * (2 : ℚ) ^ (binExponent x + 1 - 52) := by
      have : binExponent x + 1 - 52 = (binExponent x - 52) + 1 := by ring
      rw [this, two_zpow_succ]
      ring
    rcases lt_or_gt_of_ne hx with hneg | hpos
    · obtain ⟨a, b⟩ := hn hneg
      rcases eq_or_lt_of_le a with he | hlt
      · rw [← he]
        have := binary64_of_scaled (-4503599627370496) (binExponent x + 1) (by decide)
          (by decide)
        push_cast at this ⊢
        rw [neg_mul, hdouble, ← neg_mul]
        exact this
      · exact binary64_of_scaled k (binExponent x) (by rw [abs_of_neg (by omega)]; omega)
          (by rw [abs_of_neg (by omega)]; omega)
    · obtain ⟨a, b⟩ := hp hpos
      rcases eq_or_lt_of_le b with he | hlt
      · rw [he]
        have := binary64_of_scaled 4503599627370496 (binExponent x + 1) (by decide)
          (by decide)
        push_cast at this ⊢
        rw [hdouble]
        exact this
      · exact binary64_of_scaled k (binExponent x) (by rw [abs_of_pos (by omega)]; omega)
          (by rw [abs_of_pos (by omega)]; omega)

/-- The rounding `binary64` is a rounding to nearest with unit roundoff `2 ^ (-53)`. -/
theorem binary64_rounding : Rounding (1 / 9007199254740992) binary64 where
  u_nonneg := by norm_num
  err := binary64_err
  mono := binary64_mono
  idem := binary64_idem
  one := by decide!
  two := by decide!

end ns3

namespace ns3

/-! Consequences of the properties of a rounding. -/

/-- Zero is rounded to zero. -/
theorem Rounding.zero {u : ℚ} {fl : ℚ → ℚ} (h : Rounding u fl) : fl 0 = 0 := by
  have := h.err 0
  simpa using this

/-- A non-negative number is rounded to a non-negative number. -/
theorem Rounding.nonneg {u : ℚ} {fl : ℚ → ℚ} (h : Rounding u fl) (x : ℚ) (hx : 0 ≤ x) :
    0 ≤ fl x := by
  have := h.mono 0 x (le_refl 0) hx
  rwa [h.zero] at this

/-- A number of the unit interval is rounded into the unit interval. -/
theorem Rounding.le_one {u : ℚ} {fl : ℚ → ℚ} (h : Rounding u fl) (x : ℚ) (hx0 : 0 ≤ x)
    (hx : x ≤ 1) : fl x ≤ 1 := by
  have := h.mono x 1 hx0 hx
  rwa [h.one] at this

/-- Upper bound of the rounding of a non-negative number. -/
theorem Rounding.upper {u : ℚ} {fl : ℚ → ℚ} (h : Rounding u fl) (x : ℚ) (hx : 0 ≤ x) :
    fl x ≤ x * (1 + u) := by
  have := h.err x
  rw [abs_of_nonneg hx, abs_le] at this
  linarith [this.2]

/-- Lower bound of the rounding of a non-negative number. -/
theorem Rounding.lower {u : ℚ} {fl : ℚ → ℚ} (h : Rounding u fl) (x : ℚ) (hx : 0 ≤ x) :
    x * (1 - u) ≤ fl x := by
  have := h.err x
  rw [abs_of_nonneg hx, abs_le] at this
  linarith [this.1]

/-- Lower bound of the rounding of a number known in absolute value. -/
theorem Rounding.lower_abs {u : ℚ} {fl : ℚ → ℚ} (h : Rounding u fl) (x b : ℚ) (hb : |x| ≤ b) :
    x - u * b ≤ fl x := by
  have := h.err x
  rw [abs_le] at this
  have h2 : u * |x| ≤ u * b := mul_le_mul_of_nonneg_left hb h.u_nonneg
  linarith [this.1]

/-- The machine `ieee` rounds as `binary64`. -/
theorem ieee_rounding : Rounding (1 / 9007199254740992) ieee.fl := binary64_rounding

/-- The power of the machine `ieee` has the properties required of `std::pow`. -/
theorem ieee_powSound : PowSound ieee where
  unit_interval := by
    intro x e h0 h1
    have hp0 : 0 ≤ x ^ ⌊e⌋.toNat := pow_nonneg h0 _
    have hp1 : x ^ ⌊e⌋.toNat ≤ 1 := pow_le_one₀ h0 h1
    exact ⟨binary64_rounding.nonneg _ hp0, binary64_rounding.le_one _ hp0 hp1⟩
  exponent_one := by
    intro x
    show binary64 (binary64 x ^ ⌊(1 : ℚ)⌋.toNat) = binary64 x
    have : ⌊(1 : ℚ)⌋.toNat = 1 := by simp
    rw [this, pow_one, binary64_idem]

namespace BLACKQueueDisc

namespace Rounded

/-! Frame lemmas of the rounded functions. -/

/-- The first stage of `DoEnqueue` rewrites the idle flag, the average and the two
counters as stated, possibly adapts `m_curMaxP`, `m_lastSet` and `m_fengStatus`,
and leaves every other member alone. -/
theorem afterEstimate_rounded (M : Machine) (s : BLACKQueueDisc) (item : QueueDiscItem)
    (now : Int) :
    ∃ (c : ℚ) (l : Int) (f : FengStatus),
      afterEstimate M s item now =
        { s with
          m_idle := if s.m_idle = 1 then 0 else s.m_idle
          m_qAvg := M.fl (M.fl (s.m_qAvg *
              M.pow (M.fl (1 - s.m_qW)) ((wrap32 (idleArrivals M s now + 1) : ℕ) : ℚ)) +
            M.fl (s.m_qW * (s.m_queue.GetCurrentSize : ℚ)))
          m_count := wrap32 (s.m_count + 1)
          m_countBytes := wrap32 (s.m_countBytes + item.size)
          m_curMaxP := c
          m_lastSet := l
          m_fengStatus := f } := by
  unfold afterEstimate Estimator UpdateMaxP UpdateMaxPFeng
  by_cases hi : s.m_idle = 1 <;> simp only [hi, if_true, if_false] <;>
    split_ifs <;> exact ⟨_, _, _, rfl⟩

/-- Members written by `DropEarly`: the counters, the stored probability and the
position in the random stream. -/
theorem DropEarly_rounded (M : Machine) (s : BLACKQueueDisc) (item : QueueDiscItem)
    (n : Nat) (u : ℚ) :
    ∃ (cnt cb : Nat) (v : ℚ) (d : Nat),
      (DropEarly M s item n u).2 =
        { s with m_count := cnt, m_countBytes := cb, m_vProb := v, m_uvDraws := d } := by
  unfold DropEarly
  simp only
  split_ifs <;> exact ⟨_, _, _, _, rfl⟩

/-- The second stage of `DoEnqueue` only writes the counters, the crossing flag,
the stored probability and the position in the random stream. -/
theorem classify_rounded (M : Machine) (s : BLACKQueueDisc) (item : QueueDiscItem)
    (n : Nat) (u : ℚ) :
    ∃ (cnt cb o : Nat) (v : ℚ) (d : Nat),
      (classify M s item n u).2 =
        { s with m_count := cnt, m_countBytes := cb, m_old := o, m_vProb := v,
                 m_uvDraws := d } := by
  obtain ⟨cnt, cb, v, d, hd⟩ := DropEarly_rounded M s item n u
  unfold classify
  by_cases hg : s.m_qAvg ≥ s.m_minTh ∧ n > 1
  · rw [if_pos hg]
    by_cases hf : inForcedRegion M s
    · rw [if_pos hf]; exact ⟨_, _, _, _, _, rfl⟩
    · rw [if_neg hf]
      by_cases ho : s.m_old = 0
      · rw [if_pos ho]; exact ⟨_, _, _, _, _, rfl⟩
      · rw [if_neg ho]
        by_cases hh : (DropEarly M s item n u).1 ≠ 0
        · rw [if_pos hh]; exact ⟨cnt, cb, s.m_old, v, d, by rw [hd]⟩
        · rw [if_neg hh]; exact ⟨cnt, cb, s.m_old, v, d, by rw [hd]⟩
  · rw [if_neg hg]; exact ⟨_, _, _, _, _, rfl⟩

/-- Members written by `DoEnqueue`: every other member keeps its value, the idle
flag is cleared and the average is the one computed by the first stage. -/
theorem DoEnqueue_rounded (M : Machine) (s : BLACKQueueDisc) (item : QueueDiscItem)
    (now : Int) (u : ℚ) :
    ∃ (c : ℚ) (l : Int) (f : FengStatus) (cnt cb o : Nat) (v : ℚ) (d : Nat)
      (st : List Event) (q : InternalQueue),
      (DoEnqueue M s item now u).2 =
        { s with
          m_idle := if s.m_idle = 1 then 0 else s.m_idle
          m_qAvg := M.fl (M.fl (s.m_qAvg *
              M.pow (M.fl (1 - s.m_qW)) ((wrap32 (idleArrivals M s now + 1) : ℕ) : ℚ)) +
            M.fl (s.m_qW * (s.m_queue.GetCurrentSize : ℚ)))
          m_curMaxP := c, m_lastSet := l, m_fengStatus := f
          m_count := cnt, m_countBytes := cb, m_old := o, m_vProb := v, m_uvDraws := d
          m_stats := st, m_queue := q } := by
  obtain ⟨c, l, f, he⟩ := afterEstimate_rounded M s item now
  obtain ⟨cnt, cb, o, v, d, hc⟩ :=
    classify_rounded M (afterEstimate M s item now) item s.m_queue.GetCurrentSize u
  obtain ⟨cnt2, cb2, st, q, ha⟩ :=
    act_eq (classify M (afterEstimate M s item now) item s.m_queue.GetCurrentSize u).2 item
      (classify M (afterEstimate M s item now) item s.m_queue.GetCurrentSize u).1
  refine ⟨c, l, f, cnt2, cb2, o, v, d, st, q, ?_⟩
  show (act _ item _).2 = _
  rw [ha, hc, he]

/-- Configuration members survive `DoEnqueue`. -/
theorem DoEnqueue_rounded_sameConfig (M : Machine) (s : BLACKQueueDisc)
    (item : QueueDiscItem) (now : Int) (u : ℚ) : SameConfig s (DoEnqueue M s item now u).2 := by
  obtain ⟨c, l, f, cnt, cb, o, v, d, st, q, h⟩ := DoEnqueue_rounded M s item now u
  rw [h]
  exact ⟨rfl, rfl, rfl, rfl, rfl, rfl, rfl, rfl, rfl, rfl, rfl⟩

/-- Configuration members survive every sequence of operations. -/
theorem run_rounded_sameConfig (M : Machine) (ops : List Op) :
    ∀ s : BLACKQueueDisc, SameConfig s (run M s ops) := by
  induction ops with
  | nil => intro s; exact ⟨rfl, rfl, rfl, rfl, rfl, rfl, rfl, rfl, rfl, rfl, rfl⟩
  | cons op rest ih =>
    intro s
    have h1 : SameConfig s (step M s op) := by
      cases op with
      | enqueue item now u => exact DoEnqueue_rounded_sameConfig M s item now u
      | dequeue now => exact DoDequeue_sameConfig s now
    have h2 := ih (step M s op)
    obtain ⟨a1, a2, a3, a4, a5, a6, a7, a8, a9, a10, a11⟩ := h1
    obtain ⟨b1, b2, b3, b4, b5, b6, b7, b8, b9, b10, b11⟩ := h2
    show SameConfig s (run M (step M s op) rest)
    exact ⟨b1.trans a1, b2.trans a2, b3.trans a3, b4.trans a4, b5.trans a5, b6.trans a6,
      b7.trans a7, b8.trans a8, b9.trans a9, b10.trans a10, b11.trans a11⟩

/-! Start-up of the disc. -/

/-- Members written by lines 403-421 of `InitializeParams`. -/
theorem initModes_rounded (M : Machine) (c : BLACKQueueDisc) :
    ∃ (a b w pt : ℚ) (p : Bool) (f : FengStatus),
      initModes M c =
        { c with m_cautious := 0, m_ptc := pt
                 m_minTh := a, m_maxTh := b, m_qW := w, m_isAdaptMaxP := p
                 m_fengStatus := f } := by
  unfold initModes
  by_cases h1 : c.m_isABLACK = true <;> by_cases h2 : c.m_isFengAdaptive = true <;>
    simp only [h1, h2, if_true, if_false] <;> exact ⟨_, _, _, _, _, _, rfl⟩

/-- Members written by the first stage of `InitializeParams`. -/
theorem initThresholds_rounded (M : Machine) (c : BLACKQueueDisc) :
    ∃ (a b w pt : ℚ) (p : Bool) (f : FengStatus),
      initThresholds M c =
        { c with m_cautious := 0, m_ptc := pt
                 m_minTh := a, m_maxTh := b, m_qW := w, m_isAdaptMaxP := p
                 m_fengStatus := f } := by
  obtain ⟨a, b, w, pt, p, f, h⟩ := initModes_rounded M c
  unfold initThresholds
  simp only
  split_ifs <;> (rw [h]; exact ⟨_, _, _, _, _, _, rfl⟩)

/-- Members written by the second stage of `InitializeParams`, with the values of
the linear coefficients and, in gentle mode, of the gentle coefficients. -/
theorem initCoefficients_rounded (M : Machine) (t : BLACKQueueDisc) :
    ∃ (vC vD : ℚ),
      initCoefficients M t =
        { t with m_qAvg := 0, m_count := 0, m_countBytes := 0, m_old := 0, m_idle := 1
                 m_vA := M.fl (1 / thDiff M t), m_curMaxP := M.fl (1 / t.m_lInterm)
                 m_vB := M.fl (-t.m_minTh / thDiff M t), m_vC := vC, m_vD := vD
                 m_idleTime := 0 } ∧
      (t.m_isGentle = true →
        vC = M.fl (M.fl (1 - M.fl (1 / t.m_lInterm)) / t.m_maxTh) ∧
        vD = M.fl (M.fl (2 * M.fl (1 / t.m_lInterm)) - 1)) := by
  unfold initCoefficients thDiff
  by_cases hg : t.m_isGentle = true
  · simp only [hg, if_true]
    exact ⟨_, _, rfl, fun _ => ⟨rfl, rfl⟩⟩
  · simp only [hg, if_false]
    exact ⟨_, _, rfl, fun h => absurd h (by decide)⟩

/-- Member written by the third stage of `InitializeParams`. -/
theorem initWeight_rounded (M : Machine) (s : BLACKQueueDisc) :
    ∃ w : ℚ, initWeight M s = { s with m_qW := w } := by
  unfold initWeight
  split_ifs <;> exact ⟨_, rfl⟩

/-- Member written by the last stage of `InitializeParams`. -/
theorem initBottom_rounded (M : Machine) (s : BLACKQueueDisc) :
    ∃ b : ℚ, initBottom M s = { s with m_bottom := b } := by
  unfold initBottom
  split_ifs <;> exact ⟨_, rfl⟩

/-- State established by a successful `InitializeParams`: zero average, idle disc,
untouched buffer, caution modes off, ordered thresholds, maximum probability the
rounded `1 / LInterm` and coefficients derived from it. -/
theorem InitializeParams_rounded (M : Machine) (c s : BLACKQueueDisc)
    (h : InitializeParams M c = some s) :
    s.m_qAvg = 0 ∧ s.m_idle = 1 ∧ s.m_queue = c.m_queue ∧ s.m_cautious = 0 ∧
    s.m_minTh ≤ s.m_maxTh ∧ s.m_curMaxP = M.fl (1 / c.m_lInterm) ∧
    CoeffsDerived M s (M.fl (1 / c.m_lInterm)) := by
  unfold InitializeParams at h
  by_cases hle : (initThresholds M c).m_minTh ≤ (initThresholds M c).m_maxTh
  · rw [if_pos hle] at h
    have hs : s = initBottom M (initWeight M (initCoefficients M (initThresholds M c))) :=
      (Option.some.inj h).symm
    obtain ⟨a, b, w, pt, p, f, h1⟩ := initThresholds_rounded M c
    obtain ⟨vC, vD, h2, h2g⟩ := initCoefficients_rounded M (initThresholds M c)
    obtain ⟨w', h3⟩ := initWeight_rounded M (initCoefficients M (initThresholds M c))
    obtain ⟨b', h4⟩ :=
      initBottom_rounded M (initWeight M (initCoefficients M (initThresholds M c)))
    have hli : (initThresholds M c).m_lInterm = c.m_lInterm := by rw [h1]
    have hq : (initThresholds M c).m_queue = c.m_queue := by rw [h1]
    have hca : (initThresholds M c).m_cautious = 0 := by rw [h1]
    rw [hs, h4, h3, h2]
    refine ⟨rfl, rfl, hq, hca, hle, ?_, ?_, ?_, ?_⟩
    · show M.fl (1 / (initThresholds M c).m_lInterm) = M.fl (1 / c.m_lInterm)
      rw [hli]
    · rfl
    · rfl
    · intro hg
      have := h2g hg
      rw [hli] at this
      exact this
  · rw [if_neg hle] at h
    exact absurd h (by simp)

/-- The coefficients derived at start-up are still those of the disc after every
sequence of operations, whatever `m_curMaxP` has become. -/
theorem run_rounded_coeffsDerived (M : Machine) (c s : BLACKQueueDisc)
    (ops : List Op) (hinit : InitializeParams M c = some s) :
    CoeffsDerived M (run M s ops) (M.fl (1 / c.m_lInterm)) := by
  obtain ⟨-, -, -, -, -, -, hA, hB, hG⟩ := InitializeParams_rounded M c s hinit
  obtain ⟨e1, e2, e3, e4, e5, e6, e7, -⟩ := run_rounded_sameConfig M ops s
  unfold CoeffsDerived thDiff at *
  rw [e1, e2, e3, e4, e5, e6, e7]
  exact ⟨hA, hB, hG⟩

end Rounded

end BLACKQueueDisc

end ns3

namespace ns3

namespace BLACKQueueDisc

namespace Rounded

/-! Decision taken by `DoEnqueue` on an arrival, in floating point. -/

/-- The thresholds are not touched by the first stage of `DoEnqueue`. -/
theorem afterEstimate_rounded_minTh (M : Machine) (s : BLACKQueueDisc) (item : QueueDiscItem)
    (now : Int) : (afterEstimate M s item now).m_minTh = s.m_minTh := by
  obtain ⟨c, l, f, he⟩ := afterEstimate_rounded M s item now
  rw [he]

/-- On the first sample above the minimum threshold `DoEnqueue` resets the
counters, sets the crossing flag and hands the item to the buffer. -/
theorem DoEnqueue_rounded_first (M : Machine) (s : BLACKQueueDisc) (item : QueueDiscItem)
    (now : Int) (u : ℚ)
    (hold : s.m_old = 0)
    (havg : (afterEstimate M s item now).m_qAvg ≥ s.m_minTh)
    (hq : s.m_queue.GetCurrentSize > 1)
    (hf : ¬ inForcedRegion M (afterEstimate M s item now)) :
    DoEnqueue M s item now u =
      EnqueueInternal
        { afterEstimate M s item now with m_count := 1, m_countBytes := item.size, m_old := 1 }
        item := by
  have hgate : (afterEstimate M s item now).m_qAvg ≥ (afterEstimate M s item now).m_minTh ∧
      s.m_queue.GetCurrentSize > 1 := by
    rw [afterEstimate_rounded_minTh]; exact ⟨havg, hq⟩
  have hold1 : (afterEstimate M s item now).m_old = 0 := by
    obtain ⟨c, l, f, he⟩ := afterEstimate_rounded M s item now
    rw [he]; exact hold
  simp only [DoEnqueue, classify, if_pos hgate, if_neg hf, if_pos hold1, act]

/-- With the caution modes off `DropEarly` stores the modified probability, draws
one variate and reports a hit exactly when the variate is at most the stored
probability; a hit clears the two counters. -/
theorem DropEarly_rounded_plain (M : Machine) (s : BLACKQueueDisc) (item : QueueDiscItem)
    (n : Nat) (u : ℚ) (hc : s.m_cautious = 0) :
    DropEarly M s item n u =
      if u ≤ ModifyP M s (CalculatePNew M s) item.size then
        (1, { s with m_vProb := ModifyP M s (CalculatePNew M s) item.size
                     m_uvDraws := s.m_uvDraws + 1, m_count := 0, m_countBytes := 0 })
      else
        (0, { s with m_vProb := ModifyP M s (CalculatePNew M s) item.size
                     m_uvDraws := s.m_uvDraws + 1 }) := by
  unfold DropEarly
  simp [hc]

/-- In the early region with the crossing flag set `DoEnqueue` acts on the verdict
of `DropEarly`. -/
theorem DoEnqueue_rounded_early (M : Machine) (s : BLACKQueueDisc) (item : QueueDiscItem)
    (now : Int) (u : ℚ)
    (hold : s.m_old ≠ 0)
    (havg : (afterEstimate M s item now).m_qAvg ≥ s.m_minTh)
    (hq : s.m_queue.GetCurrentSize > 1)
    (hf : ¬ inForcedRegion M (afterEstimate M s item now)) :
    DoEnqueue M s item now u =
      act (DropEarly M (afterEstimate M s item now) item s.m_queue.GetCurrentSize u).2 item
        (if (DropEarly M (afterEstimate M s item now) item s.m_queue.GetCurrentSize u).1 ≠ 0
          then DropType.DTYPE_UNFORCED else DropType.DTYPE_NONE) := by
  have hgate : (afterEstimate M s item now).m_qAvg ≥ (afterEstimate M s item now).m_minTh ∧
      s.m_queue.GetCurrentSize > 1 := by
    rw [afterEstimate_rounded_minTh]; exact ⟨havg, hq⟩
  have hold1 : ¬ (afterEstimate M s item now).m_old = 0 := by
    obtain ⟨c, l, f, he⟩ := afterEstimate_rounded M s item now
    rw [he]; exact hold
  simp only [DoEnqueue, classify, if_pos hgate, if_neg hf, if_neg hold1]
  split_ifs <;> rfl

/-- C3, counterexample to the claim as stated. The disc `fullAtCrossing` was reached
from a started disc with room for two packets (`MinTh = 2`, `QW = 1`) by two
arrivals: its buffer is full, its average is one and its crossing flag is clear. The
third arrival samples the queue length `2 > 1` and updates the average to
`2 = minTh`, below the forced region: it is the first crossing. `DoEnqueue` sets the
crossing flag and resets the counters, evaluates no probability and draws no
variate, but the full buffer refuses the item: it is dropped with reason
internal-queue drop and `DoEnqueue` returns `false`. -/
theorem doEnqueue_first_crossing_refused_when_full :
    fullAtCrossing.m_old = 0 ∧
    (afterEstimate ieee fullAtCrossing (pkt 500) 0).m_qAvg ≥ fullAtCrossing.m_minTh ∧
    ¬ inForcedRegion ieee (afterEstimate ieee fullAtCrossing (pkt 500) 0) ∧
    fullAtCrossing.m_queue.GetCurrentSize = 2 ∧ fullAtCrossing.m_queue.maxSize.value = 2 ∧
    (DoEnqueue ieee fullAtCrossing (pkt 500) 0 1).1 = false ∧
    (DoEnqueue ieee fullAtCrossing (pkt 500) 0 1).2.m_queue = fullAtCrossing.m_queue ∧
    (DoEnqueue ieee fullAtCrossing (pkt 500) 0 1).2.m_stats =
      fullAtCrossing.m_stats ++ [Event.drop Reason.INTERNAL_QUEUE_DROP] ∧
    (DoEnqueue ieee fullAtCrossing (pkt 500) 0 1).2.m_old = 1 ∧
    (DoEnqueue ieee fullAtCrossing (pkt 500) 0 1).2.m_count = 1 ∧
    (DoEnqueue ieee fullAtCrossing (pkt 500) 0 1).2.m_countBytes = 500 ∧
    (DoEnqueue ieee fullAtCrossing (pkt 500) 0 1).2.m_vProb = fullAtCrossing.m_vProb ∧
    (DoEnqueue ieee fullAtCrossing (pkt 500) 0 1).2.m_uvDraws = fullAtCrossing.m_uvDraws := by
  decide!

/-- C3, amended. First-crossing rule: when the crossing flag is clear, the updated
average is at least `m_minTh` and below the forced region and the sampled queue
length exceeds one, `DoEnqueue` takes no decision of its own against the item: it
evaluates no drop probability (`m_vProb` keeps its value), draws no random variate,
records no drop or mark of its own, sets the crossing flag, leaves the counters at
one packet and the size of the item, and offers the unmodified item to the buffer.
The item is admitted exactly when the buffer has room: it is then appended and
`DoEnqueue` returns `true`; a full buffer refuses it, the drop is recorded with
reason internal-queue drop, the buffer is unchanged and `DoEnqueue` returns `false`.
The statement holds for every rounding of the arithmetic on `double`. -/
theorem doEnqueue_first_crossing (M : Machine) (s : BLACKQueueDisc)
    (item : QueueDiscItem) (now : Int) (u : ℚ)
    (hold : s.m_old = 0)
    (havg : (afterEstimate M s item now).m_qAvg ≥ s.m_minTh)
    (hq : s.m_queue.GetCurrentSize > 1)
    (hf : ¬ inForcedRegion M (afterEstimate M s item now)) :
    (DoEnqueue M s item now u).2.m_old = 1 ∧
    (DoEnqueue M s item now u).2.m_count = 1 ∧
    (DoEnqueue M s item now u).2.m_countBytes = item.size ∧
    (DoEnqueue M s item now u).2.m_vProb = s.m_vProb ∧
    (DoEnqueue M s item now u).2.m_uvDraws = s.m_uvDraws ∧
    (DoEnqueue M s item now u).1 = (s.m_queue.Enqueue item).1 ∧
    (DoEnqueue M s item now u).2.m_queue = (s.m_queue.Enqueue item).2 ∧
    (DoEnqueue M s item now u).2.m_stats =
      s.m_stats ++ (if (s.m_queue.Enqueue item).1 = true then []
        else [Event.drop Reason.INTERNAL_QUEUE_DROP]) ∧
    ((s.m_queue.Enqueue item).1 = true →
      (DoEnqueue M s item now u).1 = true ∧
      (DoEnqueue M s item now u).2.m_queue.items = s.m_queue.items ++ [item]) ∧
    (¬ (s.m_queue.Enqueue item).1 = true →
      (DoEnqueue M s item now u).1 = false ∧
      (DoEnqueue M s item now u).2.m_queue = s.m_queue ∧
      (DoEnqueue M s item now u).2.m_stats =
        s.m_stats ++ [Event.drop Reason.INTERNAL_QUEUE_DROP]) := by
  obtain ⟨c, l, f, he⟩ := afterEstimate_rounded M s item now
  rw [DoEnqueue_rounded_first M s item now u hold havg hq hf, he]
  unfold EnqueueInternal DropBeforeEnqueue
  by_cases hen : (s.m_queue.Enqueue item).1 = true
  · simp [hen, InternalQueue_Enqueue_accepted _ _ hen]
  · simp [hen, InternalQueue_Enqueue_refused _ _ hen]

/-- C3, scenario of the specification in `binary64`: `minTh = 5`, `maxTh = 15`, weight
`0.002` (the started default disc, gentle mode on), occupancy 20 of 25 with the
crossing flag clear, one packet of size 500. The packet is admitted and appended, the counters
are reset to one packet and 500 bytes, and neither a probability is evaluated nor
a variate drawn. -/
theorem doEnqueue_first_crossing_scenario :
    ((withBacklog defaultDisc 20 (pkt 500) 20).m_minTh = 5 ∧
      (withBacklog defaultDisc 20 (pkt 500) 20).m_maxTh = 15 ∧
      (withBacklog defaultDisc 20 (pkt 500) 20).m_qW = binary64 (2 / 1000) ∧
      (withBacklog defaultDisc 20 (pkt 500) 20).m_old = 0 ∧
      (afterEstimate ieee (withBacklog defaultDisc 20 (pkt 500) 20) (pkt 500) 0).m_qAvg ≥
        (withBacklog defaultDisc 20 (pkt 500) 20).m_minTh ∧
      (withBacklog defaultDisc 20 (pkt 500) 20).m_queue.GetCurrentSize > 1 ∧
      ¬ inForcedRegion ieee
        (afterEstimate ieee (withBacklog defaultDisc 20 (pkt 500) 20) (pkt 500) 0)) ∧
    (DoEnqueue ieee (withBacklog defaultDisc 20 (pkt 500) 20) (pkt 500) 0 0).1 = true ∧
    (DoEnqueue ieee (withBacklog defaultDisc 20 (pkt 500) 20) (pkt 500) 0 0).2.m_queue.items =
      List.replicate 21 (pkt 500) ∧
    (DoEnqueue ieee (withBacklog defaultDisc 20 (pkt 500) 20) (pkt 500) 0 0).2.m_old = 1 ∧
    (DoEnqueue ieee (withBacklog defaultDisc 20 (pkt 500) 20) (pkt 500) 0 0).2.m_count = 1 ∧
    (DoEnqueue ieee (withBacklog defaultDisc 20 (pkt 500) 20) (pkt 500) 0 0).2.m_countBytes =
      500 ∧
    (DoEnqueue ieee (withBacklog defaultDisc 20 (pkt 500) 20) (pkt 500) 0 0).2.m_vProb =
      (withBacklog defaultDisc 20 (pkt 500) 20).m_vProb ∧
    (DoEnqueue ieee (withBacklog defaultDisc 20 (pkt 500) 20) (pkt 500) 0 0).2.m_uvDraws =
      (withBacklog defaultDisc 20 (pkt 500) 20).m_uvDraws ∧
    (DoEnqueue ieee (withBacklog defaultDisc 20 (pkt 500) 20) (pkt 500) 0 0).2.m_stats =
      (withBacklog defaultDisc 20 (pkt 500) 20).m_stats := by
  have h := doEnqueue_first_crossing ieee (withBacklog defaultDisc 20 (pkt 500) 20) (pkt 500) 0 0
    (by decide!) (by decide!) (by decide!) (by decide!)
  obtain ⟨h1, h2, h3, h4, h5, -, -, -, h9, -⟩ := h
  exact ⟨by decide!, (h9 (by decide!)).1, by decide!, h1, h2, h3, h4, h5, by decide!⟩

/-- The first stage of `DoEnqueue` does not read the hard-drop flag. -/
theorem afterEstimate_rounded_useHardDrop (M : Machine) (s : BLACKQueueDisc)
    (item : QueueDiscItem) (now : Int) (b : Bool) :
    afterEstimate M { s with m_useHardDrop := b } item now =
      { afterEstimate M s item now with m_useHardDrop := b } := by
  unfold afterEstimate Estimator UpdateMaxP UpdateMaxPFeng idleArrivals
  by_cases hi : s.m_idle = 1 <;> simp only [hi, if_true, if_false] <;>
    split_ifs <;> rfl

/-- Outcome of `DoEnqueue` in the early region with the caution modes off, in terms
of the comparison of the variate with the modified probability. -/
theorem DoEnqueue_rounded_early_outcome (M : Machine) (s : BLACKQueueDisc)
    (item : QueueDiscItem) (now : Int) (u : ℚ)
    (hold : s.m_old ≠ 0)
    (hc : s.m_cautious = 0)
    (havg : (afterEstimate M s item now).m_qAvg ≥ s.m_minTh)
    (hq : s.m_queue.GetCurrentSize > 1)
    (hf : ¬ inForcedRegion M (afterEstimate M s item now)) :
    (((DropEarly M (afterEstimate M s item now) item s.m_queue.GetCurrentSize u).1 = 1 ↔
        u ≤ ModifyP M (afterEstimate M s item now) (CalculatePNew M (afterEstimate M s item now))
          item.size) ∧
      ((DropEarly M (afterEstimate M s item now) item s.m_queue.GetCurrentSize u).1 ≠ 0 ↔
        u ≤ ModifyP M (afterEstimate M s item now) (CalculatePNew M (afterEstimate M s item now))
          item.size)) ∧
    (DoEnqueue M s item now u).2.m_vProb =
      ModifyP M (afterEstimate M s item now) (CalculatePNew M (afterEstimate M s item now))
        item.size ∧
    (DoEnqueue M s item now u).2.m_uvDraws = s.m_uvDraws + 1 ∧
    (u ≤ ModifyP M (afterEstimate M s item now) (CalculatePNew M (afterEstimate M s item now))
          item.size →
      (s.m_useEcn = true ∧ item.Mark.1 = true →
        (DoEnqueue M s item now u).1 = (s.m_queue.Enqueue item.Mark.2).1 ∧
        (DoEnqueue M s item now u).2.m_queue = (s.m_queue.Enqueue item.Mark.2).2 ∧
        (DoEnqueue M s item now u).2.m_stats =
          s.m_stats ++ Event.mark Reason.UNFORCED_MARK ::
            (if (s.m_queue.Enqueue item.Mark.2).1 = true then []
              else [Event.drop Reason.INTERNAL_QUEUE_DROP]) ∧
        ((s.m_queue.Enqueue item.Mark.2).1 = true →
          (DoEnqueue M s item now u).1 = true ∧
          (DoEnqueue M s item now u).2.m_queue.items =
            s.m_queue.items ++ [item.Mark.2]) ∧
        (¬ (s.m_queue.Enqueue item.Mark.2).1 = true →
          (DoEnqueue M s item now u).1 = false ∧
          (DoEnqueue M s item now u).2.m_queue = s.m_queue ∧
          (DoEnqueue M s item now u).2.m_stats =
            s.m_stats ++ [Event.mark Reason.UNFORCED_MARK,
              Event.drop Reason.INTERNAL_QUEUE_DROP])) ∧
      (¬ (s.m_useEcn = true ∧ item.Mark.1 = true) →
        (DoEnqueue M s item now u).1 = false ∧
        (DoEnqueue M s item now u).2.m_queue = s.m_queue ∧
        (DoEnqueue M s item now u).2.m_stats =
          s.m_stats ++ [Event.drop Reason.UNFORCED_DROP])) ∧
    (¬ u ≤ ModifyP M (afterEstimate M s item now) (CalculatePNew M (afterEstimate M s item now))
          item.size →
      (DoEnqueue M s item now u).1 = (s.m_queue.Enqueue item).1 ∧
      (DoEnqueue M s item now u).2.m_queue = (s.m_queue.Enqueue item).2 ∧
      (DoEnqueue M s item now u).2.m_stats =
        s.m_stats ++ (if (s.m_queue.Enqueue item).1 = true then []
          else [Event.drop Reason.INTERNAL_QUEUE_DROP]) ∧
      ((s.m_queue.Enqueue item).1 = true →
        (DoEnqueue M s item now u).1 = true ∧
        (DoEnqueue M s item now u).2.m_queue.items = s.m_queue.items ++ [item]) ∧
      (¬ (s.m_queue.Enqueue item).1 = true →
        (DoEnqueue M s item now u).1 = false ∧
        (DoEnqueue M s item now u).2.m_queue = s.m_queue ∧
        (DoEnqueue M s item now u).2.m_stats =
          s.m_stats ++ [Event.drop Reason.INTERNAL_QUEUE_DROP])) := by
  obtain ⟨c, l, f, he⟩ := afterEstimate_rounded M s item now
  have hc1 : (afterEstimate M s item now).m_cautious = 0 := by rw [he]; exact hc
  have hecn1 : (afterEstimate M s item now).m_useEcn = s.m_useEcn := by rw [he]
  have hq1 : (afterEstimate M s item now).m_queue = s.m_queue := by rw [he]
  have hst1 : (afterEstimate M s item now).m_stats = s.m_stats := by rw [he]
  have hd1 : (afterEstimate M s item now).m_uvDraws = s.m_uvDraws := by rw [he]
  have hkey := DoEnqueue_rounded_early M s item now u hold havg hq hf
  have hde :=
    DropEarly_rounded_plain M (afterEstimate M s item now) item s.m_queue.GetCurrentSize u hc1
  generalize hp : ModifyP M (afterEstimate M s item now)
      (CalculatePNew M (afterEstimate M s item now))
    item.size = p at *
  generalize hs1 : afterEstimate M s item now = s1 at *
  refine ⟨?_, ?_, ?_, ?_, ?_⟩
  · rw [hde]; split_ifs with hu <;> simp [hu]
  · rw [hkey, hde]
    obtain ⟨cnt, cb, st, q, ha⟩ := act_eq
      (if u ≤ p then
        ((1 : Nat), { s1 with m_vProb := p, m_uvDraws := s1.m_uvDraws + 1, m_count := 0,
                              m_countBytes := 0 })
        else ((0 : Nat), { s1 with m_vProb := p, m_uvDraws := s1.m_uvDraws + 1 })).2 item
      (if (if u ≤ p then
        ((1 : Nat), { s1 with m_vProb := p, m_uvDraws := s1.m_uvDraws + 1, m_count := 0,
                              m_countBytes := 0 })
        else ((0 : Nat), { s1 with m_vProb := p, m_uvDraws := s1.m_uvDraws + 1 })).1 ≠ 0
        then DropType.DTYPE_UNFORCED else DropType.DTYPE_NONE)
    rw [ha]; split_ifs <;> rfl
  · rw [hkey, hde]
    obtain ⟨cnt, cb, st, q, ha⟩ := act_eq
      (if u ≤ p then
        ((1 : Nat), { s1 with m_vProb := p, m_uvDraws := s1.m_uvDraws + 1, m_count := 0,
                              m_countBytes := 0 })
        else ((0 : Nat), { s1 with m_vProb := p, m_uvDraws := s1.m_uvDraws + 1 })).2 item
      (if (if u ≤ p then
        ((1 : Nat), { s1 with m_vProb := p, m_uvDraws := s1.m_uvDraws + 1, m_count := 0,
                              m_countBytes := 0 })
        else ((0 : Nat), { s1 with m_vProb := p, m_uvDraws := s1.m_uvDraws + 1 })).1 ≠ 0
        then DropType.DTYPE_UNFORCED else DropType.DTYPE_NONE)
    rw [ha, ← hd1]; split_ifs <;> rfl
  · intro hu
    rw [hkey, hde, if_pos hu]
    simp only [ne_eq, one_ne_zero, not_false_eq_true, if_true]
    unfold act Mark EnqueueInternal DropBeforeEnqueue
    simp only [hecn1, hq1, hst1]
    constructor
    · rintro ⟨h1, h2⟩
      by_cases hen : (s.m_queue.Enqueue item.Mark.2).1 = true
      · simp [h1, h2, hen, InternalQueue_Enqueue_accepted _ _ hen]
      · simp [h1, h2, hen, InternalQueue_Enqueue_refused _ _ hen]
    · intro hn
      by_cases h1 : s.m_useEcn = true
      · have h2 : item.Mark.1 = false := by
          by_contra h2
          exact hn ⟨h1, by simpa using h2⟩
        simp [h1, h2]
      · have h1' : s.m_useEcn = false := by simpa using h1
        simp [h1']
  · intro hu
    rw [hkey, hde, if_neg hu]
    simp only [ne_eq, not_true_eq_false, if_false]
    unfold act EnqueueInternal DropBeforeEnqueue
    simp only [hq1, hst1]
    by_cases hen : (s.m_queue.Enqueue item).1 = true
    · simp [hen, InternalQueue_Enqueue_accepted _ _ hen]
    · simp [hen, InternalQueue_Enqueue_refused _ _ hen]

/-- C4, counterexample to the claim as stated. The disc `fullInEarlyRegion` has a
full buffer of two packets and its crossing flag set. The next arrival samples the
queue length `2 > 1` and leaves the average at `2 = minTh`, below the forced region,
with the caution modes off: the early region. The modified probability is zero, the
variate `1 / 2` is above it, so there is no hit; the item is nevertheless not
admitted: the full buffer refuses it, the drop is recorded with reason
internal-queue drop and `DoEnqueue` returns `false`. -/
theorem doEnqueue_early_region_refused_when_full :
    fullInEarlyRegion.m_old ≠ 0 ∧ fullInEarlyRegion.m_cautious = 0 ∧
    (afterEstimate ieee fullInEarlyRegion (pkt 500) 0).m_qAvg ≥ fullInEarlyRegion.m_minTh ∧
    ¬ inForcedRegion ieee (afterEstimate ieee fullInEarlyRegion (pkt 500) 0) ∧
    fullInEarlyRegion.m_queue.GetCurrentSize = 2 ∧
    fullInEarlyRegion.m_queue.maxSize.value = 2 ∧
    ¬ ((1 / 2 : ℚ) ≤ ModifyP ieee (afterEstimate ieee fullInEarlyRegion (pkt 500) 0)
      (CalculatePNew ieee (afterEstimate ieee fullInEarlyRegion (pkt 500) 0)) 500) ∧
    (DoEnqueue ieee fullInEarlyRegion (pkt 500) 0 (1 / 2)).1 = false ∧
    (DoEnqueue ieee fullInEarlyRegion (pkt 500) 0 (1 / 2)).2.m_queue =
      fullInEarlyRegion.m_queue ∧
    (DoEnqueue ieee fullInEarlyRegion (pkt 500) 0 (1 / 2)).2.m_stats =
      fullInEarlyRegion.m_stats ++ [Event.drop Reason.INTERNAL_QUEUE_DROP] := by
  decide!

/-- C4, amended. Early region: updated average at least `m_minTh` and below the forced
region, sampled queue length above one, crossing flag set, caution modes off.
`DropEarly` stores `p' = ModifyP (CalculatePNew (), size)` computed on the updated
state, draws one variate `u`, and reports a hit exactly when `u ≤ p'`. On a hit with
ECN enabled and a successful mark the marked item is offered to the buffer (unforced
mark); on a hit otherwise the item is dropped with reason unforced drop, `DoEnqueue`
returns `false` and the buffer is unchanged; without a hit the unmodified item is
offered to the buffer. An item offered to the buffer is admitted exactly when the
buffer has room: it is then appended and `DoEnqueue` returns `true`; a full buffer
refuses it, the drop is recorded with reason internal-queue drop, the buffer is
unchanged and `DoEnqueue` returns `false`. None of this depends on the hard-drop
flag: changing it changes neither the return value, nor the buffer, nor the recorded
events. The statement holds for every rounding of the arithmetic on `double`. -/
theorem doEnqueue_early_region (M : Machine) (s : BLACKQueueDisc)
    (item : QueueDiscItem) (now : Int) (u : ℚ)
    (hold : s.m_old ≠ 0)
    (hc : s.m_cautious = 0)
    (havg : (afterEstimate M s item now).m_qAvg ≥ s.m_minTh)
    (hq : s.m_queue.GetCurrentSize > 1)
    (hf : ¬ inForcedRegion M (afterEstimate M s item now)) :
    (((DropEarly M (afterEstimate M s item now) item s.m_queue.GetCurrentSize u).1 = 1 ↔
        u ≤ ModifyP M (afterEstimate M s item now) (CalculatePNew M (afterEstimate M s item now))
          item.size) ∧
      ((DropEarly M (afterEstimate M s item now) item s.m_queue.GetCurrentSize u).1 ≠ 0 ↔
        u ≤ ModifyP M (afterEstimate M s item now) (CalculatePNew M (afterEstimate M s item now))
          item.size)) ∧
    (DoEnqueue M s item now u).2.m_vProb =
      ModifyP M (afterEstimate M s item now) (CalculatePNew M (afterEstimate M s item now))
        item.size ∧
    (DoEnqueue M s item now u).2.m_uvDraws = s.m_uvDraws + 1 ∧
    (u ≤ ModifyP M (afterEstimate M s item now) (CalculatePNew M (afterEstimate M s item now))
          item.size →
      (s.m_useEcn = true ∧ item.Mark.1 = true →
        (DoEnqueue M s item now u).1 = (s.m_queue.Enqueue item.Mark.2).1 ∧
        (DoEnqueue M s item now u).2.m_queue = (s.m_queue.Enqueue item.Mark.2).2 ∧
        (DoEnqueue M s item now u).2.m_stats =
          s.m_stats ++ Event.mark Reason.UNFORCED_MARK ::
            (if (s.m_queue.Enqueue item.Mark.2).1 = true then []
              else [Event.drop Reason.INTERNAL_QUEUE_DROP]) ∧
        ((s.m_queue.Enqueue item.Mark.2).1 = true →
          (DoEnqueue M s item now u).1 = true ∧
          (DoEnqueue M s item now u).2.m_queue.items =
            s.m_queue.items ++ [item.Mark.2]) ∧
        (¬ (s.m_queue.Enqueue item.Mark.2).1 = true →
          (DoEnqueue M s item now u).1 = false ∧
          (DoEnqueue M s item now u).2.m_queue = s.m_queue ∧
          (DoEnqueue M s item now u).2.m_stats =
            s.m_stats ++ [Event.mark Reason.UNFORCED_MARK,
              Event.drop Reason.INTERNAL_QUEUE_DROP])) ∧
      (¬ (s.m_useEcn = true ∧ item.Mark.1 = true) →
        (DoEnqueue M s item now u).1 = false ∧
        (DoEnqueue M s item now u).2.m_queue = s.m_queue ∧
        (DoEnqueue M s item now u).2.m_stats =
          s.m_stats ++ [Event.drop Reason.UNFORCED_DROP])) ∧
    (¬ u ≤ ModifyP M (afterEstimate M s item now) (CalculatePNew M (afterEstimate M s item now))
          item.size →
      (DoEnqueue M s item now u).1 = (s.m_queue.Enqueue item).1 ∧
      (DoEnqueue M s item now u).2.m_queue = (s.m_queue.Enqueue item).2 ∧
      (DoEnqueue M s item now u).2.m_stats =
        s.m_stats ++ (if (s.m_queue.Enqueue item).1 = true then []
          else [Event.drop Reason.INTERNAL_QUEUE_DROP]) ∧
      ((s.m_queue.Enqueue item).1 = true →
        (DoEnqueue M s item now u).1 = true ∧
        (DoEnqueue M s item now u).2.m_queue.items = s.m_queue.items ++ [item]) ∧
      (¬ (s.m_queue.Enqueue item).1 = true →
        (DoEnqueue M s item now u).1 = false ∧
        (DoEnqueue M s item now u).2.m_queue = s.m_queue ∧
        (DoEnqueue M s item now u).2.m_stats =
          s.m_stats ++ [Event.drop Reason.INTERNAL_QUEUE_DROP])) ∧
    (∀ b : Bool,
      (DoEnqueue M { s with m_useHardDrop := b } item now u).1 =
        (DoEnqueue M s item now u).1 ∧
      (DoEnqueue M { s with m_useHardDrop := b } item now u).2.m_queue =
        (DoEnqueue M s item now u).2.m_queue ∧
      (DoEnqueue M { s with m_useHardDrop := b } item now u).2.m_stats =
        (DoEnqueue M s item now u).2.m_stats) := by
  refine ⟨(DoEnqueue_rounded_early_outcome M s item now u hold hc havg hq hf).1,
    (DoEnqueue_rounded_early_outcome M s item now u hold hc havg hq hf).2.1,
    (DoEnqueue_rounded_early_outcome M s item now u hold hc havg hq hf).2.2.1,
    (DoEnqueue_rounded_early_outcome M s item now u hold hc havg hq hf).2.2.2.1,
    (DoEnqueue_rounded_early_outcome M s item now u hold hc havg hq hf).2.2.2.2, ?_⟩
  intro b
  have hp : ModifyP M (afterEstimate M { s with m_useHardDrop := b } item now)
      (CalculatePNew M (afterEstimate M { s with m_useHardDrop := b } item now)) item.size =
      ModifyP M (afterEstimate M s item now) (CalculatePNew M (afterEstimate M s item now))
        item.size := by
    rw [afterEstimate_rounded_useHardDrop]; rfl
  have havg' : (afterEstimate M { s with m_useHardDrop := b } item now).m_qAvg ≥
      ({ s with m_useHardDrop := b } : BLACKQueueDisc).m_minTh := by
    rw [afterEstimate_rounded_useHardDrop]; exact havg
  have hf' : ¬ inForcedRegion M (afterEstimate M { s with m_useHardDrop := b } item now) := by
    rw [afterEstimate_rounded_useHardDrop]; exact hf
  obtain ⟨-, -, -, h4, h5⟩ := DoEnqueue_rounded_early_outcome M s item now u hold hc havg hq hf
  obtain ⟨-, -, -, g4, g5⟩ :=
    DoEnqueue_rounded_early_outcome M { s with m_useHardDrop := b } item now u hold hc havg' hq hf'
  rw [hp] at g4 g5
  by_cases hu : u ≤ ModifyP M (afterEstimate M s item now)
      (CalculatePNew M (afterEstimate M s item now)) item.size
  · by_cases hm : s.m_useEcn = true ∧ item.Mark.1 = true
    · obtain ⟨a1, a2, a3, -, -⟩ := (h4 hu).1 hm
      obtain ⟨b1, b2, b3, -, -⟩ := (g4 hu).1 hm
      exact ⟨b1.trans a1.symm, b2.trans a2.symm, b3.trans a3.symm⟩
    · obtain ⟨a1, a2, a3⟩ := (h4 hu).2 hm
      obtain ⟨b1, b2, b3⟩ := (g4 hu).2 hm
      exact ⟨b1.trans a1.symm, b2.trans a2.symm, b3.trans a3.symm⟩
  · obtain ⟨a1, a2, a3, -, -⟩ := h5 hu
    obtain ⟨b1, b2, b3, -, -⟩ := g5 hu
    exact ⟨b1.trans a1.symm, b2.trans a2.symm, b3.trans a3.symm⟩

/-- C4, instance in `binary64`: an arrival at `earlyRegionDisc` whose variate is zero. The modified
probability is zero in wait mode, the variate is not above it, and with ECN off the
packet is dropped with reason unforced drop. -/
theorem doEnqueue_early_region_witness :
    (earlyRegionDisc.m_old ≠ 0 ∧ earlyRegionDisc.m_cautious = 0 ∧
      (afterEstimate ieee earlyRegionDisc (pkt 500) 0).m_qAvg ≥ earlyRegionDisc.m_minTh ∧
      earlyRegionDisc.m_queue.GetCurrentSize > 1 ∧
      ¬ inForcedRegion ieee (afterEstimate ieee earlyRegionDisc (pkt 500) 0)) ∧
    (DoEnqueue ieee earlyRegionDisc (pkt 500) 0 0).1 = false ∧
    (DoEnqueue ieee earlyRegionDisc (pkt 500) 0 0).2.m_queue = earlyRegionDisc.m_queue ∧
    (DoEnqueue ieee earlyRegionDisc (pkt 500) 0 0).2.m_stats =
      earlyRegionDisc.m_stats ++ [Event.drop Reason.UNFORCED_DROP] :=
  ⟨by decide!,
    ((doEnqueue_early_region ieee earlyRegionDisc (pkt 500) 0 0 (by decide!) (by decide!)
      (by decide!) (by decide!) (by decide!)).2.2.2.1 (by decide!)).2 (by decide!)⟩

end Rounded

end BLACKQueueDisc

end ns3

namespace ns3

namespace BLACKQueueDisc

namespace Rounded

/-! Update of the average queue length in floating point. -/

/-- C5, counterexample to the claim as stated. The disc `idleAfterTraffic` is idle
since time zero with a positive average, an empty buffer and `ptc = 375`.
For an arrival after 72 ms the product of `ptc` and the idle seconds is `27`, but
`0.072` is not a `double`: the product computed in `binary64` is below `27`, the
code uses `m = 26` where the claim has `floor (ptc * idle seconds) = 27`, and the
average it leaves is larger than the claimed one.
For an arrival after 11453246.121333333 seconds `m = 4294967295`, the exponent
`m + 1` handed to `Estimator` wraps to zero in 32 bits and the average keeps its
value instead of being multiplied by `(1 - qW) ^ (m + 1)`. -/
theorem doEnqueue_idle_count_differs :
    idleAfterTraffic.m_idle = 1 ∧ idleAfterTraffic.m_cautious = 0 ∧
    idleAfterTraffic.m_idleTime = 0 ∧ idleAfterTraffic.m_ptc = 375 ∧
    idleAfterTraffic.m_queue.GetCurrentSize = 0 ∧
    ⌊idleAfterTraffic.m_ptc * ns3.GetSeconds (72000000 - idleAfterTraffic.m_idleTime)⌋ = 27 ∧
    idleArrivals ieee idleAfterTraffic 72000000 = 26 ∧
    idleAfterTraffic.m_qAvg * (1 - idleAfterTraffic.m_qW) ^ (27 + 1) +
        idleAfterTraffic.m_qW * ((0 : ℕ) : ℚ) <
      (DoEnqueue ieee idleAfterTraffic (pkt 500) 72000000 1).2.m_qAvg ∧
    idleArrivals ieee idleAfterTraffic 11453246121333333 = 4294967295 ∧
    ⌊idleAfterTraffic.m_ptc *
        ns3.GetSeconds (11453246121333333 - idleAfterTraffic.m_idleTime)⌋ = 4294967295 ∧
    (DoEnqueue ieee idleAfterTraffic (pkt 500) 11453246121333333 1).2.m_qAvg =
      idleAfterTraffic.m_qAvg ∧
    (DoEnqueue ieee idleAfterTraffic (pkt 500) 11453246121333333 1).2.m_qAvg ≠
      idleAfterTraffic.m_qAvg * (1 - idleAfterTraffic.m_qW) ^ (4294967295 + 1) +
        idleAfterTraffic.m_qW * ((0 : ℕ) : ℚ) := by
  have hv : (DoEnqueue ieee idleAfterTraffic (pkt 500) 11453246121333333 1).2.m_qAvg =
      idleAfterTraffic.m_qAvg := by decide!
  refine ⟨by decide!, by decide!, by decide!, by decide!, by decide!, by decide!, by decide!,
    by decide!, by decide!, by decide!, hv, ?_⟩
  rw [hv]
  exact decayed_ne idleAfterTraffic.m_qAvg idleAfterTraffic.m_qW _ (by decide!) (by decide!)
    (by decide!) (Nat.succ_ne_zero _)

/-- The rounded product of two non-negative factors, one of them rounded before,
stays within the relative distance `2 * u + u ^ 2` of the exact product. -/
theorem rounded_product_near (u : ℚ) (fl : ℚ → ℚ) (hr : Rounding u fl) (a b : ℚ)
    (ha : 0 ≤ a) (hb : 0 ≤ b) :
    a * b - a * b * (2 * u + u ^ 2) ≤ fl (a * fl b) ∧
    fl (a * fl b) ≤ a * b + a * b * (2 * u + u ^ 2) := by
  have hu := hr.u_nonneg
  have b0 : 0 ≤ fl b := hr.nonneg b hb
  have b1 := hr.lower b hb
  have b2 := hr.upper b hb
  have p0 : 0 ≤ a * fl b := mul_nonneg ha b0
  have p1 := hr.lower _ p0
  have p2 := hr.upper _ p0
  have hab : 0 ≤ a * b := mul_nonneg ha hb
  have q1 : a * (b * (1 - u)) ≤ a * fl b := mul_le_mul_of_nonneg_left b1 ha
  have q2 : a * fl b ≤ a * (b * (1 + u)) := mul_le_mul_of_nonneg_left b2 ha
  have hu2 : 0 ≤ u ^ 2 := sq_nonneg u
  constructor
  · by_cases h1 : u ≤ 1
    · have : a * (b * (1 - u)) * (1 - u) ≤ a * fl b * (1 - u) :=
        mul_le_mul_of_nonneg_right q1 (by linarith)
      nlinarith
    · have : 0 ≤ fl (a * fl b) := hr.nonneg _ p0
      nlinarith
  · have : a * fl b * (1 + u) ≤ a * (b * (1 + u)) * (1 + u) :=
      mul_le_mul_of_nonneg_right q2 (by linarith)
    nlinarith

/-- C5, amended. For every state in which caution mode 3 is not set (it never is:
`InitializeParams` sets `m_cautious` to zero and nothing else writes it), `DoEnqueue`
leaves as average the `double` computed as `qAvg * pow (1 - qW, m + 1) + qW * nQueued`,
each operation rounded, where `nQueued` is the size of the buffer before the arrival,
`m = 0` when the disc was not idle and, when it was, `m` is the integer part of the
`double` product of `ptc` and the idle seconds, provided that this product is not
negative and that `m + 1` fits the 32-bit unsigned exponent. The idle flag is
cleared. The value is written once, by the first stage, whatever the decision taken
afterwards. For a rounding with unit roundoff `u`, `m` is within one of
`floor (ptc * idle seconds)` as long as `ptc * idle seconds * (2 * u + u ^ 2) < 1`. -/
theorem doEnqueue_average_update (M : Machine) (u : ℚ) (hr : Rounding u M.fl)
    (s : BLACKQueueDisc) (item : QueueDiscItem) (now : Int) (v : ℚ)
    (hc : s.m_cautious ≠ 3)
    (hm : s.m_idle = 1 →
      0 ≤ M.fl (s.m_ptc * GetSeconds M (now - s.m_idleTime)) ∧
      ⌊M.fl (s.m_ptc * GetSeconds M (now - s.m_idleTime))⌋ + 1 < 4294967296) :
    (DoEnqueue M s item now v).2.m_qAvg =
      M.fl (M.fl (s.m_qAvg * M.pow (M.fl (1 - s.m_qW))
          ((((if s.m_idle = 1 then
              ⌊M.fl (s.m_ptc * GetSeconds M (now - s.m_idleTime))⌋.toNat else 0) + 1 : ℕ)) : ℚ)) +
        M.fl (s.m_qW * (s.m_queue.GetCurrentSize : ℚ))) ∧
    (DoEnqueue M s item now v).2.m_qAvg = (afterEstimate M s item now).m_qAvg ∧
    (s.m_idle = 1 → (DoEnqueue M s item now v).2.m_idle = 0) ∧
    (0 ≤ s.m_ptc → s.m_idleTime ≤ now →
      s.m_ptc * ns3.GetSeconds (now - s.m_idleTime) * (2 * u + u ^ 2) < 1 →
      ⌊s.m_ptc * ns3.GetSeconds (now - s.m_idleTime)⌋ - 1 ≤
          ⌊M.fl (s.m_ptc * GetSeconds M (now - s.m_idleTime))⌋ ∧
        ⌊M.fl (s.m_ptc * GetSeconds M (now - s.m_idleTime))⌋ ≤
          ⌊s.m_ptc * ns3.GetSeconds (now - s.m_idleTime)⌋ + 1) := by
  obtain ⟨c, l, f, cnt, cb, o, w, d, st, q, h⟩ := DoEnqueue_rounded M s item now v
  obtain ⟨c1, l1, f1, he⟩ := afterEstimate_rounded M s item now
  have hexp : wrap32 (idleArrivals M s now + 1) =
      (if s.m_idle = 1 then
        ⌊M.fl (s.m_ptc * GetSeconds M (now - s.m_idleTime))⌋.toNat else 0) + 1 := by
    unfold idleArrivals wrap32
    by_cases hi : s.m_idle = 1
    · obtain ⟨h0, h1⟩ := hm hi
      have hf : 0 ≤ ⌊M.fl (s.m_ptc * GetSeconds M (now - s.m_idleTime))⌋ :=
        Int.floor_nonneg.mpr h0
      rw [if_pos hi, if_neg hc, if_pos hi, toUint32_eq_floor _ h0 (by omega)]
      apply Nat.mod_eq_of_lt
      omega
    · rw [if_neg hi, if_neg hi]
  refine ⟨?_, ?_, ?_, ?_⟩
  · rw [h, ← hexp]
  · rw [h, he]
  · intro hi
    rw [h]
    simp [hi]
  · intro hp ht hsmall
    have hsec : 0 ≤ ns3.GetSeconds (now - s.m_idleTime) := by
      unfold ns3.GetSeconds
      have : (0 : ℚ) ≤ ((now - s.m_idleTime : Int) : ℚ) := by
        exact_mod_cast (by omega : 0 ≤ now - s.m_idleTime)
      positivity
    obtain ⟨a1, a2⟩ := rounded_product_near u M.fl hr s.m_ptc
      (ns3.GetSeconds (now - s.m_idleTime)) hp hsec
    have e : GetSeconds M (now - s.m_idleTime) = M.fl (ns3.GetSeconds (now - s.m_idleTime)) := rfl
    rw [e]
    constructor
    · have : ⌊s.m_ptc * ns3.GetSeconds (now - s.m_idleTime) - 1⌋ ≤
          ⌊M.fl (s.m_ptc * M.fl (ns3.GetSeconds (now - s.m_idleTime)))⌋ :=
        Int.floor_mono (by linarith)
      rwa [Int.floor_sub_one] at this
    · have : ⌊M.fl (s.m_ptc * M.fl (ns3.GetSeconds (now - s.m_idleTime)))⌋ ≤
          ⌊s.m_ptc * ns3.GetSeconds (now - s.m_idleTime) + 1⌋ :=
        Int.floor_mono (by linarith)
      rwa [Int.floor_add_one] at this

/-- C5, instance of the amended statement in `binary64`: an arrival 72 ms after the
disc `idleAfterTraffic` became idle, for which `m = 26`. -/
theorem doEnqueue_average_update_witness :
    (idleAfterTraffic.m_cautious ≠ 3 ∧
      (idleAfterTraffic.m_idle = 1 →
        0 ≤ ieee.fl (idleAfterTraffic.m_ptc *
          GetSeconds ieee (72000000 - idleAfterTraffic.m_idleTime)) ∧
        ⌊ieee.fl (idleAfterTraffic.m_ptc *
          GetSeconds ieee (72000000 - idleAfterTraffic.m_idleTime))⌋ + 1 < 4294967296)) ∧
    (DoEnqueue ieee idleAfterTraffic (pkt 500) 72000000 1).2.m_qAvg =
      ieee.fl (ieee.fl (idleAfterTraffic.m_qAvg *
          ieee.pow (ieee.fl (1 - idleAfterTraffic.m_qW)) (((26 + 1 : ℕ)) : ℚ)) +
        ieee.fl (idleAfterTraffic.m_qW * (idleAfterTraffic.m_queue.GetCurrentSize : ℚ))) :=
  ⟨⟨by decide!, fun _ => ⟨by decide!, by decide!⟩⟩,
    ((doEnqueue_average_update ieee (1 / 9007199254740992) ieee_rounding idleAfterTraffic
      (pkt 500) 72000000 1 (by decide!) (fun _ => ⟨by decide!, by decide!⟩)).1).trans
      (by decide!)⟩

/-- C34, counterexample. The disc started with `IdlePktSize = 100` (mean packet
size 500, `ptc = 375`) has been idle since time zero; for an arrival one second
later the number of idle arrivals is 375, while the rescaled product
`ptc * (meanPktSize / idlePktSize) * idle seconds` is 1875. -/
theorem idleArrivals_ignores_idle_packet_size :
    idlePktDisc.m_idlePktSize = 100 ∧ idlePktDisc.m_meanPktSize = 500 ∧
    idlePktDisc.m_idle = 1 ∧ idlePktDisc.m_idleTime = 0 ∧ idlePktDisc.m_ptc = 375 ∧
    ⌊idlePktDisc.m_ptc * ((idlePktDisc.m_meanPktSize : ℚ) / (idlePktDisc.m_idlePktSize : ℚ)) *
      ns3.GetSeconds (1000000000 - idlePktDisc.m_idleTime)⌋ = 1875 ∧
    idleArrivals ieee idlePktDisc 1000000000 = 375 := by
  refine ⟨by decide!, by decide!, by decide!, by decide!, by decide!, by decide!, by decide!⟩

/-- C34, amended. The rescaling by `meanPktSize / idlePktSize` is used in caution
mode 3 only. `InitializeParams` sets the caution mode to zero and no operation
writes it, so in every idle state reached from a started disc the number of idle
arrivals is the `double` product of `ptc` and the idle seconds converted to
`uint32_t`, and it is the same for every idle packet size. -/
theorem idleArrivals_rescaled_only_in_caution_mode (M : Machine)
    (c s0 : BLACKQueueDisc) (ops : List Op) (now : Int)
    (hinit : InitializeParams M c = some s0)
    (hidle : (run M s0 ops).m_idle = 1) :
    (run M s0 ops).m_cautious = 0 ∧
    idleArrivals M (run M s0 ops) now =
      toUint32 (M.fl ((run M s0 ops).m_ptc *
        GetSeconds M (now - (run M s0 ops).m_idleTime))) ∧
    (∀ k : Nat, idleArrivals M { run M s0 ops with m_idlePktSize := k } now =
      idleArrivals M (run M s0 ops) now) ∧
    (∀ s : BLACKQueueDisc, s.m_idle = 1 →
      (s.m_cautious = 3 →
        idleArrivals M s now =
          toUint32 (M.fl (M.fl (M.fl (s.m_ptc * (s.m_meanPktSize : ℚ)) /
              (s.m_idlePktSize : ℚ)) * GetSeconds M (now - s.m_idleTime)))) ∧
      (s.m_cautious ≠ 3 →
        idleArrivals M s now =
          toUint32 (M.fl (s.m_ptc * GetSeconds M (now - s.m_idleTime))))) := by
  obtain ⟨-, -, -, hc0, -⟩ := InitializeParams_rounded M c s0 hinit
  obtain ⟨-, -, -, -, -, -, -, -, -, hc, -⟩ := run_rounded_sameConfig M ops s0
  have hz : (run M s0 ops).m_cautious = 0 := hc.trans hc0
  refine ⟨hz, ?_, ?_, ?_⟩
  · unfold idleArrivals
    rw [if_pos hidle, if_neg (by rw [hz]; decide)]
  · intro k
    unfold idleArrivals
    have h3 : ¬ (run M s0 ops).m_cautious = 3 := by rw [hz]; decide
    simp only [h3, if_false]
  · intro s hi
    constructor
    · intro h3
      unfold idleArrivals
      rw [if_pos hi, if_pos h3]
    · intro h3
      unfold idleArrivals
      rw [if_pos hi, if_neg h3]

/-- C34, instance in `binary64`: the disc started with `IdlePktSize = 100`, idle since
time zero, and an arrival one second later. -/
theorem idleArrivals_rescaled_only_in_caution_mode_witness :
    (InitializeParams ieee
        (CheckConfig (configured ieee { attributeDefaults with m_idlePktSize := 100 })).2 =
        some (started ieee { attributeDefaults with m_idlePktSize := 100 }) ∧
      idlePktDisc.m_idle = 1) ∧
    idlePktDisc.m_cautious = 0 ∧
    idleArrivals ieee idlePktDisc 1000000000 =
      toUint32 (ieee.fl (idlePktDisc.m_ptc *
        GetSeconds ieee (1000000000 - idlePktDisc.m_idleTime))) ∧
    (∀ k : Nat, idleArrivals ieee { idlePktDisc with m_idlePktSize := k } 1000000000 =
      idleArrivals ieee idlePktDisc 1000000000) :=
  ⟨⟨by decide!, by decide!⟩,
    (idleArrivals_rescaled_only_in_caution_mode ieee
      (CheckConfig (configured ieee { attributeDefaults with m_idlePktSize := 100 })).2
      (started ieee { attributeDefaults with m_idlePktSize := 100 })
      [Op.enqueue (pkt 500) 0 1, Op.dequeue 0, Op.dequeue 0] 1000000000
      (by decide!) (by decide!)).1,
    (idleArrivals_rescaled_only_in_caution_mode ieee
      (CheckConfig (configured ieee { attributeDefaults with m_idlePktSize := 100 })).2
      (started ieee { attributeDefaults with m_idlePktSize := 100 })
      [Op.enqueue (pkt 500) 0 1, Op.dequeue 0, Op.dequeue 0] 1000000000
      (by decide!) (by decide!)).2.1,
    (idleArrivals_rescaled_only_in_caution_mode ieee
      (CheckConfig (configured ieee { attributeDefaults with m_idlePktSize := 100 })).2
      (started ieee { attributeDefaults with m_idlePktSize := 100 })
      [Op.enqueue (pkt 500) 0 1, Op.dequeue 0, Op.dequeue 0] 1000000000
      (by decide!) (by decide!)).2.2.1⟩

end Rounded

end BLACKQueueDisc

end ns3

namespace ns3

namespace BLACKQueueDisc

namespace Rounded

/-! Bound on the average in floating point. -/

/-- C6, counterexample to the claim as stated. The default configuration with
`QW = 0.333` is started in `binary64` with an empty buffer and average zero. Four
arrivals followed by 88 rounds of one dequeue call and one arrival sample the queue
lengths `0, 1, 2, 3, 3, ...`, so the largest sampled length is `3`; the average
approaches `3` from below and the rounding of the last update carries it to
`3 + 2 ^ (-51)`, above every sampled length. -/
theorem average_overshoots_sampled_lengths :
    InitializeParams ieee
        (CheckConfig (configured ieee { attributeDefaults with m_qW := 333 / 1000 })).2 =
      some overshootDisc ∧
    overshootDisc.m_qAvg = 0 ∧ overshootDisc.m_queue.items = [] ∧
    0 ≤ overshootDisc.m_qW ∧ overshootDisc.m_qW ≤ 1 ∧
    maxSampled ieee overshootDisc overshootOps = 3 ∧
    (run ieee overshootDisc overshootOps).m_qAvg = 3 + 1 / 2251799813685248 ∧
    ((maxSampled ieee overshootDisc overshootOps : ℕ) : ℚ) <
      (run ieee overshootDisc overshootOps).m_qAvg := by
  decide!

/-- Arithmetic behind one update of the average outside an idle period. -/
theorem ewma_arith (u q a n N w A B a' β γ : ℚ) (hu : 0 ≤ u) (hq0 : 0 ≤ q) (hq1 : q ≤ 1)
    (hβ : β = (1 + u) ^ 3 * (1 - q)) (hγ : γ = (1 + u) ^ 2 * q) (hβ1 : β < 1)
    (ha : 0 ≤ a) (haN : a * (1 - β) ≤ γ * N) (hnN : n ≤ N)
    (hw : w ≤ (1 - q) * (1 + u))
    (hA : A ≤ a * w * (1 + u)) (hB : B ≤ q * n * (1 + u)) (ha' : a' ≤ (A + B) * (1 + u)) :
    a' * (1 - β) ≤ γ * N := by
  have h1u : 0 ≤ 1 + u := by linarith
  have hβ0 : 0 ≤ β := by rw [hβ]; exact mul_nonneg (pow_nonneg h1u 3) (by linarith)
  have hγ0 : 0 ≤ γ := by rw [hγ]; exact mul_nonneg (pow_nonneg h1u 2) hq0
  have s1 : a * w ≤ a * ((1 - q) * (1 + u)) := mul_le_mul_of_nonneg_left hw ha
  have s2 : a * w * (1 + u) ≤ a * ((1 - q) * (1 + u)) * (1 + u) :=
    mul_le_mul_of_nonneg_right s1 h1u
  have s3 : (A + B) * (1 + u) ≤
      (a * ((1 - q) * (1 + u)) * (1 + u) + q * n * (1 + u)) * (1 + u) :=
    mul_le_mul_of_nonneg_right (by linarith) h1u
  have s4 : a' ≤ β * a + γ * n := by
    have e : (a * ((1 - q) * (1 + u)) * (1 + u) + q * n * (1 + u)) * (1 + u) =
        (1 + u) ^ 3 * (1 - q) * a + (1 + u) ^ 2 * q * n := by ring
    rw [hβ, hγ]
    linarith
  have s5 : a' * (1 - β) ≤ (β * a + γ * n) * (1 - β) :=
    mul_le_mul_of_nonneg_right s4 (by linarith)
  have s6 : β * (a * (1 - β)) ≤ β * (γ * N) := mul_le_mul_of_nonneg_left haN hβ0
  have s7 : γ * n ≤ γ * N := mul_le_mul_of_nonneg_left hnN hγ0
  have s8 : γ * n * (1 - β) ≤ γ * N * (1 - β) := mul_le_mul_of_nonneg_right s7 (by linarith)
  nlinarith

/-- One update of the average by `DoEnqueue`: the new average is a `double`, is not
negative, and stays under the bound with the new sample taken into account,
provided an idle disc has an empty buffer. -/
theorem DoEnqueue_rounded_average (M : Machine) (u : ℚ) (hr : Rounding u M.fl)
    (hpw : PowSound M) (s : BLACKQueueDisc) (item : QueueDiscItem) (now : Int) (v : ℚ)
    (N : ℕ) (hw0 : 0 ≤ s.m_qW) (hw1 : s.m_qW ≤ 1)
    (hβ : (1 + u) ^ 3 * (1 - s.m_qW) < 1)
    (h0 : 0 ≤ s.m_qAvg) (hrep : M.fl s.m_qAvg = s.m_qAvg)
    (hN : s.m_qAvg * (1 - (1 + u) ^ 3 * (1 - s.m_qW)) ≤ (1 + u) ^ 2 * s.m_qW * (N : ℚ))
    (hidle : s.m_idle = 1 → s.m_queue.items = []) :
    0 ≤ (DoEnqueue M s item now v).2.m_qAvg ∧
    M.fl (DoEnqueue M s item now v).2.m_qAvg = (DoEnqueue M s item now v).2.m_qAvg ∧
    (DoEnqueue M s item now v).2.m_qAvg * (1 - (1 + u) ^ 3 * (1 - s.m_qW)) ≤
      (1 + u) ^ 2 * s.m_qW * ((max N s.m_queue.GetCurrentSize : ℕ) : ℚ) ∧
    (DoEnqueue M s item now v).2.m_idle ≠ 1 := by
  obtain ⟨c, l, f, cnt, cb, o, w, d, st, q, h⟩ := DoEnqueue_rounded M s item now v
  rw [h]
  simp only
  have hu0 := hr.u_nonneg
  have hb0 : (0 : ℚ) ≤ 1 - s.m_qW := by linarith
  have hb1 : 1 - s.m_qW ≤ 1 := by linarith
  have hW0 : 0 ≤ M.fl (1 - s.m_qW) := hr.nonneg _ hb0
  have hW1 : M.fl (1 - s.m_qW) ≤ 1 := hr.le_one _ hb0 hb1
  have hWu : M.fl (1 - s.m_qW) ≤ (1 - s.m_qW) * (1 + u) := hr.upper _ hb0
  have hn0 : (0 : ℚ) ≤ (s.m_queue.GetCurrentSize : ℚ) := Nat.cast_nonneg _
  have hmaxN : (N : ℚ) ≤ ((max N s.m_queue.GetCurrentSize : ℕ) : ℚ) :=
    Nat.cast_le.mpr (le_max_left _ _)
  have hmaxn : (s.m_queue.GetCurrentSize : ℚ) ≤ ((max N s.m_queue.GetCurrentSize : ℕ) : ℚ) :=
    Nat.cast_le.mpr (le_max_right _ _)
  have hγ0 : 0 ≤ (1 + u) ^ 2 * s.m_qW := mul_nonneg (by positivity) hw0
  have hN' : s.m_qAvg * (1 - (1 + u) ^ 3 * (1 - s.m_qW)) ≤
      (1 + u) ^ 2 * s.m_qW * ((max N s.m_queue.GetCurrentSize : ℕ) : ℚ) :=
    le_trans hN (mul_le_mul_of_nonneg_left hmaxN hγ0)
  obtain ⟨hp0, hp1⟩ := hpw.unit_interval (M.fl (1 - s.m_qW))
    ((wrap32 (idleArrivals M s now + 1) : ℕ) : ℚ) hW0 hW1
  have hA0 : 0 ≤ s.m_qAvg * M.pow (M.fl (1 - s.m_qW))
      ((wrap32 (idleArrivals M s now + 1) : ℕ) : ℚ) := mul_nonneg h0 hp0
  have hB0 : 0 ≤ s.m_qW * (s.m_queue.GetCurrentSize : ℚ) := mul_nonneg hw0 hn0
  have hsum0 : 0 ≤ M.fl (s.m_qAvg * M.pow (M.fl (1 - s.m_qW))
        ((wrap32 (idleArrivals M s now + 1) : ℕ) : ℚ)) +
      M.fl (s.m_qW * (s.m_queue.GetCurrentSize : ℚ)) :=
    add_nonneg (hr.nonneg _ hA0) (hr.nonneg _ hB0)
  refine ⟨hr.nonneg _ hsum0, hr.idem _, ?_, ?_⟩
  · by_cases hi : s.m_idle = 1
    · have hz : s.m_queue.GetCurrentSize = 0 := GetCurrentSize_of_empty _ (hidle hi)
      rw [hz] at hN' ⊢
      simp only [Nat.cast_zero, mul_zero, hr.zero, add_zero, hr.idem]
      have hle : s.m_qAvg * M.pow (M.fl (1 - s.m_qW))
          ((wrap32 (idleArrivals M s now + 1) : ℕ) : ℚ) ≤ s.m_qAvg :=
        mul_le_of_le_one_right h0 hp1
      have hfl : M.fl (s.m_qAvg * M.pow (M.fl (1 - s.m_qW))
          ((wrap32 (idleArrivals M s now + 1) : ℕ) : ℚ)) ≤ s.m_qAvg := by
        have := hr.mono _ _ hA0 hle
        rwa [hrep] at this
      have hpos : 0 ≤ 1 - (1 + u) ^ 3 * (1 - s.m_qW) := by linarith
      exact le_trans (mul_le_mul_of_nonneg_right hfl hpos) hN'
    · have hk : wrap32 (idleArrivals M s now + 1) = 1 := by
        unfold idleArrivals wrap32
        rw [if_neg hi]
      rw [hk] at hA0 ⊢
      simp only [Nat.cast_one] at hA0 ⊢
      rw [hpw.exponent_one] at hA0 ⊢
      exact ewma_arith u s.m_qW s.m_qAvg (s.m_queue.GetCurrentSize : ℚ)
        ((max N s.m_queue.GetCurrentSize : ℕ) : ℚ) (M.fl (1 - s.m_qW))
        (M.fl (s.m_qAvg * M.fl (1 - s.m_qW)))
        (M.fl (s.m_qW * (s.m_queue.GetCurrentSize : ℚ))) _ _ _ hu0 hw0 hw1 rfl rfl hβ h0
        hN' hmaxn hWu (hr.upper _ hA0) (hr.upper _ hB0)
        (hr.upper _ (add_nonneg (hr.nonneg _ hA0) (hr.nonneg _ hB0)))
  · by_cases hi : s.m_idle = 1
    · simp [hi]
    · simp only [hi, if_false]
      exact hi

/-- Invariant behind the bound on the average: along every sequence of operations
the average is a non-negative `double` and stays under the bound given by the
largest of a bound valid at the start and the queue lengths sampled since. -/
theorem run_rounded_average (M : Machine) (u : ℚ) (hr : Rounding u M.fl)
    (hpw : PowSound M) (ops : List Op) :
    ∀ (s : BLACKQueueDisc) (N : ℕ), 0 ≤ s.m_qW → s.m_qW ≤ 1 →
      (1 + u) ^ 3 * (1 - s.m_qW) < 1 → 0 ≤ s.m_qAvg → M.fl s.m_qAvg = s.m_qAvg →
      s.m_qAvg * (1 - (1 + u) ^ 3 * (1 - s.m_qW)) ≤ (1 + u) ^ 2 * s.m_qW * (N : ℚ) →
      (s.m_idle = 1 → s.m_queue.items = []) →
      0 ≤ (run M s ops).m_qAvg ∧
      (run M s ops).m_qAvg * (1 - (1 + u) ^ 3 * (1 - s.m_qW)) ≤
        (1 + u) ^ 2 * s.m_qW * ((max N (maxSampled M s ops) : ℕ) : ℚ) := by
  induction ops with
  | nil =>
    intro s N hw0 _ _ h0 _ hN _
    have hγ0 : 0 ≤ (1 + u) ^ 2 * s.m_qW := mul_nonneg (by positivity) hw0
    refine ⟨h0, le_trans hN (mul_le_mul_of_nonneg_left ?_ hγ0)⟩
    exact Nat.cast_le.mpr (le_max_left _ _)
  | cons op rest ih =>
    intro s N hw0 hw1 hβ h0 hrep hN hidle
    cases op with
    | enqueue item now v =>
      obtain ⟨a0, a1, a2, a3⟩ :=
        DoEnqueue_rounded_average M u hr hpw s item now v N hw0 hw1 hβ h0 hrep hN hidle
      have hcfg := DoEnqueue_rounded_sameConfig M s item now v
      have hqw : (DoEnqueue M s item now v).2.m_qW = s.m_qW := hcfg.2.2.2.2.2.2.2.2.1
      have := ih (DoEnqueue M s item now v).2 (max N s.m_queue.GetCurrentSize)
        (by rw [hqw]; exact hw0) (by rw [hqw]; exact hw1) (by rw [hqw]; exact hβ) a0 a1
        (by rw [hqw]; exact a2) (fun h => absurd h a3)
      rw [hqw] at this
      show 0 ≤ (run M (step M s (Op.enqueue item now v)) rest).m_qAvg ∧
        (run M (step M s (Op.enqueue item now v)) rest).m_qAvg *
            (1 - (1 + u) ^ 3 * (1 - s.m_qW)) ≤
          (1 + u) ^ 2 * s.m_qW * ((max N (max s.m_queue.GetCurrentSize
            (maxSampled M (step M s (Op.enqueue item now v)) rest)) : ℕ) : ℚ)
      rw [← max_assoc]
      exact this
    | dequeue now =>
      obtain ⟨a1, a2⟩ := DoDequeue_average s now
      have hcfg := DoDequeue_sameConfig s now
      have hqw : (DoDequeue s now).2.m_qW = s.m_qW := hcfg.2.2.2.2.2.2.2.2.1
      have := ih (DoDequeue s now).2 N (by rw [hqw]; exact hw0) (by rw [hqw]; exact hw1)
        (by rw [hqw]; exact hβ) (by rw [a1]; exact h0) (by rw [a1]; exact hrep)
        (by rw [a1, hqw]; exact hN) a2
      rw [hqw] at this
      exact this

/-- C6, amended. Starting from a disc initialised by `InitializeParams` (average zero)
with an empty buffer and a queue weight `qW` in `[0, 1]`, after every sequence of
enqueue attempts and dequeue calls, at arbitrary times and hence for every
idle-compensation count, the average is at least zero and at most `K` times the
largest queue length sampled by the enqueue attempts so far, where
`K = (1 + u) ^ 2 * qW / (1 - (1 + u) ^ 3 * (1 - qW))` and `u` is the unit roundoff
(`2 ^ (-53)` for `double`), provided `(1 + u) ^ 3 * (1 - qW) < 1` and `std::pow` maps a
base in `[0, 1]` to a result in `[0, 1]` and gives back the base for the exponent one
(`PowSound`). The factor `K` is about `1 + 3 * u / qW`: the average can exceed the
largest sample by rounding, and by no more than that. -/
theorem average_bounded_by_sampled_lengths (M : Machine) (u : ℚ) (hr : Rounding u M.fl)
    (hpw : PowSound M) (c s : BLACKQueueDisc) (ops : List Op)
    (hinit : InitializeParams M c = some s) (hempty : c.m_queue.items = [])
    (hw0 : 0 ≤ s.m_qW) (hw1 : s.m_qW ≤ 1) (hβ : (1 + u) ^ 3 * (1 - s.m_qW) < 1) :
    0 ≤ (run M s ops).m_qAvg ∧
    (run M s ops).m_qAvg ≤
      (1 + u) ^ 2 * s.m_qW / (1 - (1 + u) ^ 3 * (1 - s.m_qW)) * (maxSampled M s ops : ℚ) := by
  obtain ⟨h1, -, h3, -⟩ := InitializeParams_rounded M c s hinit
  have h := run_rounded_average M u hr hpw ops s 0 hw0 hw1 hβ (by rw [h1])
    (by rw [h1]; exact hr.zero) (by rw [h1]; simp)
    (fun _ => by rw [h3]; exact hempty)
  rw [Nat.zero_max] at h
  refine ⟨h.1, ?_⟩
  have hpos : 0 < 1 - (1 + u) ^ 3 * (1 - s.m_qW) := by linarith
  rw [div_mul_eq_mul_div, le_div_iff₀ hpos]
  exact h.2

/-- C6, instance of the amended statement in `binary64`: the default disc after three
arrivals and four dequeue calls. -/
theorem average_bounded_by_sampled_lengths_witness :
    (InitializeParams ieee (CheckConfig (configured ieee attributeDefaults)).2 =
        some defaultDisc ∧
      (CheckConfig (configured ieee attributeDefaults)).2.m_queue.items = [] ∧
      0 ≤ defaultDisc.m_qW ∧ defaultDisc.m_qW ≤ 1 ∧
      (1 + (1 : ℚ) / 9007199254740992) ^ 3 * (1 - defaultDisc.m_qW) < 1) ∧
    0 ≤ (run ieee defaultDisc
      [Op.enqueue (pkt 500) 0 1, Op.enqueue (pkt 500) 0 1, Op.enqueue (pkt 500) 0 1,
       Op.dequeue 0, Op.dequeue 0, Op.dequeue 0, Op.dequeue 0]).m_qAvg ∧
    (run ieee defaultDisc
      [Op.enqueue (pkt 500) 0 1, Op.enqueue (pkt 500) 0 1, Op.enqueue (pkt 500) 0 1,
       Op.dequeue 0, Op.dequeue 0, Op.dequeue 0, Op.dequeue 0]).m_qAvg ≤
      (1 + (1 : ℚ) / 9007199254740992) ^ 2 * defaultDisc.m_qW /
          (1 - (1 + (1 : ℚ) / 9007199254740992) ^ 3 * (1 - defaultDisc.m_qW)) *
        (maxSampled ieee defaultDisc
          [Op.enqueue (pkt 500) 0 1, Op.enqueue (pkt 500) 0 1, Op.enqueue (pkt 500) 0 1,
           Op.dequeue 0, Op.dequeue 0, Op.dequeue 0, Op.dequeue 0] : ℚ) :=
  ⟨by decide!,
    average_bounded_by_sampled_lengths ieee (1 / 9007199254740992) ieee_rounding ieee_powSound
      (CheckConfig (configured ieee attributeDefaults)).2 defaultDisc _
      (by decide!) (by decide!) (by decide!) (by decide!) (by decide!)⟩

end Rounded

end BLACKQueueDisc

end ns3

namespace ns3

namespace BLACKQueueDisc

namespace Rounded

/-! Base probability in floating point. -/

/-- The result of `CalculatePNew` is the unclamped value capped at one, and is
never above one. -/
theorem CalculatePNew_le_one (M : Machine) (s : BLACKQueueDisc) : CalculatePNew M s ≤ 1 := by
  unfold CalculatePNew
  simp only
  split_ifs with h1 h2 h3 h4 h5 <;> first | exact le_refl _ | exact not_lt.mp ‹_›

/-- In gentle mode at or above the maximum threshold, the result is the rounded
ramp `vC * avg + vD` capped at one. -/
theorem CalculatePNew_gentle (M : Machine) (s : BLACKQueueDisc)
    (hg : s.m_isGentle = true) (hge : s.m_maxTh ≤ s.m_qAvg) :
    CalculatePNew M s = min 1 (M.fl (M.fl (s.m_vC * s.m_qAvg) + s.m_vD)) := by
  unfold CalculatePNew
  simp only [hg, ge_iff_le, hge, and_self, if_true]
  rw [cap_eq_min]

/-- Arithmetic behind the gentle ramp: a lower bound of the sum `t + vD` from lower
bounds of the rounded factors. -/
theorem gentle_arith (u c0 ρ a1 P t f2 vD : ℚ) (hu : u ≤ 1 / 8)
    (hc1 : c0 ≤ 1) (hρ : 1 ≤ ρ)
    (h1 : (1 - c0) * (1 - u) ≤ a1) (h2 : a1 * (1 - u) * ρ ≤ P) (h3 : P * (1 - u) ≤ t)
    (h4 : 2 * c0 * (1 - u) ≤ f2) (h5 : f2 - 1 - u * (1 + 2 * u) ≤ vD) :
    (1 - c0) * (1 - 3 * u) * ρ + 2 * c0 * (1 - u) - 1 - u - 2 * u ^ 2 ≤ t + vD := by
  have hw0 : 0 ≤ 1 - u := by linarith
  have hρ0 : 0 ≤ ρ := by linarith
  have hX : 0 ≤ 1 - c0 := by linarith
  have s2 : (1 - c0) * (1 - u) * (1 - u) * ρ ≤ a1 * (1 - u) * ρ :=
    mul_le_mul_of_nonneg_right (mul_le_mul_of_nonneg_right h1 hw0) hρ0
  have s3 : (1 - c0) * (1 - u) * (1 - u) * ρ * (1 - u) ≤ P * (1 - u) :=
    mul_le_mul_of_nonneg_right (le_trans s2 h2) hw0
  have cube : 1 - 3 * u ≤ (1 - u) * (1 - u) * (1 - u) := by nlinarith [sq_nonneg u]
  have hXρ : 0 ≤ (1 - c0) * ρ := mul_nonneg hX hρ0
  have s4 : (1 - c0) * (1 - 3 * u) * ρ ≤ (1 - c0) * (1 - u) * (1 - u) * ρ * (1 - u) := by
    have := mul_le_mul_of_nonneg_left cube hXρ
    linarith
  linarith

/-- Lower bound of the sum that the gentle ramp rounds, for coefficients derived
from a maximum probability in `[0, 1]` and an average at or above the maximum
threshold. -/
theorem gentle_sum_lower (M : Machine) (u : ℚ) (hr : Rounding u M.fl) (hu : u ≤ 1 / 8)
    (s : BLACKQueueDisc) (c0 : ℚ) (hco : CoeffsDerived M s c0)
    (hc0 : 0 ≤ c0) (hc1 : c0 ≤ 1) (hg : s.m_isGentle = true)
    (hmax : 0 < s.m_maxTh) (hge : s.m_maxTh ≤ s.m_qAvg) :
    (1 - c0) * (1 - 3 * u) * (s.m_qAvg / s.m_maxTh) + 2 * c0 * (1 - u) - 1 - u - 2 * u ^ 2 ≤
      M.fl (s.m_vC * s.m_qAvg) + s.m_vD := by
  obtain ⟨-, -, hG⟩ := hco
  obtain ⟨hC, hD⟩ := hG hg
  have hu0 := hr.u_nonneg
  have hX : 0 ≤ 1 - c0 := by linarith
  have ha0 : 0 ≤ M.fl (1 - c0) := hr.nonneg _ hX
  have ha1 : (1 - c0) * (1 - u) ≤ M.fl (1 - c0) := hr.lower _ hX
  have hq0 : 0 ≤ M.fl (1 - c0) / s.m_maxTh := div_nonneg ha0 (le_of_lt hmax)
  have hvC0 : 0 ≤ s.m_vC := by rw [hC]; exact hr.nonneg _ hq0
  have hvC1 : M.fl (1 - c0) / s.m_maxTh * (1 - u) ≤ s.m_vC := by rw [hC]; exact hr.lower _ hq0
  have havg0 : 0 ≤ s.m_qAvg := by linarith
  have hρ1 : 1 ≤ s.m_qAvg / s.m_maxTh := by rw [le_div_iff₀ hmax]; linarith
  have hp0 : 0 ≤ s.m_vC * s.m_qAvg := mul_nonneg hvC0 havg0
  have ht : s.m_vC * s.m_qAvg * (1 - u) ≤ M.fl (s.m_vC * s.m_qAvg) := hr.lower _ hp0
  have e1 : M.fl (1 - c0) / s.m_maxTh * (1 - u) * s.m_qAvg =
      M.fl (1 - c0) * (1 - u) * (s.m_qAvg / s.m_maxTh) := by
    field_simp
  have s1 : M.fl (1 - c0) * (1 - u) * (s.m_qAvg / s.m_maxTh) ≤ s.m_vC * s.m_qAvg := by
    rw [← e1]
    exact mul_le_mul_of_nonneg_right hvC1 havg0
  have hf2a : 2 * c0 * (1 - u) ≤ M.fl (2 * c0) := hr.lower _ (by linarith)
  have hf2b : M.fl (2 * c0) ≤ 2 * c0 * (1 + u) := hr.upper _ (by linarith)
  have hf2c : 0 ≤ M.fl (2 * c0) := hr.nonneg _ (by linarith)
  have hy : |M.fl (2 * c0) - 1| ≤ 1 + 2 * u := by
    rw [abs_le]
    constructor
    · linarith
    · have : 2 * c0 * (1 + u) ≤ 2 * (1 + u) := by
        have := mul_le_mul_of_nonneg_right hc1 (by linarith : (0 : ℚ) ≤ 2 * (1 + u))
        linarith
      linarith
  have hvD : M.fl (2 * c0) - 1 - u * (1 + 2 * u) ≤ s.m_vD := by
    rw [hD]
    exact hr.lower_abs _ _ hy
  exact gentle_arith u c0 _ _ _ _ _ _ hu hc1 hρ1 ha1 s1 ht hf2a hvD

/-- In gentle mode at twice the maximum threshold the result is at least
`1 - 8 * u`. -/
theorem CalculatePNew_gentle_twice (M : Machine) (u : ℚ) (hr : Rounding u M.fl)
    (hu : u ≤ 1 / 8) (s : BLACKQueueDisc) (c0 : ℚ) (hco : CoeffsDerived M s c0)
    (hc0 : 0 ≤ c0) (hc1 : c0 ≤ 1) (hg : s.m_isGentle = true)
    (hmax : 0 < s.m_maxTh) (hav : s.m_qAvg = 2 * s.m_maxTh) :
    1 - 8 * u ≤ CalculatePNew M s := by
  have hge : s.m_maxTh ≤ s.m_qAvg := by rw [hav]; linarith
  have hsum := gentle_sum_lower M u hr hu s c0 hco hc0 hc1 hg hmax hge
  have hρ : s.m_qAvg / s.m_maxTh = 2 := by rw [hav]; field_simp
  rw [hρ] at hsum
  rw [CalculatePNew_gentle M s hg hge]
  have hu0 := hr.u_nonneg
  generalize M.fl (s.m_vC * s.m_qAvg) + s.m_vD = S at hsum ⊢
  have hS : 1 - 7 * u - 2 * u ^ 2 ≤ S := by nlinarith
  have hS0 : 0 ≤ S := by nlinarith
  have hfl := hr.lower S hS0
  apply le_min
  · linarith
  · nlinarith

/-- C8, counterexample to the claim as stated. The default configuration (gentle
mode, `maxTh = 15`, `LInterm = 50`) started in `binary64` has the gentle coefficients
`vC = fl (fl (1 - fl (1 / 50)) / 15)` and `vD = fl (fl (2 * fl (1 / 50)) - 1)`; at the
average `2 * maxTh = 30` `CalculatePNew` returns `1 - 2 ^ (-52)`, not one. -/
theorem calculatePNew_below_one_at_twice_maxTh :
    InitializeParams ieee (CheckConfig (configured ieee attributeDefaults)).2 =
      some defaultDisc ∧
    defaultDisc.m_isGentle = true ∧ defaultDisc.m_maxTh = 15 ∧
    CalculatePNew ieee { defaultDisc with m_qAvg := 2 * defaultDisc.m_maxTh } =
      1 - 1 / 4503599627370496 ∧
    CalculatePNew ieee { defaultDisc with m_qAvg := 2 * defaultDisc.m_maxTh } ≠ 1 := by
  decide!

/-- C8, amended. In gentle mode with a positive maximum threshold, for every
configuration with `LInterm ≥ 1` initialised by `InitializeParams` and after every
sequence of operations, `CalculatePNew` evaluated at an average of twice the
maximum threshold returns a value in `[1 - 8 * u, 1]`, where `u` is the unit
roundoff (`2 ^ (-53)` for `double`). -/
theorem calculatePNew_at_twice_maxTh (M : Machine) (u : ℚ) (hr : Rounding u M.fl)
    (hu : u ≤ 1 / 8) (c s : BLACKQueueDisc) (ops : List Op)
    (hinit : InitializeParams M c = some s)
    (hg : s.m_isGentle = true) (hmax : 0 < s.m_maxTh) (hl : 1 ≤ c.m_lInterm) :
    1 - 8 * u ≤ CalculatePNew M { run M s ops with m_qAvg := 2 * s.m_maxTh } ∧
    CalculatePNew M { run M s ops with m_qAvg := 2 * s.m_maxTh } ≤ 1 := by
  refine ⟨?_, CalculatePNew_le_one M _⟩
  have hco := run_rounded_coeffsDerived M c s ops hinit
  obtain ⟨-, e2, -, -, -, -, e7, -⟩ := run_rounded_sameConfig M ops s
  have hinv0 : 0 ≤ 1 / c.m_lInterm := by positivity
  have hinv1 : 1 / c.m_lInterm ≤ 1 := by
    rw [div_le_one (by linarith)]; exact hl
  have hc0 : 0 ≤ M.fl (1 / c.m_lInterm) := hr.nonneg _ hinv0
  have hc1 : M.fl (1 / c.m_lInterm) ≤ 1 := hr.le_one _ hinv0 hinv1
  exact CalculatePNew_gentle_twice M u hr hu { run M s ops with m_qAvg := 2 * s.m_maxTh }
    (M.fl (1 / c.m_lInterm)) hco hc0 hc1
    (by show (run M s ops).m_isGentle = true; rw [e7]; exact hg)
    (by show 0 < (run M s ops).m_maxTh; rw [e2]; exact hmax)
    (by show 2 * s.m_maxTh = 2 * (run M s ops).m_maxTh; rw [e2])

/-- C8, instance of the amended statement in `binary64`: the default disc (gentle
mode, `maxTh = 15`, `LInterm = 50`) after three arrivals. -/
theorem calculatePNew_at_twice_maxTh_witness :
    (((1 : ℚ) / 9007199254740992 ≤ 1 / 8 ∧
      InitializeParams ieee (CheckConfig (configured ieee attributeDefaults)).2 =
        some defaultDisc ∧
      defaultDisc.m_isGentle = true ∧ 0 < defaultDisc.m_maxTh ∧
      1 ≤ (CheckConfig (configured ieee attributeDefaults)).2.m_lInterm)) ∧
    1 - 8 * (1 / 9007199254740992) ≤
      CalculatePNew ieee
        { run ieee defaultDisc
            [Op.enqueue (pkt 500) 0 1, Op.enqueue (pkt 500) 0 1, Op.enqueue (pkt 500) 0 1] with
          m_qAvg := 2 * defaultDisc.m_maxTh } :=
  ⟨by decide!,
    (calculatePNew_at_twice_maxTh ieee (1 / 9007199254740992) ieee_rounding (by norm_num)
      (CheckConfig (configured ieee attributeDefaults)).2 defaultDisc _
      (by decide!) (by decide!) (by decide!) (by decide!)).1⟩

end Rounded

end BLACKQueueDisc

end ns3

namespace ns3

namespace BLACKQueueDisc

namespace Rounded

end Rounded

end BLACKQueueDisc

end ns3

namespace ns3

namespace BLACKQueueDisc

namespace Rounded

end Rounded

end BLACKQueueDisc

end ns3

namespace ns3

namespace BLACKQueueDisc

namespace Rounded

/-! Modified probability in floating point. -/

/-- C11, counterexample to the claim as stated. The started default disc is in
packet mode and in wait mode. With `n = 3` packets counted and the base probability
`p` the `double` nearest to `1 / 3`, the product `n * p` is below one, yet its
rounding is one: `ModifyP` takes the middle case and returns `p / (2 - 1) = p`
where the claim has `0`. -/
theorem modifyP_rounded_product_reaches_one :
    defaultDisc.m_maxSize.unit = QueueSizeUnit.PACKETS ∧ defaultDisc.m_isWait = true ∧
    (0 : ℚ) ≤ binary64 (1 / 3) ∧ binary64 (1 / 3) ≤ 1 ∧
    ((3 : ℕ) : ℚ) * binary64 (1 / 3) < 1 ∧
    ieee.fl (((3 : ℕ) : ℚ) * binary64 (1 / 3)) = 1 ∧
    ModifyP ieee { defaultDisc with m_count := 3 } (binary64 (1 / 3)) 500 = binary64 (1 / 3) ∧
    ModifyP ieee { defaultDisc with m_count := 3 } (binary64 (1 / 3)) 500 ≠ 0 := by
  decide!

/-- C11, amended. In packet mode, for every base probability `p ≥ 0` and every count
`n` of packets since the last drop, `ModifyP` applies the case distinction of the
claim to the rounded product `fl (n * p)`: in wait mode it returns `0` if
`fl (n * p) < 1`, the minimum of `1` and the rounded quotient `p / (2 - fl (n * p))`
if `1 ≤ fl (n * p) < 2`, and `1` otherwise; in non-wait mode the minimum of `1` and
the rounded quotient `p / (1 - fl (n * p))` if `fl (n * p) < 1`, and `1` otherwise.
For a rounding with unit roundoff `u` the rounded product is on the same side of
`1` and of `2` as the exact product, unless the exact product lies in
`[1 / (1 + u), 1)` or in `[2 / (1 + u), 2)`. -/
theorem modifyP_packet_mode (M : Machine) (u : ℚ) (hr : Rounding u M.fl)
    (s : BLACKQueueDisc) (p : ℚ) (size : Nat)
    (hunit : s.m_maxSize.unit = QueueSizeUnit.PACKETS) (hp : 0 ≤ p) :
    ModifyP M s p size =
      (if s.m_isWait = true then
        if M.fl ((s.m_count : ℚ) * p) < 1 then 0
        else if M.fl ((s.m_count : ℚ) * p) < 2 then
          min 1 (M.fl (p / M.fl (2 - M.fl ((s.m_count : ℚ) * p))))
        else 1
      else
        if M.fl ((s.m_count : ℚ) * p) < 1 then
          min 1 (M.fl (p / M.fl (1 - M.fl ((s.m_count : ℚ) * p))))
        else 1) ∧
    (1 ≤ (s.m_count : ℚ) * p → 1 ≤ M.fl ((s.m_count : ℚ) * p)) ∧
    ((s.m_count : ℚ) * p * (1 + u) < 1 → M.fl ((s.m_count : ℚ) * p) < 1) ∧
    (2 ≤ (s.m_count : ℚ) * p → 2 ≤ M.fl ((s.m_count : ℚ) * p)) ∧
    ((s.m_count : ℚ) * p * (1 + u) < 2 → M.fl ((s.m_count : ℚ) * p) < 2) := by
  have hb : ¬ s.m_maxSize.unit = QueueSizeUnit.BYTES := by rw [hunit]; decide
  have hnp : 0 ≤ (s.m_count : ℚ) * p := mul_nonneg (Nat.cast_nonneg _) hp
  refine ⟨?_, ?_, ?_, ?_, ?_⟩
  · unfold ModifyP
    simp only [hb, false_and, if_false]
    rw [cap_eq_min]
    by_cases hw : s.m_isWait = true
    · simp only [hw, if_true]
      by_cases h1 : M.fl ((s.m_count : ℚ) * p) < 1
      · simp [h1]
      · by_cases h2 : M.fl ((s.m_count : ℚ) * p) < 2
        · simp [h1, h2]
        · simp [h1, h2]
    · simp only [hw, if_false]
      by_cases h1 : M.fl ((s.m_count : ℚ) * p) < 1
      · simp [h1]
      · simp [h1]
  · intro h
    have := hr.mono 1 _ (by norm_num) h
    rwa [hr.one] at this
  · intro h
    exact lt_of_le_of_lt (hr.upper _ hnp) h
  · intro h
    have := hr.mono 2 _ (by norm_num) h
    rwa [hr.two] at this
  · intro h
    exact lt_of_le_of_lt (hr.upper _ hnp) h

/-- C11, instance of the amended statement in `binary64`: the default disc with 60
packets counted and the base probability the `double` nearest to `1 / 50`; the
rounded product is between one and two. -/
theorem modifyP_packet_mode_witness :
    (({ defaultDisc with m_count := 60 } : BLACKQueueDisc).m_maxSize.unit =
        QueueSizeUnit.PACKETS ∧ (0 : ℚ) ≤ binary64 (1 / 50)) ∧
    ModifyP ieee { defaultDisc with m_count := 60 } (binary64 (1 / 50)) 500 =
      min 1 (ieee.fl (binary64 (1 / 50) /
        ieee.fl (2 - ieee.fl (((60 : ℕ) : ℚ) * binary64 (1 / 50))))) :=
  ⟨by decide!,
    ((modifyP_packet_mode ieee (1 / 9007199254740992) ieee_rounding
      { defaultDisc with m_count := 60 } (binary64 (1 / 50)) 500 (by decide!)
      (by decide!)).1).trans (by decide!)⟩

end Rounded

end BLACKQueueDisc

end ns3

namespace ns3

namespace LLQQueueDisc

open BLACKQueueDisc

/-! Results on the LLQ disc. -/

theorem toInt32_of_range (x : Int) (h1 : -2147483648 ≤ x) (h2 : x < 2147483648) :
    toInt32 x = x := by
  unfold toInt32; omega

theorem debit_eq (n : Nat) (h : n ≤ 2147483648) :
    toInt32 ((wrap32 (n * 4294967295) : Nat) : Int) = -(n : Int) := by
  unfold toInt32 wrap32; omega

theorem getClass_setClass (s : LLQQueueDisc) (i j : Nat) (f : LLQFlow) :
    (s.setClass i f).GetQueueDiscClass j =
      if j = i ∧ i < s.m_classes.length then f else s.GetQueueDiscClass j := by
  unfold setClass GetQueueDiscClass
  simp only [List.getD_eq_getElem?_getD, List.getElem?_set]
  by_cases h : i = j
  · subst h
    by_cases hl : i < s.m_classes.length
    · simp [hl]
    · simp [hl, List.getElem?_eq_none (Nat.le_of_not_lt hl)]
  · have h' : ¬ j = i := fun e => h e.symm
    simp [h, h']

/-- The evictor returns the position of a class and rewrites only the items held by
that class and the statistics. -/
theorem LLQDrop_eq (s s' : LLQQueueDisc) (i : Nat) (h : s.LLQDrop = some (i, s')) :
    ∃ (f : LLQFlow) (rest : List QueueDiscItem) (ev : List LLQEvent),
      s.m_classes.get? i = some f ∧
        s' = { s.setClass i { f with m_queue := rest } with m_stats := ev } := by
  unfold LLQDrop at h
  simp only at h
  cases hg : s.m_classes.get? (scanFat s.m_classes 0 0 0).2 with
  | none => rw [hg] at h; simp at h
  | some f =>
    rw [hg] at h
    simp only at h
    cases hd : dropLoop s.m_dropBatchSize ((scanFat s.m_classes 0 0 0).1 / 2) f.m_queue 0 0 [] with
    | none => rw [hd] at h; simp at h
    | some p =>
      rw [hd] at h
      simp only [Option.some.injEq, Prod.mk.injEq] at h
      obtain ⟨h1, h2⟩ := h
      subst h1
      exact ⟨f, p.1, _, hg, h2.symm⟩

/-- The overload check of `DoEnqueue` returns true and leaves the lists, and the
status and deficit of every flow, as they are. -/
theorem checkOverload_frame (s s' : LLQQueueDisc) (r : Bool)
    (h : s.checkOverload = some (r, s')) :
    r = true ∧ s'.m_newFlows = s.m_newFlows ∧ s'.m_oldFlows = s.m_oldFlows ∧
      ∀ c, (s'.GetQueueDiscClass c).m_status = (s.GetQueueDiscClass c).m_status ∧
        (s'.GetQueueDiscClass c).m_deficit = (s.GetQueueDiscClass c).m_deficit := by
  unfold checkOverload at h
  by_cases hc : s.GetCurrentSize > s.m_maxSize
  · rw [if_pos hc] at h
    cases hd : s.LLQDrop with
    | none => rw [hd] at h; simp at h
    | some p =>
      rw [hd] at h
      simp only [Option.some.injEq, Prod.mk.injEq] at h
      obtain ⟨h1, h2⟩ := h
      obtain ⟨f, rest, ev, hg, he⟩ := LLQDrop_eq s p.2 p.1 (by rw [hd])
      subst h2
      refine ⟨h1.symm, by rw [he]; rfl, by rw [he]; rfl, fun c => ?_⟩
      have hcl : ∀ t : LLQQueueDisc, ∀ ev : List LLQEvent,
          ({ t with m_stats := ev } : LLQQueueDisc).GetQueueDiscClass c =
            t.GetQueueDiscClass c := fun _ _ => rfl
      rw [he, hcl, getClass_setClass]
      by_cases hci : c = p.1 ∧ p.1 < s.m_classes.length
      · rw [if_pos hci]
        have hf : s.GetQueueDiscClass c = f := by
          unfold GetQueueDiscClass
          rw [hci.1, List.getD_eq_getElem?_getD]
          rw [List.get?_eq_getElem?] at hg
          rw [hg]; rfl
        rw [hf]
        exact ⟨rfl, rfl⟩
      · rw [if_neg hci]
        exact ⟨rfl, rfl⟩
  · rw [if_neg hc] at h
    simp only [Option.some.injEq, Prod.mk.injEq] at h
    obtain ⟨h1, h2⟩ := h
    subst h2
    exact ⟨h1.symm, rfl, rfl, fun c => ⟨rfl, rfl⟩⟩

/-- Bucket selection leaves the classes, the table of flows and the lists as they
are. -/
theorem selectBucket_frame (s : LLQQueueDisc) (flowHash : Nat) :
    (s.selectBucket flowHash).2.m_classes = s.m_classes ∧
      (s.selectBucket flowHash).2.m_flowsIndices = s.m_flowsIndices ∧
      (s.selectBucket flowHash).2.m_newFlows = s.m_newFlows ∧
      (s.selectBucket flowHash).2.m_oldFlows = s.m_oldFlows ∧
      (s.selectBucket flowHash).2.m_quantum = s.m_quantum := by
  unfold selectBucket SetAssociativeHash
  by_cases he : s.m_enableSetAssociativeHash = true
  · rw [if_pos he]
    simp only
    split <;> exact ⟨rfl, rfl, rfl, rfl, rfl⟩
  · rw [if_neg he]
    exact ⟨rfl, rfl, rfl, rfl, rfl⟩

/-- The flow record found or created for a bucket exists among the classes when
every entry of the table points to an existing class; the lists and the quantum are
not touched. -/
theorem findFlow_frame (s : LLQQueueDisc) (h : Nat)
    (htab : ∀ b c, s.m_flowsIndices b = some c → c < s.m_classes.length) :
    (s.findFlow h).1 < (s.findFlow h).2.m_classes.length ∧
      (s.findFlow h).2.m_newFlows = s.m_newFlows ∧
      (s.findFlow h).2.m_oldFlows = s.m_oldFlows ∧
      (s.findFlow h).2.m_quantum = s.m_quantum := by
  unfold findFlow
  cases hf : s.m_flowsIndices h with
  | none => simp
  | some c => exact ⟨htab h c hf, rfl, rfl, rfl⟩

/-- Handing an item to the child disc of a flow leaves the lists, and the status and
deficit of every flow, as they are. -/
theorem childEnqueue_frame (s : LLQQueueDisc) (c : Nat) (item : QueueDiscItem) (accept : Bool) :
    (s.childEnqueue c item accept).m_newFlows = s.m_newFlows ∧
      (s.childEnqueue c item accept).m_oldFlows = s.m_oldFlows ∧
      ∀ d, ((s.childEnqueue c item accept).GetQueueDiscClass d).m_status =
          (s.GetQueueDiscClass d).m_status ∧
        ((s.childEnqueue c item accept).GetQueueDiscClass d).m_deficit =
          (s.GetQueueDiscClass d).m_deficit := by
  unfold childEnqueue
  by_cases ha : accept = true
  · rw [if_pos ha]
    refine ⟨rfl, rfl, fun d => ?_⟩
    rw [getClass_setClass]
    by_cases hd : d = c ∧ c < s.m_classes.length
    · rw [if_pos hd, hd.1]; exact ⟨rfl, rfl⟩
    · rw [if_neg hd]; exact ⟨rfl, rfl⟩
  · rw [if_neg ha]
    exact ⟨rfl, rfl, fun d => ⟨rfl, rfl⟩⟩

/-- C21, counterexample. On the default disc with a quantum of 1500 an arrival that
the child disc of its flow rejects still makes the flow a new flow: afterwards the
flow holds no item, yet its status is `NEW_FLOW`, its deficit is the quantum and it
is in `m_newFlows`. -/
theorem doEnqueue_rejected_arrival_activates_flow :
    (({ attributeDefaults with m_quantum := 1500 } : LLQQueueDisc).DoEnqueue
        (pkt 1000) 7 0 false).map
      (fun r => (r.1, r.2.m_newFlows, r.2.m_oldFlows, r.2.m_classes)) =
      some (true, [0], [],
        [{ m_deficit := 1500, m_status := FlowStatus.NEW_FLOW, m_index := 7, m_queue := [] }]) := by
  decide!

/-- C21, amended. For a quantum below `2 ^ 31`, in a disc whose table points to
existing classes, an arrival that is classified and whose flow record is inactive
makes the flow a new flow whatever the verdict `accept` of the child disc: when
`DoEnqueue` returns, it returns true, the status of the flow is `NEW_FLOW`, its
deficit is the quantum, the flow is appended at the tail of `m_newFlows` and
`m_oldFlows` is unchanged. -/
theorem doEnqueue_inactive_flow_becomes_new (s s' : LLQQueueDisc) (item : QueueDiscItem)
    (hashValue flowHash : Nat) (ret : Int) (accept r : Bool)
    (hq : s.m_quantum < 2147483648)
    (htab : ∀ b c, s.m_flowsIndices b = some c → c < s.m_classes.length)
    (hcls : s.classifyItem hashValue ret = some flowHash)
    (hin : ((s.lookupFlow flowHash).2.GetQueueDiscClass (s.lookupFlow flowHash).1).GetStatus =
      FlowStatus.INACTIVE)
    (hres : s.DoEnqueue item hashValue ret accept = some (r, s')) :
    r = true ∧
      (s'.GetQueueDiscClass (s.lookupFlow flowHash).1).GetStatus = FlowStatus.NEW_FLOW ∧
      (s'.GetQueueDiscClass (s.lookupFlow flowHash).1).GetDeficit = (s.m_quantum : Int) ∧
      s'.m_newFlows = s.m_newFlows ++ [(s.lookupFlow flowHash).1] ∧
      s'.m_oldFlows = s.m_oldFlows := by
  unfold DoEnqueue at hres
  rw [hcls] at hres
  simp only at hres
  obtain ⟨hr, hn, ho, hc⟩ := checkOverload_frame _ _ _ hres
  obtain ⟨hn2, ho2, hc2⟩ := childEnqueue_frame
    ((s.lookupFlow flowHash).2.activate (s.lookupFlow flowHash).1) (s.lookupFlow flowHash).1
    item accept
  obtain ⟨hb1, hb2, hb3, hb4, hb5⟩ := selectBucket_frame s flowHash
  have htab' : ∀ b c, (s.selectBucket flowHash).2.m_flowsIndices b = some c →
      c < (s.selectBucket flowHash).2.m_classes.length := by
    rw [hb1, hb2]; exact htab
  obtain ⟨hf1, hf2, hf3, hf4⟩ := findFlow_frame (s.selectBucket flowHash).2
    (s.selectBucket flowHash).1 htab'
  have hl : (s.lookupFlow flowHash) =
      (s.selectBucket flowHash).2.findFlow (s.selectBucket flowHash).1 := rfl
  rw [← hl] at hf1 hf2 hf3 hf4
  have hact : (s.lookupFlow flowHash).2.activate (s.lookupFlow flowHash).1 =
      { (s.lookupFlow flowHash).2.setClass (s.lookupFlow flowHash).1
          ((((s.lookupFlow flowHash).2.GetQueueDiscClass (s.lookupFlow flowHash).1).SetStatus
            FlowStatus.NEW_FLOW).SetDeficit (s.lookupFlow flowHash).2.m_quantum) with
        m_newFlows := (s.lookupFlow flowHash).2.m_newFlows ++ [(s.lookupFlow flowHash).1] } := by
    unfold activate
    rw [if_pos hin]
  have hget : ((s.lookupFlow flowHash).2.activate (s.lookupFlow flowHash).1).GetQueueDiscClass
      (s.lookupFlow flowHash).1 =
      (((s.lookupFlow flowHash).2.GetQueueDiscClass (s.lookupFlow flowHash).1).SetStatus
            FlowStatus.NEW_FLOW).SetDeficit (s.lookupFlow flowHash).2.m_quantum := by
    rw [hact]
    have : ∀ (t : LLQQueueDisc) (l : List Nat) (c : Nat),
        ({ t with m_newFlows := l } : LLQQueueDisc).GetQueueDiscClass c =
          t.GetQueueDiscClass c := fun _ _ _ => rfl
    rw [this, getClass_setClass, if_pos ⟨rfl, hf1⟩]
  have hqq : (s.lookupFlow flowHash).2.m_quantum = s.m_quantum := by rw [hf4, hb5]
  unfold enqueueFlow at hn ho hc
  refine ⟨hr, ?_, ?_, ?_, ?_⟩
  · unfold LLQFlow.GetStatus
    rw [(hc _).1, (hc2 _).1, hget]; rfl
  · unfold LLQFlow.GetDeficit
    rw [(hc _).2, (hc2 _).2, hget, hqq]
    show toInt32 (s.m_quantum : Int) = (s.m_quantum : Int)
    exact toInt32_of_range _ (by omega) (by omega)
  · rw [hn, hn2, hact]
    show (s.lookupFlow flowHash).2.m_newFlows ++ [(s.lookupFlow flowHash).1] = _
    rw [hf2, hb3]
  · rw [ho, ho2, hact]
    show (s.lookupFlow flowHash).2.m_oldFlows = _
    rw [hf3, hb4]

/-- Witness for C21: the arrival of the counterexample, rejected by the child
disc. -/
theorem doEnqueue_inactive_flow_becomes_new_witness :
    ∃ s', (({ attributeDefaults with m_quantum := 1500 } : LLQQueueDisc).DoEnqueue
        (pkt 1000) 7 0 false) = some (true, s') ∧
      (s'.GetQueueDiscClass 0).GetStatus = FlowStatus.NEW_FLOW ∧
      (s'.GetQueueDiscClass 0).GetDeficit = 1500 ∧ s'.m_newFlows = [0] ∧ s'.m_oldFlows = [] :=
  ⟨_, rfl,
    (doEnqueue_inactive_flow_becomes_new { attributeDefaults with m_quantum := 1500 } _ (pkt 1000)
      7 7 0 false true (by decide) (fun b c h => by simp [attributeDefaults] at h) rfl
      (by decide) rfl).2⟩

/-- Adding a quantum below `2 ^ 31` to a non-positive `int32_t` deficit does not
leave the range of `int32_t`. -/
theorem replenish_eq (f : LLQFlow) (q : Nat) (hq : q < 2147483648)
    (hlo : -2147483648 ≤ f.m_deficit) (hd : f.m_deficit ≤ 0) :
    f.IncreaseDeficit (toInt32 (q : Int)) = { f with m_deficit := f.m_deficit + (q : Int) } := by
  unfold LLQFlow.IncreaseDeficit
  have h1 : toInt32 (q : Int) = (q : Int) := toInt32_of_range _ (by omega) (by omega)
  rw [h1, toInt32_of_range _ (by omega) (by omega)]

/-- Writing the empty list into an empty `m_newFlows` changes nothing. -/
theorem newFlows_nil_eq (s : LLQQueueDisc) (h : s.m_newFlows = []) :
    ({ s with m_newFlows := [] } : LLQQueueDisc) = s := by
  cases s; simp only at h; subst h; rfl

/-- With `m_newFlows` empty the search is the second inner loop. -/
theorem selectFlow_nil (fuel : Nat) (s : LLQQueueDisc) (h : s.m_newFlows = []) :
    selectFlow fuel s = oldFlowsLoop fuel s := by
  unfold selectFlow
  rw [h]
  simp only [newFlowsLoop]
  rw [newFlows_nil_eq s h]

/-- The first inner loop leaves `m_newFlows` empty when it finds no flow, and
otherwise leaves the flow found, whose deficit is positive, at its head. -/
theorem newFlowsLoop_result (l : List Nat) (s s1 : LLQQueueDisc) (r : Option Nat)
    (h : newFlowsLoop l s = (r, s1)) :
    (r = none → s1.m_newFlows = []) ∧
      ∀ c, r = some c → s1.m_newFlows.head? = some c ∧ 0 < (s1.GetQueueDiscClass c).GetDeficit := by
  induction l generalizing s with
  | nil =>
    simp only [newFlowsLoop, Prod.mk.injEq] at h
    obtain ⟨h1, h2⟩ := h
    subst h1; subst h2
    exact ⟨fun _ => rfl, fun c hc => by simp at hc⟩
  | cons c rest ih =>
    simp only [newFlowsLoop] at h
    by_cases hd : (s.GetQueueDiscClass c).GetDeficit ≤ 0
    · rw [if_pos hd] at h
      exact ih _ h
    · rw [if_neg hd] at h
      simp only [Prod.mk.injEq] at h
      obtain ⟨h1, h2⟩ := h
      subst h1; subst h2
      refine ⟨fun hn => by simp at hn, fun c' hc' => ?_⟩
      simp only [Option.some.injEq] at hc'
      subst hc'
      exact ⟨rfl, lt_of_not_le hd⟩

/-- The second inner loop does not touch `m_newFlows`; it leaves `m_oldFlows` empty
when it finds no flow, and otherwise leaves the flow found, whose deficit is
positive, at its head. -/
theorem oldFlowsLoop_result (fuel : Nat) (s s1 : LLQQueueDisc) (r : Option Nat)
    (h : oldFlowsLoop fuel s = some (r, s1)) :
    s1.m_newFlows = s.m_newFlows ∧ (r = none → s1.m_oldFlows = []) ∧
      ∀ c, r = some c → s1.m_oldFlows.head? = some c ∧ 0 < (s1.GetQueueDiscClass c).GetDeficit := by
  induction fuel generalizing s with
  | zero => simp [oldFlowsLoop] at h
  | succ n ih =>
    unfold oldFlowsLoop at h
    cases ho : s.m_oldFlows with
    | nil =>
      rw [ho] at h
      simp only [Option.some.injEq, Prod.mk.injEq] at h
      obtain ⟨h1, h2⟩ := h
      subst h1; subst h2
      exact ⟨rfl, fun _ => ho, fun c hc => by simp at hc⟩
    | cons c rest =>
      rw [ho] at h
      simp only at h
      by_cases hd : (s.GetQueueDiscClass c).GetDeficit ≤ 0
      · rw [if_pos hd] at h
        obtain ⟨h1, h2⟩ := ih _ h
        exact ⟨h1, h2⟩
      · rw [if_neg hd] at h
        simp only [Option.some.injEq, Prod.mk.injEq] at h
        obtain ⟨h1, h2⟩ := h
        subst h1; subst h2
        refine ⟨rfl, fun hn => by simp at hn, fun c' hc' => ?_⟩
        simp only [Option.some.injEq] at hc'
        subst hc'
        rw [ho]
        exact ⟨rfl, lt_of_not_le hd⟩

/-- C22, counterexample. With the quantum `4294967295` the flow activated by an
arrival has the deficit `-1`; found at the head of `m_newFlows` by the first loop of
`DoDequeue`, it is moved to `m_oldFlows` with the deficit `-2`, not with one quantum
more: the `int32_t` argument of `IncreaseDeficit` receives the quantum as `-1`. -/
theorem doDequeue_replenish_wraps_large_quantum :
    (({ attributeDefaults with m_quantum := 4294967295 } : LLQQueueDisc).DoEnqueue
        (pkt 1000) 7 0 true).map
      (fun r => (r.2.m_newFlows, r.2.m_classes.map (fun f => f.m_deficit),
        (newFlowsLoop r.2.m_newFlows r.2).2.m_oldFlows,
        (newFlowsLoop r.2.m_newFlows r.2).2.m_classes.map (fun f => f.m_deficit))) =
      some ([0], [-1], [0], [-2]) := by
  decide!

/-- C22, amended. For a quantum below `2 ^ 31` and deficits in the range of
`int32_t`: a flow at the head of `m_newFlows` with a non-positive deficit gets
exactly one quantum more, the status `OLD_FLOW`, leaves `m_newFlows` and joins the
tail of `m_oldFlows`, and the search goes on from there; with `m_newFlows` empty, a
flow at the head of `m_oldFlows` with a non-positive deficit gets exactly one
quantum more and moves to the tail of `m_oldFlows`; a flow is taken from
`m_oldFlows` only once `m_newFlows` is empty; and when the search finds no flow both
lists are empty and `DoDequeue` returns no item. -/
theorem doDequeue_replenish_and_rotate (s : LLQQueueDisc) (c : Nat) (rest : List Nat)
    (fuel : Nat) (hq : s.m_quantum < 2147483648)
    (hlo : -2147483648 ≤ (s.GetQueueDiscClass c).m_deficit)
    (hd : (s.GetQueueDiscClass c).m_deficit ≤ 0) :
    (s.m_newFlows = c :: rest →
      selectFlow fuel s = selectFlow fuel
        { s.setClass c
            { s.GetQueueDiscClass c with
              m_deficit := (s.GetQueueDiscClass c).m_deficit + (s.m_quantum : Int)
              m_status := FlowStatus.OLD_FLOW } with
          m_oldFlows := s.m_oldFlows ++ [c]
          m_newFlows := rest }) ∧
    (s.m_newFlows = [] → s.m_oldFlows = c :: rest →
      selectFlow (fuel + 1) s = selectFlow fuel
        { s.setClass c
            { s.GetQueueDiscClass c with
              m_deficit := (s.GetQueueDiscClass c).m_deficit + (s.m_quantum : Int) } with
          m_oldFlows := rest ++ [c] }) ∧
    (∀ f s1, selectFlow fuel s = some (some f, s1) →
      0 < (s1.GetQueueDiscClass f).GetDeficit ∧
        (s1.m_newFlows.head? = some f ∨
          (s1.m_newFlows = [] ∧ s1.m_oldFlows.head? = some f))) ∧
    (∀ s1, selectFlow fuel s = some (none, s1) →
      s1.m_newFlows = [] ∧ s1.m_oldFlows = [] ∧ DoDequeue (fuel + 1) s = some (none, s1)) := by
  refine ⟨fun hn => ?_, fun hn ho => ?_, fun f s1 h => ?_, fun s1 h => ?_⟩
  · unfold selectFlow
    have hd' : (s.GetQueueDiscClass c).GetDeficit ≤ 0 := hd
    rw [hn]
    simp only
    rw [newFlowsLoop, if_pos hd', replenish_eq _ _ hq hlo hd]
    rfl
  · have hd' : (s.GetQueueDiscClass c).GetDeficit ≤ 0 := hd
    rw [selectFlow_nil _ _ hn, selectFlow_nil _ _ (show ({ s.setClass c
            { s.GetQueueDiscClass c with
              m_deficit := (s.GetQueueDiscClass c).m_deficit + (s.m_quantum : Int) } with
          m_oldFlows := rest ++ [c] } : LLQQueueDisc).m_newFlows = [] from hn)]
    rw [oldFlowsLoop, ho]
    simp only
    rw [if_pos hd', replenish_eq _ _ hq hlo hd]
  · unfold selectFlow at h
    cases hl : newFlowsLoop s.m_newFlows s with
    | mk r t =>
      rw [hl] at h
      obtain ⟨hr1, hr2⟩ := newFlowsLoop_result _ _ _ _ hl
      cases r with
      | some c' =>
        simp only [Option.some.injEq, Prod.mk.injEq] at h
        obtain ⟨h1, h2⟩ := h
        subst h2; subst h1
        exact ⟨(hr2 _ rfl).2, Or.inl (hr2 _ rfl).1⟩
      | none =>
        simp only at h
        obtain ⟨ho1, _, ho3⟩ := oldFlowsLoop_result _ _ _ _ h
        exact ⟨(ho3 _ rfl).2, Or.inr ⟨by rw [ho1]; exact hr1 rfl, (ho3 _ rfl).1⟩⟩
  · have hD : DoDequeue (fuel + 1) s = some (none, s1) := by
      rw [DoDequeue, h]
    refine ⟨?_, ?_, hD⟩
    · unfold selectFlow at h
      cases hl : newFlowsLoop s.m_newFlows s with
      | mk r t =>
        rw [hl] at h
        obtain ⟨hr1, _⟩ := newFlowsLoop_result _ _ _ _ hl
        cases r with
        | some c' => simp at h
        | none =>
          simp only at h
          obtain ⟨ho1, _, _⟩ := oldFlowsLoop_result _ _ _ _ h
          rw [ho1]; exact hr1 rfl
    · unfold selectFlow at h
      cases hl : newFlowsLoop s.m_newFlows s with
      | mk r t =>
        rw [hl] at h
        cases r with
        | some c' => simp at h
        | none =>
          simp only at h
          obtain ⟨_, ho2, _⟩ := oldFlowsLoop_result _ _ _ _ h
          exact ho2 rfl

/-- Witness for C22: a disc with the quantum 1500 whose first new flow has the
deficit `-500`; the flow moves to `m_oldFlows` with the deficit 1000. -/
theorem doDequeue_replenish_and_rotate_witness :
    selectFlow 5 (twoNewFlows 1500 (-500) 1500 [pkt 1000] [pkt 1000]) =
      selectFlow 5
        { (twoNewFlows 1500 (-500) 1500 [pkt 1000] [pkt 1000]).setClass 0
            { (twoNewFlows 1500 (-500) 1500 [pkt 1000] [pkt 1000]).GetQueueDiscClass 0 with
              m_deficit := -500 + 1500
              m_status := FlowStatus.OLD_FLOW } with
          m_oldFlows := [] ++ [0]
          m_newFlows := [1] } :=
  (doDequeue_replenish_and_rotate (twoNewFlows 1500 (-500) 1500 [pkt 1000] [pkt 1000]) 0 [1] 5
    (by decide) (by decide) (by decide)).1 rfl

/-- A class read at some position is one of the classes of the disc or a fresh
record. -/
theorem getClass_mem_or (s : LLQQueueDisc) (c : Nat) :
    s.GetQueueDiscClass c ∈ s.m_classes ∨ s.GetQueueDiscClass c = LLQFlow.create := by
  unfold GetQueueDiscClass
  by_cases h : c < s.m_classes.length
  · left
    rw [List.getD_eq_getElem?_getD, List.getElem?_eq_getElem h]
    exact List.getElem_mem h
  · right
    rw [List.getD_eq_getElem?_getD, List.getElem?_eq_none (Nat.le_of_not_lt h)]
    rfl

/-- A class whose status is not `INACTIVE` exists. -/
theorem lt_of_status (s : LLQQueueDisc) (c : Nat)
    (h : (s.GetQueueDiscClass c).m_status ≠ FlowStatus.INACTIVE) : c < s.m_classes.length := by
  by_contra hc
  apply h
  unfold GetQueueDiscClass
  rw [List.getD_eq_getElem?_getD, List.getElem?_eq_none (Nat.le_of_not_lt hc)]
  rfl

/-- Reading a class of a disc whose classes are those of `s` with position `c`
rewritten. -/
theorem getClass_of_set (s t : LLQQueueDisc) (c j : Nat) (f : LLQFlow)
    (h : t.m_classes = s.m_classes.set c f) :
    t.GetQueueDiscClass j =
      if j = c ∧ c < s.m_classes.length then f else s.GetQueueDiscClass j := by
  have := getClass_setClass s c j f
  unfold setClass GetQueueDiscClass at this
  unfold GetQueueDiscClass
  rw [h]
  exact this

/-- Deficits in the range of `int32_t`, read position by position. -/
theorem deficit_range (s : LLQQueueDisc) (h : DeficitsInRange s) (c : Nat) :
    -2147483648 ≤ (s.GetQueueDiscClass c).m_deficit ∧
      (s.GetQueueDiscClass c).m_deficit < 2147483648 := by
  rcases getClass_mem_or s c with hm | he
  · exact h _ hm
  · rw [he]; decide

/-- Rewriting one existing class, with the same items and a deficit that is not
lower, and the lists so that the rewritten class is listed according to its new
status, keeps a disc sound. -/
theorem sound_update (s t : LLQQueueDisc) (c : Nat) (f : LLQFlow)
    (hs : Sound s) (hcls : t.m_classes = s.m_classes.set c f)
    (hq : t.m_quantum = s.m_quantum) (hc : c < s.m_classes.length)
    (hqueue : f.m_queue = (s.GetQueueDiscClass c).m_queue)
    (hdef : (s.GetQueueDiscClass c).m_deficit ≤ f.m_deficit) (hhi : f.m_deficit < 2147483648)
    (hnew : ∀ x ∈ t.m_newFlows,
      (x = c ∧ f.m_status = FlowStatus.NEW_FLOW) ∨ (x ≠ c ∧ x ∈ s.m_newFlows))
    (hold : ∀ x ∈ t.m_oldFlows,
      (x = c ∧ f.m_status = FlowStatus.OLD_FLOW) ∨ (x ≠ c ∧ x ∈ s.m_oldFlows))
    (hnd : t.m_newFlows.Nodup) (hod : t.m_oldFlows.Nodup) :
    Sound t ∧ OnlyReplenished s t := by
  obtain ⟨hsq, ⟨ha1, ha2, _, _⟩, hr⟩ := hs
  have hget : ∀ j, t.GetQueueDiscClass j = if j = c ∧ c < s.m_classes.length then f
      else s.GetQueueDiscClass j := fun j => getClass_of_set s t c j f hcls
  refine ⟨⟨by rw [hq]; exact hsq, ⟨?_, ?_, hnd, hod⟩, ?_⟩, hq, fun j => ?_⟩
  · intro x hx
    rw [hget]
    rcases hnew x hx with ⟨h1, h2⟩ | ⟨h1, h2⟩
    · rw [if_pos ⟨h1, hc⟩]; exact h2
    · rw [if_neg (fun h => h1 h.1)]; exact ha1 x h2
  · intro x hx
    rw [hget]
    rcases hold x hx with ⟨h1, h2⟩ | ⟨h1, h2⟩
    · rw [if_pos ⟨h1, hc⟩]; exact h2
    · rw [if_neg (fun h => h1 h.1)]; exact ha2 x h2
  · intro g hg
    rw [hcls] at hg
    rcases List.mem_or_eq_of_mem_set hg with h1 | h1
    · exact hr g h1
    · rw [h1]
      exact ⟨le_trans (deficit_range s hr c).1 hdef, hhi⟩
  · rw [hget]
    by_cases hj : j = c ∧ c < s.m_classes.length
    · rw [if_pos hj, hj.1]; exact ⟨hqueue, hdef⟩
    · rw [if_neg hj]; exact ⟨rfl, le_refl _⟩

/-- Nothing but replenishments from a disc to itself. -/
theorem onlyReplenished_refl (s : LLQQueueDisc) : OnlyReplenished s s :=
  ⟨rfl, fun _ => ⟨rfl, le_refl _⟩⟩

/-- Replenishments compose. -/
theorem onlyReplenished_trans (s t u : LLQQueueDisc) (h1 : OnlyReplenished s t)
    (h2 : OnlyReplenished t u) : OnlyReplenished s u :=
  ⟨by rw [h2.1, h1.1], fun c =>
    ⟨by rw [(h2.2 c).1, (h1.2 c).1], le_trans (h1.2 c).2 (h2.2 c).2⟩⟩

/-- One iteration of the first inner loop on a flow with a non-positive deficit keeps
the disc sound and only replenishes. -/
theorem sound_newStep (s : LLQQueueDisc) (c : Nat) (rest : List Nat) (hs : Sound s)
    (hn : s.m_newFlows = c :: rest) (hd : (s.GetQueueDiscClass c).m_deficit ≤ 0) :
    Sound
        { s.setClass c
            (((s.GetQueueDiscClass c).IncreaseDeficit (toInt32 s.m_quantum)).SetStatus
              FlowStatus.OLD_FLOW) with
          m_oldFlows := s.m_oldFlows ++ [c]
          m_newFlows := rest } ∧
      OnlyReplenished s
        { s.setClass c
            (((s.GetQueueDiscClass c).IncreaseDeficit (toInt32 s.m_quantum)).SetStatus
              FlowStatus.OLD_FLOW) with
          m_oldFlows := s.m_oldFlows ++ [c]
          m_newFlows := rest } := by
  have hs' := hs
  obtain ⟨hsq, ⟨ha1, ha2, hnd, hod⟩, hr⟩ := hs'
  have hst : (s.GetQueueDiscClass c).m_status = FlowStatus.NEW_FLOW :=
    ha1 c (by rw [hn]; exact List.mem_cons_self _ _)
  have hc : c < s.m_classes.length := lt_of_status s c (by rw [hst]; decide)
  have hnold : c ∉ s.m_oldFlows := fun h => by
    have := ha2 c h
    unfold LLQFlow.GetStatus at this
    rw [hst] at this
    exact absurd this (by decide)
  rw [hn] at hnd
  have hnd' := List.nodup_cons.mp hnd
  rw [replenish_eq _ _ hsq (deficit_range s hr c).1 hd]
  refine sound_update s _ c _ hs rfl rfl hc rfl ?_ ?_ ?_ ?_ hnd'.2 ?_
  · show (s.GetQueueDiscClass c).m_deficit ≤ (s.GetQueueDiscClass c).m_deficit + (s.m_quantum : Int)
    omega
  · show (s.GetQueueDiscClass c).m_deficit + (s.m_quantum : Int) < 2147483648
    omega
  · intro x hx
    right
    exact ⟨fun h => hnd'.1 (h ▸ hx), by rw [hn]; exact List.mem_cons_of_mem _ hx⟩
  · intro x hx
    rcases List.mem_append.mp hx with h | h
    · right; exact ⟨fun e => hnold (e ▸ h), h⟩
    · left; exact ⟨List.mem_singleton.mp h, rfl⟩
  · show (s.m_oldFlows ++ [c]).Nodup
    rw [List.nodup_append]
    refine ⟨hod, List.nodup_singleton c, ?_⟩
    intro x hx hx'
    rw [List.mem_singleton] at hx'
    exact hnold (hx' ▸ hx)

/-- One iteration of the second inner loop on a flow with a non-positive deficit
keeps the disc sound and only replenishes. -/
theorem sound_oldStep (s : LLQQueueDisc) (c : Nat) (rest : List Nat) (hs : Sound s)
    (ho : s.m_oldFlows = c :: rest) (hd : (s.GetQueueDiscClass c).m_deficit ≤ 0) :
    Sound
        { s.setClass c ((s.GetQueueDiscClass c).IncreaseDeficit (toInt32 s.m_quantum)) with
          m_oldFlows := rest ++ [c] } ∧
      OnlyReplenished s
        { s.setClass c ((s.GetQueueDiscClass c).IncreaseDeficit (toInt32 s.m_quantum)) with
          m_oldFlows := rest ++ [c] } := by
  have hs' := hs
  obtain ⟨hsq, ⟨ha1, ha2, hnd, hod⟩, hr⟩ := hs'
  have hst : (s.GetQueueDiscClass c).m_status = FlowStatus.OLD_FLOW :=
    ha2 c (by rw [ho]; exact List.mem_cons_self _ _)
  have hc : c < s.m_classes.length := lt_of_status s c (by rw [hst]; decide)
  have hnnew : c ∉ s.m_newFlows := fun h => by
    have := ha1 c h
    unfold LLQFlow.GetStatus at this
    rw [hst] at this
    exact absurd this (by decide)
  rw [ho] at hod
  have hod' := List.nodup_cons.mp hod
  rw [replenish_eq _ _ hsq (deficit_range s hr c).1 hd]
  refine sound_update s _ c _ hs rfl rfl hc rfl ?_ ?_ ?_ ?_ hnd ?_
  · show (s.GetQueueDiscClass c).m_deficit ≤ (s.GetQueueDiscClass c).m_deficit + (s.m_quantum : Int)
    omega
  · show (s.GetQueueDiscClass c).m_deficit + (s.m_quantum : Int) < 2147483648
    omega
  · intro x hx
    right
    exact ⟨fun e => hnnew (e ▸ hx), hx⟩
  · intro x hx
    rcases List.mem_append.mp hx with h | h
    · right; exact ⟨fun e => hod'.1 (e ▸ h), by rw [ho]; exact List.mem_cons_of_mem _ h⟩
    · left; exact ⟨List.mem_singleton.mp h, hst⟩
  · show (rest ++ [c]).Nodup
    rw [List.nodup_append]
    refine ⟨hod'.2, List.nodup_singleton c, ?_⟩
    intro x hx hx'
    rw [List.mem_singleton] at hx'
    exact hod'.1 (hx' ▸ hx)

/-- The first inner loop keeps the disc sound and only replenishes. -/
theorem sound_newFlowsLoop (l : List Nat) (s s1 : LLQQueueDisc) (r : Option Nat)
    (hs : Sound s) (hl : s.m_newFlows = l) (h : newFlowsLoop l s = (r, s1)) :
    Sound s1 ∧ OnlyReplenished s s1 := by
  induction l generalizing s with
  | nil =>
    simp only [newFlowsLoop, Prod.mk.injEq] at h
    rw [newFlows_nil_eq s hl] at h
    rw [← h.2]
    exact ⟨hs, onlyReplenished_refl s⟩
  | cons c rest ih =>
    simp only [newFlowsLoop] at h
    by_cases hd : (s.GetQueueDiscClass c).GetDeficit ≤ 0
    · rw [if_pos hd] at h
      obtain ⟨h1, h2⟩ := sound_newStep s c rest hs hl hd
      obtain ⟨h3, h4⟩ := ih _ h1 rfl h
      exact ⟨h3, onlyReplenished_trans _ _ _ h2 h4⟩
    · rw [if_neg hd] at h
      simp only [Prod.mk.injEq] at h
      have he : ({ s with m_newFlows := c :: rest } : LLQQueueDisc) = s := by
        cases s; simp only at hl; subst hl; rfl
      rw [he] at h
      rw [← h.2]
      exact ⟨hs, onlyReplenished_refl s⟩

/-- The second inner loop keeps the disc sound and only replenishes. -/
theorem sound_oldFlowsLoop (fuel : Nat) (s s1 : LLQQueueDisc) (r : Option Nat)
    (hs : Sound s) (h : oldFlowsLoop fuel s = some (r, s1)) :
    Sound s1 ∧ OnlyReplenished s s1 := by
  induction fuel generalizing s with
  | zero => simp [oldFlowsLoop] at h
  | succ n ih =>
    unfold oldFlowsLoop at h
    cases ho : s.m_oldFlows with
    | nil =>
      rw [ho] at h
      simp only [Option.some.injEq, Prod.mk.injEq] at h
      rw [← h.2]
      exact ⟨hs, onlyReplenished_refl s⟩
    | cons c rest =>
      rw [ho] at h
      simp only at h
      by_cases hd : (s.GetQueueDiscClass c).GetDeficit ≤ 0
      · rw [if_pos hd] at h
        obtain ⟨h1, h2⟩ := sound_oldStep s c rest hs ho hd
        obtain ⟨h3, h4⟩ := ih _ h1 h
        exact ⟨h3, onlyReplenished_trans _ _ _ h2 h4⟩
      · rw [if_neg hd] at h
        simp only [Option.some.injEq, Prod.mk.injEq] at h
        rw [← h.2]
        exact ⟨hs, onlyReplenished_refl s⟩

/-- The search of `DoDequeue` keeps the disc sound and only replenishes; a flow it
finds has a positive deficit and is at the head of `m_newFlows`, or at the head of
`m_oldFlows` with `m_newFlows` empty. -/
theorem sound_selectFlow (fuel : Nat) (s s1 : LLQQueueDisc) (r : Option Nat)
    (hs : Sound s) (h : selectFlow fuel s = some (r, s1)) :
    Sound s1 ∧ OnlyReplenished s s1 ∧
      ∀ c, r = some c → 0 < (s1.GetQueueDiscClass c).m_deficit ∧
        ((∃ rest, s1.m_newFlows = c :: rest) ∨
          (s1.m_newFlows = [] ∧ ∃ rest, s1.m_oldFlows = c :: rest)) := by
  unfold selectFlow at h
  cases hl : newFlowsLoop s.m_newFlows s with
  | mk r' t =>
    rw [hl] at h
    obtain ⟨hr1, hr2⟩ := newFlowsLoop_result _ _ _ _ hl
    obtain ⟨hs1, ho1⟩ := sound_newFlowsLoop _ _ _ _ hs rfl hl
    cases r' with
    | some c' =>
      simp only [Option.some.injEq, Prod.mk.injEq] at h
      obtain ⟨h1, h2⟩ := h
      subst h2; subst h1
      refine ⟨hs1, ho1, fun c hc => ?_⟩
      simp only [Option.some.injEq] at hc
      subst hc
      refine ⟨(hr2 _ rfl).2, Or.inl ?_⟩
      have := (hr2 _ rfl).1
      cases hnf : t.m_newFlows with
      | nil => rw [hnf] at this; simp at this
      | cons a rest =>
        rw [hnf] at this
        simp only [List.head?_cons, Option.some.injEq] at this
        exact ⟨rest, by rw [this]⟩
    | none =>
      simp only at h
      obtain ⟨hs2, ho2⟩ := sound_oldFlowsLoop _ _ _ _ hs1 h
      obtain ⟨hq1, _, hq3⟩ := oldFlowsLoop_result _ _ _ _ h
      refine ⟨hs2, onlyReplenished_trans _ _ _ ho1 ho2, fun c hc => ?_⟩
      refine ⟨(hq3 c hc).2, Or.inr ⟨by rw [hq1]; exact hr1 rfl, ?_⟩⟩
      have := (hq3 c hc).1
      cases hof : s1.m_oldFlows with
      | nil => rw [hof] at this; simp at this
      | cons a rest =>
        rw [hof] at this
        simp only [List.head?_cons, Option.some.injEq] at this
        exact ⟨rest, by rw [this]⟩

/-- The branch of `DoDequeue` taken when the child disc of the selected flow gives no
item keeps the disc sound and changes neither an item nor a deficit. -/
theorem sound_emptyFlow (s : LLQQueueDisc) (c : Nat) (hs : Sound s)
    (hsel : (∃ rest, s.m_newFlows = c :: rest) ∨
      (s.m_newFlows = [] ∧ ∃ rest, s.m_oldFlows = c :: rest)) :
    Sound (s.emptyFlow c) ∧ OnlyReplenished s (s.emptyFlow c) := by
  have hs' := hs
  obtain ⟨hsq, ⟨ha1, ha2, hnd, hod⟩, hr⟩ := hs'
  rcases hsel with ⟨rest, hn⟩ | ⟨hn, rest, ho⟩
  · have hne : s.m_newFlows ≠ [] := by rw [hn]; simp
    have hst : (s.GetQueueDiscClass c).m_status = FlowStatus.NEW_FLOW :=
      ha1 c (by rw [hn]; exact List.mem_cons_self _ _)
    have hc : c < s.m_classes.length := lt_of_status s c (by rw [hst]; decide)
    have hnold : c ∉ s.m_oldFlows := fun h => by
      have := ha2 c h
      unfold LLQFlow.GetStatus at this
      rw [hst] at this
      exact absurd this (by decide)
    rw [hn] at hnd
    have hnd' := List.nodup_cons.mp hnd
    unfold emptyFlow
    rw [if_pos hne]
    refine sound_update s _ c _ hs rfl rfl hc rfl (le_refl _) (deficit_range s hr c).2
      ?_ ?_ ?_ ?_
    · intro x hx
      have hx' : x ∈ rest := by
        have : x ∈ s.m_newFlows.tail := hx
        rw [hn] at this
        exact this
      right
      exact ⟨fun h => hnd'.1 (h ▸ hx'), by rw [hn]; exact List.mem_cons_of_mem _ hx'⟩
    · intro x hx
      rcases List.mem_append.mp hx with h | h
      · right; exact ⟨fun e => hnold (e ▸ h), h⟩
      · left; exact ⟨List.mem_singleton.mp h, rfl⟩
    · show s.m_newFlows.tail.Nodup
      rw [hn]; exact hnd'.2
    · show (s.m_oldFlows ++ [c]).Nodup
      rw [List.nodup_append]
      refine ⟨hod, List.nodup_singleton c, ?_⟩
      intro x hx hx'
      rw [List.mem_singleton] at hx'
      exact hnold (hx' ▸ hx)
  · have hne : ¬ s.m_newFlows ≠ [] := fun h => h hn
    have hst : (s.GetQueueDiscClass c).m_status = FlowStatus.OLD_FLOW :=
      ha2 c (by rw [ho]; exact List.mem_cons_self _ _)
    have hc : c < s.m_classes.length := lt_of_status s c (by rw [hst]; decide)
    rw [ho] at hod
    have hod' := List.nodup_cons.mp hod
    unfold emptyFlow
    rw [if_neg hne]
    refine sound_update s _ c _ hs rfl rfl hc rfl (le_refl _) (deficit_range s hr c).2
      ?_ ?_ hnd ?_
    · intro x hx
      have hx' : x ∈ s.m_newFlows := hx
      rw [hn] at hx'
      simp at hx'
    · intro x hx
      have hx' : x ∈ rest := by
        have : x ∈ s.m_oldFlows.tail := hx
        rw [ho] at this
        exact this
      right
      exact ⟨fun h => hod'.1 (h ▸ hx'), by rw [ho]; exact List.mem_cons_of_mem _ hx'⟩
    · show s.m_oldFlows.tail.Nodup
      rw [ho]; exact hod'.2

/-- Items of bounded size, read position by position. -/
theorem sizes_at (bound : Nat) (s : LLQQueueDisc) (h : SizesAtMost bound s) (c : Nat) :
    ∀ x ∈ (s.GetQueueDiscClass c).m_queue, x.size ≤ bound := by
  rcases getClass_mem_or s c with hm | he
  · exact h _ hm
  · rw [he]; intro x hx; simp [LLQFlow.create] at hx

/-- No replenishment from a disc to itself. -/
theorem replenishedByQuanta_refl (s : LLQQueueDisc) : ReplenishedByQuanta s s :=
  ⟨rfl, fun _ => ⟨0, by simp, fun h => absurd h (by decide)⟩⟩

/-- Replenishments by whole quanta compose. -/
theorem replenishedByQuanta_trans (s t u : LLQQueueDisc) (h1 : ReplenishedByQuanta s t)
    (h2 : ReplenishedByQuanta t u) : ReplenishedByQuanta s u := by
  refine ⟨by rw [h2.1, h1.1], fun c => ?_⟩
  obtain ⟨k1, a1, b1⟩ := h1.2 c
  obtain ⟨k2, a2, b2⟩ := h2.2 c
  rw [h1.1] at a2 b2
  refine ⟨k1 + k2, ?_, fun hk => ?_⟩
  · rw [a2, a1]
    push_cast
    ring
  · by_cases hk2 : 0 < k2
    · exact b2 hk2
    · have hz : k2 = 0 := by omega
      rw [hz] at a2
      simp only [Nat.cast_zero, zero_mul, add_zero] at a2
      rw [a2]
      exact b1 (by omega)

/-- Rewriting one class with a deficit raised by `k` quanta, the last of them added
to a deficit that was not positive, is a replenishment by whole quanta. -/
theorem replenishedByQuanta_update (s t : LLQQueueDisc) (c : Nat) (f : LLQFlow) (k : Nat)
    (hcls : t.m_classes = s.m_classes.set c f) (hq : t.m_quantum = s.m_quantum)
    (hd : f.m_deficit = (s.GetQueueDiscClass c).m_deficit + (k : Int) * (s.m_quantum : Int))
    (hk : 0 < k → f.m_deficit - (s.m_quantum : Int) ≤ 0) : ReplenishedByQuanta s t := by
  refine ⟨hq, fun j => ?_⟩
  rw [getClass_of_set s t c j f hcls]
  by_cases hj : j = c ∧ c < s.m_classes.length
  · rw [if_pos hj, hj.1]
    exact ⟨k, hd, hk⟩
  · rw [if_neg hj]
    exact ⟨0, by simp, fun h => absurd h (by decide)⟩

/-- One iteration of the first inner loop on a flow with a non-positive deficit adds
one quantum to that deficit. -/
theorem replenished_newStep (s : LLQQueueDisc) (c : Nat) (rest : List Nat) (hs : Sound s)
    (hd : (s.GetQueueDiscClass c).m_deficit ≤ 0) :
    ReplenishedByQuanta s
      { s.setClass c
          (((s.GetQueueDiscClass c).IncreaseDeficit (toInt32 s.m_quantum)).SetStatus
            FlowStatus.OLD_FLOW) with
        m_oldFlows := s.m_oldFlows ++ [c]
        m_newFlows := rest } := by
  obtain ⟨hsq, -, hr⟩ := hs
  rw [replenish_eq _ _ hsq (deficit_range s hr c).1 hd]
  refine replenishedByQuanta_update s _ c _ 1 rfl rfl ?_ ?_
  · show (s.GetQueueDiscClass c).m_deficit + (s.m_quantum : Int) =
      (s.GetQueueDiscClass c).m_deficit + ((1 : Nat) : Int) * (s.m_quantum : Int)
    simp
  · intro _
    show (s.GetQueueDiscClass c).m_deficit + (s.m_quantum : Int) - (s.m_quantum : Int) ≤ 0
    omega

/-- One iteration of the second inner loop on a flow with a non-positive deficit adds
one quantum to that deficit. -/
theorem replenished_oldStep (s : LLQQueueDisc) (c : Nat) (rest : List Nat) (hs : Sound s)
    (hd : (s.GetQueueDiscClass c).m_deficit ≤ 0) :
    ReplenishedByQuanta s
      { s.setClass c ((s.GetQueueDiscClass c).IncreaseDeficit (toInt32 s.m_quantum)) with
        m_oldFlows := rest ++ [c] } := by
  obtain ⟨hsq, -, hr⟩ := hs
  rw [replenish_eq _ _ hsq (deficit_range s hr c).1 hd]
  refine replenishedByQuanta_update s _ c _ 1 rfl rfl ?_ ?_
  · show (s.GetQueueDiscClass c).m_deficit + (s.m_quantum : Int) =
      (s.GetQueueDiscClass c).m_deficit + ((1 : Nat) : Int) * (s.m_quantum : Int)
    simp
  · intro _
    show (s.GetQueueDiscClass c).m_deficit + (s.m_quantum : Int) - (s.m_quantum : Int) ≤ 0
    omega

/-- The first inner loop replenishes by whole quanta. -/
theorem replenished_newFlowsLoop (l : List Nat) (s s1 : LLQQueueDisc) (r : Option Nat)
    (hs : Sound s) (hl : s.m_newFlows = l) (h : newFlowsLoop l s = (r, s1)) :
    ReplenishedByQuanta s s1 := by
  induction l generalizing s with
  | nil =>
    simp only [newFlowsLoop, Prod.mk.injEq] at h
    rw [newFlows_nil_eq s hl] at h
    rw [← h.2]
    exact replenishedByQuanta_refl s
  | cons c rest ih =>
    simp only [newFlowsLoop] at h
    by_cases hd : (s.GetQueueDiscClass c).GetDeficit ≤ 0
    · rw [if_pos hd] at h
      obtain ⟨h1, -⟩ := sound_newStep s c rest hs hl hd
      exact replenishedByQuanta_trans _ _ _ (replenished_newStep s c rest hs hd) (ih _ h1 rfl h)
    · rw [if_neg hd] at h
      simp only [Prod.mk.injEq] at h
      have he : ({ s with m_newFlows := c :: rest } : LLQQueueDisc) = s := by
        cases s; simp only at hl; subst hl; rfl
      rw [he] at h
      rw [← h.2]
      exact replenishedByQuanta_refl s

/-- The second inner loop replenishes by whole quanta. -/
theorem replenished_oldFlowsLoop (fuel : Nat) (s s1 : LLQQueueDisc) (r : Option Nat)
    (hs : Sound s) (h : oldFlowsLoop fuel s = some (r, s1)) :
    ReplenishedByQuanta s s1 := by
  induction fuel generalizing s with
  | zero => simp [oldFlowsLoop] at h
  | succ n ih =>
    unfold oldFlowsLoop at h
    cases ho : s.m_oldFlows with
    | nil =>
      rw [ho] at h
      simp only [Option.some.injEq, Prod.mk.injEq] at h
      rw [← h.2]
      exact replenishedByQuanta_refl s
    | cons c rest =>
      rw [ho] at h
      simp only at h
      by_cases hd : (s.GetQueueDiscClass c).GetDeficit ≤ 0
      · rw [if_pos hd] at h
        obtain ⟨h1, -⟩ := sound_oldStep s c rest hs ho hd
        exact replenishedByQuanta_trans _ _ _ (replenished_oldStep s c rest hs hd) (ih _ h1 h)
      · rw [if_neg hd] at h
        simp only [Option.some.injEq, Prod.mk.injEq] at h
        rw [← h.2]
        exact replenishedByQuanta_refl s

/-- The search of `DoDequeue` replenishes by whole quanta. -/
theorem replenished_selectFlow (fuel : Nat) (s s1 : LLQQueueDisc) (r : Option Nat)
    (hs : Sound s) (h : selectFlow fuel s = some (r, s1)) :
    ReplenishedByQuanta s s1 := by
  unfold selectFlow at h
  cases hl : newFlowsLoop s.m_newFlows s with
  | mk r' t =>
    rw [hl] at h
    obtain ⟨hs1, -⟩ := sound_newFlowsLoop _ _ _ _ hs rfl hl
    have hr1 := replenished_newFlowsLoop _ _ _ _ hs rfl hl
    cases r' with
    | some c' =>
      simp only [Option.some.injEq, Prod.mk.injEq] at h
      obtain ⟨-, h2⟩ := h
      subst h2
      exact hr1
    | none =>
      simp only at h
      exact replenishedByQuanta_trans _ _ _ hr1 (replenished_oldFlowsLoop _ _ _ _ hs1 h)

/-- The branch of `DoDequeue` taken when the child disc of the selected flow gives no
item changes no deficit. -/
theorem replenished_emptyFlow (s : LLQQueueDisc) (c : Nat) :
    ReplenishedByQuanta s (s.emptyFlow c) := by
  unfold emptyFlow
  split_ifs
  · exact replenishedByQuanta_update s _ c _ 0 rfl rfl (by simp [LLQFlow.SetStatus])
      (fun h => absurd h (by decide))
  · exact replenishedByQuanta_update s _ c _ 0 rfl rfl (by simp [LLQFlow.SetStatus])
      (fun h => absurd h (by decide))

/-- What `DoDequeue` does when it returns an item, on a sound disc whose items have
at most `2 ^ 31` bytes: the flow served had its deficit raised by `k` quanta before
it was selected, and is charged the size of the item. -/
theorem doDequeue_item (fuel : Nat) (s s' : LLQQueueDisc) (item : QueueDiscItem)
    (hs : Sound s)
    (hsz : ∀ c, ∀ x ∈ (s.GetQueueDiscClass c).m_queue, x.size ≤ 2147483648)
    (h : DoDequeue fuel s = some (some item, s')) :
    ∃ (c : Nat) (k : Nat),
      ((s'.GetQueueDiscClass c).GetStatus = FlowStatus.NEW_FLOW ∨
        (s'.GetQueueDiscClass c).GetStatus = FlowStatus.OLD_FLOW) ∧
      (s.GetQueueDiscClass c).m_queue = item :: (s'.GetQueueDiscClass c).m_queue ∧
      0 < (s.GetQueueDiscClass c).GetDeficit + (k : Int) * (s.m_quantum : Int) ∧
      (0 < k →
        (s.GetQueueDiscClass c).GetDeficit + (k : Int) * (s.m_quantum : Int) -
          (s.m_quantum : Int) ≤ 0) ∧
      (s'.GetQueueDiscClass c).GetDeficit =
        (s.GetQueueDiscClass c).GetDeficit + (k : Int) * (s.m_quantum : Int) -
          (item.size : Int) ∧
      ∀ c', c' ≠ c →
        (∃ k' : Nat, (s'.GetQueueDiscClass c').GetDeficit =
          (s.GetQueueDiscClass c').GetDeficit + (k' : Int) * (s.m_quantum : Int)) ∧
          (s'.GetQueueDiscClass c').m_queue = (s.GetQueueDiscClass c').m_queue := by
  induction fuel generalizing s with
  | zero => simp [DoDequeue] at h
  | succ n ih =>
    unfold DoDequeue at h
    cases hsel : selectFlow n s with
    | none => rw [hsel] at h; simp at h
    | some p =>
      obtain ⟨r, s1⟩ := p
      rw [hsel] at h
      obtain ⟨hs1, hrep, hfound⟩ := sound_selectFlow n s s1 r hs hsel
      have hex := replenished_selectFlow n s s1 r hs hsel
      cases r with
      | none => simp at h
      | some c =>
        simp only at h
        obtain ⟨hpos, hhead⟩ := hfound c rfl
        cases hq : (s1.GetQueueDiscClass c).m_queue with
        | nil =>
          rw [hq] at h
          simp only at h
          obtain ⟨hs2, hrep2⟩ := sound_emptyFlow s1 c hs1 hhead
          have hrep3 := onlyReplenished_trans _ _ _ hrep hrep2
          have hex3 := replenishedByQuanta_trans _ _ _ hex (replenished_emptyFlow s1 c)
          have hsz3 : ∀ c', ∀ x ∈ ((s1.emptyFlow c).GetQueueDiscClass c').m_queue,
              x.size ≤ 2147483648 := by
            intro c'
            rw [(hrep3.2 c').1]
            exact hsz c'
          obtain ⟨c0, k2, h1, h2, h3, h4, h5, h6⟩ := ih _ hs2 hsz3 h
          obtain ⟨k1, a1, b1⟩ := hex3.2 c0
          have hqe : (s1.emptyFlow c).m_quantum = s.m_quantum := hex3.1
          unfold LLQFlow.GetDeficit at h3 h4 h5 h6 ⊢
          rw [hqe] at h3 h4 h5 h6
          rw [a1] at h3 h4 h5
          refine ⟨c0, k1 + k2, h1, ?_, ?_, ?_, ?_, fun c' hc' => ?_⟩
          · rw [← (hrep3.2 c0).1]; exact h2
          · push_cast
            linarith
          · intro hk
            by_cases hk2 : 0 < k2
            · have := h4 hk2
              push_cast
              linarith
            · have hz : k2 = 0 := by omega
              have hk1 : 0 < k1 := by omega
              have := b1 hk1
              rw [a1] at this
              rw [hz]
              push_cast
              linarith
          · rw [h5]
            push_cast
            ring
          · obtain ⟨⟨k2', h7⟩, h8⟩ := h6 c' hc'
            obtain ⟨k1', a1', -⟩ := hex3.2 c'
            refine ⟨⟨k1' + k2', ?_⟩, by rw [h8, (hrep3.2 c').1]⟩
            rw [h7, a1']
            push_cast
            ring
        | cons it rest =>
          rw [hq] at h
          simp only [Option.some.injEq, Prod.mk.injEq] at h
          obtain ⟨h1, h2⟩ := h
          subst h1
          obtain ⟨_, ⟨ha1, ha2, _, _⟩, hr⟩ := hs1
          have hst : (s1.GetQueueDiscClass c).m_status = FlowStatus.NEW_FLOW ∨
              (s1.GetQueueDiscClass c).m_status = FlowStatus.OLD_FLOW := by
            rcases hhead with ⟨rest', hn⟩ | ⟨_, rest', ho⟩
            · left; exact ha1 c (by rw [hn]; exact List.mem_cons_self _ _)
            · right; exact ha2 c (by rw [ho]; exact List.mem_cons_self _ _)
          have hc : c < s1.m_classes.length :=
            lt_of_status s1 c (by rcases hst with e | e <;> rw [e] <;> decide)
          have hitem : it.size ≤ 2147483648 := by
            apply hsz c
            rw [← (hrep.2 c).1, hq]
            exact List.mem_cons_self _ _
          have hget : ∀ j, s'.GetQueueDiscClass j =
              if j = c ∧ c < s1.m_classes.length then
                ({ s1.GetQueueDiscClass c with m_queue := rest }.IncreaseDeficit
                  (toInt32 (wrap32 (it.size * 4294967295))))
              else s1.GetQueueDiscClass j := by
            intro j
            rw [← h2]
            exact getClass_setClass s1 c j _
          have hrng := deficit_range s1 hr c
          obtain ⟨k, a1, b1⟩ := hex.2 c
          unfold LLQFlow.GetDeficit
          refine ⟨c, k, ?_, ?_, ?_, ?_, ?_, fun c' hc' => ?_⟩
          · rw [hget, if_pos ⟨rfl, hc⟩]
            exact hst
          · rw [hget, if_pos ⟨rfl, hc⟩, ← (hrep.2 c).1, hq]
            rfl
          · rw [← a1]; exact hpos
          · intro hk
            rw [← a1]; exact b1 hk
          · rw [hget, if_pos ⟨rfl, hc⟩, ← a1]
            show toInt32 ((s1.GetQueueDiscClass c).m_deficit +
              toInt32 (wrap32 (it.size * 4294967295))) = _
            rw [debit_eq _ hitem]
            exact toInt32_of_range _ (by omega) (by omega)
          · rw [hget, if_neg (fun e => hc' e.1)]
            obtain ⟨k', a', -⟩ := hex.2 c'
            exact ⟨⟨k', a'⟩, (hrep.2 c').1⟩

/-- C23, counterexample. With the quantum 1500, a flow with the deficit 1500 whose
head item has 4294967295 bytes is served and its deficit becomes 1501: the product
`GetSize () * -1` is taken in `uint32_t` and reaches `IncreaseDeficit` as `1`. With
the quantum 4294967295, which `IncreaseDeficit` receives as `-1`, the call that
returns the item of the second flow lowers the deficit of the first flow from 0
to -1. -/
theorem doDequeue_debit_wraps :
    (DoDequeue 3 (twoNewFlows 1500 1500 1500 [pkt 4294967295] [pkt 1000])).map
        (fun r => (r.1.map (fun i => i.size), r.2.m_classes.map (fun f => f.m_deficit))) =
      some (some 4294967295, [1501, 1500]) ∧
    (DoDequeue 3 (twoNewFlows 4294967295 0 5 [pkt 3] [pkt 3])).map
        (fun r => (r.1.map (fun i => i.size), r.2.m_classes.map (fun f => f.m_deficit))) =
      some (some 3, [-1, 2]) := by
  decide!

/-- C23, amended. For a quantum below `2 ^ 31`, on a disc whose lists agree with the
statuses, whose deficits are values of `int32_t` and whose items have at most
`2 ^ 31` bytes: when `DoDequeue` returns an item, the item is the head of the items
of a flow `c` whose status is `NEW_FLOW` or `OLD_FLOW`. The deficit `d` of the flow
when it was selected is its deficit on entry plus `k` quanta, `k` being the number
of replenishments the search gave it: `d` is positive and, if `k > 0`, the deficit
`d - quantum` that received the last replenishment was not positive, so that for a
positive quantum `k` is the least number of quanta that makes the deficit
positive. Afterwards the deficit of the flow is `d` minus the size of the item. The
deficit of every other flow is its deficit on entry plus a whole number of quanta,
so no other flow is debited, and the items of the other flows are untouched. -/
theorem doDequeue_returns_head_and_debits (fuel : Nat) (s s' : LLQQueueDisc)
    (item : QueueDiscItem) (hs : Sound s) (hsz : SizesAtMost 2147483648 s)
    (h : DoDequeue fuel s = some (some item, s')) :
    ∃ (c : Nat) (k : Nat),
      ((s'.GetQueueDiscClass c).GetStatus = FlowStatus.NEW_FLOW ∨
        (s'.GetQueueDiscClass c).GetStatus = FlowStatus.OLD_FLOW) ∧
      (s.GetQueueDiscClass c).m_queue = item :: (s'.GetQueueDiscClass c).m_queue ∧
      0 < (s.GetQueueDiscClass c).GetDeficit + (k : Int) * (s.m_quantum : Int) ∧
      (0 < k →
        (s.GetQueueDiscClass c).GetDeficit + (k : Int) * (s.m_quantum : Int) -
          (s.m_quantum : Int) ≤ 0) ∧
      (s'.GetQueueDiscClass c).GetDeficit =
        (s.GetQueueDiscClass c).GetDeficit + (k : Int) * (s.m_quantum : Int) -
          (item.size : Int) ∧
      ∀ c', c' ≠ c →
        (∃ k' : Nat, (s'.GetQueueDiscClass c').GetDeficit =
          (s.GetQueueDiscClass c').GetDeficit + (k' : Int) * (s.m_quantum : Int)) ∧
          (s'.GetQueueDiscClass c').m_queue = (s.GetQueueDiscClass c').m_queue :=
  doDequeue_item fuel s s' item hs (sizes_at _ s hsz) h

/-- Witness for C23: two new flows with the quantum 1500, the first with an exhausted
deficit and the second with the deficit 1500, and items of 1000 bytes. The search
replenishes the first flow and moves it to the old flows, and the item returned is
the one of the second flow. -/
theorem doDequeue_returns_head_and_debits_witness :
    ∃ s', DoDequeue 3 (twoNewFlows 1500 (-500) 1500 [pkt 1000, pkt 1000] [pkt 1000]) =
        some (some (pkt 1000), s') ∧
      ∃ (c : Nat) (k : Nat),
        ((s'.GetQueueDiscClass c).GetStatus = FlowStatus.NEW_FLOW ∨
          (s'.GetQueueDiscClass c).GetStatus = FlowStatus.OLD_FLOW) ∧
        ((twoNewFlows 1500 (-500) 1500 [pkt 1000, pkt 1000] [pkt 1000]).GetQueueDiscClass
            c).m_queue = pkt 1000 :: (s'.GetQueueDiscClass c).m_queue ∧
        0 < ((twoNewFlows 1500 (-500) 1500 [pkt 1000, pkt 1000] [pkt 1000]).GetQueueDiscClass
            c).GetDeficit + (k : Int) *
              ((twoNewFlows 1500 (-500) 1500 [pkt 1000, pkt 1000] [pkt 1000]).m_quantum : Int) ∧
        (0 < k →
          ((twoNewFlows 1500 (-500) 1500 [pkt 1000, pkt 1000] [pkt 1000]).GetQueueDiscClass
              c).GetDeficit + (k : Int) *
                ((twoNewFlows 1500 (-500) 1500 [pkt 1000, pkt 1000] [pkt 1000]).m_quantum : Int) -
            ((twoNewFlows 1500 (-500) 1500 [pkt 1000, pkt 1000] [pkt 1000]).m_quantum : Int) ≤
              0) ∧
        (s'.GetQueueDiscClass c).GetDeficit =
          ((twoNewFlows 1500 (-500) 1500 [pkt 1000, pkt 1000] [pkt 1000]).GetQueueDiscClass
              c).GetDeficit + (k : Int) *
                ((twoNewFlows 1500 (-500) 1500 [pkt 1000, pkt 1000] [pkt 1000]).m_quantum : Int) -
            ((pkt 1000).size : Int) ∧
        ∀ c', c' ≠ c →
          (∃ k' : Nat, (s'.GetQueueDiscClass c').GetDeficit =
            ((twoNewFlows 1500 (-500) 1500 [pkt 1000, pkt 1000] [pkt 1000]).GetQueueDiscClass
                c').GetDeficit + (k' : Int) *
              ((twoNewFlows 1500 (-500) 1500 [pkt 1000, pkt 1000] [pkt 1000]).m_quantum : Int)) ∧
            (s'.GetQueueDiscClass c').m_queue =
              ((twoNewFlows 1500 (-500) 1500 [pkt 1000, pkt 1000] [pkt 1000]).GetQueueDiscClass
                c').m_queue :=
  ⟨_, rfl,
    doDequeue_returns_head_and_debits 3
      (twoNewFlows 1500 (-500) 1500 [pkt 1000, pkt 1000] [pkt 1000]) _ (pkt 1000)
      (by decide) (by decide) rfl⟩

/-- Rewriting one existing class and the lists so that the rewritten class is listed
according to its new status keeps the lists in agreement with the statuses. -/
theorem agree_update (s t : LLQQueueDisc) (c : Nat) (f : LLQFlow)
    (ha : ListsAgree s) (hcls : t.m_classes = s.m_classes.set c f)
    (hc : c < s.m_classes.length)
    (hnew : ∀ x ∈ t.m_newFlows,
      (x = c ∧ f.m_status = FlowStatus.NEW_FLOW) ∨ (x ≠ c ∧ x ∈ s.m_newFlows))
    (hold : ∀ x ∈ t.m_oldFlows,
      (x = c ∧ f.m_status = FlowStatus.OLD_FLOW) ∨ (x ≠ c ∧ x ∈ s.m_oldFlows))
    (hnd : t.m_newFlows.Nodup) (hod : t.m_oldFlows.Nodup) :
    ListsAgree t := by
  obtain ⟨ha1, ha2, _, _⟩ := ha
  have hget : ∀ j, t.GetQueueDiscClass j = if j = c ∧ c < s.m_classes.length then f
      else s.GetQueueDiscClass j := fun j => getClass_of_set s t c j f hcls
  refine ⟨?_, ?_, hnd, hod⟩
  · intro x hx
    rw [hget]
    rcases hnew x hx with ⟨h1, h2⟩ | ⟨h1, h2⟩
    · rw [if_pos ⟨h1, hc⟩]; exact h2
    · rw [if_neg (fun h => h1 h.1)]; exact ha1 x h2
  · intro x hx
    rw [hget]
    rcases hold x hx with ⟨h1, h2⟩ | ⟨h1, h2⟩
    · rw [if_pos ⟨h1, hc⟩]; exact h2
    · rw [if_neg (fun h => h1 h.1)]; exact ha2 x h2

/-- Moving the flow at the head of `m_newFlows` to the tail of `m_oldFlows` with the
status `OLD_FLOW` keeps the lists in agreement with the statuses. -/
theorem agree_demote (s t : LLQQueueDisc) (c : Nat) (rest : List Nat) (f : LLQFlow)
    (ha : ListsAgree s) (hn : s.m_newFlows = c :: rest)
    (hcls : t.m_classes = s.m_classes.set c f) (hf : f.m_status = FlowStatus.OLD_FLOW)
    (htn : t.m_newFlows = rest) (hto : t.m_oldFlows = s.m_oldFlows ++ [c]) :
    ListsAgree t := by
  have ha' := ha
  obtain ⟨ha1, ha2, hnd, hod⟩ := ha'
  have hst : (s.GetQueueDiscClass c).m_status = FlowStatus.NEW_FLOW :=
    ha1 c (by rw [hn]; exact List.mem_cons_self _ _)
  have hc : c < s.m_classes.length := lt_of_status s c (by rw [hst]; decide)
  have hnold : c ∉ s.m_oldFlows := fun h => by
    have := ha2 c h
    unfold LLQFlow.GetStatus at this
    rw [hst] at this
    exact absurd this (by decide)
  rw [hn] at hnd
  have hnd' := List.nodup_cons.mp hnd
  refine agree_update s t c f ha hcls hc ?_ ?_ ?_ ?_
  · intro x hx
    rw [htn] at hx
    right
    exact ⟨fun h => hnd'.1 (h ▸ hx), by rw [hn]; exact List.mem_cons_of_mem _ hx⟩
  · intro x hx
    rw [hto] at hx
    rcases List.mem_append.mp hx with h | h
    · right; exact ⟨fun e => hnold (e ▸ h), h⟩
    · left; exact ⟨List.mem_singleton.mp h, hf⟩
  · rw [htn]; exact hnd'.2
  · rw [hto, List.nodup_append]
    refine ⟨hod, List.nodup_singleton c, ?_⟩
    intro x hx hx'
    rw [List.mem_singleton] at hx'
    exact hnold (hx' ▸ hx)

/-- Moving the flow at the head of `m_oldFlows` to its tail without changing its
status keeps the lists in agreement with the statuses. -/
theorem agree_rotate (s t : LLQQueueDisc) (c : Nat) (rest : List Nat) (f : LLQFlow)
    (ha : ListsAgree s) (ho : s.m_oldFlows = c :: rest)
    (hcls : t.m_classes = s.m_classes.set c f) (hf : f.m_status = FlowStatus.OLD_FLOW)
    (htn : t.m_newFlows = s.m_newFlows) (hto : t.m_oldFlows = rest ++ [c]) :
    ListsAgree t := by
  have ha' := ha
  obtain ⟨ha1, ha2, hnd, hod⟩ := ha'
  have hst : (s.GetQueueDiscClass c).m_status = FlowStatus.OLD_FLOW :=
    ha2 c (by rw [ho]; exact List.mem_cons_self _ _)
  have hc : c < s.m_classes.length := lt_of_status s c (by rw [hst]; decide)
  have hnnew : c ∉ s.m_newFlows := fun h => by
    have := ha1 c h
    unfold LLQFlow.GetStatus at this
    rw [hst] at this
    exact absurd this (by decide)
  rw [ho] at hod
  have hod' := List.nodup_cons.mp hod
  refine agree_update s t c f ha hcls hc ?_ ?_ ?_ ?_
  · intro x hx
    rw [htn] at hx
    right
    exact ⟨fun e => hnnew (e ▸ hx), hx⟩
  · intro x hx
    rw [hto] at hx
    rcases List.mem_append.mp hx with h | h
    · right; exact ⟨fun e => hod'.1 (e ▸ h), by rw [ho]; exact List.mem_cons_of_mem _ h⟩
    · left; exact ⟨List.mem_singleton.mp h, hf⟩
  · rw [htn]; exact hnd
  · rw [hto, List.nodup_append]
    refine ⟨hod'.2, List.nodup_singleton c, ?_⟩
    intro x hx hx'
    rw [List.mem_singleton] at hx'
    exact hod'.1 (hx' ▸ hx)

/-- The first inner loop keeps the lists in agreement with the statuses. -/
theorem agree_newFlowsLoop (l : List Nat) (s s1 : LLQQueueDisc) (r : Option Nat)
    (ha : ListsAgree s) (hl : s.m_newFlows = l) (h : newFlowsLoop l s = (r, s1)) :
    ListsAgree s1 := by
  induction l generalizing s with
  | nil =>
    simp only [newFlowsLoop, Prod.mk.injEq] at h
    rw [newFlows_nil_eq s hl] at h
    rw [← h.2]
    exact ha
  | cons c rest ih =>
    simp only [newFlowsLoop] at h
    by_cases hd : (s.GetQueueDiscClass c).GetDeficit ≤ 0
    · rw [if_pos hd] at h
      exact ih _ (agree_demote s _ c rest _ ha hl rfl rfl rfl rfl) rfl h
    · rw [if_neg hd] at h
      simp only [Prod.mk.injEq] at h
      have he : ({ s with m_newFlows := c :: rest } : LLQQueueDisc) = s := by
        cases s; simp only at hl; subst hl; rfl
      rw [he] at h
      rw [← h.2]
      exact ha

/-- The second inner loop keeps the lists in agreement with the statuses. -/
theorem agree_oldFlowsLoop (fuel : Nat) (s s1 : LLQQueueDisc) (r : Option Nat)
    (ha : ListsAgree s) (h : oldFlowsLoop fuel s = some (r, s1)) :
    ListsAgree s1 := by
  induction fuel generalizing s with
  | zero => simp [oldFlowsLoop] at h
  | succ n ih =>
    unfold oldFlowsLoop at h
    cases ho : s.m_oldFlows with
    | nil =>
      rw [ho] at h
      simp only [Option.some.injEq, Prod.mk.injEq] at h
      rw [← h.2]
      exact ha
    | cons c rest =>
      rw [ho] at h
      simp only at h
      by_cases hd : (s.GetQueueDiscClass c).GetDeficit ≤ 0
      · rw [if_pos hd] at h
        refine ih _ ?_ h
        exact agree_rotate s _ c rest _ ha ho rfl
          (ha.2.1 c (by rw [ho]; exact List.mem_cons_self _ _)) rfl rfl
      · rw [if_neg hd] at h
        simp only [Option.some.injEq, Prod.mk.injEq] at h
        rw [← h.2]
        exact ha

/-- The search of `DoDequeue` keeps the lists in agreement with the statuses; a flow
it finds is at the head of `m_newFlows`, or at the head of `m_oldFlows` with
`m_newFlows` empty. -/
theorem agree_selectFlow (fuel : Nat) (s s1 : LLQQueueDisc) (r : Option Nat)
    (ha : ListsAgree s) (h : selectFlow fuel s = some (r, s1)) :
    ListsAgree s1 ∧
      ∀ c, r = some c →
        ((∃ rest, s1.m_newFlows = c :: rest) ∨
          (s1.m_newFlows = [] ∧ ∃ rest, s1.m_oldFlows = c :: rest)) := by
  unfold selectFlow at h
  cases hl : newFlowsLoop s.m_newFlows s with
  | mk r' t =>
    rw [hl] at h
    obtain ⟨hr1, hr2⟩ := newFlowsLoop_result _ _ _ _ hl
    have ha1 := agree_newFlowsLoop _ _ _ _ ha rfl hl
    cases r' with
    | some c' =>
      simp only [Option.some.injEq, Prod.mk.injEq] at h
      obtain ⟨h1, h2⟩ := h
      subst h2; subst h1
      refine ⟨ha1, fun c hc => ?_⟩
      simp only [Option.some.injEq] at hc
      subst hc
      left
      have := (hr2 _ rfl).1
      cases hnf : t.m_newFlows with
      | nil => rw [hnf] at this; simp at this
      | cons a rest =>
        rw [hnf] at this
        simp only [List.head?_cons, Option.some.injEq] at this
        exact ⟨rest, by rw [this]⟩
    | none =>
      simp only at h
      have ha2 := agree_oldFlowsLoop _ _ _ _ ha1 h
      obtain ⟨hq1, _, hq3⟩ := oldFlowsLoop_result _ _ _ _ h
      refine ⟨ha2, fun c hc => Or.inr ⟨by rw [hq1]; exact hr1 rfl, ?_⟩⟩
      have := (hq3 c hc).1
      cases hof : s1.m_oldFlows with
      | nil => rw [hof] at this; simp at this
      | cons a rest =>
        rw [hof] at this
        simp only [List.head?_cons, Option.some.injEq] at this
        exact ⟨rest, by rw [this]⟩

/-- C24. In a state where the lists agree with the statuses, let the search of
`DoDequeue` select the flow `c`, leaving the disc `s1`, and let the child disc of
`c` hold no item. Then the call goes on from `s1.emptyFlow c`; `m_newFlows` is
non-empty exactly when `c` is at its head, which is exactly when the status of `c`
is `NEW_FLOW`; if the status of `c` is `NEW_FLOW`, it becomes `OLD_FLOW`, `c` leaves
the head of `m_newFlows` and joins the tail of `m_oldFlows`; if it is `OLD_FLOW`, it
becomes `INACTIVE` and `c` leaves the head of `m_oldFlows`, which no longer lists it;
and the lists still agree with the statuses. -/
theorem doDequeue_empty_flow_transition (fuel : Nat) (s s1 : LLQQueueDisc) (c : Nat)
    (ha : ListsAgree s) (hsel : selectFlow fuel s = some (some c, s1))
    (hq : (s1.GetQueueDiscClass c).m_queue = []) :
    DoDequeue (fuel + 1) s = DoDequeue fuel (s1.emptyFlow c) ∧
      (s1.m_newFlows ≠ [] ↔ s1.m_newFlows.head? = some c) ∧
      ((s1.GetQueueDiscClass c).GetStatus = FlowStatus.NEW_FLOW ↔
        s1.m_newFlows.head? = some c) ∧
      ((s1.GetQueueDiscClass c).GetStatus = FlowStatus.NEW_FLOW →
        ((s1.emptyFlow c).GetQueueDiscClass c).GetStatus = FlowStatus.OLD_FLOW ∧
          s1.m_newFlows = c :: (s1.emptyFlow c).m_newFlows ∧
          (s1.emptyFlow c).m_oldFlows = s1.m_oldFlows ++ [c]) ∧
      ((s1.GetQueueDiscClass c).GetStatus = FlowStatus.OLD_FLOW →
        ((s1.emptyFlow c).GetQueueDiscClass c).GetStatus = FlowStatus.INACTIVE ∧
          s1.m_oldFlows = c :: (s1.emptyFlow c).m_oldFlows ∧
          c ∉ (s1.emptyFlow c).m_oldFlows ∧
          (s1.emptyFlow c).m_newFlows = s1.m_newFlows) ∧
      ListsAgree (s1.emptyFlow c) := by
  obtain ⟨ha1, hsel'⟩ := agree_selectFlow fuel s s1 _ ha hsel
  have hhead := hsel' c rfl
  have hD : DoDequeue (fuel + 1) s = DoDequeue fuel (s1.emptyFlow c) := by
    rw [DoDequeue, hsel]
    simp only
    rw [hq]
  have ha1' := ha1
  obtain ⟨hn1, ho1, hnd, hod⟩ := ha1'
  rcases hhead with ⟨rest, hn⟩ | ⟨hn, rest, ho⟩
  · have hne : s1.m_newFlows ≠ [] := by rw [hn]; simp
    have hst : (s1.GetQueueDiscClass c).GetStatus = FlowStatus.NEW_FLOW :=
      hn1 c (by rw [hn]; exact List.mem_cons_self _ _)
    have hc : c < s1.m_classes.length := lt_of_status s1 c (by
      unfold LLQFlow.GetStatus at hst; rw [hst]; decide)
    have he : s1.emptyFlow c =
        { s1.setClass c ((s1.GetQueueDiscClass c).SetStatus FlowStatus.OLD_FLOW) with
          m_oldFlows := s1.m_oldFlows ++ [c]
          m_newFlows := s1.m_newFlows.tail } := by
      unfold emptyFlow; rw [if_pos hne]
    have hget : (s1.emptyFlow c).GetQueueDiscClass c =
        (s1.GetQueueDiscClass c).SetStatus FlowStatus.OLD_FLOW := by
      rw [getClass_of_set s1 (s1.emptyFlow c) c c _ (by rw [he]; rfl), if_pos ⟨rfl, hc⟩]
    refine ⟨hD, ?_, ?_, ?_, ?_, ?_⟩
    · rw [hn]; simp
    · rw [hn]; simp [hst]
    · intro _
      refine ⟨by rw [hget]; rfl, ?_, by rw [he]⟩
      rw [he]
      show s1.m_newFlows = c :: s1.m_newFlows.tail
      rw [hn]; rfl
    · intro h
      rw [hst] at h
      exact absurd h (by decide)
    · exact agree_demote s1 _ c rest _ ha1 hn (by rw [he]; rfl) rfl
        (by rw [he]; show s1.m_newFlows.tail = rest; rw [hn]; rfl) (by rw [he])
  · have hne : ¬ s1.m_newFlows ≠ [] := fun h => h hn
    have hst : (s1.GetQueueDiscClass c).GetStatus = FlowStatus.OLD_FLOW :=
      ho1 c (by rw [ho]; exact List.mem_cons_self _ _)
    have hc : c < s1.m_classes.length := lt_of_status s1 c (by
      unfold LLQFlow.GetStatus at hst; rw [hst]; decide)
    have he : s1.emptyFlow c =
        { s1.setClass c ((s1.GetQueueDiscClass c).SetStatus FlowStatus.INACTIVE) with
          m_oldFlows := s1.m_oldFlows.tail } := by
      unfold emptyFlow; rw [if_neg hne]
    have hget : (s1.emptyFlow c).GetQueueDiscClass c =
        (s1.GetQueueDiscClass c).SetStatus FlowStatus.INACTIVE := by
      rw [getClass_of_set s1 (s1.emptyFlow c) c c _ (by rw [he]; rfl), if_pos ⟨rfl, hc⟩]
    rw [ho] at hod
    have hod' := List.nodup_cons.mp hod
    have htail : (s1.emptyFlow c).m_oldFlows = rest := by
      rw [he]
      show s1.m_oldFlows.tail = rest
      rw [ho]; rfl
    refine ⟨hD, ?_, ?_, ?_, ?_, ?_⟩
    · rw [hn]; simp
    · rw [hn, hst]; simp
    · intro h
      rw [hst] at h
      exact absurd h (by decide)
    · intro _
      refine ⟨by rw [hget]; rfl, by rw [htail, ho], by rw [htail]; exact hod'.1,
        by rw [he]; rfl⟩
    · refine agree_update s1 _ c _ ha1 (by rw [he]; rfl) hc ?_ ?_ ?_ ?_
      · intro x hx
        have hx' : x ∈ s1.m_newFlows := by rw [he] at hx; exact hx
        rw [hn] at hx'
        simp at hx'
      · intro x hx
        rw [htail] at hx
        right
        exact ⟨fun e => hod'.1 (e ▸ hx), by rw [ho]; exact List.mem_cons_of_mem _ hx⟩
      · have : (s1.emptyFlow c).m_newFlows = s1.m_newFlows := by rw [he]; rfl
        rw [this]; exact hnd
      · rw [htail]; exact hod'.2

/-- Witness for C24: two new flows with the quantum 1500, the first of which holds
no item. -/
theorem doDequeue_empty_flow_transition_witness :
    (((twoNewFlows 1500 1500 1500 [] [pkt 1000]).emptyFlow 0).GetQueueDiscClass 0).GetStatus =
        FlowStatus.OLD_FLOW ∧
      (twoNewFlows 1500 1500 1500 [] [pkt 1000]).m_newFlows =
        0 :: ((twoNewFlows 1500 1500 1500 [] [pkt 1000]).emptyFlow 0).m_newFlows ∧
      ((twoNewFlows 1500 1500 1500 [] [pkt 1000]).emptyFlow 0).m_oldFlows =
        (twoNewFlows 1500 1500 1500 [] [pkt 1000]).m_oldFlows ++ [0] :=
  (doDequeue_empty_flow_transition 3 (twoNewFlows 1500 1500 1500 [] [pkt 1000])
    (twoNewFlows 1500 1500 1500 [] [pkt 1000]) 0 (by decide) rfl rfl).2.2.2.1 (by decide)

/-- C25, counterexample. In the scenario the first two calls of `DoDequeue` both
return a packet of the first flow: afterwards the first flow holds one packet, with
the deficit `-500`, the second flow still holds its three packets, and both flows
are still in `m_newFlows`. -/
theorem doDequeue_first_two_from_first_flow :
    (burstScenario.bind (dequeueN 5 2)).map viewAfter =
      some
        { returned := [some 1000, some 1000]
          newFlows := [0, 1]
          oldFlows := []
          statuses := [FlowStatus.NEW_FLOW, FlowStatus.NEW_FLOW]
          deficits := [-500, 1500]
          backlogs := [1, 3] } := by
  decide!

/-- C25, amended. In the scenario both flows are new flows with the deficit 1500 and
three packets each. The first call of `DoDequeue` returns a packet of the first flow
and leaves it the deficit 500; the second call returns another packet of the first
flow and leaves it the deficit `-500`; the third call moves the first flow to
`m_oldFlows` with the deficit 1000 and returns a packet of the second flow; the
fourth call returns another packet of the second flow. Each new flow is served
twice before the other one is served. -/
theorem doDequeue_burst_scenario :
    burstScenario.map view =
      some
        { returned := []
          newFlows := [0, 1]
          oldFlows := []
          statuses := [FlowStatus.NEW_FLOW, FlowStatus.NEW_FLOW]
          deficits := [1500, 1500]
          backlogs := [3, 3] } ∧
    (burstScenario.bind (dequeueN 5 1)).map viewAfter =
      some
        { returned := [some 1000]
          newFlows := [0, 1]
          oldFlows := []
          statuses := [FlowStatus.NEW_FLOW, FlowStatus.NEW_FLOW]
          deficits := [500, 1500]
          backlogs := [2, 3] } ∧
    (burstScenario.bind (dequeueN 5 2)).map viewAfter =
      some
        { returned := [some 1000, some 1000]
          newFlows := [0, 1]
          oldFlows := []
          statuses := [FlowStatus.NEW_FLOW, FlowStatus.NEW_FLOW]
          deficits := [-500, 1500]
          backlogs := [1, 3] } ∧
    (burstScenario.bind (dequeueN 5 3)).map viewAfter =
      some
        { returned := [some 1000, some 1000, some 1000]
          newFlows := [1]
          oldFlows := [0]
          statuses := [FlowStatus.OLD_FLOW, FlowStatus.NEW_FLOW]
          deficits := [1000, 500]
          backlogs := [1, 2] } ∧
    (burstScenario.bind (dequeueN 5 4)).map viewAfter =
      some
        { returned := [some 1000, some 1000, some 1000, some 1000]
          newFlows := [1]
          oldFlows := [0]
          statuses := [FlowStatus.OLD_FLOW, FlowStatus.NEW_FLOW]
          deficits := [1000, -500]
          backlogs := [1, 1] } := by
  decide!

/-- One iteration of the first inner loop on a flow with a non-positive deficit. -/
theorem selectFlow_new_step (fuel : Nat) (s : LLQQueueDisc) (c : Nat) (rest : List Nat)
    (hn : s.m_newFlows = c :: rest) (hd : (s.GetQueueDiscClass c).m_deficit ≤ 0) :
    selectFlow fuel s = selectFlow fuel
      { s.setClass c
          (((s.GetQueueDiscClass c).IncreaseDeficit (toInt32 s.m_quantum)).SetStatus
            FlowStatus.OLD_FLOW) with
        m_oldFlows := s.m_oldFlows ++ [c]
        m_newFlows := rest } := by
  have hd' : (s.GetQueueDiscClass c).GetDeficit ≤ 0 := hd
  unfold selectFlow
  rw [hn]
  simp only
  rw [newFlowsLoop, if_pos hd']

/-- The first inner loop stops at a flow with a positive deficit. -/
theorem selectFlow_new_found (fuel : Nat) (s : LLQQueueDisc) (c : Nat) (rest : List Nat)
    (hn : s.m_newFlows = c :: rest) (hd : 0 < (s.GetQueueDiscClass c).m_deficit) :
    selectFlow fuel s = some (some c, s) := by
  have hd' : ¬ (s.GetQueueDiscClass c).GetDeficit ≤ 0 := not_le.mpr hd
  have he : ({ s with m_newFlows := c :: rest } : LLQQueueDisc) = s := by
    cases s; simp only at hn; subst hn; rfl
  unfold selectFlow
  rw [hn, newFlowsLoop, if_neg hd', he]

/-- One iteration of the second inner loop on a flow with a non-positive deficit. -/
theorem oldFlowsLoop_step (fuel : Nat) (s : LLQQueueDisc) (c : Nat) (rest : List Nat)
    (ho : s.m_oldFlows = c :: rest) (hd : (s.GetQueueDiscClass c).m_deficit ≤ 0) :
    oldFlowsLoop (fuel + 1) s = oldFlowsLoop fuel
      { s.setClass c ((s.GetQueueDiscClass c).IncreaseDeficit (toInt32 s.m_quantum)) with
        m_oldFlows := rest ++ [c] } := by
  have hd' : (s.GetQueueDiscClass c).GetDeficit ≤ 0 := hd
  rw [oldFlowsLoop, ho]
  simp only
  rw [if_pos hd']

/-- The second inner loop stops at a flow with a positive deficit. -/
theorem oldFlowsLoop_found (fuel : Nat) (s : LLQQueueDisc) (c : Nat) (rest : List Nat)
    (ho : s.m_oldFlows = c :: rest) (hd : 0 < (s.GetQueueDiscClass c).m_deficit) :
    oldFlowsLoop (fuel + 1) s = some (some c, s) := by
  have hd' : ¬ (s.GetQueueDiscClass c).GetDeficit ≤ 0 := not_le.mpr hd
  rw [oldFlowsLoop, ho]
  simp only
  rw [if_neg hd']

/-- Replenishing the flow that is next to be inspected, whose deficit is not
positive, exchanges the roles of the two flows. -/
theorem fair_rot (q sz x y cx cy : Nat) (s t : LLQQueueDisc) (f : LLQFlow)
    (h : FairNum q sz x y cx cy s) (hd : (s.GetQueueDiscClass x).m_deficit ≤ 0)
    (hcls : t.m_classes = s.m_classes.set x f)
    (hf : f.m_deficit = (s.GetQueueDiscClass x).m_deficit + (q : Int))
    (hfq : f.m_queue = (s.GetQueueDiscClass x).m_queue) (hq : t.m_quantum = s.m_quantum) :
    FairNum q sz y x cy cx t := by
  obtain ⟨h1, h2, h3, h4, h5, h6, h7, h8, h9, h10, h11, h12, h13, h14, h15⟩ := h
  have hx : t.GetQueueDiscClass x = f := by
    rw [getClass_of_set s t x x f hcls, if_pos ⟨rfl, h7⟩]
  have hy : t.GetQueueDiscClass y = s.GetQueueDiscClass y := by
    rw [getClass_of_set s t x y f hcls, if_neg (fun e => h6 e.1.symm)]
  have hlen : t.m_classes.length = s.m_classes.length := by rw [hcls, List.length_set]
  refine ⟨by rw [hq, h1], h2, h3, h4, h5, fun e => h6 e.symm, by rw [hlen]; exact h8,
    by rw [hlen]; exact h7, by rw [hy]; exact h10, by rw [hx, hfq]; exact h9,
    by rw [hy]; exact h13, by rw [hy]; exact h14, by rw [hx, hf]; omega,
    by rw [hx, hf]; omega, ?_⟩
  rw [hx, hy, hf]
  rcases h15 with e | ⟨e1, e2⟩
  · right; constructor <;> omega
  · left; omega

/-- Serving the flow that is next to be inspected, whose deficit is positive, keeps
the roles of the two flows. -/
theorem fair_serve (q sz x y cx cy : Nat) (s t : LLQQueueDisc) (f : LLQFlow)
    (item : QueueDiscItem)
    (h : FairNum q sz x y cx cy s) (hd : 0 < (s.GetQueueDiscClass x).m_deficit)
    (hcls : t.m_classes = s.m_classes.set x f)
    (hf : f.m_deficit = (s.GetQueueDiscClass x).m_deficit - (sz : Int))
    (hfq : (s.GetQueueDiscClass x).m_queue = item :: f.m_queue)
    (hq : t.m_quantum = s.m_quantum) :
    FairNum q sz x y (cx + 1) cy t := by
  obtain ⟨h1, h2, h3, h4, h5, h6, h7, h8, h9, h10, h11, h12, h13, h14, h15⟩ := h
  have hx : t.GetQueueDiscClass x = f := by
    rw [getClass_of_set s t x x f hcls, if_pos ⟨rfl, h7⟩]
  have hy : t.GetQueueDiscClass y = s.GetQueueDiscClass y := by
    rw [getClass_of_set s t x y f hcls, if_neg (fun e => h6 e.1.symm)]
  have hlen : t.m_classes.length = s.m_classes.length := by rw [hcls, List.length_set]
  have e0 : (sz : Int) * ((cx + 1 : Nat) : Int) = (sz : Int) * (cx : Int) + (sz : Int) := by
    push_cast; ring
  refine ⟨by rw [hq, h1], h2, h3, h4, h5, h6, by rw [hlen]; exact h7,
    by rw [hlen]; exact h8, ?_, by rw [hy]; exact h10,
    by rw [hx, hf]; omega, by rw [hx, hf]; omega, by rw [hy]; exact h13,
    by rw [hy]; exact h14, ?_⟩
  · rw [hx]
    intro i hi
    exact h9 i (by rw [hfq]; exact List.mem_cons_of_mem _ hi)
  · rw [hx, hy, hf, e0]
    rcases h15 with e | ⟨e1, e2⟩
    · left; omega
    · right; constructor <;> omega

/-- The other orientation of a pair. -/
theorem oriented_swap (x y cx cy a b ca cb : Nat) (h : Oriented y x cy cx a b ca cb) :
    Oriented x y cx cy a b ca cb := by
  rcases h with h | h
  · exact Or.inr h
  · exact Or.inl h

/-- With both flows in `m_oldFlows`, the second inner loop finds one of them with a
positive deficit once it may run more iterations than the deficits need
replenishments; it changes no item. -/
theorem fair_oldFlowsLoop (q sz : Nat) (n : Nat) :
    ∀ (s : LLQQueueDisc) (x y cx cy : Nat), FairNum q sz x y cx cy s →
      s.m_newFlows = [] → s.m_oldFlows = [x, y] →
      (1 - (s.GetQueueDiscClass x).m_deficit).toNat +
        (1 - (s.GetQueueDiscClass y).m_deficit).toNat < n →
      ∃ (s1 : LLQQueueDisc) (a b ca cb : Nat),
        oldFlowsLoop n s = some (some a, s1) ∧ Oriented x y cx cy a b ca cb ∧
          FairNum q sz a b ca cb s1 ∧ s1.m_newFlows = [] ∧ s1.m_oldFlows = [a, b] ∧
          0 < (s1.GetQueueDiscClass a).m_deficit ∧
          ∀ c, (s1.GetQueueDiscClass c).m_queue = (s.GetQueueDiscClass c).m_queue := by
  induction n with
  | zero => intro s x y cx cy _ _ _ h; omega
  | succ n ih =>
    intro s x y cx cy hf hn ho hm
    by_cases hd : (s.GetQueueDiscClass x).m_deficit ≤ 0
    · have hf' := hf
      obtain ⟨h1, h2, h3, h4, h5, h6, h7, h8, h9, h10, h11, h12, h13, h14, h15⟩ := hf'
      rw [oldFlowsLoop_step n s x [y] ho hd, h1,
        replenish_eq _ q h3 (by omega) hd]
      have hrot := fair_rot q sz x y cx cy s
        { s.setClass x { s.GetQueueDiscClass x with
            m_deficit := (s.GetQueueDiscClass x).m_deficit + (q : Int) } with
          m_oldFlows := [y] ++ [x] } _ hf hd rfl rfl rfl rfl
      have hx : ({ s.setClass x { s.GetQueueDiscClass x with
            m_deficit := (s.GetQueueDiscClass x).m_deficit + (q : Int) } with
          m_oldFlows := [y] ++ [x] } : LLQQueueDisc).GetQueueDiscClass x =
          { s.GetQueueDiscClass x with
            m_deficit := (s.GetQueueDiscClass x).m_deficit + (q : Int) } := by
        rw [getClass_of_set s _ x x _ rfl, if_pos ⟨rfl, h7⟩]
      have hy : ({ s.setClass x { s.GetQueueDiscClass x with
            m_deficit := (s.GetQueueDiscClass x).m_deficit + (q : Int) } with
          m_oldFlows := [y] ++ [x] } : LLQQueueDisc).GetQueueDiscClass y =
          s.GetQueueDiscClass y := by
        rw [getClass_of_set s _ x y _ rfl, if_neg (fun e => h6 e.1.symm)]
      obtain ⟨s1, a, b, ca, cb, e1, e2, e3, e4, e5, e6, e7⟩ :=
        ih _ y x cy cx hrot hn rfl (by
          rw [hx, hy]
          show (1 - (s.GetQueueDiscClass y).m_deficit).toNat +
            (1 - ((s.GetQueueDiscClass x).m_deficit + (q : Int))).toNat < n
          omega)
      refine ⟨s1, a, b, ca, cb, e1, oriented_swap _ _ _ _ _ _ _ _ e2, e3, e4, e5, e6,
        fun c => ?_⟩
      rw [e7 c, getClass_of_set s _ x c _ rfl]
      by_cases hc : c = x ∧ x < s.m_classes.length
      · rw [if_pos hc, hc.1]
      · rw [if_neg hc]
    · have hd' : 0 < (s.GetQueueDiscClass x).m_deficit := not_le.mp hd
      exact ⟨s, x, y, cx, cy, oldFlowsLoop_found n s x [y] ho hd', Or.inl ⟨rfl, rfl, rfl, rfl⟩,
        hf, hn, ho, hd', fun _ => rfl⟩

/-- The number of replenishments two deficits above `-sz` can need is at most
`2 * sz`. -/
theorem fair_measure (q sz x y cx cy : Nat) (s : LLQQueueDisc)
    (h : FairNum q sz x y cx cy s) :
    (1 - (s.GetQueueDiscClass x).m_deficit).toNat +
      (1 - (s.GetQueueDiscClass y).m_deficit).toNat < 2 * sz + 1 := by
  obtain ⟨h1, h2, h3, h4, h5, h6, h7, h8, h9, h10, h11, h12, h13, h14, h15⟩ := h
  omega

/-- The search of `DoDequeue` among two backlogged flows, both in `m_oldFlows`. -/
theorem fair_select_old (q sz fuel : Nat) (s : LLQQueueDisc) (x y cx cy : Nat)
    (hf : FairNum q sz x y cx cy s) (hn : s.m_newFlows = []) (ho : s.m_oldFlows = [x, y])
    (hfuel : 2 * sz + 1 ≤ fuel) :
    ∃ (s1 : LLQQueueDisc) (a b ca cb : Nat),
      selectFlow fuel s = some (some a, s1) ∧ Oriented x y cx cy a b ca cb ∧
        FairNum q sz a b ca cb s1 ∧ FairLists a b s1 ∧
        0 < (s1.GetQueueDiscClass a).m_deficit ∧
        ∀ c, (s1.GetQueueDiscClass c).m_queue = (s.GetQueueDiscClass c).m_queue := by
  obtain ⟨s1, a, b, ca, cb, e1, e2, e3, e4, e5, e6, e7⟩ :=
    fair_oldFlowsLoop q sz fuel s x y cx cy hf hn ho
      (lt_of_lt_of_le (fair_measure q sz x y cx cy s hf) hfuel)
  exact ⟨s1, a, b, ca, cb, by rw [selectFlow_nil fuel s hn]; exact e1, e2, e3,
    Or.inr (Or.inr ⟨e4, e5⟩), e6, e7⟩

/-- The search of `DoDequeue` among two backlogged flows, the first in `m_newFlows`
and the second in `m_oldFlows`. -/
theorem fair_select_mixed (q sz fuel : Nat) (s : LLQQueueDisc) (x y cx cy : Nat)
    (hf : FairNum q sz x y cx cy s) (hn : s.m_newFlows = [x]) (ho : s.m_oldFlows = [y])
    (hfuel : 2 * sz + 1 ≤ fuel) :
    ∃ (s1 : LLQQueueDisc) (a b ca cb : Nat),
      selectFlow fuel s = some (some a, s1) ∧ Oriented x y cx cy a b ca cb ∧
        FairNum q sz a b ca cb s1 ∧ FairLists a b s1 ∧
        0 < (s1.GetQueueDiscClass a).m_deficit ∧
        ∀ c, (s1.GetQueueDiscClass c).m_queue = (s.GetQueueDiscClass c).m_queue := by
  by_cases hd : (s.GetQueueDiscClass x).m_deficit ≤ 0
  · have hf' := hf
    obtain ⟨h1, h2, h3, h4, h5, h6, h7, h8, h9, h10, h11, h12, h13, h14, h15⟩ := hf'
    rw [selectFlow_new_step fuel s x [] hn hd, h1, replenish_eq _ q h3 (by omega) hd]
    have hrot := fair_rot q sz x y cx cy s
      { s.setClass x
          (LLQFlow.SetStatus { s.GetQueueDiscClass x with
            m_deficit := (s.GetQueueDiscClass x).m_deficit + (q : Int) } FlowStatus.OLD_FLOW) with
        m_oldFlows := s.m_oldFlows ++ [x]
        m_newFlows := [] } _ hf hd rfl rfl rfl rfl
    obtain ⟨s1, a, b, ca, cb, e1, e2, e3, e4, e5, e6⟩ :=
      fair_select_old q sz fuel _ y x cy cx hrot rfl
        (show s.m_oldFlows ++ [x] = [y, x] by rw [ho]; rfl) hfuel
    refine ⟨s1, a, b, ca, cb, e1, oriented_swap _ _ _ _ _ _ _ _ e2, e3, e4, e5, fun c => ?_⟩
    rw [e6 c, getClass_of_set s _ x c _ rfl]
    by_cases hc : c = x ∧ x < s.m_classes.length
    · rw [if_pos hc, hc.1]; rfl
    · rw [if_neg hc]
  · have hd' : 0 < (s.GetQueueDiscClass x).m_deficit := not_le.mp hd
    exact ⟨s, x, y, cx, cy, selectFlow_new_found fuel s x [] hn hd', Or.inl ⟨rfl, rfl, rfl, rfl⟩,
      hf, Or.inr (Or.inl ⟨hn, ho⟩), hd', fun _ => rfl⟩

/-- The search of `DoDequeue` among two backlogged flows, both in `m_newFlows`. -/
theorem fair_select_new (q sz fuel : Nat) (s : LLQQueueDisc) (x y cx cy : Nat)
    (hf : FairNum q sz x y cx cy s) (hn : s.m_newFlows = [x, y]) (ho : s.m_oldFlows = [])
    (hfuel : 2 * sz + 1 ≤ fuel) :
    ∃ (s1 : LLQQueueDisc) (a b ca cb : Nat),
      selectFlow fuel s = some (some a, s1) ∧ Oriented x y cx cy a b ca cb ∧
        FairNum q sz a b ca cb s1 ∧ FairLists a b s1 ∧
        0 < (s1.GetQueueDiscClass a).m_deficit ∧
        ∀ c, (s1.GetQueueDiscClass c).m_queue = (s.GetQueueDiscClass c).m_queue := by
  by_cases hd : (s.GetQueueDiscClass x).m_deficit ≤ 0
  · have hf' := hf
    obtain ⟨h1, h2, h3, h4, h5, h6, h7, h8, h9, h10, h11, h12, h13, h14, h15⟩ := hf'
    rw [selectFlow_new_step fuel s x [y] hn hd, h1, replenish_eq _ q h3 (by omega) hd]
    have hrot := fair_rot q sz x y cx cy s
      { s.setClass x
          (LLQFlow.SetStatus { s.GetQueueDiscClass x with
            m_deficit := (s.GetQueueDiscClass x).m_deficit + (q : Int) } FlowStatus.OLD_FLOW) with
        m_oldFlows := s.m_oldFlows ++ [x]
        m_newFlows := [y] } _ hf hd rfl rfl rfl rfl
    obtain ⟨s1, a, b, ca, cb, e1, e2, e3, e4, e5, e6⟩ :=
      fair_select_mixed q sz fuel _ y x cy cx hrot rfl
        (show s.m_oldFlows ++ [x] = [x] by rw [ho]; rfl) hfuel
    refine ⟨s1, a, b, ca, cb, e1, oriented_swap _ _ _ _ _ _ _ _ e2, e3, e4, e5, fun c => ?_⟩
    rw [e6 c, getClass_of_set s _ x c _ rfl]
    by_cases hc : c = x ∧ x < s.m_classes.length
    · rw [if_pos hc, hc.1]; rfl
    · rw [if_neg hc]
  · have hd' : 0 < (s.GetQueueDiscClass x).m_deficit := not_le.mp hd
    exact ⟨s, x, y, cx, cy, selectFlow_new_found fuel s x [y] hn hd',
      Or.inl ⟨rfl, rfl, rfl, rfl⟩, hf, Or.inl ⟨hn, ho⟩, hd', fun _ => rfl⟩

/-- The search of `DoDequeue` among two backlogged flows finds one of them with a
positive deficit and changes no item. -/
theorem fair_selectFlow (q sz fuel : Nat) (s : LLQQueueDisc) (x y cx cy : Nat)
    (hf : FairNum q sz x y cx cy s) (hl : FairLists x y s) (hfuel : 2 * sz + 1 ≤ fuel) :
    ∃ (s1 : LLQQueueDisc) (a b ca cb : Nat),
      selectFlow fuel s = some (some a, s1) ∧ Oriented x y cx cy a b ca cb ∧
        FairNum q sz a b ca cb s1 ∧ FairLists a b s1 ∧
        0 < (s1.GetQueueDiscClass a).m_deficit ∧
        ∀ c, (s1.GetQueueDiscClass c).m_queue = (s.GetQueueDiscClass c).m_queue := by
  rcases hl with ⟨hn, ho⟩ | ⟨hn, ho⟩ | ⟨hn, ho⟩
  · exact fair_select_new q sz fuel s x y cx cy hf hn ho hfuel
  · exact fair_select_mixed q sz fuel s x y cx cy hf hn ho hfuel
  · exact fair_select_old q sz fuel s x y cx cy hf hn ho hfuel

/-- One call of `DoDequeue` on two backlogged flows returns an item of one of them
and leaves the two flows in the state of deficit round robin. -/
theorem fair_doDequeue (q sz fuel : Nat) (s : LLQQueueDisc) (x y cx cy : Nat)
    (hf : FairNum q sz x y cx cy s) (hl : FairLists x y s) (hfuel : 2 * sz + 1 ≤ fuel)
    (hx : (s.GetQueueDiscClass x).m_queue ≠ []) (hy : (s.GetQueueDiscClass y).m_queue ≠ []) :
    ∃ (item : QueueDiscItem) (s' : LLQQueueDisc) (a b ca cb : Nat),
      DoDequeue (fuel + 1) s = some (some item, s') ∧ Oriented x y cx cy a b ca cb ∧
        FairNum q sz a b (ca + 1) cb s' ∧ FairLists a b s' ∧
        (s.GetQueueDiscClass a).m_queue = item :: (s'.GetQueueDiscClass a).m_queue ∧
        (s'.GetQueueDiscClass b).m_queue = (s.GetQueueDiscClass b).m_queue := by
  obtain ⟨s1, a, b, ca, cb, e1, e2, e3, e4, e5, e6⟩ :=
    fair_selectFlow q sz fuel s x y cx cy hf hl hfuel
  have hne : (s1.GetQueueDiscClass a).m_queue ≠ [] := by
    rw [e6 a]
    rcases e2 with ⟨h1, _⟩ | ⟨h1, _⟩
    · rw [h1]; exact hx
    · rw [h1]; exact hy
  cases hq : (s1.GetQueueDiscClass a).m_queue with
  | nil => exact absurd hq hne
  | cons item rest =>
    have e3' := e3
    obtain ⟨h1, h2, h3, h4, h5, h6, h7, h8, h9, h10, h11, h12, h13, h14, h15⟩ := e3'
    have hsize : item.size = sz := h9 item (by rw [hq]; exact List.mem_cons_self _ _)
    have hD : DoDequeue (fuel + 1) s = some (some item, s1.serve a item rest) := by
      rw [DoDequeue, e1]
      simp only
      rw [hq]
    have hdef : ({ s1.GetQueueDiscClass a with m_queue := rest }.IncreaseDeficit
        (toInt32 (wrap32 (item.size * 4294967295)))).m_deficit =
        (s1.GetQueueDiscClass a).m_deficit - (sz : Int) := by
      show toInt32 ((s1.GetQueueDiscClass a).m_deficit +
        toInt32 (wrap32 (item.size * 4294967295))) = _
      rw [hsize, debit_eq sz (by omega)]
      exact toInt32_of_range _ (by omega) (by omega)
    have hserve := fair_serve q sz a b ca cb s1 (s1.serve a item rest) _ item e3 e5 rfl hdef
      (by rw [hq]; rfl) rfl
    have hgeta : (s1.serve a item rest).GetQueueDiscClass a =
        { s1.GetQueueDiscClass a with m_queue := rest }.IncreaseDeficit
          (toInt32 (wrap32 (item.size * 4294967295))) := by
      rw [getClass_of_set s1 _ a a _ rfl, if_pos ⟨rfl, h7⟩]
    have hgetb : (s1.serve a item rest).GetQueueDiscClass b = s1.GetQueueDiscClass b := by
      rw [getClass_of_set s1 _ a b _ rfl, if_neg (fun e => h6 e.1.symm)]
    refine ⟨item, s1.serve a item rest, a, b, ca, cb, hD, e2, hserve, ?_, ?_, ?_⟩
    · exact e4
    · rw [← e6 a, hq, hgeta]; rfl
    · rw [hgetb, e6 b]

/-- One more call of `DoDequeue` on two backlogged flows. -/
theorem fair_step (q sz fuel x y nx ny k : Nat) (s : LLQQueueDisc)
    (h : FairAt q sz x y nx ny k s) (hx : k < nx) (hy : k < ny) (hfuel : 2 * sz + 1 ≤ fuel) :
    ∃ (item : QueueDiscItem) (s' : LLQQueueDisc),
      DoDequeue (fuel + 1) s = some (some item, s') ∧ FairAt q sz x y nx ny (k + 1) s' := by
  obtain ⟨cx, cy, hk, hlx, hly, hor⟩ := h
  have hxne : (s.GetQueueDiscClass x).m_queue ≠ [] := by
    intro e; rw [e] at hlx; simp at hlx; omega
  have hyne : (s.GetQueueDiscClass y).m_queue ≠ [] := by
    intro e; rw [e] at hly; simp at hly; omega
  rcases hor with ⟨hf, hl⟩ | ⟨hf, hl⟩
  · obtain ⟨item, s', a, b, ca, cb, e1, e2, e3, e4, e5, e6⟩ :=
      fair_doDequeue q sz fuel s x y cx cy hf hl hfuel hxne hyne
    refine ⟨item, s', e1, ?_⟩
    rcases e2 with ⟨ha, hb, hca, hcb⟩ | ⟨ha, hb, hca, hcb⟩
    · subst ha; subst hb; subst hca; subst hcb
      refine ⟨ca + 1, cb, by omega, ?_, ?_, Or.inl ⟨e3, e4⟩⟩
      · rw [e5] at hlx; simp at hlx; omega
      · rw [e6]; exact hly
    · subst ha; subst hb; subst hca; subst hcb
      refine ⟨cb, ca + 1, by omega, ?_, ?_, Or.inr ⟨e3, e4⟩⟩
      · rw [e6]; exact hlx
      · rw [e5] at hly; simp at hly; omega
  · obtain ⟨item, s', a, b, ca, cb, e1, e2, e3, e4, e5, e6⟩ :=
      fair_doDequeue q sz fuel s y x cy cx hf hl hfuel hyne hxne
    refine ⟨item, s', e1, ?_⟩
    rcases e2 with ⟨ha, hb, hca, hcb⟩ | ⟨ha, hb, hca, hcb⟩
    · subst ha; subst hb; subst hca; subst hcb
      refine ⟨cb, ca + 1, by omega, ?_, ?_, Or.inr ⟨e3, e4⟩⟩
      · rw [e6]; exact hlx
      · rw [e5] at hly; simp at hly; omega
    · subst ha; subst hb; subst hca; subst hcb
      refine ⟨ca + 1, cb, by omega, ?_, ?_, Or.inl ⟨e3, e4⟩⟩
      · rw [e5] at hlx; simp at hlx; omega
      · rw [e6]; exact hly

/-- A sequence of calls of `DoDequeue` on two backlogged flows: every call returns an
item. -/
theorem fair_dequeueN (q sz fuel x y nx ny : Nat) (hfuel : 2 * sz + 1 ≤ fuel) (n : Nat) :
    ∀ (k : Nat) (s : LLQQueueDisc), FairAt q sz x y nx ny k s → k + n ≤ nx → k + n ≤ ny →
      ∃ r, dequeueN (fuel + 1) n s = some r ∧ FairAt q sz x y nx ny (k + n) r.2 ∧
        r.1.length = n ∧ ∀ o ∈ r.1, o ≠ none := by
  induction n with
  | zero =>
    intro k s h _ _
    exact ⟨([], s), rfl, h, rfl, fun o ho => by simp at ho⟩
  | succ n ih =>
    intro k s h hx hy
    obtain ⟨item, s', e1, e2⟩ := fair_step q sz fuel x y nx ny k s h (by omega) (by omega) hfuel
    obtain ⟨r, e3, e4, e5, e6⟩ := ih (k + 1) s' e2 (by omega) (by omega)
    refine ⟨(some item :: r.1, r.2), ?_, ?_, ?_, ?_⟩
    · rw [dequeueN, e1]
      simp only
      rw [e3]
    · have : k + (n + 1) = k + 1 + n := by omega
      rw [this]; exact e4
    · simp [e5]
    · intro o ho
      rcases List.mem_cons.mp ho with h1 | h1
      · rw [h1]; simp
      · exact e6 o h1

/-- In the state of deficit round robin the numbers of items given by the two flows
differ by at most the quantum divided by the size of an item, rounded up. -/
theorem fair_bound (q sz x y cx cy : Nat) (s : LLQQueueDisc) (h : FairNum q sz x y cx cy s) :
    cx ≤ cy + (q + sz - 1) / sz ∧ cy ≤ cx + (q + sz - 1) / sz := by
  obtain ⟨h1, h2, h3, h4, h5, h6, h7, h8, h9, h10, h11, h12, h13, h14, h15⟩ := h
  have hD : q + sz - 1 < sz * ((q + sz - 1) / sz) + sz := by
    have e1 := Nat.div_add_mod (q + sz - 1) sz
    have e2 := Nat.mod_lt (q + sz - 1) h4
    omega
  have hxy : (sz : Int) * cx < (sz : Int) * cy + q + sz := by
    rcases h15 with e | ⟨e1, e2⟩ <;> omega
  have hyx : (sz : Int) * cy < (sz : Int) * cx + q + sz := by
    rcases h15 with e | ⟨e1, e2⟩ <;> omega
  constructor
  · by_contra hc
    have hc' : cy + (q + sz - 1) / sz + 1 ≤ cx := by omega
    have hm := Nat.mul_le_mul_left sz hc'
    have e : sz * (cy + (q + sz - 1) / sz + 1) = sz * cy + sz * ((q + sz - 1) / sz) + sz := by
      ring
    rw [e] at hm
    have hxy' : sz * cx < sz * cy + q + sz := by exact_mod_cast hxy
    omega
  · by_contra hc
    have hc' : cx + (q + sz - 1) / sz + 1 ≤ cy := by omega
    have hm := Nat.mul_le_mul_left sz hc'
    have e : sz * (cx + (q + sz - 1) / sz + 1) = sz * cx + sz * ((q + sz - 1) / sz) + sz := by
      ring
    rw [e] at hm
    have hyx' : sz * cy < sz * cx + q + sz := by exact_mod_cast hyx
    omega

/-- C26, counterexample. Two new flows with three packets of 1000 bytes each: with
the quantum 500 the first call of `DoDequeue` serves the first flow, so the counts
are 1 and 0 while the quantum is worth half a packet; with the quantum 1500 the first
two calls both serve the first flow, so the counts are 2 and 0 while the quantum is
worth one packet and a half. -/
theorem drr_counts_exceed_quantum_worth :
    ((dequeueN 5 1 (twoNewFlows 500 500 500 [pkt 1000, pkt 1000, pkt 1000]
        [pkt 1000, pkt 1000, pkt 1000])).map viewAfter).map (fun v => v.backlogs) =
      some [2, 3] ∧
    ((3 - 2 : ℚ) - (3 - 3 : ℚ) > 500 / 1000) ∧
    ((dequeueN 5 2 (twoNewFlows 1500 1500 1500 [pkt 1000, pkt 1000, pkt 1000]
        [pkt 1000, pkt 1000, pkt 1000])).map viewAfter).map (fun v => v.backlogs) =
      some [1, 3] ∧
    ((3 - 1 : ℚ) - (3 - 3 : ℚ) > 1500 / 1000) := by
  refine ⟨by decide!, by norm_num, by decide!, by norm_num⟩

/-- C26, amended. For a quantum `q` and a packet size `sz` that are positive and
below `2 ^ 31`, let two flows `x` and `y` become active before the first dequeue
with `nx` and `ny` packets of `sz` bytes. For every `N` up to `nx` and `ny`, `N` calls
of `DoDequeue` all return an item, and the numbers of items given by the two flows,
which add up to `N`, differ by at most `q / sz` rounded up. -/
theorem drr_fairness_rounded_up (q sz N x y nx ny : Nat) (s : LLQQueueDisc)
    (hq0 : 0 < q) (hq : q < 2147483648) (hs0 : 0 < sz) (hs : sz < 2147483648)
    (hstart : FairStart q sz x y nx ny s) (hnx : N ≤ nx) (hny : N ≤ ny) :
    ∃ r, dequeueN (2 * sz + 2) N s = some r ∧ r.1.length = N ∧ (∀ o ∈ r.1, o ≠ none) ∧
      (nx - (r.2.GetQueueDiscClass x).m_queue.length) +
        (ny - (r.2.GetQueueDiscClass y).m_queue.length) = N ∧
      nx - (r.2.GetQueueDiscClass x).m_queue.length ≤
        ny - (r.2.GetQueueDiscClass y).m_queue.length + (q + sz - 1) / sz ∧
      ny - (r.2.GetQueueDiscClass y).m_queue.length ≤
        nx - (r.2.GetQueueDiscClass x).m_queue.length + (q + sz - 1) / sz := by
  obtain ⟨g1, g2, g3, g4, g5, g6, g7, g8, g9, g10, g11, g12⟩ := hstart
  have h0 : FairAt q sz x y nx ny 0 s := by
    refine ⟨0, 0, rfl, by omega, by omega, Or.inl ⟨?_, Or.inl ⟨g5, g6⟩⟩⟩
    refine ⟨g1, hq0, hq, hs0, hs, g2, g3, g4, g11, g12, ?_, ?_, ?_, ?_, Or.inl ?_⟩
    · rw [g7]; omega
    · rw [g7]
    · rw [g8]; omega
    · rw [g8]
    · rw [g7, g8]
  obtain ⟨r, e1, e2, e3, e4⟩ :=
    fair_dequeueN q sz (2 * sz + 1) x y nx ny (le_refl _) N 0 s h0 (by omega) (by omega)
  obtain ⟨cx, cy, hk, hlx, hly, hor⟩ := e2
  have hb : cx ≤ cy + (q + sz - 1) / sz ∧ cy ≤ cx + (q + sz - 1) / sz := by
    rcases hor with ⟨hf, _⟩ | ⟨hf, _⟩
    · exact fair_bound q sz x y cx cy r.2 hf
    · exact (fair_bound q sz y x cy cx r.2 hf).symm
  have ex : nx - (r.2.GetQueueDiscClass x).m_queue.length = cx := by omega
  have ey : ny - (r.2.GetQueueDiscClass y).m_queue.length = cy := by omega
  refine ⟨r, e1, e3, e4, ?_, ?_, ?_⟩
  · rw [ex, ey]; omega
  · rw [ex, ey]; exact hb.1
  · rw [ex, ey]; exact hb.2

/-- Witness for C26: the scenario of two flows that each enqueue three packets of
1000 bytes under the quantum 1500, and two calls. -/
theorem drr_fairness_rounded_up_witness :
    ∃ s, burstScenario = some s ∧
      ∃ r, dequeueN (2 * 1000 + 2) 2 s = some r ∧ r.1.length = 2 ∧
        (∀ o ∈ r.1, o ≠ none) ∧
        (3 - (r.2.GetQueueDiscClass 0).m_queue.length) +
          (3 - (r.2.GetQueueDiscClass 1).m_queue.length) = 2 ∧
        3 - (r.2.GetQueueDiscClass 0).m_queue.length ≤
          3 - (r.2.GetQueueDiscClass 1).m_queue.length + (1500 + 1000 - 1) / 1000 ∧
        3 - (r.2.GetQueueDiscClass 1).m_queue.length ≤
          3 - (r.2.GetQueueDiscClass 0).m_queue.length + (1500 + 1000 - 1) / 1000 :=
  ⟨_, rfl,
    drr_fairness_rounded_up 1500 1000 2 0 1 3 3 _
      (by decide) (by decide) (by decide) (by decide) (by decide) (by decide) (by decide)⟩

/-- The first element of a range that passes a test: it lies in the range, passes
the test, and nothing before it does. -/
theorem find_range_some (p : Nat → Bool) (n : Nat) :
    ∀ (a i : Nat), (List.range' a n).find? p = some i →
      a ≤ i ∧ i < a + n ∧ p i = true ∧ ∀ j, a ≤ j → j < i → p j = false := by
  induction n with
  | zero => intro a i h; simp at h
  | succ n ih =>
    intro a i h
    rw [List.range'_succ, List.find?_cons] at h
    cases hp : p a with
    | true =>
      rw [hp] at h
      simp only [Option.some.injEq] at h
      subst h
      exact ⟨le_refl _, by omega, hp, fun j h1 h2 => by omega⟩
    | false =>
      rw [hp] at h
      simp only at h
      obtain ⟨h1, h2, h3, h4⟩ := ih (a + 1) i h
      refine ⟨by omega, by omega, h3, fun j hj1 hj2 => ?_⟩
      by_cases hja : j = a
      · rw [hja]; exact hp
      · exact h4 j (by omega) hj2

/-- No element of a range passes the test when the search finds none. -/
theorem find_range_none (p : Nat → Bool) (a n : Nat)
    (h : (List.range' a n).find? p = none) : ∀ j, a ≤ j → j < a + n → p j = false := by
  intro j h1 h2
  rw [List.find?_eq_none] at h
  have := h j (by rw [List.mem_range'_1]; exact ⟨h1, h2⟩)
  simpa using this

/-- On a table configuration the set of a flow hash starts at a multiple of
`m_setWays`, lies inside the table, and its end does not wrap. -/
theorem setStart_bounds (s : LLQQueueDisc) (flowHash : Nat) (hc : TableConfig s) :
    s.setStart flowHash % s.m_setWays = 0 ∧ s.setStart flowHash + s.m_setWays ≤ s.m_flows ∧
      wrap32 (s.setStart flowHash + s.m_setWays) - s.setStart flowHash = s.m_setWays := by
  obtain ⟨hw, hf, hm, h32⟩ := hc
  have hlt : flowHash % s.m_flows < s.m_flows := Nat.mod_lt _ hf
  obtain ⟨m, hm'⟩ := Nat.dvd_of_mod_eq_zero hm
  have hdm := Nat.div_add_mod (flowHash % s.m_flows) s.m_setWays
  have hstart : s.setStart flowHash = s.m_setWays * (flowHash % s.m_flows / s.m_setWays) := by
    unfold setStart; omega
  have hdiv : flowHash % s.m_flows / s.m_setWays < m := by
    apply Nat.div_lt_of_lt_mul
    rw [← hm']; exact hlt
  have hle : s.setStart flowHash + s.m_setWays ≤ s.m_flows := by
    have h1 : s.m_setWays * (flowHash % s.m_flows / s.m_setWays + 1) ≤ s.m_setWays * m :=
      Nat.mul_le_mul_left _ hdiv
    have h2 : s.m_setWays * (flowHash % s.m_flows / s.m_setWays + 1) =
        s.m_setWays * (flowHash % s.m_flows / s.m_setWays) + s.m_setWays := by ring
    rw [h2, ← hm', ← hstart] at h1
    exact h1
  refine ⟨by rw [hstart]; exact Nat.mul_mod_right _ _, hle, ?_⟩
  unfold wrap32
  rw [Nat.mod_eq_of_lt (by omega)]
  omega

/-- The bucket returned by `SetAssociativeHash` on a table configuration is the first
usable bucket of the set, or the first bucket of the set when none is usable; the
call writes the tag of that bucket and nothing else. -/
theorem SetAssociativeHash_spec (s : LLQQueueDisc) (flowHash : Nat) (hc : TableConfig s) :
    s.setStart flowHash ≤ (s.SetAssociativeHash flowHash).1 ∧
      (s.SetAssociativeHash flowHash).1 < s.setStart flowHash + s.m_setWays ∧
      (∀ j, s.setStart flowHash ≤ j → j < (s.SetAssociativeHash flowHash).1 →
        s.bucketUsable flowHash j = false) ∧
      (s.bucketUsable flowHash (s.SetAssociativeHash flowHash).1 = true ∨
        ((s.SetAssociativeHash flowHash).1 = s.setStart flowHash ∧
          ∀ j, s.setStart flowHash ≤ j → j < s.setStart flowHash + s.m_setWays →
            s.bucketUsable flowHash j = false)) ∧
      (s.SetAssociativeHash flowHash).2 =
        { s with m_tags := fun j =>
            if j = (s.SetAssociativeHash flowHash).1 then some flowHash else s.m_tags j } := by
  obtain ⟨_, _, hwrap⟩ := setStart_bounds s flowHash hc
  have hw := hc.1
  have hval : s.SetAssociativeHash flowHash =
      match (List.range' (s.setStart flowHash)
          (wrap32 (s.setStart flowHash + s.m_setWays) - s.setStart flowHash)).find?
          (s.bucketUsable flowHash) with
      | some i => (i, { s with m_tags := fun j => if j = i then some flowHash else s.m_tags j })
      | none =>
        (s.setStart flowHash,
          { s with m_tags := fun j =>
              if j = s.setStart flowHash then some flowHash else s.m_tags j }) := rfl
  rw [hwrap] at hval
  cases hfind : (List.range' (s.setStart flowHash) s.m_setWays).find? (s.bucketUsable flowHash) with
  | some i =>
    rw [hfind] at hval
    simp only at hval
    rw [hval]
    dsimp only
    obtain ⟨h1, h2, h3, h4⟩ := find_range_some _ _ _ _ hfind
    exact ⟨h1, h2, h4, Or.inl h3, rfl⟩
  | none =>
    rw [hfind] at hval
    simp only at hval
    rw [hval]
    dsimp only
    have h := find_range_none _ _ _ hfind
    exact ⟨le_refl _, by omega, fun j h1 h2 => by omega, Or.inr ⟨rfl, h⟩, rfl⟩

/-- The test of `SetAssociativeHash` in words: the bucket has not been created, or
carries the tag, or its flow is inactive. -/
theorem bucketUsable_iff (s : LLQQueueDisc) (flowHash i : Nat) :
    s.bucketUsable flowHash i = true ↔
      (s.m_flowsIndices i = none ∨ s.m_tags i = some flowHash ∨
        ∃ c, s.m_flowsIndices i = some c ∧
          (s.GetQueueDiscClass c).GetStatus = FlowStatus.INACTIVE) := by
  unfold bucketUsable
  cases hfi : s.m_flowsIndices i with
  | none => simp
  | some c => simp

/-- C27, counterexample. In the state of `splitScenario` bucket 8 is tagged 8 and its
flow is inactive, bucket 9 is tagged 9 and its flow is an old flow that still holds a
packet. For the flow hash 9, whose set starts at bucket 8, `SetAssociativeHash`
returns bucket 8, not the bucket 9 that carries the tag 9. -/
theorem setAssociativeHash_prefers_earlier_inactive_bucket :
    splitScenario.map view =
      some
        { returned := []
          newFlows := []
          oldFlows := [1]
          statuses := [FlowStatus.INACTIVE, FlowStatus.OLD_FLOW]
          deficits := [500, 0]
          backlogs := [0, 1] } ∧
    splitScenario.map (fun s => [s.m_flowsIndices 8, s.m_flowsIndices 9]) =
      some [some 0, some 1] ∧
    splitScenario.map (fun s => [s.m_tags 8, s.m_tags 9]) = some [some 8, some 9] ∧
    splitScenario.map (fun s => s.setStart 9) = some 8 ∧
    splitScenario.map (fun s => (s.SetAssociativeHash 9).1) = some 8 := by
  decide!

/-- C27, amended. On a table configuration, `SetAssociativeHash` returns the first
bucket of the set, in the order of the positions, that has not been created or is
tagged with the flow hash or has an inactive flow, whichever of the three it is; when
the set has no such bucket it returns the first bucket of the set. The bucket
returned is tagged with the flow hash and nothing else changes. -/
theorem setAssociativeHash_first_usable (s : LLQQueueDisc) (flowHash : Nat)
    (hc : TableConfig s) :
    s.setStart flowHash ≤ (s.SetAssociativeHash flowHash).1 ∧
      (s.SetAssociativeHash flowHash).1 < s.setStart flowHash + s.m_setWays ∧
      (∀ j, s.setStart flowHash ≤ j → j < (s.SetAssociativeHash flowHash).1 →
        ¬ (s.m_flowsIndices j = none ∨ s.m_tags j = some flowHash ∨
          ∃ c, s.m_flowsIndices j = some c ∧
            (s.GetQueueDiscClass c).GetStatus = FlowStatus.INACTIVE)) ∧
      ((s.m_flowsIndices (s.SetAssociativeHash flowHash).1 = none ∨
          s.m_tags (s.SetAssociativeHash flowHash).1 = some flowHash ∨
          ∃ c, s.m_flowsIndices (s.SetAssociativeHash flowHash).1 = some c ∧
            (s.GetQueueDiscClass c).GetStatus = FlowStatus.INACTIVE) ∨
        ((s.SetAssociativeHash flowHash).1 = s.setStart flowHash ∧
          ∀ j, s.setStart flowHash ≤ j → j < s.setStart flowHash + s.m_setWays →
            ¬ (s.m_flowsIndices j = none ∨ s.m_tags j = some flowHash ∨
              ∃ c, s.m_flowsIndices j = some c ∧
                (s.GetQueueDiscClass c).GetStatus = FlowStatus.INACTIVE))) ∧
      (s.SetAssociativeHash flowHash).2 =
        { s with m_tags := fun j =>
            if j = (s.SetAssociativeHash flowHash).1 then some flowHash else s.m_tags j } := by
  obtain ⟨h1, h2, h3, h4, h5⟩ := SetAssociativeHash_spec s flowHash hc
  refine ⟨h1, h2, fun j hj1 hj2 => ?_, ?_, h5⟩
  · rw [← bucketUsable_iff, h3 j hj1 hj2]; simp
  · rcases h4 with h | ⟨h, h'⟩
    · left; exact (bucketUsable_iff _ _ _).mp h
    · right
      refine ⟨h, fun j hj1 hj2 => ?_⟩
      rw [← bucketUsable_iff, h' j hj1 hj2]; simp

/-- Witness for C27: the default table with set associative hashing, in which no
bucket has been created, and the flow hash 9: the bucket returned is bucket 8. -/
theorem setAssociativeHash_first_usable_witness :
    (({ attributeDefaults with m_enableSetAssociativeHash := true } :
        LLQQueueDisc).SetAssociativeHash 9).1 = 8 ∧
      ({ attributeDefaults with m_enableSetAssociativeHash := true } :
        LLQQueueDisc).setStart 9 ≤
        (({ attributeDefaults with m_enableSetAssociativeHash := true } :
          LLQQueueDisc).SetAssociativeHash 9).1 :=
  ⟨by decide,
    (setAssociativeHash_first_usable { attributeDefaults with m_enableSetAssociativeHash := true }
      9 (by decide)).1⟩

/-- C28. When `m_flows` is a positive multiple of the positive `m_setWays`, the bucket
`b` returned by `SetAssociativeHash` for a flow hash lies inside the table and in the
set of `h = flowHash % m_flows`, that is `b - b % m_setWays = h - h % m_setWays`, and
the call leaves the tag of every bucket outside that set as it is; with set
associative hashing off, `DoEnqueue` takes the bucket `flowHash % m_flows` and leaves
the disc as it is. -/
theorem setAssociativeHash_stays_in_set (s : LLQQueueDisc) (flowHash : Nat)
    (hc : TableConfig s) :
    (s.SetAssociativeHash flowHash).1 < s.m_flows ∧
      (s.SetAssociativeHash flowHash).1 - (s.SetAssociativeHash flowHash).1 % s.m_setWays =
        flowHash % s.m_flows - flowHash % s.m_flows % s.m_setWays ∧
      (∀ j, j - j % s.m_setWays ≠ flowHash % s.m_flows - flowHash % s.m_flows % s.m_setWays →
        (s.SetAssociativeHash flowHash).2.m_tags j = s.m_tags j) ∧
      (s.m_enableSetAssociativeHash = true →
        s.selectBucket flowHash = s.SetAssociativeHash flowHash) ∧
      (s.m_enableSetAssociativeHash = false →
        s.selectBucket flowHash = (flowHash % s.m_flows, s)) := by
  obtain ⟨h1, h2, _, _, h5⟩ := SetAssociativeHash_spec s flowHash hc
  obtain ⟨g1, g2, _⟩ := setStart_bounds s flowHash hc
  have hw := hc.1
  have hmod : (s.SetAssociativeHash flowHash).1 % s.m_setWays =
      (s.SetAssociativeHash flowHash).1 - s.setStart flowHash := by
    have e : (s.SetAssociativeHash flowHash).1 =
        s.setStart flowHash + ((s.SetAssociativeHash flowHash).1 - s.setStart flowHash) := by
      omega
    have e2 : (s.setStart flowHash +
        ((s.SetAssociativeHash flowHash).1 - s.setStart flowHash)) % s.m_setWays =
        (s.SetAssociativeHash flowHash).1 - s.setStart flowHash := by
      rw [Nat.add_mod, g1, Nat.zero_add, Nat.mod_mod, Nat.mod_eq_of_lt (by omega)]
    rw [← e] at e2
    exact e2
  have hset : (s.SetAssociativeHash flowHash).1 -
      (s.SetAssociativeHash flowHash).1 % s.m_setWays = s.setStart flowHash := by
    rw [hmod]; omega
  refine ⟨by omega, hset, fun j hj => ?_, fun he => ?_, fun he => ?_⟩
  · rw [h5]
    show (if j = (s.SetAssociativeHash flowHash).1 then some flowHash else s.m_tags j) = _
    rw [if_neg]
    intro e
    apply hj
    rw [e]
    exact hset
  · unfold selectBucket
    rw [if_pos he]
  · unfold selectBucket
    rw [if_neg (by rw [he]; decide)]

/-- Witness for C28: the default table with set associative hashing and the flow hash
2057, whose bucket without set associative hashing is 9. -/
theorem setAssociativeHash_stays_in_set_witness :
    (({ attributeDefaults with m_enableSetAssociativeHash := true } :
        LLQQueueDisc).SetAssociativeHash 2057).1 < 1024 ∧
      (({ attributeDefaults with m_enableSetAssociativeHash := true } :
          LLQQueueDisc).SetAssociativeHash 2057).1 -
        (({ attributeDefaults with m_enableSetAssociativeHash := true } :
          LLQQueueDisc).SetAssociativeHash 2057).1 % 8 = 2057 % 1024 - 2057 % 1024 % 8 :=
  ⟨(setAssociativeHash_stays_in_set { attributeDefaults with m_enableSetAssociativeHash := true }
      2057 (by decide)).1,
    (setAssociativeHash_stays_in_set { attributeDefaults with m_enableSetAssociativeHash := true }
      2057 (by decide)).2.1⟩

/-- C29. On a table configuration, let bucket `b` be tagged with the flow hash `A` and
belong to a flow that is a new flow or an old flow, and let `B` be another flow hash.
If `SetAssociativeHash` returns `b` for `B`, which it then tags with `B`, then `b` is
the first bucket of the set of `B` and every bucket of that set has been created,
belongs to a flow that is a new flow or an old flow, and is not tagged with `B`. -/
theorem setAssociativeHash_evicts_only_from_full_set (s : LLQQueueDisc) (A B b c : Nat)
    (hc : TableConfig s) (hAB : A ≠ B) (htag : s.m_tags b = some A)
    (hcr : s.m_flowsIndices b = some c)
    (hact : (s.GetQueueDiscClass c).GetStatus = FlowStatus.NEW_FLOW ∨
      (s.GetQueueDiscClass c).GetStatus = FlowStatus.OLD_FLOW)
    (hret : (s.SetAssociativeHash B).1 = b) :
    b = s.setStart B ∧ (s.SetAssociativeHash B).2.m_tags b = some B ∧
      ∀ j, s.setStart B ≤ j → j < s.setStart B + s.m_setWays →
        s.m_tags j ≠ some B ∧
          ∃ c', s.m_flowsIndices j = some c' ∧
            ((s.GetQueueDiscClass c').GetStatus = FlowStatus.NEW_FLOW ∨
              (s.GetQueueDiscClass c').GetStatus = FlowStatus.OLD_FLOW) := by
  obtain ⟨_, _, _, h4, h5⟩ := SetAssociativeHash_spec s B hc
  have hnot : ¬ s.bucketUsable B b = true := by
    rw [bucketUsable_iff]
    rintro (h | h | ⟨c', h, h'⟩)
    · rw [hcr] at h; simp at h
    · rw [htag] at h
      simp only [Option.some.injEq] at h
      exact hAB h
    · rw [hcr] at h
      simp only [Option.some.injEq] at h
      subst h
      rcases hact with e | e <;> rw [e] at h' <;> exact absurd h' (by decide)
  rw [hret] at h4
  rcases h4 with h | ⟨h, h'⟩
  · exact absurd h hnot
  · refine ⟨h, ?_, fun j hj1 hj2 => ?_⟩
    · rw [h5, hret]
      show (if b = b then some B else s.m_tags b) = some B
      rw [if_pos rfl]
    · have hu := h' j hj1 hj2
      have hu' : ¬ (s.m_flowsIndices j = none ∨ s.m_tags j = some B ∨
          ∃ c, s.m_flowsIndices j = some c ∧
            (s.GetQueueDiscClass c).GetStatus = FlowStatus.INACTIVE) := by
        rw [← bucketUsable_iff, hu]; simp
      refine ⟨fun e => hu' (Or.inr (Or.inl e)), ?_⟩
      cases hfi : s.m_flowsIndices j with
      | none => exact absurd (Or.inl hfi) hu'
      | some c' =>
        refine ⟨c', rfl, ?_⟩
        cases hs : (s.GetQueueDiscClass c').GetStatus with
        | INACTIVE => exact absurd (Or.inr (Or.inr ⟨c', hfi, hs⟩)) hu'
        | NEW_FLOW => exact Or.inl rfl
        | OLD_FLOW => exact Or.inr rfl

/-- Witness for C29: sets of one bucket, bucket 8 tagged 8 with a new flow, and the
flow hash 1032, which maps to bucket 8 as well. -/
theorem setAssociativeHash_evicts_only_from_full_set_witness :
    (8 : Nat) = collisionDisc.setStart 1032 ∧
      (collisionDisc.SetAssociativeHash 1032).2.m_tags 8 = some 1032 ∧
      ∀ j, collisionDisc.setStart 1032 ≤ j →
        j < collisionDisc.setStart 1032 + collisionDisc.m_setWays →
        collisionDisc.m_tags j ≠ some 1032 ∧
          ∃ c', collisionDisc.m_flowsIndices j = some c' ∧
            ((collisionDisc.GetQueueDiscClass c').GetStatus = FlowStatus.NEW_FLOW ∨
              (collisionDisc.GetQueueDiscClass c').GetStatus = FlowStatus.OLD_FLOW) :=
  setAssociativeHash_evicts_only_from_full_set collisionDisc 8 1032 8 0 (by decide) (by decide)
    (by decide) (by decide) (by decide) (by decide)

/-- The first loop of `LLQDrop`: the backlog returned is at least the one on entry
and at least that of every class scanned; either nothing changed, or the position
returned is that of a scanned class holding exactly the backlog returned. -/
theorem scanFat_spec (l : List LLQFlow) :
    ∀ (i m idx : Nat),
      m ≤ (scanFat l i m idx).1 ∧ (∀ f ∈ l, f.GetNBytes ≤ (scanFat l i m idx).1) ∧
        (((scanFat l i m idx).1 = m ∧ (scanFat l i m idx).2 = idx) ∨
          (m < (scanFat l i m idx).1 ∧ i ≤ (scanFat l i m idx).2 ∧
            ∃ f, l.get? ((scanFat l i m idx).2 - i) = some f ∧
              f.GetNBytes = (scanFat l i m idx).1)) := by
  induction l with
  | nil =>
    intro i m idx
    simp [scanFat]
  | cons g rest ih =>
    intro i m idx
    by_cases hg : g.GetNBytes > m
    · have e : scanFat (g :: rest) i m idx = scanFat rest (i + 1) g.GetNBytes i := by
        rw [scanFat, if_pos hg]
      rw [e]
      obtain ⟨h1, h2, h3⟩ := ih (i + 1) g.GetNBytes i
      refine ⟨by omega, ?_, Or.inr ⟨by omega, ?_⟩⟩
      · intro f hf
        rcases List.mem_cons.mp hf with e1 | e1
        · rw [e1]; exact h1
        · exact h2 f e1
      · rcases h3 with ⟨e1, e2⟩ | ⟨e1, e2, f, e3, e4⟩
        · refine ⟨by omega, g, ?_, e1.symm⟩
          rw [e2, Nat.sub_self]; rfl
        · refine ⟨by omega, f, ?_, e4⟩
          have : (scanFat rest (i + 1) g.GetNBytes i).2 - i =
              ((scanFat rest (i + 1) g.GetNBytes i).2 - (i + 1)) + 1 := by omega
          rw [this]
          exact e3
    · have e : scanFat (g :: rest) i m idx = scanFat rest (i + 1) m idx := by
        rw [scanFat, if_neg hg]
      rw [e]
      obtain ⟨h1, h2, h3⟩ := ih (i + 1) m idx
      refine ⟨h1, ?_, ?_⟩
      · intro f hf
        rcases List.mem_cons.mp hf with e1 | e1
        · rw [e1]; omega
        · exact h2 f e1
      · rcases h3 with h | ⟨e1, e2, f, e3, e4⟩
        · exact Or.inl h
        · refine Or.inr ⟨e1, by omega, f, ?_, e4⟩
          have : (scanFat rest (i + 1) m idx).2 - i =
              ((scanFat rest (i + 1) m idx).2 - (i + 1)) + 1 := by omega
          rw [this]
          exact e3

/-- The bytes of a list of items that all have the same size. -/
theorem sum_sizes_const (sz : Nat) (l : List QueueDiscItem) (h : ∀ x ∈ l, x.size = sz) :
    (l.map (fun x => x.size)).sum = l.length * sz := by
  induction l with
  | nil => simp
  | cons a rest ih =>
    have ha : a.size = sz := h a (List.mem_cons_self _ _)
    have hr := ih (fun x hx => h x (List.mem_cons_of_mem _ hx))
    simp only [List.map_cons, List.sum_cons, List.length_cons]
    rw [hr, ha]
    ring

/-- The second loop of `LLQDrop` on a buffer of items of `sz` bytes, entered with
`count` items dropped so far and a threshold that does not exceed the bytes dropped
so far plus the bytes held: it stops before the buffer runs out, having dropped at
least one item, and when it stops the bytes dropped have reached the threshold or
the number of items dropped has reached the batch size. -/
theorem dropLoop_spec (batch threshold sz : Nat) (queue : List QueueDiscItem) :
    ∀ (count len : Nat) (dropped : List QueueDiscItem),
      (∀ x ∈ queue, x.size = sz) → queue ≠ [] → len = count * sz →
      threshold ≤ (count + queue.length) * sz →
      (count + queue.length) * sz < 4294967296 →
      ∃ taken rest,
        dropLoop batch threshold queue count len dropped = some (rest, dropped ++ taken) ∧
          queue = taken ++ rest ∧ taken ≠ [] ∧
          (threshold ≤ (count + taken.length) * sz ∨ batch ≤ count + taken.length) ∧
          (taken.length = 1 ∨ count + taken.length ≤ batch) := by
  induction queue with
  | nil => intro _ _ _ _ h; exact absurd rfl h
  | cons item rest ih =>
    intro count len dropped hsz _ hlen hthr h32
    have hitem : item.size = sz := hsz item (List.mem_cons_self _ _)
    have hrest : ∀ x ∈ rest, x.size = sz := fun x hx => hsz x (List.mem_cons_of_mem _ hx)
    have hlen' : len + item.size = (count + 1) * sz := by rw [hlen, hitem]; ring
    have hl : (item :: rest).length = rest.length + 1 := rfl
    rw [hl] at hthr h32
    have hmono : (count + 1) * sz ≤ (count + (rest.length + 1)) * sz :=
      Nat.mul_le_mul_right _ (by omega)
    have hw : wrap32 (len + item.size) = (count + 1) * sz := by
      unfold wrap32
      rw [hlen', Nat.mod_eq_of_lt (by omega)]
    by_cases hcont : count + 1 < batch ∧ wrap32 (len + item.size) < threshold
    · have hne : rest ≠ [] := by
        intro e
        rw [e] at hthr
        simp only [List.length_nil, Nat.zero_add] at hthr
        rw [hw] at hcont
        omega
      have e1 : (count + 1 + rest.length) = (count + (rest.length + 1)) := by omega
      obtain ⟨taken, rest', h1, h2, h3, h4, h5⟩ :=
        ih (count + 1) (wrap32 (len + item.size)) (dropped ++ [item]) hrest hne hw
          (by rw [e1]; exact hthr) (by rw [e1]; exact h32)
      refine ⟨item :: taken, rest', ?_, by rw [h2]; rfl, by simp, ?_, ?_⟩
      · rw [dropLoop, if_pos hcont, h1]
        simp
      · have : count + (item :: taken).length = count + 1 + taken.length := by
          simp only [List.length_cons]; omega
        rw [this]; exact h4
      · right
        have : count + (item :: taken).length = count + 1 + taken.length := by
          simp only [List.length_cons]; omega
        rw [this]
        rcases h5 with e | e
        · omega
        · exact e
    · refine ⟨[item], rest, ?_, rfl, by simp, ?_, Or.inl rfl⟩
      · rw [dropLoop, if_neg hcont]
      · simp only [List.length_singleton]
        rw [hw] at hcont
        by_cases hb : count + 1 < batch
        · left
          have : ¬ (count + 1) * sz < threshold := fun h => hcont ⟨hb, h⟩
          omega
        · right; omega

/-- C30. Let `LLQDrop` run on a disc in which some flow has a positive byte backlog
and the packets of the class chosen by its first loop all have `sz` bytes, the
largest backlog `B` being a `uint32_t`. Then the class chosen holds the largest byte
backlog `B`; `LLQDrop` returns its position, having taken a non-empty run of items
from the head of its buffer and nothing else; the backlog of that class goes down by
at least the smaller of `B / 2` and `m_dropBatchSize * sz`; and every other class is
as it was. -/
theorem llqDrop_evicts_from_fattest (s : LLQQueueDisc) (sz : Nat)
    (hpos : ∃ f ∈ s.m_classes, 0 < f.GetNBytes)
    (hsz : ∀ x ∈ (s.GetQueueDiscClass s.fatIndex).m_queue, x.size = sz)
    (h32 : s.maxBacklog < 4294967296) :
    ∃ s', s.LLQDrop = some (s.fatIndex, s') ∧
      (s.GetQueueDiscClass s.fatIndex).GetNBytes = s.maxBacklog ∧
      (∀ c, (s.GetQueueDiscClass c).GetNBytes ≤ s.maxBacklog) ∧
      (s'.GetQueueDiscClass s.fatIndex).GetNBytes +
        min (s.maxBacklog / 2) (s.m_dropBatchSize * sz) ≤ s.maxBacklog ∧
      (∃ taken, taken ≠ [] ∧
        (s.GetQueueDiscClass s.fatIndex).m_queue =
          taken ++ (s'.GetQueueDiscClass s.fatIndex).m_queue) ∧
      (∀ c, c ≠ s.fatIndex → s'.GetQueueDiscClass c = s.GetQueueDiscClass c) ∧
      s'.m_newFlows = s.m_newFlows ∧ s'.m_oldFlows = s.m_oldFlows := by
  obtain ⟨_, hall, hidx⟩ := scanFat_spec s.m_classes 0 0 0
  have hM : 0 < s.maxBacklog := by
    obtain ⟨f, hf, hfp⟩ := hpos
    exact lt_of_lt_of_le hfp (hall f hf)
  have hidx' : ∃ f, s.m_classes.get? s.fatIndex = some f ∧ f.GetNBytes = s.maxBacklog := by
    rcases hidx with ⟨e, _⟩ | ⟨_, _, f, e1, e2⟩
    · exact absurd e (by unfold maxBacklog at hM; omega)
    · exact ⟨f, e1, e2⟩
  obtain ⟨f, hget, hbytes⟩ := hidx'
  have hlt : s.fatIndex < s.m_classes.length := by
    rw [List.get?_eq_getElem?] at hget
    exact (List.getElem?_eq_some_iff.mp hget).1
  have hclass : s.GetQueueDiscClass s.fatIndex = f := by
    unfold GetQueueDiscClass
    rw [List.getD_eq_getElem?_getD]
    rw [List.get?_eq_getElem?] at hget
    rw [hget]; rfl
  rw [hclass] at hsz
  have hsum : f.GetNBytes = f.m_queue.length * sz := sum_sizes_const sz f.m_queue hsz
  have hne : f.m_queue ≠ [] := by
    intro e
    rw [e] at hsum
    simp at hsum
    omega
  obtain ⟨taken, rest, h1, h2, h3, h4, _⟩ :=
    dropLoop_spec s.m_dropBatchSize (s.maxBacklog / 2) sz f.m_queue 0 0 [] hsz hne (by simp)
      (by rw [Nat.zero_add, ← hsum, hbytes]; exact Nat.div_le_self _ _)
      (by rw [Nat.zero_add, ← hsum, hbytes]; exact h32)
  have hdrop : s.LLQDrop = some (s.fatIndex,
      { s.setClass s.fatIndex { f with m_queue := rest } with
        m_stats := s.m_stats ++ ([] ++ taken).map LLQEvent.overlimitDrop }) := by
    have e : s.LLQDrop =
        match s.m_classes.get? s.fatIndex with
        | none => none
        | some f =>
          match dropLoop s.m_dropBatchSize (s.maxBacklog / 2) f.m_queue 0 0 [] with
          | none => none
          | some (rest, dropped) =>
            some (s.fatIndex,
              { s.setClass s.fatIndex { f with m_queue := rest } with
                m_stats := s.m_stats ++ dropped.map LLQEvent.overlimitDrop }) := rfl
    rw [e, hget]
    simp only
    rw [h1]
  have hnew : ∀ j, ({ s.setClass s.fatIndex { f with m_queue := rest } with
        m_stats := s.m_stats ++ ([] ++ taken).map LLQEvent.overlimitDrop } :
        LLQQueueDisc).GetQueueDiscClass j =
      if j = s.fatIndex ∧ s.fatIndex < s.m_classes.length then { f with m_queue := rest }
      else s.GetQueueDiscClass j := fun j => getClass_of_set s _ s.fatIndex j _ rfl
  have hrest : ∀ x ∈ rest, x.size = sz := fun x hx =>
    hsz x (by rw [h2]; exact List.mem_append_right _ hx)
  have hsum' : ({ f with m_queue := rest } : LLQFlow).GetNBytes = rest.length * sz :=
    sum_sizes_const sz rest hrest
  have hlen : f.m_queue.length = taken.length + rest.length := by
    rw [h2, List.length_append]
  refine ⟨_, hdrop, by rw [hclass]; exact hbytes, fun c => ?_, ?_, ⟨taken, h3, ?_⟩,
    fun c hc => ?_, rfl, rfl⟩
  · rcases getClass_mem_or s c with hm | he
    · exact hall _ hm
    · rw [he]; simp [LLQFlow.create, LLQFlow.GetNBytes]
  · rw [hnew, if_pos ⟨rfl, hlt⟩, hsum', ← hbytes, hsum, hlen]
    have e : (taken.length + rest.length) * sz = taken.length * sz + rest.length * sz := by
      ring
    rw [e]
    rcases h4 with h | h
    · rw [Nat.zero_add, ← hbytes, hsum, hlen, e] at h
      have := Nat.min_le_left ((taken.length * sz + rest.length * sz) / 2)
        (s.m_dropBatchSize * sz)
      omega
    · rw [Nat.zero_add] at h
      have h' := Nat.mul_le_mul_right sz h
      have := Nat.min_le_right ((taken.length * sz + rest.length * sz) / 2)
        (s.m_dropBatchSize * sz)
      omega
  · rw [hnew, if_pos ⟨rfl, hlt⟩, hclass]
    exact h2
  · rw [hnew, if_neg (fun e => hc e.1)]

/-- Witness for C30: a first flow holding four packets of 1000 bytes and a second one
holding two. -/
theorem llqDrop_evicts_from_fattest_witness :
    ∃ s', (twoNewFlows 1500 1500 1500 [pkt 1000, pkt 1000, pkt 1000, pkt 1000]
          [pkt 1000, pkt 1000]).LLQDrop = some (0, s') ∧
      (s'.GetQueueDiscClass 0).GetNBytes + min (4000 / 2) (64 * 1000) ≤ 4000 ∧
      s'.GetQueueDiscClass 1 = (twoNewFlows 1500 1500 1500
        [pkt 1000, pkt 1000, pkt 1000, pkt 1000] [pkt 1000, pkt 1000]).GetQueueDiscClass 1 := by
  obtain ⟨s', h1, _, _, h4, _, h6, _⟩ :=
    llqDrop_evicts_from_fattest
      (twoNewFlows 1500 1500 1500 [pkt 1000, pkt 1000, pkt 1000, pkt 1000] [pkt 1000, pkt 1000])
      1000 (by decide) (by decide) (by decide)
  exact ⟨s', h1, h4, h6 1 (by decide)⟩

end LLQQueueDisc

end ns3

namespace ns3

namespace LLQQueueDisc

open BLACKQueueDisc

/-! Classification failure and setup validation of the LLQ disc. -/

/-- C31. When packet filters are installed and `Classify` returns `PF_NO_MATCH`,
`DoEnqueue` returns false and the disc afterwards is the disc before with one more
entry in the statistics, the drop of the item with the reason `UNCLASSIFIED_DROP`:
the table of flows, the tags, the classes with their statuses, deficits and items,
and both lists are unchanged, and the evictor, which would report its drops, has not
run. -/
theorem doEnqueue_unclassified_drop (s : LLQQueueDisc) (item : QueueDiscItem)
    (hashValue : Nat) (accept : Bool) (hf : s.m_nPacketFilters ≠ 0) :
    s.DoEnqueue item hashValue PF_NO_MATCH accept =
        some (false, { s with m_stats := s.m_stats ++ [LLQEvent.unclassifiedDrop item] }) ∧
      ∀ r, s.DoEnqueue item hashValue PF_NO_MATCH accept = some r →
        r.1 = false ∧ r.2.m_stats = s.m_stats ++ [LLQEvent.unclassifiedDrop item] ∧
          r.2.m_flowsIndices = s.m_flowsIndices ∧ r.2.m_tags = s.m_tags ∧
          r.2.m_classes = s.m_classes ∧ r.2.m_newFlows = s.m_newFlows ∧
          r.2.m_oldFlows = s.m_oldFlows := by
  have h : s.DoEnqueue item hashValue PF_NO_MATCH accept =
      some (false, { s with m_stats := s.m_stats ++ [LLQEvent.unclassifiedDrop item] }) := by
    unfold DoEnqueue classifyItem
    rw [if_neg hf, if_neg (by simp)]
  refine ⟨h, fun r hr => ?_⟩
  rw [h] at hr
  simp only [Option.some.injEq] at hr
  rw [← hr]
  exact ⟨rfl, rfl, rfl, rfl, rfl, rfl, rfl⟩

/-- Witness for C31: the two-flow disc with one packet filter installed. -/
theorem doEnqueue_unclassified_drop_witness :
    filteredDisc.DoEnqueue (pkt 700) 5 PF_NO_MATCH true =
      some (false,
        { filteredDisc with
          m_stats := filteredDisc.m_stats ++ [LLQEvent.unclassifiedDrop (pkt 700)] }) :=
  (doEnqueue_unclassified_drop filteredDisc (pkt 700) 5 true (by decide)).1

/-- C33. `CheckConfig` returns false when the quantum is zero and there is no device
MTU, or the device MTU is zero; it returns false when set associative hashing is
enabled and `m_flows` is not a multiple of the positive `m_setWays`; with a zero
quantum, no class and no internal queue, a device MTU becomes the quantum; and every
configuration for which `CheckConfig` returns true has a positive quantum. -/
theorem checkConfig_quantum_and_set_size (s : LLQQueueDisc) (mtu : Option Nat) :
    (s.m_quantum = 0 → ∃ t, s.CheckConfig none = some (false, t)) ∧
      (s.m_quantum = 0 → ∃ t, s.CheckConfig (some 0) = some (false, t)) ∧
      (s.m_enableSetAssociativeHash = true → 0 < s.m_setWays →
        s.m_flows % s.m_setWays ≠ 0 → ∃ t, s.CheckConfig mtu = some (false, t)) ∧
      (∀ m r, s.m_quantum = 0 → s.m_classes = [] → s.m_nInternalQueues = 0 →
        s.CheckConfig (some m) = some r → r.2.m_quantum = m) ∧
      (∀ t, s.CheckConfig mtu = some (true, t) → 0 < t.m_quantum) := by
  refine ⟨fun hq => ?_, fun hq => ?_, fun he _ hm => ?_, fun m r hq hc hi hr => ?_,
    fun t ht => ?_⟩
  · unfold CheckConfig
    simp only [hq, if_true]
    split_ifs <;> exact ⟨_, rfl⟩
  · unfold CheckConfig
    simp only [hq, if_true]
    split_ifs <;> exact ⟨_, rfl⟩
  · have key : ∀ s1 : LLQQueueDisc, s1.m_enableSetAssociativeHash = true →
        s1.m_flows % s1.m_setWays ≠ 0 →
        ∃ t, (if s1.m_quantum = 0 then some (false, s1)
          else if s1.m_enableSetAssociativeHash = true ∧ s1.m_flows % s1.m_setWays ≠ 0 then
            some (false, s1)
          else if s1.m_useL4s = true ∧ s1.m_ceThreshold = TimeMax then none
          else some (true, s1)) = some (false, t) := by
      intro s1 e1 e2
      by_cases h3 : s1.m_quantum = 0
      · rw [if_pos h3]; exact ⟨_, rfl⟩
      · rw [if_neg h3, if_pos ⟨e1, e2⟩]; exact ⟨_, rfl⟩
    unfold CheckConfig
    by_cases h1 : s.m_classes.length > 0
    · rw [if_pos h1]; exact ⟨_, rfl⟩
    · rw [if_neg h1]
      by_cases h2 : s.m_nInternalQueues > 0
      · rw [if_pos h2]; exact ⟨_, rfl⟩
      · rw [if_neg h2]
        by_cases hq : s.m_quantum = 0
        · cases mtu with
          | none =>
            simp only [hq, if_true]
            exact ⟨_, rfl⟩
          | some m =>
            simp only [hq, if_true]
            exact key { s with m_quantum := m } he hm
        · simp only [hq, if_false]
          have := key s he hm
          rw [if_neg hq] at this
          exact this
  · unfold CheckConfig at hr
    simp only [hq, hc, hi, List.length_nil, gt_iff_lt, lt_self_iff_false, if_false,
      if_true] at hr
    split_ifs at hr <;> simp only [Option.some.injEq] at hr <;> rw [← hr]
  · unfold CheckConfig at ht
    by_cases h1 : s.m_classes.length > 0
    · rw [if_pos h1] at ht
      simp only [Option.some.injEq, Prod.mk.injEq] at ht
      exact absurd ht.1 (by decide)
    · rw [if_neg h1] at ht
      by_cases h2 : s.m_nInternalQueues > 0
      · rw [if_pos h2] at ht
        simp only [Option.some.injEq, Prod.mk.injEq] at ht
        exact absurd ht.1 (by decide)
      · rw [if_neg h2] at ht
        simp only at ht
        split_ifs at ht with h3 h4 h5 h6 <;>
          simp only [Option.some.injEq, Prod.mk.injEq] at ht
        all_goals first
          | exact absurd ht.1 (by decide)
          | (rw [← ht.2]; exact Nat.pos_of_ne_zero h3)
          | (rw [← ht.2]; exact Nat.pos_of_ne_zero h4)

/-! Safety of the evictor and the limit on the packets held. -/

/-- The second loop of `LLQDrop` entered with a buffer that is not empty and a
threshold that does not exceed the bytes dropped so far plus the bytes held, these
fitting a `uint32_t`: it stops before the buffer runs out, having taken a non-empty
run of items from its head, one item or at most as many as the batch size allows. -/
theorem dropLoop_safe (batch threshold : Nat) (queue : List QueueDiscItem) :
    ∀ (count len : Nat) (dropped : List QueueDiscItem),
      queue ≠ [] → threshold ≤ len + (queue.map (fun x => x.size)).sum →
      len + (queue.map (fun x => x.size)).sum < 4294967296 →
      ∃ taken rest,
        dropLoop batch threshold queue count len dropped = some (rest, dropped ++ taken) ∧
          queue = taken ++ rest ∧ taken ≠ [] ∧
          (taken.length = 1 ∨ count + taken.length ≤ batch) := by
  induction queue with
  | nil => intro _ _ _ h; exact absurd rfl h
  | cons item rest ih =>
    intro count len dropped _ hthr h32
    simp only [List.map_cons, List.sum_cons] at hthr h32
    have hw : wrap32 (len + item.size) = len + item.size := by
      unfold wrap32
      exact Nat.mod_eq_of_lt (by omega)
    by_cases hcont : count + 1 < batch ∧ wrap32 (len + item.size) < threshold
    · have hne : rest ≠ [] := by
        intro e
        rw [e] at hthr
        simp only [List.map_nil, List.sum_nil] at hthr
        rw [hw] at hcont
        omega
      obtain ⟨taken, rest', h1, h2, _, h5⟩ :=
        ih (count + 1) (wrap32 (len + item.size)) (dropped ++ [item]) hne
          (by rw [hw]; omega) (by rw [hw]; omega)
      refine ⟨item :: taken, rest', ?_, by rw [h2]; rfl, by simp, ?_⟩
      · rw [dropLoop, if_pos hcont, h1]
        simp
      · right
        simp only [List.length_cons]
        rcases h5 with e | e
        · omega
        · omega
    · refine ⟨[item], rest, ?_, rfl, by simp, Or.inl rfl⟩
      rw [dropLoop, if_neg hcont]

/-- Packets counted before and after one class is rewritten. -/
theorem sum_map_set (g : LLQFlow → Nat) (l : List LLQFlow) :
    ∀ (i : Nat) (f0 f : LLQFlow), l.get? i = some f0 →
      ((l.set i f).map g).sum + g f0 = (l.map g).sum + g f := by
  induction l with
  | nil => intro i f0 f h; simp at h
  | cons a rest ih =>
    intro i f0 f h
    cases i with
    | zero =>
      simp only [List.get?_cons_zero, Option.some.injEq] at h
      subst h
      simp only [List.set_cons_zero, List.map_cons, List.sum_cons]
      omega
    | succ j =>
      simp only [List.get?_cons_succ] at h
      have := ih j f0 f h
      simp only [List.set_cons_succ, List.map_cons, List.sum_cons]
      omega

/-- The class read at an existing position. -/
theorem getClass_of_get (s : LLQQueueDisc) (i : Nat) (f : LLQFlow)
    (h : s.m_classes.get? i = some f) : s.GetQueueDiscClass i = f := by
  unfold GetQueueDiscClass
  rw [List.getD_eq_getElem?_getD]
  rw [List.get?_eq_getElem?] at h
  rw [h]; rfl

/-- The class read at an existing position is among the classes. -/
theorem get_of_lt (s : LLQQueueDisc) (i : Nat) (h : i < s.m_classes.length) :
    s.m_classes.get? i = some (s.GetQueueDiscClass i) := by
  unfold GetQueueDiscClass
  rw [List.get?_eq_getElem?, List.getD_eq_getElem?_getD, List.getElem?_eq_getElem h]
  rfl

/-- What `LLQDrop` does when some flow has a positive byte backlog and the largest
backlog is a `uint32_t`: it returns the position chosen by its first loop, having
taken from the head of the buffer of that class a non-empty run of items, one item or
at most as many as the batch size, reported them as dropped, and left the rest of the
disc alone. -/
theorem LLQDrop_spec (s : LLQQueueDisc)
    (hpos : ∃ f ∈ s.m_classes, 0 < f.GetNBytes) (h32 : s.maxBacklog < 4294967296) :
    ∃ (f : LLQFlow) (taken rest : List QueueDiscItem),
      s.m_classes.get? s.fatIndex = some f ∧ f.m_queue = taken ++ rest ∧ taken ≠ [] ∧
      (taken.length = 1 ∨ taken.length ≤ s.m_dropBatchSize) ∧
      dropLoop s.m_dropBatchSize (s.maxBacklog / 2) f.m_queue 0 0 [] = some (rest, taken) ∧
      s.LLQDrop = some (s.fatIndex,
        { s.setClass s.fatIndex { f with m_queue := rest } with
          m_stats := s.m_stats ++ taken.map LLQEvent.overlimitDrop }) := by
  obtain ⟨_, hall, hidx⟩ := scanFat_spec s.m_classes 0 0 0
  have hM : 0 < s.maxBacklog := by
    obtain ⟨f, hf, hfp⟩ := hpos
    exact lt_of_lt_of_le hfp (hall f hf)
  have hidx' : ∃ f, s.m_classes.get? s.fatIndex = some f ∧ f.GetNBytes = s.maxBacklog := by
    rcases hidx with ⟨e, _⟩ | ⟨_, _, f, e1, e2⟩
    · exact absurd e (by unfold maxBacklog at hM; omega)
    · exact ⟨f, e1, e2⟩
  obtain ⟨f, hget, hbytes⟩ := hidx'
  have hsum : (f.m_queue.map (fun x => x.size)).sum = s.maxBacklog := hbytes
  have hne : f.m_queue ≠ [] := by
    intro e
    rw [e] at hsum
    simp only [List.map_nil, List.sum_nil] at hsum
    omega
  obtain ⟨taken, rest, h1, h2, h3, h4⟩ :=
    dropLoop_safe s.m_dropBatchSize (s.maxBacklog / 2) f.m_queue 0 0 [] hne
      (by rw [Nat.zero_add, hsum]; exact Nat.div_le_self _ _)
      (by rw [Nat.zero_add, hsum]; exact h32)
  rw [List.nil_append] at h1
  refine ⟨f, taken, rest, hget, h2, h3, ?_, h1, ?_⟩
  · rcases h4 with e | e
    · exact Or.inl e
    · right; omega
  · have e : s.LLQDrop =
        match s.m_classes.get? s.fatIndex with
        | none => none
        | some f =>
          match dropLoop s.m_dropBatchSize (s.maxBacklog / 2) f.m_queue 0 0 [] with
          | none => none
          | some (rest, dropped) =>
            some (s.fatIndex,
              { s.setClass s.fatIndex { f with m_queue := rest } with
                m_stats := s.m_stats ++ dropped.map LLQEvent.overlimitDrop }) := rfl
    rw [e, hget]
    simp only
    rw [h1]

/-- C38. Let `LLQDrop` run on a disc in which some flow has a positive byte backlog,
the largest backlog being a `uint32_t`. Then every dequeue of its second loop finds
an item: `LLQDrop` has a result, the position of the class chosen by its first loop.
The items evicted are a non-empty run taken from the head of the buffer of that
class, at most `max 1 m_dropBatchSize` of them, each reported as dropped, and the
packets held by the disc go down by their number. -/
theorem llqDrop_finds_every_item (s : LLQQueueDisc)
    (hpos : ∃ f ∈ s.m_classes, 0 < f.GetNBytes) (h32 : s.maxBacklog < 4294967296) :
    ∃ (s' : LLQQueueDisc) (taken : List QueueDiscItem),
      s.LLQDrop = some (s.fatIndex, s') ∧
      (s.GetQueueDiscClass s.fatIndex).m_queue =
        taken ++ (s'.GetQueueDiscClass s.fatIndex).m_queue ∧
      1 ≤ taken.length ∧ taken.length ≤ max 1 s.m_dropBatchSize ∧
      s'.m_stats = s.m_stats ++ taken.map LLQEvent.overlimitDrop ∧
      s'.GetCurrentSize + taken.length = s.GetCurrentSize := by
  obtain ⟨f, taken, rest, hget, hq, hne, hlen, _, hdrop⟩ := LLQDrop_spec s hpos h32
  have hlt : s.fatIndex < s.m_classes.length := by
    rw [List.get?_eq_getElem?] at hget
    exact (List.getElem?_eq_some_iff.mp hget).1
  refine ⟨_, taken, hdrop, ?_, ?_, ?_, rfl, ?_⟩
  · rw [getClass_of_get s _ f hget, getClass_of_set s _ s.fatIndex _ _ rfl,
      if_pos ⟨rfl, hlt⟩]
    exact hq
  · cases taken with
    | nil => exact absurd rfl hne
    | cons a l => simp
  · rcases hlen with e | e
    · rw [e]; exact le_max_left _ _
    · exact le_trans e (le_max_right _ _)
  · have key : ((s.m_classes.set s.fatIndex { f with m_queue := rest }).map
          (fun g => g.GetNPackets)).sum + f.GetNPackets =
        (s.m_classes.map (fun g => g.GetNPackets)).sum + rest.length :=
      sum_map_set (fun g => g.GetNPackets) s.m_classes s.fatIndex f
        { f with m_queue := rest } hget
    have hf : f.GetNPackets = taken.length + rest.length := by
      unfold LLQFlow.GetNPackets
      rw [hq, List.length_append]
    rw [hf] at key
    show ((s.m_classes.set s.fatIndex { f with m_queue := rest }).map
      (fun g => g.GetNPackets)).sum + taken.length = (s.m_classes.map (fun g => g.GetNPackets)).sum
    omega

/-- Witness for C38: a first flow holding four packets of 1000 bytes and a second one
holding two; two packets are evicted from the first flow. -/
theorem llqDrop_finds_every_item_witness :
    ∃ (s' : LLQQueueDisc) (taken : List QueueDiscItem),
      (twoNewFlows 1500 1500 1500 [pkt 1000, pkt 1000, pkt 1000, pkt 1000]
          [pkt 1000, pkt 1000]).LLQDrop = some (0, s') ∧
      1 ≤ taken.length ∧ taken.length ≤ max 1 64 ∧
      s'.GetCurrentSize + taken.length = 6 := by
  obtain ⟨s', taken, h1, _, h3, h4, _, h6⟩ :=
    llqDrop_finds_every_item
      (twoNewFlows 1500 1500 1500 [pkt 1000, pkt 1000, pkt 1000, pkt 1000] [pkt 1000, pkt 1000])
      (by decide) (by decide)
  exact ⟨s', taken, h1, h3, h4, h6⟩

/-- Rewriting a class without touching its items leaves the items of every class as
they are. -/
theorem map_set_same (l : List LLQFlow) :
    ∀ (c : Nat) (f : LLQFlow), f.m_queue = (l.getD c LLQFlow.create).m_queue →
      (l.set c f).map (fun g => g.m_queue) = l.map (fun g => g.m_queue) := by
  induction l with
  | nil => intro c f _; rfl
  | cons a rest ih =>
    intro c f h
    cases c with
    | zero =>
      simp only [List.set_cons_zero, List.map_cons]
      rw [h]; rfl
    | succ j =>
      simp only [List.set_cons_succ, List.map_cons]
      rw [ih j f h]

/-- A write through a flow pointer that keeps the items of the flow leaves the items
of every class as they are. -/
theorem queues_setClass_same (s : LLQQueueDisc) (c : Nat) (f : LLQFlow)
    (h : f.m_queue = (s.GetQueueDiscClass c).m_queue) : (s.setClass c f).queues = s.queues :=
  map_set_same s.m_classes c f h

/-- The packets held, counted from the items of the classes. -/
theorem size_eq_queues (s : LLQQueueDisc) :
    s.GetCurrentSize = (s.queues.map List.length).sum := by
  unfold GetCurrentSize queues
  rw [List.map_map]
  rfl

/-- The first inner loop of `DoDequeue` moves no item. -/
theorem queues_newFlowsLoop (l : List Nat) :
    ∀ s : LLQQueueDisc, (newFlowsLoop l s).2.queues = s.queues ∧
      (newFlowsLoop l s).2.m_maxSize = s.m_maxSize := by
  induction l with
  | nil => intro s; exact ⟨rfl, rfl⟩
  | cons c rest ih =>
    intro s
    simp only [newFlowsLoop]
    by_cases hd : (s.GetQueueDiscClass c).GetDeficit ≤ 0
    · rw [if_pos hd]
      obtain ⟨h1, h2⟩ := ih
        { s.setClass c
            (((s.GetQueueDiscClass c).IncreaseDeficit (toInt32 s.m_quantum)).SetStatus
              FlowStatus.OLD_FLOW) with
          m_oldFlows := s.m_oldFlows ++ [c]
          m_newFlows := rest }
      rw [h1, h2]
      exact ⟨queues_setClass_same s c _ rfl, rfl⟩
    · rw [if_neg hd]
      exact ⟨rfl, rfl⟩

/-- The second inner loop of `DoDequeue` moves no item. -/
theorem queues_oldFlowsLoop (fuel : Nat) :
    ∀ (s s1 : LLQQueueDisc) (r : Option Nat), oldFlowsLoop fuel s = some (r, s1) →
      s1.queues = s.queues ∧ s1.m_maxSize = s.m_maxSize := by
  induction fuel with
  | zero => intro s s1 r h; simp [oldFlowsLoop] at h
  | succ n ih =>
    intro s s1 r h
    unfold oldFlowsLoop at h
    cases ho : s.m_oldFlows with
    | nil =>
      rw [ho] at h
      simp only [Option.some.injEq, Prod.mk.injEq] at h
      rw [← h.2]
      exact ⟨rfl, rfl⟩
    | cons c rest =>
      rw [ho] at h
      simp only at h
      by_cases hd : (s.GetQueueDiscClass c).GetDeficit ≤ 0
      · rw [if_pos hd] at h
        obtain ⟨h1, h2⟩ := ih _ _ _ h
        rw [h1, h2]
        exact ⟨queues_setClass_same s c _ rfl, rfl⟩
      · rw [if_neg hd] at h
        simp only [Option.some.injEq, Prod.mk.injEq] at h
        rw [← h.2]
        exact ⟨rfl, rfl⟩

/-- The search of `DoDequeue` moves no item. -/
theorem queues_selectFlow (fuel : Nat) (s s1 : LLQQueueDisc) (r : Option Nat)
    (h : selectFlow fuel s = some (r, s1)) :
    s1.queues = s.queues ∧ s1.m_maxSize = s.m_maxSize := by
  unfold selectFlow at h
  obtain ⟨h1, h2⟩ := queues_newFlowsLoop s.m_newFlows s
  cases hl : newFlowsLoop s.m_newFlows s with
  | mk r' t =>
    rw [hl] at h h1 h2
    cases r' with
    | some c =>
      simp only [Option.some.injEq, Prod.mk.injEq] at h
      rw [← h.2]
      exact ⟨h1, h2⟩
    | none =>
      simp only at h
      obtain ⟨h3, h4⟩ := queues_oldFlowsLoop fuel _ _ _ h
      exact ⟨h3.trans h1, h4.trans h2⟩

/-- The branch of `DoDequeue` taken for a flow without items moves no item. -/
theorem queues_emptyFlow (s : LLQQueueDisc) (c : Nat) :
    (s.emptyFlow c).queues = s.queues ∧ (s.emptyFlow c).m_maxSize = s.m_maxSize := by
  unfold emptyFlow
  by_cases hn : s.m_newFlows ≠ []
  · rw [if_pos hn]
    exact ⟨queues_setClass_same s c _ rfl, rfl⟩
  · rw [if_neg hn]
    exact ⟨queues_setClass_same s c _ rfl, rfl⟩

/-- Taking the head of the buffer of a flow does not add a packet. -/
theorem size_serve (s : LLQQueueDisc) (c : Nat) (item : QueueDiscItem)
    (rest : List QueueDiscItem) (h : (s.GetQueueDiscClass c).m_queue = item :: rest) :
    (s.serve c item rest).GetCurrentSize ≤ s.GetCurrentSize ∧
      (s.serve c item rest).m_maxSize = s.m_maxSize := by
  refine ⟨?_, rfl⟩
  by_cases hc : c < s.m_classes.length
  · have key := sum_map_set (fun g => g.GetNPackets) s.m_classes c (s.GetQueueDiscClass c)
      ({ s.GetQueueDiscClass c with m_queue := rest }.IncreaseDeficit
        (toInt32 (wrap32 (item.size * 4294967295)))) (get_of_lt s c hc)
    have h1 : (s.GetQueueDiscClass c).GetNPackets = rest.length + 1 := by
      unfold LLQFlow.GetNPackets
      rw [h]; rfl
    have key' : ((s.m_classes.set c
          ({ s.GetQueueDiscClass c with m_queue := rest }.IncreaseDeficit
            (toInt32 (wrap32 (item.size * 4294967295))))).map (fun g => g.GetNPackets)).sum +
          (s.GetQueueDiscClass c).GetNPackets =
        (s.m_classes.map (fun g => g.GetNPackets)).sum + rest.length := key
    rw [h1] at key'
    show ((s.m_classes.set c _).map (fun g => g.GetNPackets)).sum ≤
      (s.m_classes.map (fun g => g.GetNPackets)).sum
    omega
  · show ((s.m_classes.set c _).map (fun g => g.GetNPackets)).sum ≤
      (s.m_classes.map (fun g => g.GetNPackets)).sum
    rw [List.set_eq_of_length_le (Nat.le_of_not_lt hc)]

/-- A call of `DoDequeue` that returns adds no packet and keeps the limit. -/
theorem size_doDequeue (fuel : Nat) :
    ∀ (s : LLQQueueDisc) (r : Option QueueDiscItem × LLQQueueDisc),
      DoDequeue fuel s = some r →
      r.2.GetCurrentSize ≤ s.GetCurrentSize ∧ r.2.m_maxSize = s.m_maxSize := by
  induction fuel with
  | zero => intro s r h; simp [DoDequeue] at h
  | succ n ih =>
    intro s r h
    unfold DoDequeue at h
    cases hsel : selectFlow n s with
    | none => rw [hsel] at h; simp at h
    | some p =>
      obtain ⟨o, s1⟩ := p
      obtain ⟨hq, hm⟩ := queues_selectFlow n s s1 o hsel
      have hsize : s1.GetCurrentSize = s.GetCurrentSize := by
        rw [size_eq_queues, size_eq_queues, hq]
      rw [hsel] at h
      cases o with
      | none =>
        simp only [Option.some.injEq] at h
        rw [← h]
        exact ⟨le_of_eq hsize, hm⟩
      | some c =>
        simp only at h
        cases hqc : (s1.GetQueueDiscClass c).m_queue with
        | nil =>
          rw [hqc] at h
          simp only at h
          obtain ⟨h1, h2⟩ := ih _ _ h
          obtain ⟨h3, h4⟩ := queues_emptyFlow s1 c
          have : (s1.emptyFlow c).GetCurrentSize = s1.GetCurrentSize := by
            rw [size_eq_queues, size_eq_queues, h3]
          exact ⟨by omega, by rw [h2, h4, hm]⟩
        | cons item rest =>
          rw [hqc] at h
          simp only [Option.some.injEq] at h
          rw [← h]
          obtain ⟨h1, h2⟩ := size_serve s1 c item rest hqc
          exact ⟨by simp only; omega, by simp only; rw [h2, hm]⟩

/-- Bucket selection does not touch the limit. -/
theorem selectBucket_maxSize (s : LLQQueueDisc) (flowHash : Nat) :
    (s.selectBucket flowHash).2.m_maxSize = s.m_maxSize := by
  unfold selectBucket SetAssociativeHash
  by_cases he : s.m_enableSetAssociativeHash = true
  · rw [if_pos he]
    simp only
    split <;> rfl
  · rw [if_neg he]

/-- The lookup of the flow record of an arrival leaves the items of every class as
they are, possibly after adding a class without items, and keeps the limit. -/
theorem queues_lookupFlow (s : LLQQueueDisc) (flowHash : Nat) :
    ((s.lookupFlow flowHash).2.queues = s.queues ∨
      (s.lookupFlow flowHash).2.queues = s.queues ++ [[]]) ∧
    (s.lookupFlow flowHash).2.m_maxSize = s.m_maxSize := by
  obtain ⟨hc, -⟩ := selectBucket_frame s flowHash
  have hm := selectBucket_maxSize s flowHash
  unfold lookupFlow findFlow
  cases hf : (s.selectBucket flowHash).2.m_flowsIndices (s.selectBucket flowHash).1 with
  | none =>
    refine ⟨Or.inr ?_, hm⟩
    show List.map (fun g : LLQFlow => g.m_queue) ((s.selectBucket flowHash).2.m_classes ++ [_]) = _
    rw [hc, List.map_append]
    rfl
  | some c =>
    refine ⟨Or.inl ?_, hm⟩
    show List.map (fun g : LLQFlow => g.m_queue) (s.selectBucket flowHash).2.m_classes = _
    rw [hc]
    rfl

/-- Activation moves no item and keeps the limit. -/
theorem queues_activate (s : LLQQueueDisc) (c : Nat) :
    (s.activate c).queues = s.queues ∧ (s.activate c).m_maxSize = s.m_maxSize := by
  unfold activate
  by_cases h : (s.GetQueueDiscClass c).GetStatus = FlowStatus.INACTIVE
  · rw [if_pos h]
    refine ⟨?_, rfl⟩
    exact queues_setClass_same s c
      (((s.GetQueueDiscClass c).SetStatus FlowStatus.NEW_FLOW).SetDeficit s.m_quantum)
      (by unfold LLQFlow.SetDeficit LLQFlow.SetStatus; rfl)
  · rw [if_neg h]
    exact ⟨rfl, rfl⟩

/-- Packets counted after one class is rewritten, when the class written holds at
most `n` packets more than the class it replaces. -/
theorem sum_map_set_le (l : List LLQFlow) :
    ∀ (c : Nat) (f : LLQFlow) (n : Nat),
      f.GetNPackets ≤ (l.getD c LLQFlow.create).GetNPackets + n →
      ((l.set c f).map (fun g => g.GetNPackets)).sum ≤
        (l.map (fun g => g.GetNPackets)).sum + n := by
  induction l with
  | nil => intro c f n _; simp
  | cons a rest ih =>
    intro c f n h
    cases c with
    | zero =>
      simp only [List.set_cons_zero, List.map_cons, List.sum_cons]
      have h' : f.GetNPackets ≤ a.GetNPackets + n := h
      omega
    | succ j =>
      simp only [List.set_cons_succ, List.map_cons, List.sum_cons]
      have := ih j f n h
      omega

/-- The bytes of a buffer are at least those of any of its items. -/
theorem size_le_bytes (q : List QueueDiscItem) (x : QueueDiscItem) (h : x ∈ q) :
    x.size ≤ (q.map (fun y => y.size)).sum := by
  induction q with
  | nil => simp at h
  | cons a rest ih =>
    simp only [List.map_cons, List.sum_cons]
    rcases List.mem_cons.mp h with e | e
    · rw [e]; omega
    · have := ih e
      omega

/-- A disc that holds a packet has a class that holds one. -/
theorem exists_nonempty_of_size (l : List LLQFlow)
    (h : 0 < (l.map (fun g => g.GetNPackets)).sum) : ∃ f ∈ l, f.m_queue ≠ [] := by
  induction l with
  | nil => simp at h
  | cons a rest ih =>
    simp only [List.map_cons, List.sum_cons] at h
    by_cases ha : a.m_queue = []
    · have : a.GetNPackets = 0 := by
        unfold LLQFlow.GetNPackets
        rw [ha]; rfl
      obtain ⟨f, hf, hq⟩ := ih (by omega)
      exact ⟨f, List.mem_cons_of_mem _ hf, hq⟩
    · exact ⟨a, List.mem_cons_self _ _, ha⟩

/-- The stages of `DoEnqueue` up to the hand-over to the child disc add at most one
packet, the arriving one at the tail of a buffer, and keep the limit: when the
packets held and the arriving one have a positive size and the bytes of every
buffer together with the arriving packet fit a `uint32_t`, so do the packets and the
buffers afterwards. -/
theorem enqueueFlow_spec (s : LLQQueueDisc) (item : QueueDiscItem) (flowHash : Nat)
    (accept : Bool)
    (hsz : ∀ f ∈ s.m_classes, ∀ x ∈ f.m_queue, 0 < x.size) (hitem : 0 < item.size)
    (hi32 : item.size < 4294967296)
    (h32 : ∀ f ∈ s.m_classes, f.GetNBytes + item.size < 4294967296) :
    (s.enqueueFlow item flowHash accept).GetCurrentSize ≤ s.GetCurrentSize + 1 ∧
    (s.enqueueFlow item flowHash accept).m_maxSize = s.m_maxSize ∧
    ∀ f ∈ (s.enqueueFlow item flowHash accept).m_classes,
      (∀ x ∈ f.m_queue, 0 < x.size) ∧ f.GetNBytes < 4294967296 := by
  obtain ⟨hq1, hm1⟩ := queues_lookupFlow s flowHash
  obtain ⟨hq2, hm2⟩ := queues_activate (s.lookupFlow flowHash).2 (s.lookupFlow flowHash).1
  have hfit : ∀ q ∈ s.queues, (∀ x ∈ q, 0 < x.size) ∧
      (q.map (fun y => y.size)).sum + item.size < 4294967296 := by
    intro q hq
    obtain ⟨f, hf, e⟩ := List.mem_map.mp hq
    rw [← e]
    exact ⟨hsz f hf, h32 f hf⟩
  unfold enqueueFlow
  generalize (s.lookupFlow flowHash).2.activate (s.lookupFlow flowHash).1 = u at hq2 hm2
  generalize (s.lookupFlow flowHash).1 = c
  have hum : u.m_maxSize = s.m_maxSize := hm2.trans hm1
  have huq : u.queues = s.queues ∨ u.queues = s.queues ++ [[]] := by
    rw [hq2]; exact hq1
  have husize : u.GetCurrentSize = s.GetCurrentSize := by
    rw [size_eq_queues, size_eq_queues]
    rcases huq with e | e
    · rw [e]
    · rw [e]; simp
  have hufit : ∀ g ∈ u.m_classes, (∀ x ∈ g.m_queue, 0 < x.size) ∧
      (g.m_queue.map (fun y => y.size)).sum + item.size < 4294967296 := by
    intro g hg
    have hmem : g.m_queue ∈ u.queues := List.mem_map.mpr ⟨g, hg, rfl⟩
    rcases huq with e | e
    · rw [e] at hmem; exact hfit _ hmem
    · rw [e] at hmem
      rcases List.mem_append.mp hmem with h | h
      · exact hfit _ h
      · rw [List.mem_singleton.mp h]
        exact ⟨fun x hx => by simp at hx, by simpa using hi32⟩
  have hcfit : (∀ x ∈ (u.GetQueueDiscClass c).m_queue, 0 < x.size) ∧
      ((u.GetQueueDiscClass c).m_queue.map (fun y => y.size)).sum + item.size <
        4294967296 := by
    rcases getClass_mem_or u c with h | h
    · exact hufit _ h
    · rw [h]
      exact ⟨fun x hx => by simp [LLQFlow.create] at hx, by simpa [LLQFlow.create] using hi32⟩
  unfold childEnqueue
  by_cases ha : accept = true
  · rw [if_pos ha]
    refine ⟨?_, hum, ?_⟩
    · rw [← husize]
      show ((u.m_classes.set c _).map (fun g => g.GetNPackets)).sum ≤
        (u.m_classes.map (fun g => g.GetNPackets)).sum + 1
      refine sum_map_set_le u.m_classes c _ 1 ?_
      show ((u.GetQueueDiscClass c).m_queue ++ [item]).length ≤
        (u.GetQueueDiscClass c).m_queue.length + 1
      rw [List.length_append]
      rfl
    · intro f hf
      have hf' : f ∈ u.m_classes.set c
          { u.GetQueueDiscClass c with
            m_queue := (u.GetQueueDiscClass c).m_queue ++ [item] } := hf
      rcases List.mem_or_eq_of_mem_set hf' with h | h
      · obtain ⟨h1, h2⟩ := hufit f h
        exact ⟨h1, by unfold LLQFlow.GetNBytes; omega⟩
      · rw [h]
        refine ⟨?_, ?_⟩
        · intro x hx
          rcases List.mem_append.mp hx with e | e
          · exact hcfit.1 x e
          · rw [List.mem_singleton.mp e]; exact hitem
        · show (((u.GetQueueDiscClass c).m_queue ++ [item]).map (fun y => y.size)).sum <
            4294967296
          rw [List.map_append, List.sum_append]
          simpa using hcfit.2
  · rw [if_neg ha]
    refine ⟨by show u.GetCurrentSize ≤ _; omega, hum, ?_⟩
    intro f hf
    obtain ⟨h1, h2⟩ := hufit f hf
    exact ⟨h1, by unfold LLQFlow.GetNBytes; omega⟩

/-- The overload check on a disc whose packets have a positive size and whose
buffers fit a `uint32_t`: it returns, and afterwards the disc holds at most the
packets it held or, when these exceeded the limit, at least one packet less. -/
theorem checkOverload_spec (s : LLQQueueDisc)
    (hfit : ∀ f ∈ s.m_classes, (∀ x ∈ f.m_queue, 0 < x.size) ∧ f.GetNBytes < 4294967296) :
    ∃ r, s.checkOverload = some r ∧ r.2.m_maxSize = s.m_maxSize ∧
      r.2.GetCurrentSize ≤ s.GetCurrentSize ∧
      (s.m_maxSize < s.GetCurrentSize → r.2.GetCurrentSize + 1 ≤ s.GetCurrentSize) := by
  unfold checkOverload
  by_cases hc : s.GetCurrentSize > s.m_maxSize
  · rw [if_pos hc]
    have hpos : ∃ f ∈ s.m_classes, 0 < f.GetNBytes := by
      obtain ⟨f, hf, hq⟩ := exists_nonempty_of_size s.m_classes (by
        have : 0 < s.GetCurrentSize := by omega
        exact this)
      refine ⟨f, hf, ?_⟩
      cases hfq : f.m_queue with
      | nil => exact absurd hfq hq
      | cons x rest =>
        have hx : x ∈ f.m_queue := by rw [hfq]; exact List.mem_cons_self _ _
        have h1 := (hfit f hf).1 x hx
        have h2 := size_le_bytes f.m_queue x hx
        unfold LLQFlow.GetNBytes
        omega
    have h32 : s.maxBacklog < 4294967296 := by
      obtain ⟨_, _, hidx⟩ := scanFat_spec s.m_classes 0 0 0
      rcases hidx with ⟨e, _⟩ | ⟨_, _, f, e1, e2⟩
      · unfold maxBacklog; rw [e]; decide
      · unfold maxBacklog
        rw [← e2]
        simp only [Nat.sub_zero] at e1
        exact (hfit f (List.get?_mem e1)).2
    obtain ⟨f, taken, rest, hget, hq, hne, _, _, hdrop⟩ := LLQDrop_spec s hpos h32
    rw [hdrop]
    refine ⟨_, rfl, rfl, ?_⟩
    have key : ((s.m_classes.set s.fatIndex { f with m_queue := rest }).map
          (fun g => g.GetNPackets)).sum + f.GetNPackets =
        (s.m_classes.map (fun g => g.GetNPackets)).sum + rest.length :=
      sum_map_set (fun g => g.GetNPackets) s.m_classes s.fatIndex f
        { f with m_queue := rest } hget
    have hf : f.GetNPackets = taken.length + rest.length := by
      unfold LLQFlow.GetNPackets
      rw [hq, List.length_append]
    have hpos' : 0 < taken.length := List.length_pos.mpr hne
    rw [hf] at key
    have hsize : ({ s.setClass s.fatIndex { f with m_queue := rest } with
        m_stats := s.m_stats ++ taken.map LLQEvent.overlimitDrop } :
        LLQQueueDisc).GetCurrentSize =
        ((s.m_classes.set s.fatIndex { f with m_queue := rest }).map
          (fun g => g.GetNPackets)).sum := rfl
    have hs : s.GetCurrentSize = (s.m_classes.map (fun g => g.GetNPackets)).sum := rfl
    simp only
    rw [hsize, hs]
    constructor
    · omega
    · intro _; omega
  · rw [if_neg hc]
    exact ⟨_, rfl, rfl, le_refl _, fun h => absurd h hc⟩

/-- C39. The limit is counted in packets. If the packets held and the arriving one
have a positive size, the bytes of every buffer together with the arriving packet
fit a `uint32_t`, and the disc holds at most `m_maxSize` packets, then `DoEnqueue`
returns and the disc holds at most `m_maxSize` packets afterwards, the limit being
unchanged. A call of `DoDequeue` that returns leaves the limit unchanged and at most
as many packets as before, from every state. -/
theorem doEnqueue_keeps_backlog_cap (s : LLQQueueDisc) (item : QueueDiscItem)
    (hashValue : Nat) (ret : Int) (accept : Bool) :
    ((∀ f ∈ s.m_classes, ∀ x ∈ f.m_queue, 0 < x.size) → 0 < item.size →
      item.size < 4294967296 →
      (∀ f ∈ s.m_classes, f.GetNBytes + item.size < 4294967296) →
      s.GetCurrentSize ≤ s.m_maxSize →
      ∃ r, s.DoEnqueue item hashValue ret accept = some r ∧ r.2.m_maxSize = s.m_maxSize ∧
        r.2.GetCurrentSize ≤ r.2.m_maxSize) ∧
    (∀ fuel r, DoDequeue fuel s = some r →
      r.2.GetCurrentSize ≤ s.GetCurrentSize ∧ r.2.m_maxSize = s.m_maxSize) := by
  refine ⟨fun hsz hitem hi32 h32 hcap => ?_, fun fuel r h => size_doDequeue fuel s r h⟩
  unfold DoEnqueue
  cases hcl : s.classifyItem hashValue ret with
  | none => exact ⟨_, rfl, rfl, hcap⟩
  | some flowHash =>
    simp only
    obtain ⟨h1, h2, h3⟩ := enqueueFlow_spec s item flowHash accept hsz hitem hi32 h32
    obtain ⟨r, hr, hm, hle, hlt⟩ := checkOverload_spec (s.enqueueFlow item flowHash accept) h3
    refine ⟨r, hr, hm.trans h2, ?_⟩
    rw [hm, h2]
    by_cases hov : (s.enqueueFlow item flowHash accept).m_maxSize <
        (s.enqueueFlow item flowHash accept).GetCurrentSize
    · have := hlt hov
      omega
    · rw [h2] at hov
      omega

/-- Witness for C39: a disc with a limit of three packets that holds three packets
of 1000 bytes takes a fourth one. -/
theorem doEnqueue_keeps_backlog_cap_witness :
    fullDisc.GetCurrentSize = 3 ∧ fullDisc.m_maxSize = 3 ∧
    ∃ r, fullDisc.DoEnqueue (pkt 1000) 1 0 true = some r ∧ r.2.m_maxSize = fullDisc.m_maxSize ∧
      r.2.GetCurrentSize ≤ r.2.m_maxSize :=
  ⟨by decide, by decide,
    (doEnqueue_keeps_backlog_cap fullDisc (pkt 1000) 1 0 true).1 (by decide) (by decide)
      (by decide) (by decide) (by decide)⟩

/-! Termination of `DoDequeue`. -/

/-- A replenished flow is not further from a positive deficit. -/
theorem shortfall_mono (s t : LLQQueueDisc) (h : OnlyReplenished s t) (c : Nat) :
    t.shortfall c ≤ s.shortfall c := by
  have := (h.2 c).2
  unfold shortfall
  omega

/-- Replenishments do not raise the contribution of a list to the potential. -/
theorem sum_shortfall_mono (s t : LLQQueueDisc) (h : OnlyReplenished s t) (k : Nat)
    (l : List Nat) :
    (l.map (fun c => t.shortfall c + k)).sum ≤ (l.map (fun c => s.shortfall c + k)).sum := by
  induction l with
  | nil => simp
  | cons a rest ih =>
    simp only [List.map_cons, List.sum_cons]
    have := shortfall_mono s t h a
    omega

/-- Writing its own value into `m_newFlows` changes nothing. -/
theorem newFlows_same_eq (s : LLQQueueDisc) (l : List Nat) (h : s.m_newFlows = l) :
    ({ s with m_newFlows := l } : LLQQueueDisc) = s := by
  cases s; simp only at h; subst h; rfl

/-- Moving the head of `m_newFlows` to the tail of `m_oldFlows`, with nothing but
replenishments, lowers the potential. -/
theorem potential_move (s t : LLQQueueDisc) (c : Nat) (rest : List Nat)
    (hr : OnlyReplenished s t) (hn : s.m_newFlows = c :: rest) (htn : t.m_newFlows = rest)
    (hto : t.m_oldFlows = s.m_oldFlows ++ [c]) : potential t < potential s := by
  have h1 := sum_shortfall_mono s t hr 2 rest
  have h2 := sum_shortfall_mono s t hr 1 s.m_oldFlows
  have h3 := shortfall_mono s t hr c
  unfold potential
  rw [hn, htn, hto]
  simp only [List.map_cons, List.sum_cons, List.map_append, List.sum_append, List.map_nil,
    List.sum_nil]
  omega

/-- Moving the head of `m_oldFlows` to its tail, with nothing but replenishments
and one that brings the flow moved closer to a positive deficit, lowers the
potential. -/
theorem potential_rotate (s t : LLQQueueDisc) (c : Nat) (rest : List Nat)
    (hr : OnlyReplenished s t) (ho : s.m_oldFlows = c :: rest)
    (htn : t.m_newFlows = s.m_newFlows) (hto : t.m_oldFlows = rest ++ [c])
    (hlt : t.shortfall c < s.shortfall c) : potential t < potential s := by
  have h1 := sum_shortfall_mono s t hr 2 s.m_newFlows
  have h2 := sum_shortfall_mono s t hr 1 rest
  unfold potential
  rw [ho, htn, hto]
  simp only [List.map_cons, List.sum_cons, List.map_append, List.sum_append, List.map_nil,
    List.sum_nil]
  omega

/-- Removing the head of `m_oldFlows`, with nothing but replenishments, lowers the
potential. -/
theorem potential_remove (s t : LLQQueueDisc) (c : Nat) (rest : List Nat)
    (hr : OnlyReplenished s t) (ho : s.m_oldFlows = c :: rest)
    (htn : t.m_newFlows = s.m_newFlows) (hto : t.m_oldFlows = rest) :
    potential t < potential s := by
  have h1 := sum_shortfall_mono s t hr 2 s.m_newFlows
  have h2 := sum_shortfall_mono s t hr 1 rest
  unfold potential
  rw [ho, htn, hto]
  simp only [List.map_cons, List.sum_cons]
  omega

/-- One iteration of the first inner loop on a flow with a non-positive deficit
lowers the potential. -/
theorem potential_newStep (s : LLQQueueDisc) (c : Nat) (rest : List Nat) (hs : Sound s)
    (hn : s.m_newFlows = c :: rest) (hd : (s.GetQueueDiscClass c).m_deficit ≤ 0) :
    potential
        { s.setClass c
            (((s.GetQueueDiscClass c).IncreaseDeficit (toInt32 s.m_quantum)).SetStatus
              FlowStatus.OLD_FLOW) with
          m_oldFlows := s.m_oldFlows ++ [c]
          m_newFlows := rest } < potential s := by
  obtain ⟨-, hr⟩ := sound_newStep s c rest hs hn hd
  exact potential_move s _ c rest hr hn rfl rfl

/-- One iteration of the second inner loop on a flow with a non-positive deficit
lowers the potential when the quantum is positive. -/
theorem potential_oldStep (s : LLQQueueDisc) (c : Nat) (rest : List Nat) (hs : Sound s)
    (hq : 0 < s.m_quantum) (ho : s.m_oldFlows = c :: rest)
    (hd : (s.GetQueueDiscClass c).m_deficit ≤ 0) :
    potential
        { s.setClass c ((s.GetQueueDiscClass c).IncreaseDeficit (toInt32 s.m_quantum)) with
          m_oldFlows := rest ++ [c] } < potential s := by
  obtain ⟨-, hr⟩ := sound_oldStep s c rest hs ho hd
  obtain ⟨hsq, ⟨_, ha2, _, _⟩, hrange⟩ := hs
  have hst : (s.GetQueueDiscClass c).m_status = FlowStatus.OLD_FLOW :=
    ha2 c (by rw [ho]; exact List.mem_cons_self _ _)
  have hc : c < s.m_classes.length := lt_of_status s c (by rw [hst]; decide)
  have hdef : (({ s.setClass c ((s.GetQueueDiscClass c).IncreaseDeficit (toInt32 s.m_quantum)) with
      m_oldFlows := rest ++ [c] } : LLQQueueDisc).GetQueueDiscClass c).m_deficit =
      (s.GetQueueDiscClass c).m_deficit + (s.m_quantum : Int) := by
    rw [getClass_of_set s _ c c _ rfl, if_pos ⟨rfl, hc⟩,
      replenish_eq _ _ hsq (deficit_range s hrange c).1 hd]
  have h3 : ({ s.setClass c ((s.GetQueueDiscClass c).IncreaseDeficit (toInt32 s.m_quantum)) with
      m_oldFlows := rest ++ [c] } : LLQQueueDisc).shortfall c < s.shortfall c := by
    unfold shortfall
    rw [hdef]
    omega
  exact potential_rotate s _ c rest hr ho rfl rfl h3

/-- The first inner loop does not raise the potential. -/
theorem potential_newFlowsLoop (l : List Nat) :
    ∀ s : LLQQueueDisc, Sound s → s.m_newFlows = l →
      potential (newFlowsLoop l s).2 ≤ potential s := by
  induction l with
  | nil =>
    intro s _ hl
    simp only [newFlowsLoop]
    rw [newFlows_nil_eq s hl]
  | cons c rest ih =>
    intro s hs hl
    simp only [newFlowsLoop]
    by_cases hd : (s.GetQueueDiscClass c).GetDeficit ≤ 0
    · rw [if_pos hd]
      have h1 := potential_newStep s c rest hs hl hd
      have h2 := ih _ (sound_newStep s c rest hs hl hd).1 rfl
      exact le_trans h2 (le_of_lt h1)
    · rw [if_neg hd]
      simp only
      rw [newFlows_same_eq s _ hl]

/-- The second inner loop returns when its bound exceeds the potential, and does
not raise the potential. -/
theorem oldFlowsLoop_terminates (n : Nat) :
    ∀ s : LLQQueueDisc, Sound s → 0 < s.m_quantum → potential s < n →
      ∃ r s1, oldFlowsLoop n s = some (r, s1) ∧ potential s1 ≤ potential s := by
  induction n with
  | zero => intro s _ _ h; omega
  | succ n ih =>
    intro s hs hq hp
    unfold oldFlowsLoop
    cases ho : s.m_oldFlows with
    | nil => exact ⟨none, s, rfl, le_refl _⟩
    | cons c rest =>
      simp only
      by_cases hd : (s.GetQueueDiscClass c).GetDeficit ≤ 0
      · rw [if_pos hd]
        have h1 := potential_oldStep s c rest hs hq ho hd
        obtain ⟨hs1, hr1⟩ := sound_oldStep s c rest hs ho hd
        obtain ⟨r, s1, h2, h3⟩ := ih _ hs1 (by rw [hr1.1]; exact hq) (by omega)
        exact ⟨r, s1, h2, by omega⟩
      · rw [if_neg hd]
        exact ⟨some c, s, rfl, le_refl _⟩

/-- The search of `DoDequeue` returns when its bound exceeds the potential, and does
not raise the potential. -/
theorem selectFlow_terminates (n : Nat) (s : LLQQueueDisc) (hs : Sound s)
    (hq : 0 < s.m_quantum) (hp : potential s < n) :
    ∃ r s1, selectFlow n s = some (r, s1) ∧ potential s1 ≤ potential s := by
  unfold selectFlow
  have hpot := potential_newFlowsLoop s.m_newFlows s hs rfl
  cases hl : newFlowsLoop s.m_newFlows s with
  | mk r' t =>
    rw [hl] at hpot
    obtain ⟨hs1, hr1⟩ := sound_newFlowsLoop _ _ _ _ hs rfl hl
    cases r' with
    | some c => exact ⟨some c, t, rfl, hpot⟩
    | none =>
      simp only
      obtain ⟨r, s1, h2, h3⟩ :=
        oldFlowsLoop_terminates n t hs1 (by rw [hr1.1]; exact hq) (lt_of_le_of_lt hpot hp)
      exact ⟨r, s1, h2, le_trans h3 hpot⟩

/-- The search of `DoDequeue` reports no flow only when it leaves both lists
empty. -/
theorem selectFlow_none (n : Nat) (s s1 : LLQQueueDisc)
    (h : selectFlow n s = some (none, s1)) : s1.m_newFlows = [] ∧ s1.m_oldFlows = [] := by
  unfold selectFlow at h
  cases hl : newFlowsLoop s.m_newFlows s with
  | mk r' t =>
    rw [hl] at h
    obtain ⟨hr1, -⟩ := newFlowsLoop_result _ _ _ _ hl
    cases r' with
    | some c => simp at h
    | none =>
      simp only at h
      obtain ⟨h1, h2, -⟩ := oldFlowsLoop_result n t s1 none h
      exact ⟨h1.trans (hr1 rfl), h2 rfl⟩

/-- The branch of `DoDequeue` taken for a selected flow without items lowers the
potential. -/
theorem potential_emptyFlow (s : LLQQueueDisc) (c : Nat) (hs : Sound s)
    (hsel : (∃ rest, s.m_newFlows = c :: rest) ∨
      (s.m_newFlows = [] ∧ ∃ rest, s.m_oldFlows = c :: rest)) :
    potential (s.emptyFlow c) < potential s := by
  obtain ⟨-, hr⟩ := sound_emptyFlow s c hs hsel
  rcases hsel with ⟨rest, hn⟩ | ⟨hn, rest, ho⟩
  · have hne : s.m_newFlows ≠ [] := by rw [hn]; simp
    refine potential_move s _ c rest hr hn ?_ ?_
    · unfold emptyFlow
      rw [if_pos hne]
      show s.m_newFlows.tail = rest
      rw [hn]; rfl
    · unfold emptyFlow
      rw [if_pos hne]
  · have hne : ¬ s.m_newFlows ≠ [] := fun h => h hn
    refine potential_remove s _ c rest hr ho ?_ ?_
    · unfold emptyFlow
      rw [if_neg hne]
      rfl
    · unfold emptyFlow
      rw [if_neg hne]
      show s.m_oldFlows.tail = rest
      rw [ho]; rfl

/-- On a sound disc with a positive quantum `DoDequeue` returns when its bound
exceeds the potential by two; it returns no item only when it leaves both lists
empty. -/
theorem DoDequeue_returns (n : Nat) :
    ∀ s : LLQQueueDisc, Sound s → 0 < s.m_quantum → potential s + 2 ≤ n →
      ∃ r, DoDequeue n s = some r ∧
        (r.1 = none → r.2.m_newFlows = [] ∧ r.2.m_oldFlows = []) := by
  induction n with
  | zero => intro s _ _ h; omega
  | succ n ih =>
    intro s hs hq hp
    unfold DoDequeue
    obtain ⟨o, s1, hsel, hpot⟩ := selectFlow_terminates n s hs hq (by omega)
    obtain ⟨hs1, hr1, hfound⟩ := sound_selectFlow n s s1 o hs hsel
    rw [hsel]
    cases o with
    | none =>
      exact ⟨_, rfl, fun _ => selectFlow_none n s s1 hsel⟩
    | some c =>
      simp only
      obtain ⟨-, hlists⟩ := hfound c rfl
      cases hqc : (s1.GetQueueDiscClass c).m_queue with
      | nil =>
        simp only
        obtain ⟨hs2, hr2⟩ := sound_emptyFlow s1 c hs1 hlists
        have hlt := potential_emptyFlow s1 c hs1 hlists
        exact ih _ hs2 (by rw [hr2.1, hr1.1]; exact hq) (by omega)
      | cons item rest =>
        exact ⟨_, rfl, fun h => by simp at h⟩

/-- C37. For a quantum `q` with `0 < q < 2 ^ 31` and a disc whose lists agree with the
statuses and whose deficits are values of `int32_t`, however negative, `DoDequeue`
returns within a number of iterations bounded by the potential of the disc; when it
returns no item both lists are empty. -/
theorem doDequeue_terminates (s : LLQQueueDisc) (fuel : Nat)
    (hq : 0 < s.m_quantum) (hq31 : s.m_quantum < 2147483648)
    (hl : ListsAgree s) (hd : DeficitsInRange s) (hf : s.potential + 2 ≤ fuel) :
    ∃ r, DoDequeue fuel s = some r ∧
      (r.1 = none → r.2.m_newFlows = [] ∧ r.2.m_oldFlows = []) :=
  DoDequeue_returns fuel s ⟨hq31, hl, hd⟩ hq hf

/-- Witness for C37: two old flows with the deficits `-2 ^ 31` and `-3000` and a
quantum of 1500. -/
theorem doDequeue_terminates_witness :
    ∃ r, DoDequeue ((twoOldFlows 1500 (-2147483648) (-3000) [pkt 1000] [pkt 1000]).potential + 2)
        (twoOldFlows 1500 (-2147483648) (-3000) [pkt 1000] [pkt 1000]) = some r ∧
      (r.1 = none → r.2.m_newFlows = [] ∧ r.2.m_oldFlows = []) :=
  doDequeue_terminates (twoOldFlows 1500 (-2147483648) (-3000) [pkt 1000] [pkt 1000]) _
    (by decide) (by decide) (by decide) (by decide) (le_refl _)

/-! The relation between statuses, lists and buffers. -/

/-- A disc in its initial state is consistent. -/
theorem consistent_initial (s : LLQQueueDisc) (h : Initial s) : Consistent s := by
  obtain ⟨hc, hn, ho, hi⟩ := h
  have hget : ∀ c, s.GetQueueDiscClass c = LLQFlow.create := by
    intro c
    unfold GetQueueDiscClass
    rw [hc]; rfl
  refine ⟨⟨?_, ?_, ?_, ?_⟩, ?_, ?_, ?_, ?_⟩
  · intro c hc'; rw [hn] at hc'; simp at hc'
  · intro c hc'; rw [ho] at hc'; simp at hc'
  · rw [hn]; exact List.nodup_nil
  · rw [ho]; exact List.nodup_nil
  · intro c h'; rw [hget] at h'; exact absurd h' (by decide)
  · intro c h'; rw [hget] at h'; exact absurd h' (by decide)
  · intro c _; rw [hget]; rfl
  · intro b c h'; rw [hi] at h'; simp at h'

/-- A consistent disc satisfies the relation between statuses, lists and buffers
flow by flow. -/
theorem statusInvariant_of_consistent (s : LLQQueueDisc) (h : Consistent s) :
    StatusInvariant s := by
  obtain ⟨⟨ha1, ha2, hnd, hod⟩, hn, ho, hq, -⟩ := h
  intro c
  refine ⟨⟨fun h1 => ?_, fun h1 => ?_⟩, ⟨fun h1 => ?_, fun h1 => ?_⟩, fun h1 => ?_⟩
  · have hm : c ∈ s.m_newFlows := List.count_pos_iff.mp (by omega)
    exact ha1 c hm
  · refine ⟨List.count_eq_one_of_mem hnd (hn c h1), fun hm => ?_⟩
    have := ha2 c hm
    rw [h1] at this
    exact absurd this (by decide)
  · have hm : c ∈ s.m_oldFlows := List.count_pos_iff.mp (by omega)
    exact ha2 c hm
  · refine ⟨List.count_eq_one_of_mem hod (ho c h1), fun hm => ?_⟩
    have := ha1 c hm
    rw [h1] at this
    exact absurd this (by decide)
  · refine ⟨fun hm => ?_, fun hm => ?_, hq c h1⟩
    · have := ha1 c hm
      rw [h1] at this
      exact absurd this (by decide)
    · have := ha2 c hm
      rw [h1] at this
      exact absurd this (by decide)

/-- A disc with the statuses and the lists of a consistent disc, in which the flows
that are inactive hold no item and the table of flows points to existing classes, is
consistent. -/
theorem consistent_of_status (s t : LLQQueueDisc) (hs : Consistent s)
    (hst : ∀ x, (t.GetQueueDiscClass x).m_status = (s.GetQueueDiscClass x).m_status)
    (hqu : ∀ x, (s.GetQueueDiscClass x).m_status = FlowStatus.INACTIVE →
      (t.GetQueueDiscClass x).m_queue = [])
    (hn : t.m_newFlows = s.m_newFlows) (ho : t.m_oldFlows = s.m_oldFlows)
    (htab : TableValid t) : Consistent t := by
  obtain ⟨⟨ha1, ha2, hnd, hod⟩, hcn, hco, _, _⟩ := hs
  refine ⟨⟨?_, ?_, ?_, ?_⟩, ?_, ?_, ?_, htab⟩
  · intro c hc
    rw [hn] at hc
    show (t.GetQueueDiscClass c).m_status = _
    rw [hst]; exact ha1 c hc
  · intro c hc
    rw [ho] at hc
    show (t.GetQueueDiscClass c).m_status = _
    rw [hst]; exact ha2 c hc
  · rw [hn]; exact hnd
  · rw [ho]; exact hod
  · intro c hc
    rw [hn]
    exact hcn c ((hst c).symm.trans hc)
  · intro c hc
    rw [ho]
    exact hco c ((hst c).symm.trans hc)
  · intro c hc
    exact hqu c ((hst c).symm.trans hc)

/-- Rewriting one existing class of a consistent disc, and the lists so that the
rewritten class is listed according to its new status and holds no item when it is
inactive, gives a consistent disc. -/
theorem consistent_update (s t : LLQQueueDisc) (c : Nat) (f : LLQFlow)
    (hs : Consistent s) (hcls : t.m_classes = s.m_classes.set c f)
    (htab : t.m_flowsIndices = s.m_flowsIndices) (hc : c < s.m_classes.length)
    (hnew : ∀ x, x ∈ t.m_newFlows ↔
      (x = c ∧ f.m_status = FlowStatus.NEW_FLOW) ∨ (x ≠ c ∧ x ∈ s.m_newFlows))
    (hold : ∀ x, x ∈ t.m_oldFlows ↔
      (x = c ∧ f.m_status = FlowStatus.OLD_FLOW) ∨ (x ≠ c ∧ x ∈ s.m_oldFlows))
    (hnd : t.m_newFlows.Nodup) (hod : t.m_oldFlows.Nodup)
    (hq : f.m_status = FlowStatus.INACTIVE → f.m_queue = []) : Consistent t := by
  obtain ⟨⟨ha1, ha2, _, _⟩, hcn, hco, hci, htv⟩ := hs
  have hget : ∀ j, t.GetQueueDiscClass j = if j = c ∧ c < s.m_classes.length then f
      else s.GetQueueDiscClass j := fun j => getClass_of_set s t c j f hcls
  refine ⟨⟨?_, ?_, hnd, hod⟩, ?_, ?_, ?_, ?_⟩
  · intro x hx
    rw [hget]
    rcases (hnew x).mp hx with ⟨h1, h2⟩ | ⟨h1, h2⟩
    · rw [if_pos ⟨h1, hc⟩]; exact h2
    · rw [if_neg (fun h => h1 h.1)]; exact ha1 x h2
  · intro x hx
    rw [hget]
    rcases (hold x).mp hx with ⟨h1, h2⟩ | ⟨h1, h2⟩
    · rw [if_pos ⟨h1, hc⟩]; exact h2
    · rw [if_neg (fun h => h1 h.1)]; exact ha2 x h2
  · intro x hx
    rw [hget] at hx
    by_cases hxc : x = c
    · rw [if_pos ⟨hxc, hc⟩] at hx
      exact (hnew x).mpr (Or.inl ⟨hxc, hx⟩)
    · rw [if_neg (fun h => hxc h.1)] at hx
      exact (hnew x).mpr (Or.inr ⟨hxc, hcn x hx⟩)
  · intro x hx
    rw [hget] at hx
    by_cases hxc : x = c
    · rw [if_pos ⟨hxc, hc⟩] at hx
      exact (hold x).mpr (Or.inl ⟨hxc, hx⟩)
    · rw [if_neg (fun h => hxc h.1)] at hx
      exact (hold x).mpr (Or.inr ⟨hxc, hco x hx⟩)
  · intro x hx
    rw [hget] at hx ⊢
    by_cases hxc : x = c
    · rw [if_pos ⟨hxc, hc⟩] at hx ⊢
      exact hq hx
    · rw [if_neg (fun h => hxc h.1)] at hx ⊢
      exact hci x hx
  · intro b c' hb
    rw [htab] at hb
    rw [hcls, List.length_set]
    exact htv b c' hb

/-- A listed flow exists. -/
theorem lt_of_listed (s : LLQQueueDisc) (hs : Consistent s) (c : Nat)
    (h : c ∈ s.m_newFlows ∨ c ∈ s.m_oldFlows) : c < s.m_classes.length := by
  obtain ⟨⟨ha1, ha2, _, _⟩, _⟩ := hs
  rcases h with h | h
  · exact lt_of_status s c (by
      have : (s.GetQueueDiscClass c).m_status = FlowStatus.NEW_FLOW := ha1 c h
      rw [this]; decide)
  · exact lt_of_status s c (by
      have : (s.GetQueueDiscClass c).m_status = FlowStatus.OLD_FLOW := ha2 c h
      rw [this]; decide)

/-- Moving the head of `m_newFlows` to the tail of `m_oldFlows` with the status
`OLD_FLOW` keeps a disc consistent. -/
theorem consistent_demote (s t : LLQQueueDisc) (c : Nat) (rest : List Nat) (f : LLQFlow)
    (hs : Consistent s) (hn : s.m_newFlows = c :: rest)
    (hcls : t.m_classes = s.m_classes.set c f) (htab : t.m_flowsIndices = s.m_flowsIndices)
    (hf : f.m_status = FlowStatus.OLD_FLOW) (htn : t.m_newFlows = rest)
    (hto : t.m_oldFlows = s.m_oldFlows ++ [c]) : Consistent t := by
  have hs' := hs
  obtain ⟨⟨ha1, ha2, hnd, hod⟩, _⟩ := hs'
  have hmem : c ∈ s.m_newFlows := by rw [hn]; exact List.mem_cons_self _ _
  have hc := lt_of_listed s hs c (Or.inl hmem)
  have hst : (s.GetQueueDiscClass c).m_status = FlowStatus.NEW_FLOW := ha1 c hmem
  have hnold : c ∉ s.m_oldFlows := fun h => by
    have : (s.GetQueueDiscClass c).m_status = FlowStatus.OLD_FLOW := ha2 c h
    rw [hst] at this
    exact absurd this (by decide)
  rw [hn] at hnd
  have hnd' := List.nodup_cons.mp hnd
  refine consistent_update s t c f hs hcls htab hc ?_ ?_ ?_ ?_ ?_
  · intro x
    rw [htn, hf]
    constructor
    · intro hx
      exact Or.inr ⟨fun e => hnd'.1 (e ▸ hx), by rw [hn]; exact List.mem_cons_of_mem _ hx⟩
    · rintro (⟨_, h2⟩ | ⟨h1, h2⟩)
      · exact absurd h2 (by decide)
      · rw [hn] at h2
        rcases List.mem_cons.mp h2 with e | e
        · exact absurd e h1
        · exact e
  · intro x
    rw [hto, hf]
    constructor
    · intro hx
      rcases List.mem_append.mp hx with h | h
      · exact Or.inr ⟨fun e => hnold (e ▸ h), h⟩
      · exact Or.inl ⟨List.mem_singleton.mp h, rfl⟩
    · rintro (⟨h1, _⟩ | ⟨_, h2⟩)
      · rw [h1]; exact List.mem_append_right _ (List.mem_singleton.mpr rfl)
      · exact List.mem_append_left _ h2
  · rw [htn]; exact hnd'.2
  · rw [hto, List.nodup_append]
    refine ⟨hod, List.nodup_singleton c, ?_⟩
    intro x hx hx'
    rw [List.mem_singleton] at hx'
    exact hnold (hx' ▸ hx)
  · intro h
    rw [hf] at h
    exact absurd h (by decide)

/-- Moving the head of `m_oldFlows` to its tail without changing its status keeps a
disc consistent. -/
theorem consistent_rotate (s t : LLQQueueDisc) (c : Nat) (rest : List Nat) (f : LLQFlow)
    (hs : Consistent s) (ho : s.m_oldFlows = c :: rest)
    (hcls : t.m_classes = s.m_classes.set c f) (htab : t.m_flowsIndices = s.m_flowsIndices)
    (hf : f.m_status = FlowStatus.OLD_FLOW) (htn : t.m_newFlows = s.m_newFlows)
    (hto : t.m_oldFlows = rest ++ [c]) : Consistent t := by
  have hs' := hs
  obtain ⟨⟨ha1, ha2, hnd, hod⟩, _⟩ := hs'
  have hmem : c ∈ s.m_oldFlows := by rw [ho]; exact List.mem_cons_self _ _
  have hc := lt_of_listed s hs c (Or.inr hmem)
  have hst : (s.GetQueueDiscClass c).m_status = FlowStatus.OLD_FLOW := ha2 c hmem
  have hnnew : c ∉ s.m_newFlows := fun h => by
    have : (s.GetQueueDiscClass c).m_status = FlowStatus.NEW_FLOW := ha1 c h
    rw [hst] at this
    exact absurd this (by decide)
  rw [ho] at hod
  have hod' := List.nodup_cons.mp hod
  refine consistent_update s t c f hs hcls htab hc ?_ ?_ ?_ ?_ ?_
  · intro x
    rw [htn, hf]
    constructor
    · intro hx
      exact Or.inr ⟨fun e => hnnew (e ▸ hx), hx⟩
    · rintro (⟨_, h2⟩ | ⟨_, h2⟩)
      · exact absurd h2 (by decide)
      · exact h2
  · intro x
    rw [hto, hf, ho]
    constructor
    · intro hx
      rcases List.mem_append.mp hx with h | h
      · exact Or.inr ⟨fun e => hod'.1 (e ▸ h), List.mem_cons_of_mem _ h⟩
      · exact Or.inl ⟨List.mem_singleton.mp h, rfl⟩
    · rintro (⟨h1, _⟩ | ⟨h1, h2⟩)
      · rw [h1]; exact List.mem_append_right _ (List.mem_singleton.mpr rfl)
      · rcases List.mem_cons.mp h2 with e | e
        · exact absurd e h1
        · exact List.mem_append_left _ e
  · rw [htn]; exact hnd
  · rw [hto, List.nodup_append]
    refine ⟨hod'.2, List.nodup_singleton c, ?_⟩
    intro x hx hx'
    rw [List.mem_singleton] at hx'
    exact hod'.1 (hx' ▸ hx)
  · intro h
    rw [hf] at h
    exact absurd h (by decide)

/-- Removing the head of `m_oldFlows`, a flow without items, with the status
`INACTIVE` keeps a disc consistent. -/
theorem consistent_retire (s t : LLQQueueDisc) (c : Nat) (rest : List Nat) (f : LLQFlow)
    (hs : Consistent s) (ho : s.m_oldFlows = c :: rest)
    (hcls : t.m_classes = s.m_classes.set c f) (htab : t.m_flowsIndices = s.m_flowsIndices)
    (hf : f.m_status = FlowStatus.INACTIVE) (hfq : f.m_queue = [])
    (htn : t.m_newFlows = s.m_newFlows) (hto : t.m_oldFlows = rest) : Consistent t := by
  have hs' := hs
  obtain ⟨⟨ha1, ha2, hnd, hod⟩, _⟩ := hs'
  have hmem : c ∈ s.m_oldFlows := by rw [ho]; exact List.mem_cons_self _ _
  have hc := lt_of_listed s hs c (Or.inr hmem)
  have hst : (s.GetQueueDiscClass c).m_status = FlowStatus.OLD_FLOW := ha2 c hmem
  have hnnew : c ∉ s.m_newFlows := fun h => by
    have : (s.GetQueueDiscClass c).m_status = FlowStatus.NEW_FLOW := ha1 c h
    rw [hst] at this
    exact absurd this (by decide)
  rw [ho] at hod
  have hod' := List.nodup_cons.mp hod
  refine consistent_update s t c f hs hcls htab hc ?_ ?_ ?_ ?_ ?_
  · intro x
    rw [htn, hf]
    constructor
    · intro hx
      exact Or.inr ⟨fun e => hnnew (e ▸ hx), hx⟩
    · rintro (⟨_, h2⟩ | ⟨_, h2⟩)
      · exact absurd h2 (by decide)
      · exact h2
  · intro x
    rw [hto, hf, ho]
    constructor
    · intro hx
      exact Or.inr ⟨fun e => hod'.1 (e ▸ hx), List.mem_cons_of_mem _ hx⟩
    · rintro (⟨_, h2⟩ | ⟨h1, h2⟩)
      · exact absurd h2 (by decide)
      · rcases List.mem_cons.mp h2 with e | e
        · exact absurd e h1
        · exact e
  · rw [htn]; exact hnd
  · rw [hto]; exact hod'.2
  · intro _; exact hfq

/-- The first inner loop of `DoDequeue` keeps a disc consistent. -/
theorem consistent_newFlowsLoop (l : List Nat) :
    ∀ s : LLQQueueDisc, Consistent s → s.m_newFlows = l → Consistent (newFlowsLoop l s).2 := by
  induction l with
  | nil =>
    intro s hs hl
    simp only [newFlowsLoop]
    rw [newFlows_nil_eq s hl]
    exact hs
  | cons c rest ih =>
    intro s hs hl
    simp only [newFlowsLoop]
    by_cases hd : (s.GetQueueDiscClass c).GetDeficit ≤ 0
    · rw [if_pos hd]
      refine ih _ ?_ rfl
      exact consistent_demote s _ c rest
        (((s.GetQueueDiscClass c).IncreaseDeficit (toInt32 s.m_quantum)).SetStatus
          FlowStatus.OLD_FLOW) hs hl rfl rfl rfl rfl rfl
    · rw [if_neg hd]
      simp only
      rw [newFlows_same_eq s _ hl]
      exact hs

/-- The second inner loop of `DoDequeue` keeps a disc consistent. -/
theorem consistent_oldFlowsLoop (fuel : Nat) :
    ∀ (s s1 : LLQQueueDisc) (r : Option Nat), Consistent s →
      oldFlowsLoop fuel s = some (r, s1) → Consistent s1 := by
  induction fuel with
  | zero => intro s s1 r _ h; simp [oldFlowsLoop] at h
  | succ n ih =>
    intro s s1 r hs h
    unfold oldFlowsLoop at h
    cases ho : s.m_oldFlows with
    | nil =>
      rw [ho] at h
      simp only [Option.some.injEq, Prod.mk.injEq] at h
      rw [← h.2]
      exact hs
    | cons c rest =>
      rw [ho] at h
      simp only at h
      by_cases hd : (s.GetQueueDiscClass c).GetDeficit ≤ 0
      · rw [if_pos hd] at h
        have hst : (s.GetQueueDiscClass c).m_status = FlowStatus.OLD_FLOW :=
          hs.1.2.1 c (by rw [ho]; exact List.mem_cons_self _ _)
        refine ih _ _ _ ?_ h
        exact consistent_rotate s _ c rest
          ((s.GetQueueDiscClass c).IncreaseDeficit (toInt32 s.m_quantum)) hs ho rfl rfl
          (by unfold LLQFlow.IncreaseDeficit; exact hst) rfl rfl
      · rw [if_neg hd] at h
        simp only [Option.some.injEq, Prod.mk.injEq] at h
        rw [← h.2]
        exact hs

/-- The search of `DoDequeue` keeps a disc consistent; a flow it finds is at the
head of `m_newFlows`, or at the head of `m_oldFlows` with `m_newFlows` empty. -/
theorem consistent_selectFlow (fuel : Nat) (s s1 : LLQQueueDisc) (r : Option Nat)
    (hs : Consistent s) (h : selectFlow fuel s = some (r, s1)) :
    Consistent s1 ∧
      ∀ c, r = some c → ((∃ rest, s1.m_newFlows = c :: rest) ∨
        (s1.m_newFlows = [] ∧ ∃ rest, s1.m_oldFlows = c :: rest)) := by
  unfold selectFlow at h
  have hcons := consistent_newFlowsLoop s.m_newFlows s hs rfl
  cases hl : newFlowsLoop s.m_newFlows s with
  | mk r' t =>
    rw [hl] at h hcons
    obtain ⟨hr1, hr2⟩ := newFlowsLoop_result _ _ _ _ hl
    cases r' with
    | some c' =>
      simp only [Option.some.injEq, Prod.mk.injEq] at h
      obtain ⟨h1, h2⟩ := h
      subst h1; subst h2
      refine ⟨hcons, fun c hc => Or.inl ?_⟩
      simp only [Option.some.injEq] at hc
      subst hc
      obtain ⟨hh, -⟩ := hr2 c' rfl
      cases hn : t.m_newFlows with
      | nil => rw [hn] at hh; simp at hh
      | cons a rest =>
        rw [hn] at hh
        simp only [List.head?_cons, Option.some.injEq] at hh
        exact ⟨rest, by rw [hh]⟩
    | none =>
      simp only at h
      obtain ⟨h1, -, h3⟩ := oldFlowsLoop_result fuel t s1 r h
      refine ⟨consistent_oldFlowsLoop fuel t s1 r hcons h, fun c hc => Or.inr ?_⟩
      obtain ⟨hh, -⟩ := h3 c hc
      refine ⟨h1.trans (hr1 rfl), ?_⟩
      cases ho : s1.m_oldFlows with
      | nil => rw [ho] at hh; simp at hh
      | cons a rest =>
        rw [ho] at hh
        simp only [List.head?_cons, Option.some.injEq] at hh
        exact ⟨rest, by rw [hh]⟩

/-- The branch of `DoDequeue` taken for a selected flow without items keeps a disc
consistent. -/
theorem consistent_emptyFlow (s : LLQQueueDisc) (c : Nat) (hs : Consistent s)
    (hsel : (∃ rest, s.m_newFlows = c :: rest) ∨
      (s.m_newFlows = [] ∧ ∃ rest, s.m_oldFlows = c :: rest))
    (hq : (s.GetQueueDiscClass c).m_queue = []) : Consistent (s.emptyFlow c) := by
  rcases hsel with ⟨rest, hn⟩ | ⟨hn, rest, ho⟩
  · have hne : s.m_newFlows ≠ [] := by rw [hn]; simp
    unfold emptyFlow
    rw [if_pos hne]
    refine consistent_demote s _ c rest _ hs hn rfl rfl rfl ?_ rfl
    show s.m_newFlows.tail = rest
    rw [hn]; rfl
  · have hne : ¬ s.m_newFlows ≠ [] := fun h => h hn
    unfold emptyFlow
    rw [if_neg hne]
    refine consistent_retire s _ c rest _ hs ho rfl rfl rfl hq rfl ?_
    show s.m_oldFlows.tail = rest
    rw [ho]; rfl

/-- Rewriting the items of a class that is not inactive, or leaving an inactive
class without items, keeps a disc consistent. -/
theorem consistent_requeue (s t : LLQQueueDisc) (c : Nat) (f : LLQFlow) (hs : Consistent s)
    (hcls : t.m_classes = s.m_classes.set c f) (htab : t.m_flowsIndices = s.m_flowsIndices)
    (hn : t.m_newFlows = s.m_newFlows) (ho : t.m_oldFlows = s.m_oldFlows)
    (hf : f.m_status = (s.GetQueueDiscClass c).m_status)
    (hq : (s.GetQueueDiscClass c).m_status = FlowStatus.INACTIVE → f.m_queue = []) :
    Consistent t := by
  have hget : ∀ j, t.GetQueueDiscClass j = if j = c ∧ c < s.m_classes.length then f
      else s.GetQueueDiscClass j := fun j => getClass_of_set s t c j f hcls
  refine consistent_of_status s t hs ?_ ?_ hn ho ?_
  · intro x
    rw [hget]
    by_cases hx : x = c ∧ c < s.m_classes.length
    · rw [if_pos hx, hx.1]; exact hf
    · rw [if_neg hx]
  · intro x hx
    rw [hget]
    by_cases hxc : x = c ∧ c < s.m_classes.length
    · rw [if_pos hxc]
      rw [hxc.1] at hx
      exact hq hx
    · rw [if_neg hxc]
      exact hs.2.2.2.1 x hx
  · intro b c' hb
    rw [htab] at hb
    rw [hcls, List.length_set]
    exact hs.2.2.2.2 b c' hb

/-- Serving the head of the buffer of a listed flow keeps a disc consistent. -/
theorem consistent_serve (s : LLQQueueDisc) (c : Nat) (item : QueueDiscItem)
    (rest : List QueueDiscItem) (hs : Consistent s)
    (hl : c ∈ s.m_newFlows ∨ c ∈ s.m_oldFlows) : Consistent (s.serve c item rest) := by
  refine consistent_requeue s _ c _ hs rfl rfl rfl rfl rfl ?_
  intro hi
  rcases hl with h | h
  · have : (s.GetQueueDiscClass c).m_status = FlowStatus.NEW_FLOW := hs.1.1 c h
    rw [hi] at this
    exact absurd this (by decide)
  · have : (s.GetQueueDiscClass c).m_status = FlowStatus.OLD_FLOW := hs.1.2.1 c h
    rw [hi] at this
    exact absurd this (by decide)

/-- A call of `DoDequeue` that returns keeps a disc consistent. -/
theorem consistent_doDequeue (fuel : Nat) :
    ∀ (s : LLQQueueDisc) (r : Option QueueDiscItem × LLQQueueDisc), Consistent s →
      DoDequeue fuel s = some r → Consistent r.2 := by
  induction fuel with
  | zero => intro s r _ h; simp [DoDequeue] at h
  | succ n ih =>
    intro s r hs h
    unfold DoDequeue at h
    cases hsel : selectFlow n s with
    | none => rw [hsel] at h; simp at h
    | some p =>
      obtain ⟨o, s1⟩ := p
      obtain ⟨hs1, hfound⟩ := consistent_selectFlow n s s1 o hs hsel
      rw [hsel] at h
      cases o with
      | none =>
        simp only [Option.some.injEq] at h
        rw [← h]
        exact hs1
      | some c =>
        simp only at h
        have hlists := hfound c rfl
        cases hqc : (s1.GetQueueDiscClass c).m_queue with
        | nil =>
          rw [hqc] at h
          simp only at h
          exact ih _ _ (consistent_emptyFlow s1 c hs1 hlists hqc) h
        | cons item rest =>
          rw [hqc] at h
          simp only [Option.some.injEq] at h
          rw [← h]
          refine consistent_serve s1 c item rest hs1 ?_
          rcases hlists with ⟨l, hn⟩ | ⟨_, l, ho⟩
          · left; rw [hn]; exact List.mem_cons_self _ _
          · right; rw [ho]; exact List.mem_cons_self _ _

/-- The evictor only runs to its end on a class that holds an item, and rewrites
only the items held by that class and the statistics. -/
theorem LLQDrop_nonempty (s s' : LLQQueueDisc) (i : Nat) (h : s.LLQDrop = some (i, s')) :
    ∃ (f : LLQFlow) (rest : List QueueDiscItem) (ev : List LLQEvent),
      s.m_classes.get? i = some f ∧ f.m_queue ≠ [] ∧
        s' = { s.setClass i { f with m_queue := rest } with m_stats := ev } := by
  unfold LLQDrop at h
  simp only at h
  cases hg : s.m_classes.get? (scanFat s.m_classes 0 0 0).2 with
  | none => rw [hg] at h; simp at h
  | some f =>
    rw [hg] at h
    simp only at h
    cases hd : dropLoop s.m_dropBatchSize ((scanFat s.m_classes 0 0 0).1 / 2) f.m_queue 0 0 [] with
    | none => rw [hd] at h; simp at h
    | some p =>
      rw [hd] at h
      simp only [Option.some.injEq, Prod.mk.injEq] at h
      obtain ⟨h1, h2⟩ := h
      subst h1
      refine ⟨f, p.1, _, hg, ?_, h2.symm⟩
      intro e
      rw [e] at hd
      simp [dropLoop] at hd

/-- A run of `LLQDrop` that returns keeps a disc consistent. -/
theorem consistent_LLQDrop (s s' : LLQQueueDisc) (i : Nat) (hs : Consistent s)
    (h : s.LLQDrop = some (i, s')) : Consistent s' := by
  obtain ⟨f, rest, ev, hget, hne, he⟩ := LLQDrop_nonempty s s' i h
  have hf : s.GetQueueDiscClass i = f := getClass_of_get s i f hget
  rw [he]
  refine consistent_requeue s _ i { f with m_queue := rest } hs rfl rfl rfl rfl ?_ ?_
  · rw [hf]
  · intro hi
    have := hs.2.2.2.1 i hi
    rw [hf] at this
    exact absurd this hne

/-- The overload check of `DoEnqueue` keeps a disc consistent. -/
theorem consistent_checkOverload (s : LLQQueueDisc) (r : Bool × LLQQueueDisc)
    (hs : Consistent s) (h : s.checkOverload = some r) : Consistent r.2 := by
  unfold checkOverload at h
  by_cases hc : s.GetCurrentSize > s.m_maxSize
  · rw [if_pos hc] at h
    cases hd : s.LLQDrop with
    | none => rw [hd] at h; simp at h
    | some p =>
      rw [hd] at h
      simp only [Option.some.injEq] at h
      rw [← h]
      exact consistent_LLQDrop s p.2 p.1 hs (by rw [hd])
  · rw [if_neg hc] at h
    simp only [Option.some.injEq] at h
    rw [← h]
    exact hs

/-- Reading a class of a disc whose classes are those of `s` followed by one more
class. -/
theorem getClass_append (s t : LLQQueueDisc) (f : LLQFlow) (x : Nat)
    (h : t.m_classes = s.m_classes ++ [f]) :
    t.GetQueueDiscClass x = if x = s.m_classes.length then f else s.GetQueueDiscClass x := by
  unfold GetQueueDiscClass
  rw [h, List.getD_eq_getElem?_getD, List.getD_eq_getElem?_getD]
  by_cases h1 : x < s.m_classes.length
  · rw [List.getElem?_append_left h1, if_neg (by omega)]
  · by_cases h2 : x = s.m_classes.length
    · rw [if_pos h2, h2, List.getElem?_append_right (le_refl _)]
      simp
    · rw [if_neg h2, List.getElem?_eq_none (by simp; omega),
        List.getElem?_eq_none (by omega)]

/-- The lookup of the flow record of an arrival keeps a disc consistent and returns
the position of an existing class. -/
theorem consistent_lookupFlow (s : LLQQueueDisc) (flowHash : Nat) (hs : Consistent s) :
    Consistent (s.lookupFlow flowHash).2 ∧
      (s.lookupFlow flowHash).1 < (s.lookupFlow flowHash).2.m_classes.length := by
  obtain ⟨hc, hi, hn, ho, -⟩ := selectBucket_frame s flowHash
  have hs1 : Consistent (s.selectBucket flowHash).2 := by
    have hget : ∀ x, (s.selectBucket flowHash).2.GetQueueDiscClass x = s.GetQueueDiscClass x := by
      intro x
      unfold GetQueueDiscClass
      rw [hc]
    refine consistent_of_status s _ hs (fun x => by rw [hget]) ?_ hn ho ?_
    · intro x hx
      rw [hget]
      exact hs.2.2.2.1 x hx
    · intro b c hb
      rw [hi] at hb
      rw [hc]
      exact hs.2.2.2.2 b c hb
  unfold lookupFlow
  generalize (s.selectBucket flowHash).2 = u at hs1
  generalize (s.selectBucket flowHash).1 = b
  refine ⟨?_, (findFlow_frame u b hs1.2.2.2.2).1⟩
  unfold findFlow
  cases hf : u.m_flowsIndices b with
  | some c => exact hs1
  | none =>
    simp only
    have hget := fun x => getClass_append u
      { u with
        m_classes := u.m_classes ++ [LLQFlow.create.SetIndex b]
        m_flowsIndices := fun j => if j = b then some u.m_classes.length
          else u.m_flowsIndices j } (LLQFlow.create.SetIndex b) x rfl
    have hout : u.GetQueueDiscClass u.m_classes.length = LLQFlow.create := by
      unfold GetQueueDiscClass
      rw [List.getD_eq_getElem?_getD, List.getElem?_eq_none (le_refl _)]
      rfl
    refine consistent_of_status u _ hs1 ?_ ?_ rfl rfl ?_
    · intro x
      rw [hget]
      by_cases hx : x = u.m_classes.length
      · rw [if_pos hx, hx, hout]; rfl
      · rw [if_neg hx]
    · intro x hx
      rw [hget]
      by_cases hx' : x = u.m_classes.length
      · rw [if_pos hx']; rfl
      · rw [if_neg hx']
        exact hs1.2.2.2.1 x hx
    · intro b' c hb
      have hb' : (if b' = b then some u.m_classes.length else u.m_flowsIndices b') = some c := hb
      show c < (u.m_classes ++ [LLQFlow.create.SetIndex b]).length
      rw [List.length_append]
      by_cases hbb : b' = b
      · rw [if_pos hbb] at hb'
        simp only [Option.some.injEq] at hb'
        simp only [List.length_singleton]
        omega
      · rw [if_neg hbb] at hb'
        have := hs1.2.2.2.2 b' c hb'
        omega

/-- Activation keeps a disc consistent and leaves an existing flow with a status
other than `INACTIVE`. -/
theorem consistent_activate (s : LLQQueueDisc) (c : Nat) (hs : Consistent s)
    (hc : c < s.m_classes.length) :
    Consistent (s.activate c) ∧
      ((s.activate c).GetQueueDiscClass c).m_status ≠ FlowStatus.INACTIVE := by
  unfold activate
  by_cases hi : (s.GetQueueDiscClass c).GetStatus = FlowStatus.INACTIVE
  · rw [if_pos hi]
    have hs' := hs
    obtain ⟨⟨ha1, ha2, hnd, hod⟩, _⟩ := hs'
    have hnnew : c ∉ s.m_newFlows := fun h => by
      have := ha1 c h
      rw [hi] at this
      exact absurd this (by decide)
    have hnold : c ∉ s.m_oldFlows := fun h => by
      have := ha2 c h
      rw [hi] at this
      exact absurd this (by decide)
    have hstat : (((s.GetQueueDiscClass c).SetStatus FlowStatus.NEW_FLOW).SetDeficit
        s.m_quantum).m_status = FlowStatus.NEW_FLOW := by
      unfold LLQFlow.SetDeficit LLQFlow.SetStatus; rfl
    constructor
    · refine consistent_update s _ c
        (((s.GetQueueDiscClass c).SetStatus FlowStatus.NEW_FLOW).SetDeficit s.m_quantum)
        hs rfl rfl hc ?_ ?_ ?_ hod ?_
      · intro x
        rw [hstat]
        show x ∈ s.m_newFlows ++ [c] ↔ _
        constructor
        · intro hx
          rcases List.mem_append.mp hx with h | h
          · exact Or.inr ⟨fun e => hnnew (e ▸ h), h⟩
          · exact Or.inl ⟨List.mem_singleton.mp h, rfl⟩
        · rintro (⟨h1, _⟩ | ⟨_, h2⟩)
          · rw [h1]; exact List.mem_append_right _ (List.mem_singleton.mpr rfl)
          · exact List.mem_append_left _ h2
      · intro x
        rw [hstat]
        show x ∈ s.m_oldFlows ↔ _
        constructor
        · intro hx
          exact Or.inr ⟨fun e => hnold (e ▸ hx), hx⟩
        · rintro (⟨_, h2⟩ | ⟨_, h2⟩)
          · exact absurd h2 (by decide)
          · exact h2
      · show (s.m_newFlows ++ [c]).Nodup
        rw [List.nodup_append]
        refine ⟨hnd, List.nodup_singleton c, ?_⟩
        intro x hx hx'
        rw [List.mem_singleton] at hx'
        exact hnnew (hx' ▸ hx)
      · intro h
        rw [hstat] at h
        exact absurd h (by decide)
    · rw [getClass_of_set s _ c c _ rfl, if_pos ⟨rfl, hc⟩, hstat]
      decide
  · rw [if_neg hi]
    exact ⟨hs, hi⟩

/-- Handing an item to the child disc of a flow that is not inactive keeps a disc
consistent. -/
theorem consistent_childEnqueue (s : LLQQueueDisc) (c : Nat) (item : QueueDiscItem)
    (accept : Bool) (hs : Consistent s)
    (hact : (s.GetQueueDiscClass c).m_status ≠ FlowStatus.INACTIVE) :
    Consistent (s.childEnqueue c item accept) := by
  unfold childEnqueue
  by_cases ha : accept = true
  · rw [if_pos ha]
    exact consistent_requeue s _ c _ hs rfl rfl rfl rfl rfl (fun h => absurd h hact)
  · rw [if_neg ha]
    exact consistent_requeue s _ 0 (s.GetQueueDiscClass 0) hs
      (by
        show s.m_classes = s.m_classes.set 0 (s.GetQueueDiscClass 0)
        cases hcl : s.m_classes with
        | nil => rfl
        | cons a l =>
          unfold GetQueueDiscClass
          rw [hcl]; rfl)
      rfl rfl rfl rfl (fun h => hs.2.2.2.1 0 h)

/-- A call of `DoEnqueue` that returns keeps a disc consistent. -/
theorem consistent_doEnqueue (s : LLQQueueDisc) (item : QueueDiscItem) (hashValue : Nat)
    (ret : Int) (accept : Bool) (r : Bool × LLQQueueDisc) (hs : Consistent s)
    (h : s.DoEnqueue item hashValue ret accept = some r) : Consistent r.2 := by
  unfold DoEnqueue at h
  cases hcl : s.classifyItem hashValue ret with
  | none =>
    rw [hcl] at h
    simp only [Option.some.injEq] at h
    rw [← h]
    exact hs
  | some flowHash =>
    rw [hcl] at h
    simp only at h
    refine consistent_checkOverload _ r ?_ h
    obtain ⟨h1, h2⟩ := consistent_lookupFlow s flowHash hs
    obtain ⟨h3, h4⟩ := consistent_activate _ _ h1 h2
    exact consistent_childEnqueue _ _ item accept h3 h4

/-- A call that returns keeps a disc consistent. -/
theorem consistent_applyCall (s t : LLQQueueDisc) (c : Call) (hs : Consistent s)
    (h : s.applyCall c = some t) : Consistent t := by
  cases c with
  | enqueue a =>
    simp only [applyCall, Option.map_eq_some'] at h
    obtain ⟨r, hr, e⟩ := h
    rw [← e]
    exact consistent_doEnqueue s _ _ _ _ r hs hr
  | dequeue fuel =>
    simp only [applyCall, Option.map_eq_some'] at h
    obtain ⟨r, hr, e⟩ := h
    rw [← e]
    exact consistent_doDequeue fuel s r hs hr
  | drop =>
    simp only [applyCall, Option.map_eq_some'] at h
    obtain ⟨r, hr, e⟩ := h
    rw [← e]
    exact consistent_LLQDrop s r.2 r.1 hs hr

/-- A sequence of calls that all return keeps a disc consistent. -/
theorem consistent_applyCalls (calls : List Call) :
    ∀ s t : LLQQueueDisc, Consistent s → s.applyCalls calls = some t → Consistent t := by
  induction calls with
  | nil =>
    intro s t hs h
    simp only [applyCalls, Option.some.injEq] at h
    rw [← h]
    exact hs
  | cons c rest ih =>
    intro s t hs h
    simp only [applyCalls] at h
    cases hc : s.applyCall c with
    | none => rw [hc] at h; simp at h
    | some u =>
      rw [hc] at h
      exact ih u t (consistent_applyCall s u c hs hc) h

/-- C36. Start from a disc without classes, with an empty table of flows and empty
lists, and apply any sequence of calls of `DoEnqueue`, `DoDequeue` and `LLQDrop` that
all return. In the disc reached, for every flow: the flow is once in `m_newFlows`
and not in `m_oldFlows` exactly when its status is `NEW_FLOW`; it is once in
`m_oldFlows` and not in `m_newFlows` exactly when its status is `OLD_FLOW`; and when
its status is `INACTIVE` it is in neither list and its buffer holds no item. -/
theorem status_invariant_reachable (s0 s : LLQQueueDisc) (calls : List Call)
    (h0 : Initial s0) (h : s0.applyCalls calls = some s) : StatusInvariant s :=
  statusInvariant_of_consistent s
    (consistent_applyCalls calls s0 s (consistent_initial s0 h0) h)

/-- Witness for C36: the default disc with a quantum of 1500 after three arrivals of
two flows, a dequeue, a run of the evictor and two more dequeues. -/
theorem status_invariant_reachable_witness :
    ∃ s, applyCalls { attributeDefaults with m_quantum := 1500 }
        [Call.enqueue (arrival 1000 1), Call.enqueue (arrival 1000 2),
         Call.enqueue (arrival 1000 1), Call.dequeue 5, Call.drop, Call.dequeue 5,
         Call.dequeue 5] = some s ∧ StatusInvariant s :=
  ⟨_, rfl, status_invariant_reachable { attributeDefaults with m_quantum := 1500 } _
    [Call.enqueue (arrival 1000 1), Call.enqueue (arrival 1000 2),
     Call.enqueue (arrival 1000 1), Call.dequeue 5, Call.drop, Call.dequeue 5,
     Call.dequeue 5] ⟨rfl, rfl, rfl, fun _ => rfl⟩ rfl⟩

end LLQQueueDisc

namespace WFQQueueDisc
open BLACKQueueDisc

/-- C40. With every attribute at its default, `CheckConfig` returns true and leaves
two classes, although the comment of the loop announces three. For a packet that no
filter classifies and whose tag carries a priority from 0 to 15, the band selected
is below the number of classes exactly when the priority is not 1, 2, 3 or 5: for
these four priorities the default map selects band 2 and the assertion
`Selected band out of range` fails. -/
theorem doEnqueue_default_band_out_of_range :
    CheckConfig attributeDefaults = (true, defaultDisc) ∧
      defaultDisc.GetNQueueDiscClasses = 2 ∧
      (∀ priority, priority < 16 →
        (defaultDisc.selectBand PF_NO_MATCH (some priority) < defaultDisc.GetNQueueDiscClasses ↔
          priority ≠ 1 ∧ priority ≠ 2 ∧ priority ≠ 3 ∧ priority ≠ 5)) ∧
      defaultDisc.selectBand PF_NO_MATCH (some 1) = 2 ∧
      (∀ accept, defaultDisc.DoEnqueue (pkt 500) PF_NO_MATCH (some 1) accept = none) := by
  refine ⟨by decide, by decide, ?_, by decide, ?_⟩
  · intro priority hp
    interval_cases priority <;> decide
  · intro accept
    unfold DoEnqueue
    rw [if_neg (by decide)]

end WFQQueueDisc

end ns3
